import Mathlib

/-!
# Sovereign Tactics: a shallow embedding of the simulation engine

The JavaScript engine (`src/game/*.js`, `src/utils/*.js`) is embedded as pure
functions with explicit state passing.

Conventions of the embedding
* JavaScript numbers that hold coordinates, move budgets and counters are `Int`.
* `Math.random()` is a parameter: every call site receives its draw as a
  rational number `r` (the callers of the theorems assume `0 ≤ r < 1` only
  where they need it). A product of a draw and a strength is the IEEE 754
  double product, `Double.mul`: the real product rounded to the nearest double.
* A call that raises a `TypeError` in JavaScript returns `none`.
* `this.emit(...)` and `console.log(...)` have no effect on the engine state
  and are left out.
* Objects held in arrays (`game.units`, `map.cities`, `game.players`) are
  addressed by their index in the array; a mutation of the object is an update
  at that index.
-/

namespace SovereignTactics

/-! ## Constants (`src/utils/Constants.js`) -/

/-- The eight values of `GAME_CONSTANTS.UNIT_TYPES`. -/
inductive UnitType
  | army | tank | fighter | destroyer | submarine | cruiser | battleship | carrier
  deriving DecidableEq, Repr

/-- The string stored in a unit's `type` field. -/
def UnitType.name : UnitType → String
  | .army => "army"
  | .tank => "tank"
  | .fighter => "fighter"
  | .destroyer => "destroyer"
  | .submarine => "submarine"
  | .cruiser => "cruiser"
  | .battleship => "battleship"
  | .carrier => "carrier"

namespace GAME_CONSTANTS

def MAP_WIDTH : Int := 50

def MAP_HEIGHT : Int := 40

def VISIBILITY_RANGE : Int := 2

namespace TERRAIN

def OCEAN : String := "ocean"

def LAND : String := "land"

def CITY : String := "city"

def MOUNTAINS : String := "mountains"

end TERRAIN

/-- Table `MOVEMENT_RANGES`. -/
def MOVEMENT_RANGES : UnitType → Int
  | .army => 1
  | .tank => 2
  | .fighter => 8
  | .destroyer => 4
  | .submarine => 3
  | .cruiser => 4
  | .battleship => 2
  | .carrier => 2

/-- Table `COMBAT_STRENGTH`, as the pair (attack, defense). -/
def COMBAT_STRENGTH : UnitType → Int × Int
  | .army => (10, 10)
  | .tank => (20, 20)
  | .fighter => (12, 8)
  | .destroyer => (15, 12)
  | .submarine => (14, 8)
  | .cruiser => (18, 16)
  | .battleship => (25, 20)
  | .carrier => (8, 14)

/-- The own entries of the table `PRODUCTION_COSTS`, keyed by the raw string;
`none` for a string that is no own key. The property read
`PRODUCTION_COSTS[key]` is `lookupProductionCost`. -/
def PRODUCTION_COSTS (unitType : String) : Option Int :=
  if unitType = "army" then some 6
  else if unitType = "tank" then some 12
  else if unitType = "fighter" then some 8
  else if unitType = "destroyer" then some 12
  else if unitType = "submarine" then some 10
  else if unitType = "cruiser" then some 16
  else if unitType = "battleship" then some 20
  else if unitType = "carrier" then some 24
  else none

/-- The names of the members of `Object.prototype`. `PRODUCTION_COSTS` is an
object literal, so the property read `PRODUCTION_COSTS[key]` finds them too:
each is a function, `__proto__` is the prototype object itself. -/
def objectPrototypeKeys : List String :=
  ["constructor", "__defineGetter__", "__defineSetter__", "hasOwnProperty",
   "__lookupGetter__", "__lookupSetter__", "isPrototypeOf", "propertyIsEnumerable",
   "toString", "valueOf", "__proto__", "toLocaleString"]

/-- The value of a property read on a table of numbers: the number of an own
key, a member of `Object.prototype` (truthy, and no number), or `undefined`. -/
inductive Lookup
  | number (value : Int)
  | member
  | undefined
  deriving DecidableEq, Repr

/-- The property read `GAME_CONSTANTS.PRODUCTION_COSTS[key]`. -/
def lookupProductionCost (key : String) : Lookup :=
  match PRODUCTION_COSTS key with
  | some cost => Lookup.number cost
  | none => if key ∈ objectPrototypeKeys then Lookup.member else Lookup.undefined

end GAME_CONSTANTS

/-! ## IEEE 754 double precision: the product `a * b` of JavaScript numbers -/

namespace Double

/-- Rounding to the nearest integer, ties to the even one. -/
def roundHalfEven (x : ℚ) : Int :=
  if x - (⌊x⌋ : ℚ) < 1 / 2 then ⌊x⌋
  else if x - (⌊x⌋ : ℚ) > 1 / 2 then ⌊x⌋ + 1
  else if ⌊x⌋ % 2 = 0 then ⌊x⌋ else ⌊x⌋ + 1

/-- The power of two `2 ^ k` for an integer `k`. -/
def pow2 (k : Int) : ℚ :=
  if 0 ≤ k then ((2 ^ k.toNat : Nat) : ℚ) else 1 / ((2 ^ (-k).toNat : Nat) : ℚ)

/-- The binary logarithm of `n ≥ 1`, rounded down, in at most `fuel` halvings. -/
def log2 : Nat → Nat → Nat
  | 0, _ => 0
  | fuel + 1, n => if 2 ≤ n then log2 fuel (n / 2) + 1 else 0

/-- The exponent `e` with `2 ^ e ≤ |q| < 2 ^ (e + 1)`, for `q ≠ 0`. -/
def binade (q : ℚ) : Int :=
  let c : Int := (log2 q.num.natAbs q.num.natAbs : Int) - (log2 q.den q.den : Int)
  if pow2 c ≤ |q| then c else c - 1

/-- The spacing of the doubles around `q`: `2 ^ (e - 52)` in the binade of
exponent `e`, and `2 ^ -1074` for the subnormal numbers below `2 ^ -1022`. -/
def ulp (q : ℚ) : ℚ := pow2 (max (binade q) (-1022) - 52)

/-- The double nearest to the real number `q`, ties to the even significand:
the rounding that every arithmetic operation on JavaScript numbers applies to
its exact result. Magnitudes from `2 ^ 1024` on, which overflow to `Infinity`,
do not arise from the products of this program. -/
def round (q : ℚ) : ℚ :=
  (roundHalfEven (q / ulp q) : ℚ) * ulp q

/-- The JavaScript product `a * b` of two numbers. -/
def mul (a b : ℚ) : ℚ := round (a * b)

end Double

/-! ## Helpers (`src/utils/Helpers.js`) -/

namespace GameHelpers

/-- `getDistance`: `Math.abs(x1 - x2) + Math.abs(y1 - y2)`. -/
def getDistance (x1 y1 x2 y2 : Int) : Int :=
  ((x1 - x2).natAbs : Int) + ((y1 - y2).natAbs : Int)

/-- `isValidPosition`: bounds test against the constants, not the map. -/
def isValidPosition (x y : Int) : Bool :=
  decide (0 ≤ x) && decide (x < GAME_CONSTANTS.MAP_WIDTH) &&
    decide (0 ≤ y) && decide (y < GAME_CONSTANTS.MAP_HEIGHT)

def landUnits : List String := [UnitType.army.name, UnitType.tank.name]

def seaUnits : List String :=
  [UnitType.destroyer.name, UnitType.submarine.name, UnitType.cruiser.name,
   UnitType.battleship.name, UnitType.carrier.name]

def airUnits : List String := [UnitType.fighter.name]

/-- `canUnitMoveTo(unitType, terrainType)` on the raw strings. -/
def canUnitMoveTo (unitType terrainType : String) : Bool :=
  if landUnits.contains unitType then
    terrainType == GAME_CONSTANTS.TERRAIN.LAND || terrainType == GAME_CONSTANTS.TERRAIN.CITY
  else if seaUnits.contains unitType then
    terrainType == GAME_CONSTANTS.TERRAIN.OCEAN
  else if airUnits.contains unitType then
    true
  else
    false

/-- `resolveCombat`: `true` stands for `'attacker_wins'`, `false` for
`'defender_wins'`; `r1`, `r2` are the two `Math.random()` draws in call order.
The two rolls are products of JavaScript numbers, rounded to doubles. -/
def resolveCombat (attackerType defenderType : UnitType) (r1 r2 : ℚ) : Bool :=
  let attackStrength := (GAME_CONSTANTS.COMBAT_STRENGTH attackerType).1
  let defenseStrength := (GAME_CONSTANTS.COMBAT_STRENGTH defenderType).2
  let attackRoll := Double.mul r1 (attackStrength : ℚ)
  let defenseRoll := Double.mul r2 (defenseStrength : ℚ)
  decide (attackRoll > defenseRoll)

end GameHelpers

/-! ## Data model -/

/-- A tile coordinate `{x, y}`. The string key `x + "," + y` that `findPath`
uses for its maps and sets is one-to-one on integer pairs and is parsed back
by `split(',').map(Number)`, so a key is the coordinate pair itself. -/
structure Pos where
  x : Int
  y : Int
  deriving DecidableEq, Repr

/-- Fields of `City` (`src/game/City.js`); `owner = none` is `null`. The
JavaScript field `productionTurnsRemaining` is held by two fields:
`productionTurnsNaN` tells that it holds no number (the function object that
`startProduction` stores for a key inherited from `Object.prototype`, or the
`NaN` that `--` makes of it), and `productionTurnsRemaining` is the number it
holds otherwise. -/
structure City where
  x : Int
  y : Int
  owner : Option Nat
  id : String
  currentProduction : Option String
  productionTurnsRemaining : Int
  productionTurnsNaN : Bool
  productionQueue : List String
  name : String
  population : Int
  isCapital : Bool
  defenseBonus : Int
  baseDefense : Int
  currentDefense : Int
  deriving DecidableEq, Repr

/-- Fields of `Unit` (`src/game/Unit.js`). -/
structure Unit where
  type : UnitType
  x : Int
  y : Int
  owner : Nat
  id : String
  maxMoves : Int
  movesRemaining : Int
  health : Int
  isSelected : Bool
  hasAttacked : Bool
  isBeingProduced : Bool
  productionTurnsRemaining : Int
  movementPath : List Pos
  isMovingAlongPath : Bool
  needsPlayerAttention : Bool
  deriving DecidableEq, Repr

/-- The `stats` record of a player. -/
structure PlayerStats where
  unitsCreated : Int
  unitsLost : Int
  enemiesDestroyed : Int
  citiesCaptured : Int
  turnsPlayed : Int
  battlesWon : Int
  battlesLost : Int
  deriving DecidableEq, Repr

/-- Fields of `Player` (`src/game/Player.js`); the display colour is left out.
The class defines no `isAI` property. -/
structure Player where
  id : Nat
  name : String
  isHuman : Bool
  isActive : Bool
  isEliminated : Bool
  capitalCityId : Option String
  stats : PlayerStats
  unitsCreatedThisTurn : Int
  aiDifficulty : String
  aiStrategy : String
  deriving DecidableEq, Repr

/-- Fields of `GameMap` (`src/game/Map.js`). `terrain` is the array of rows;
`visibility` is the object keyed by player id, each value an array of rows of
booleans. -/
structure GameMap where
  width : Int
  height : Int
  terrain : List (List String)
  cities : List City
  visibility : List (Nat × List (List Bool))
  deriving DecidableEq, Repr

/-- Engine fields of `Game` (`src/game/Game.js`); selection, camera, settings
and the AI controllers belong to the presentation layer and are left out. -/
structure Game where
  gameState : String
  currentPlayerIndex : Nat
  turnNumber : Int
  map : GameMap
  players : List Player
  units : List Unit
  deriving DecidableEq, Repr

/-! ## `City` methods used by the movement and combat commands -/

namespace City

/-- `getCurrentDefense`: `Math.max(1, this.currentDefense)`. -/
def getCurrentDefense (c : City) : Int := max 1 c.currentDefense

/-- `degradeDefense`. -/
def degradeDefense (c : City) : City :=
  if c.currentDefense > 1 then { c with currentDefense := c.currentDefense - 1 } else c

/-- `capture(newOwner)`. -/
def capture (c : City) (newOwner : Nat) : City :=
  { c with owner := some newOwner, currentProduction := none,
           productionTurnsRemaining := 0, productionTurnsNaN := false, productionQueue := [] }

/-- Truthiness of `this.currentProduction`: neither `null` nor the empty string. -/
def isProducing (c : City) : Bool :=
  match c.currentProduction with
  | some unitType => unitType != ""
  | none => false

/-- `startProduction(unitType)`: the returned boolean and the city after. The
guard `!GAME_CONSTANTS.PRODUCTION_COSTS[unitType]` lets every truthy value
pass, a member of `Object.prototype` as well as a cost (the costs of the table
are all positive); the value read is what `productionTurnsRemaining` is set to. -/
def startProduction (c : City) (unitType : String) : Bool × City :=
  match GAME_CONSTANTS.lookupProductionCost unitType with
  | GAME_CONSTANTS.Lookup.undefined => (false, c)
  | GAME_CONSTANTS.Lookup.number cost =>
    if c.isProducing then
      (true, { c with productionQueue := c.productionQueue ++ [unitType] })
    else
      (true, { c with currentProduction := some unitType, productionTurnsRemaining := cost,
                      productionTurnsNaN := false })
  | GAME_CONSTANTS.Lookup.member =>
    if c.isProducing then
      (true, { c with productionQueue := c.productionQueue ++ [unitType] })
    else
      (true, { c with currentProduction := some unitType, productionTurnsRemaining := 0,
                      productionTurnsNaN := true })

end City

/-! ## `Player` methods -/

namespace Player

/-- `incrementStat(statName, amount)`: a name that is no key of `stats` is ignored. -/
def incrementStat (p : Player) (statName : String) (amount : Int) : Player :=
  if statName = "unitsCreated" then
    { p with stats := { p.stats with unitsCreated := p.stats.unitsCreated + amount } }
  else if statName = "unitsLost" then
    { p with stats := { p.stats with unitsLost := p.stats.unitsLost + amount } }
  else if statName = "enemiesDestroyed" then
    { p with stats := { p.stats with enemiesDestroyed := p.stats.enemiesDestroyed + amount } }
  else if statName = "citiesCaptured" then
    { p with stats := { p.stats with citiesCaptured := p.stats.citiesCaptured + amount } }
  else if statName = "turnsPlayed" then
    { p with stats := { p.stats with turnsPlayed := p.stats.turnsPlayed + amount } }
  else if statName = "battlesWon" then
    { p with stats := { p.stats with battlesWon := p.stats.battlesWon + amount } }
  else if statName = "battlesLost" then
    { p with stats := { p.stats with battlesLost := p.stats.battlesLost + amount } }
  else p

end Player

/-! ## `GameMap` methods -/

namespace GameMap

/-- `getTerrain(x, y)`: land outside the map's own bounds. A cell that a row of
the grid does not hold reads as JavaScript `undefined`, written `"undefined"`;
so does a row that the grid does not hold, where JavaScript raises. -/
def getTerrain (m : GameMap) (x y : Int) : String :=
  if x < 0 ∨ x ≥ m.width ∨ y < 0 ∨ y ≥ m.height then GAME_CONSTANTS.TERRAIN.LAND
  else (m.terrain.getD y.toNat []).getD x.toNat "undefined"

/-- Index in `cities` of the object that `getCityAt(x, y)` returns. -/
def getCityAt (m : GameMap) (x y : Int) : Option Nat :=
  m.cities.findIdx? (fun city => decide (city.x = x) && decide (city.y = y))

/-- `visibility[playerId]`. -/
def visibilityOf (m : GameMap) (playerId : Nat) : Option (List (List Bool)) :=
  (m.visibility.find? (fun e => e.1 == playerId)).map Prod.snd

/-- Assignment `visibility[playerId] = grid`. -/
def setVisibility (m : GameMap) (playerId : Nat) (grid : List (List Bool)) : GameMap :=
  if (m.visibility.find? (fun e => e.1 == playerId)).isSome then
    { m with visibility :=
        m.visibility.map (fun e => if e.1 == playerId then (playerId, grid) else e) }
  else
    { m with visibility := m.visibility ++ [(playerId, grid)] }

/-- The grid that `initializeFogOfWar` builds: `height` rows of `width` times `false`. -/
def freshFog (m : GameMap) : List (List Bool) :=
  List.replicate m.height.toNat (List.replicate m.width.toNat false)

/-- Assignment `row[x] = true` on a JavaScript array: an index past the end
extends the array, the cells in between being holes (they read as falsy,
written `false`). -/
def setCell (row : List Bool) (x : Nat) : List Bool :=
  if x < row.length then row.set x true
  else row ++ List.replicate (x - row.length) false ++ [true]

/-- One pass of the inner statement of `revealAroundPosition`:
`this.visibility[playerId][y][x] = true`, guarded by `isValidPosition` and the
distance test. Writing into a row that the grid does not hold raises. -/
def revealCell (centerX centerY range : Int) (grid : List (List Bool)) (p : Pos) :
    Option (List (List Bool)) :=
  if GameHelpers.isValidPosition p.x p.y then
    if GameHelpers.getDistance centerX centerY p.x p.y ≤ range then
      match grid[p.y.toNat]? with
      | none => none
      | some row => some (grid.set p.y.toNat (setCell row p.x.toNat))
    else some grid
  else some grid

/-- The cells that the two nested loops of `revealAroundPosition` visit, in order. -/
def revealWindow (centerX centerY range : Int) : List Pos :=
  (List.range (2 * range + 1).toNat).flatMap (fun dy =>
    (List.range (2 * range + 1).toNat).map (fun dx =>
      ({ x := centerX - range + dx, y := centerY - range + dy } : Pos)))

/-- `revealAroundPosition(playerId, centerX, centerY, range)` on the player's grid. -/
def revealAroundPosition (grid : List (List Bool)) (centerX centerY range : Int) :
    Option (List (List Bool)) :=
  (revealWindow centerX centerY range).foldlM (revealCell centerX centerY range) grid

/-- `updateVisibility(playerId, units)`. -/
def updateVisibility (m : GameMap) (playerId : Nat) (units : List Unit) : Option GameMap :=
  let grid0 := match m.visibilityOf playerId with
    | some grid => grid
    | none => m.freshFog
  let afterUnits := units.foldlM (fun grid (unit : Unit) =>
    if unit.owner = playerId then
      revealAroundPosition grid unit.x unit.y GAME_CONSTANTS.VISIBILITY_RANGE
    else some grid) grid0
  let afterCities := afterUnits.bind (fun grid1 => m.cities.foldlM (fun grid (city : City) =>
    if city.owner = some playerId then
      revealAroundPosition grid city.x city.y GAME_CONSTANTS.VISIBILITY_RANGE
    else some grid) grid1)
  afterCities.map (fun grid => m.setVisibility playerId grid)

end GameMap

/-! ## `Unit` methods: immediate movement and attack -/

namespace Unit

/-- `canMoveTo(x, y, gameMap)`: bounds of the map and terrain only. -/
def canMoveTo (u : Unit) (x y : Int) (gameMap : GameMap) : Bool :=
  if x < 0 ∨ x ≥ gameMap.width ∨ y < 0 ∨ y ≥ gameMap.height then false
  else GameHelpers.canUnitMoveTo u.type.name (gameMap.getTerrain x y)

/-- `moveTo(x, y, gameMap)`: the returned boolean and the unit after. -/
def moveTo (u : Unit) (x y : Int) (gameMap : GameMap) : Bool × Unit :=
  if u.canMoveTo x y gameMap then
    let distance := GameHelpers.getDistance u.x u.y x y
    if distance ≤ u.movesRemaining then
      (true, { u with x := x, y := y, movesRemaining := u.movesRemaining - distance })
    else (false, u)
  else (false, u)

/-- `canAttack(targetX, targetY)`. -/
def canAttack (u : Unit) (targetX targetY : Int) : Bool :=
  if u.hasAttacked then false
  else
    let distance := GameHelpers.getDistance u.x u.y targetX targetY
    let attackRange : Int := if u.type = UnitType.fighter then 2 else 1
    decide (distance ≤ attackRange)

/-- `attack(target)`: `none` is the returned `false`, `some true` is
`'attacker_wins'`, `some false` is `'defender_wins'`; the second component is
the attacker after the call. -/
def attack (u : Unit) (target : Unit) (r1 r2 : ℚ) : Option Bool × Unit :=
  if !u.canAttack target.x target.y then (none, u)
  else
    let result := GameHelpers.resolveCombat u.type target.type r1 r2
    (some result, { u with hasAttacked := true })

/-- `isGroundUnit()`. -/
def isGroundUnit (u : Unit) : Bool :=
  decide (u.type = UnitType.army) || decide (u.type = UnitType.tank)

end Unit

/-! ## `Unit.findPath`: the A* search and `setMovementPath` -/

/-- Local variables of `findPath`. A JavaScript `Map` is the function from keys
to stored values, `none` for a missing key; a score that is `undefined` or `NaN`
is `none` too (either one fails every comparison and turns a sum into `NaN`).
`closedSet` lists the keys added to the `Set`. -/
structure AStar where
  openSet : List Pos
  closedSet : List Pos
  gScore : Pos → Option Int
  fScore : Pos → Option Int
  cameFrom : Pos → Option Pos
  iterations : Nat

namespace Unit

/-- `heuristic(x1, y1, x2, y2)`: the Manhattan distance. -/
def heuristic (x1 y1 x2 y2 : Int) : Int :=
  ((x1 - x2).natAbs : Int) + ((y1 - y2).natAbs : Int)

/-- `a < b` on two scores. -/
def scoreLt (a b : Option Int) : Bool :=
  match a, b with
  | some a, some b => decide (a < b)
  | _, _ => false

/-- `a >= b` on two scores. -/
def scoreGe (a b : Option Int) : Bool :=
  match a, b with
  | some a, some b => decide (a ≥ b)
  | _, _ => false

/-- `map.set(key, value)`. -/
def setKey {α : Type} (m : Pos → Option α) (key : Pos) (value : Option α) : Pos → Option α :=
  fun p => if p = key then value else m p

/-- `openSet.reduce((lowest, node) => fScore.get(node.key) < fScore.get(lowest.key)
? node : lowest)` on the non-empty array `first :: rest`. -/
def lowestF (fScore : Pos → Option Int) (first : Pos) (rest : List Pos) : Pos :=
  rest.foldl (fun lowest node => if scoreLt (fScore node) (fScore lowest) then node else lowest)
    first

/-- The array `neighbors` of `current`, in source order. -/
def neighbors (current : Pos) : List Pos :=
  [{ x := current.x - 1, y := current.y }, { x := current.x + 1, y := current.y },
   { x := current.x, y := current.y - 1 }, { x := current.x, y := current.y + 1 }]

/-- The three `set` calls that close the body of the neighbour loop. -/
def record (st : AStar) (targetX targetY : Int) (current neighbor : Pos)
    (tentativeGScore : Option Int) : AStar :=
  { st with
    cameFrom := setKey st.cameFrom neighbor (some current),
    gScore := setKey st.gScore neighbor tentativeGScore,
    fScore := setKey st.fScore neighbor
      (tentativeGScore.map (fun s => s + heuristic neighbor.x neighbor.y targetX targetY)) }

/-- One pass of the body of `for (const neighbor of neighbors)`. -/
def relax (u : Unit) (gameMap : GameMap) (targetX targetY : Int) (current : Pos)
    (st : AStar) (neighbor : Pos) : AStar :=
  if st.closedSet.contains neighbor then st
  else if !u.canMoveTo neighbor.x neighbor.y gameMap then st
  else
    let tentativeGScore := (st.gScore current).map (fun s => s + 1)
    if !st.openSet.contains neighbor then
      record { st with openSet := st.openSet ++ [neighbor] } targetX targetY current neighbor
        tentativeGScore
    else if scoreGe tentativeGScore (st.gScore neighbor) then st
    else record st targetX targetY current neighbor tentativeGScore

/-- The loop `while (currentKey) { path.unshift(...); currentKey =
cameFrom.get(currentKey) }`; `none` when `fuel` passes of the body did not
reach a key without predecessor. -/
def reconstructPath (cameFrom : Pos → Option Pos) : Nat → Option Pos → List Pos →
    Option (List Pos)
  | _, none, path => some path
  | 0, some _, _ => none
  | fuel + 1, some currentKey, path =>
    reconstructPath cameFrom fuel (cameFrom currentKey) (currentKey :: path)

/-- The loop `while (openSet.length > 0 && iterations < 1000)` with at most
`fuel` tests of its condition; `none` when they did not suffice. Returns the
local state at the `return` and the returned value (`none` is `null`).
`rfuel` bounds the reconstruction loop. -/
def search (u : Unit) (gameMap : GameMap) (targetX targetY : Int) (rfuel : Nat) :
    Nat → AStar → Option (AStar × Option (List Pos))
  | 0, _ => none
  | fuel + 1, st =>
    match st.openSet with
    | [] => some (st, none)
    | first :: rest =>
      if st.iterations < 1000 then
        let st1 := { st with iterations := st.iterations + 1 }
        let current := lowestF st.fScore first rest
        if current = { x := targetX, y := targetY } then
          (reconstructPath st.cameFrom rfuel (some current) []).map
            (fun path => (st1, some path))
        else
          let st2 := { st1 with openSet := st.openSet.erase current,
                                closedSet := current :: st.closedSet }
          search u gameMap targetX targetY rfuel fuel
            ((neighbors current).foldl (relax u gameMap targetX targetY current) st2)
      else some (st, none)

/-- The local state of `findPath` before its loop. -/
def searchStart (startX startY targetX targetY : Int) : AStar :=
  { openSet := [{ x := startX, y := startY }],
    closedSet := [],
    gScore := setKey (fun _ => none) { x := startX, y := startY } (some 0),
    fScore := setKey (fun _ => none) { x := startX, y := startY }
      (some (heuristic startX startY targetX targetY)),
    cameFrom := fun _ => none,
    iterations := 0 }

/-- `findPath(startX, startY, targetX, targetY, gameMap)`: `some (some path)` is
a returned path, `some none` is `null`, `none` means that `fuel` did not suffice. -/
def findPath (fuel : Nat) (u : Unit) (startX startY targetX targetY : Int)
    (gameMap : GameMap) : Option (Option (List Pos)) :=
  let targetTerrain := gameMap.getTerrain targetX targetY
  if !GameHelpers.canUnitMoveTo u.type.name targetTerrain then some none
  else
    (search u gameMap targetX targetY fuel fuel
      (searchStart startX startY targetX targetY)).map Prod.snd

/-- `setMovementPath(targetX, targetY, gameMap)`: the returned boolean and the
unit after; `none` when `fuel` did not suffice for `findPath`. -/
def setMovementPath (fuel : Nat) (u : Unit) (targetX targetY : Int) (gameMap : GameMap) :
    Option (Bool × Unit) :=
  match findPath fuel u u.x u.y targetX targetY gameMap with
  | none => none
  | some (some path) =>
    if path.length > 1 then
      some (true, { u with movementPath := path.drop 1, isMovingAlongPath := true,
                           needsPlayerAttention := false })
    else some (false, u)
  | some none => some (false, u)

/-- The loop `while (movesTaken < maxMovesThisTurn && this.movementPath.length > 0)`
of `moveAlongPath`. The list is the unit's `movementPath` at the loop test; every
pass shifts it or leaves the loop. Returns the unit and `movesTaken`. -/
def moveAlongPathLoop (gameMap : GameMap) (maxMovesThisTurn : Int) :
    List Pos → Unit → Int → Unit × Int
  | [], u, movesTaken => (u, movesTaken)
  | nextStep :: rest, u, movesTaken =>
    if movesTaken < maxMovesThisTurn then
      if u.canMoveTo nextStep.x nextStep.y gameMap then
        let stepped := { u with x := nextStep.x, y := nextStep.y, movementPath := rest }
        if rest.length = 0 then
          ({ stepped with isMovingAlongPath := false, needsPlayerAttention := true },
            movesTaken + 1)
        else moveAlongPathLoop gameMap maxMovesThisTurn rest stepped (movesTaken + 1)
      else
        ({ u with isMovingAlongPath := false, movementPath := [],
                  needsPlayerAttention := true }, movesTaken)
    else (u, movesTaken)

/-- `moveAlongPath(gameMap, game)`: the unit after and the number of moves
taken. The `game` argument is never read by the source. -/
def moveAlongPath (u : Unit) (gameMap : GameMap) : Unit × Int :=
  if !u.isMovingAlongPath || u.movementPath.length = 0 then
    ({ u with isMovingAlongPath := false }, 0)
  else moveAlongPathLoop gameMap u.movesRemaining u.movementPath u 0

end Unit

/-! ## `Game` commands: `moveUnit`, `attackUnit`, `captureCity` -/

namespace Game

/-- Index in `players` of the object that `getPlayerById(id)` returns. -/
def getPlayerById (g : Game) (id : Nat) : Option Nat :=
  g.players.findIdx? (fun player => player.id == id)

/-- `getUnitAt(x, y)`. -/
def getUnitAt (g : Game) (x y : Int) : Option Unit :=
  g.units.find? (fun unit => decide (unit.x = x) && decide (unit.y = y))

/-- `getUnitsOwnedBy(playerId)`. -/
def getUnitsOwnedBy (g : Game) (playerId : Nat) : List Unit :=
  g.units.filter (fun unit => unit.owner == playerId)

/-- `removeUnit(unit)`: drops the first entry of `units` whose id is the unit's. -/
def removeUnit (g : Game) (unit : Unit) : Game :=
  match g.units.findIdx? (fun u => u.id == unit.id) with
  | some index => { g with units := g.units.eraseIdx index }
  | none => g

/-- `updateVisibility(playerId)`. -/
def updateVisibility (g : Game) (playerId : Nat) : Option Game :=
  (g.map.updateVisibility playerId (g.getUnitsOwnedBy playerId)).map
    (fun m => { g with map := m })

/-- `player.incrementStat(statName)` on the player object at index `pi`. -/
def incrementStatAt (g : Game) (pi : Nat) (statName : String) : Game :=
  { g with players := g.players.modify (fun p => p.incrementStat statName 1) pi }

/-- Replaces the city object at index `ci` of `map.cities`. -/
def setCity (g : Game) (ci : Nat) (c : City) : Game :=
  { g with map := { g.map with cities := g.map.cities.set ci c } }

/-- `captureCity(unit, city)` for the city at index `ci` of `map.cities`;
`r1`, `r2` are the two `Math.random()` draws in call order; the two rolls are
products of JavaScript numbers, rounded to doubles. Returns `captureSuccess`
and the game after. `player.isAI` is `undefined` for every
`Player`, so the guard `!player.isAI && unit.isGroundUnit()` is
`unit.isGroundUnit()`. A successful capture by an owner who is no player
raises at `player.incrementStat`. -/
def captureCity (g : Game) (unit : Unit) (ci : Nat) (r1 r2 : ℚ) : Option (Bool × Game) :=
  match g.map.cities[ci]? with
  | none => none
  | some city =>
    let newOwner := unit.owner
    let player := g.getPlayerById newOwner
    let unitAttackStrength := (GAME_CONSTANTS.COMBAT_STRENGTH unit.type).1
    let cityDefenseStrength := city.getCurrentDefense
    let unitRoll := Double.mul r1 (unitAttackStrength : ℚ)
    let cityRoll := Double.mul r2 (cityDefenseStrength : ℚ)
    let captureSuccess := decide (unitRoll > cityRoll)
    let city1 := city.degradeDefense
    if captureSuccess then
      let city2 := city1.capture newOwner
      match player with
      | none => none
      | some pi =>
        let g1 := (g.setCity ci city2).incrementStatAt pi "citiesCaptured"
        if unit.isGroundUnit then some (true, g1)
        else some (true, g1.setCity ci (city2.startProduction "army").2)
    else
      some (false, (g.setCity ci city1).removeUnit unit)

/-- A sequence of `captureCity` calls on the city at index `ci`, one for each
entry: the attacking unit and its two draws. -/
def captureAttempts (g : Game) (ci : Nat) : List (Unit × ℚ × ℚ) → Option Game
  | [] => some g
  | attempt :: rest =>
    match g.captureCity attempt.1 ci attempt.2.1 attempt.2.2 with
    | none => none
    | some result => captureAttempts result.2 ci rest

/-- `processUnitPathMovements(playerId)`: every unit of the player that follows
a path and has moves left advances along it and pays the moves taken. -/
def processUnitPathMovements (g : Game) (playerId : Nat) : Game :=
  { g with units := g.units.map (fun unit =>
      if unit.owner = playerId then
        if unit.isMovingAlongPath && decide (unit.movesRemaining > 0) then
          let moved := (unit.moveAlongPath g.map).1
          let movesTaken := (unit.moveAlongPath g.map).2
          if movesTaken > 0 then { moved with movesRemaining := moved.movesRemaining - movesTaken }
          else moved
        else unit
      else unit) }

/-- The guard `cityAtDestination && cityAtDestination.owner !== unit.owner` of
`moveUnit`: the index in `map.cities` of the city that the move attacks, if any. -/
def cityToCapture (g : Game) (unit : Unit) (x y : Int) : Option Nat :=
  match g.map.getCityAt x y with
  | none => none
  | some ci =>
    match g.map.cities[ci]? with
    | none => none
    | some city => if city.owner ≠ some unit.owner then some ci else none

/-- `moveUnit(unit, x, y)` for the unit object at index `i` of `units`. -/
def moveUnit (g : Game) (i : Nat) (x y : Int) (r1 r2 : ℚ) : Option (Bool × Game) :=
  match g.units[i]? with
  | none => none
  | some unit =>
    if !unit.canMoveTo x y g.map then some (false, g)
    else
      match g.cityToCapture unit x y with
      | some ci =>
        match g.captureCity unit ci r1 r2 with
        | none => none
        | some (true, g1) =>
          let moved := { unit with x := x, y := y, movesRemaining := 0 }
          let g2 := { g1 with units := g1.units.set i moved }
          (g2.updateVisibility unit.owner).map (fun g3 => (true, g3))
        | some (false, g1) => some (false, g1)
      | none =>
        match unit.moveTo x y g.map with
        | (true, moved) =>
          let g1 := { g with units := g.units.set i moved }
          (g1.updateVisibility unit.owner).map (fun g2 => (true, g2))
        | (false, _) => some (false, g)

/-- The guard `cityAtPosition && cityAtPosition.owner === target.owner` of
`attackUnit`: the index in `map.cities` of the city at the tile, if its owner
is `owner`. -/
def cityOfOwnerAt (g : Game) (owner : Nat) (x y : Int) : Option Nat :=
  match g.map.getCityAt x y with
  | none => none
  | some ci =>
    match g.map.cities[ci]? with
    | none => none
    | some city => if city.owner = some owner then some ci else none

/-- Index in `units` of an object that stood at index `i`, after the entry at
index `k` was spliced out; `none` when it was the entry removed. -/
def indexAfterRemoval (k i : Nat) : Option Nat :=
  if k < i then some (i - 1) else if k = i then none else some i

/-- A write to the fields of a unit object that stood in `units` and is now at
index `idx`; an object that has left `units` (`none`) is not part of the game. -/
def setUnitAt (g : Game) (idx : Option Nat) (u : Unit) : Game :=
  match idx with
  | some j => { g with units := g.units.set j u }
  | none => g

/-- The branch `result === 'attacker_wins'` of `attackUnit`. `g1` is the game
after `attacker.attack(target)`, `attacker1` and `target` are the two objects
then, `ai` is the attacker's index in `units`. -/
def attackerWins (g1 : Game) (ai : Nat) (attacker1 target : Unit) (r3 r4 : ℚ) :
    Option (Bool × Game × Unit) :=
  let removed := g1.units.findIdx? (fun u => u.id == target.id)
  let g2 := g1.removeUnit target
  let attackerIdx : Option Nat :=
    match removed with
    | none => some ai
    | some k => indexAfterRemoval k ai
  match g2.getPlayerById attacker1.owner, g2.getPlayerById target.owner with
  | some ap, some tp =>
    let g3 := (((g2.incrementStatAt ap "enemiesDestroyed").incrementStatAt ap
      "battlesWon").incrementStatAt tp "unitsLost").incrementStatAt tp "battlesLost"
    let attacker2 := { attacker1 with x := target.x, y := target.y }
    let g4 := g3.setUnitAt attackerIdx attacker2
    match g4.cityOfOwnerAt target.owner target.x target.y with
    | some ci => (g4.captureCity attacker2 ci r3 r4).map (fun r => (true, r.2, attacker2))
    | none => some (true, g4, attacker2)
  | _, _ => none

/-- The other branch of `attackUnit`: the attacker loses. -/
def attackerLoses (g1 : Game) (attacker1 target : Unit) : Option (Bool × Game × Unit) :=
  let g2 := g1.removeUnit attacker1
  match g2.getPlayerById attacker1.owner, g2.getPlayerById target.owner with
  | some ap, some tp =>
    let g3 := ((((g2.incrementStatAt tp "enemiesDestroyed").incrementStatAt tp
      "battlesWon").incrementStatAt ap "unitsLost").incrementStatAt ap
      "battlesLost").incrementStatAt ap "unitsLost"
    some (true, g3, attacker1)
  | _, _ => none

/-- `attackUnit(attacker, target)` for the unit objects at indices `ai` and `ti`
of `units`. `r1`, `r2` are the draws of `resolveCombat`, `r3`, `r4` those of the
`captureCity` that follows a win on a city tile of the target's owner. Returns
the boolean, the game after and the attacker object after. When `ai = ti` the
target is the attacker object itself. -/
def attackUnit (g : Game) (ai ti : Nat) (r1 r2 r3 r4 : ℚ) : Option (Bool × Game × Unit) :=
  match g.units[ai]?, g.units[ti]? with
  | some attacker, some target0 =>
    if !attacker.canAttack target0.x target0.y then some (false, g, attacker)
    else
      let result := (attacker.attack target0 r1 r2).1
      let attacker1 := (attacker.attack target0 r1 r2).2
      let g1 := { g with units := g.units.set ai attacker1 }
      let target := if ai = ti then attacker1 else target0
      if result = some true then g1.attackerWins ai attacker1 target r3 r4
      else g1.attackerLoses attacker1 target
  | _, _ => none

end Game

/-! ## Constructors -/

/-- `new Unit(type, x, y, owner)`; the random id is a parameter. -/
def Unit.new (type : UnitType) (x y : Int) (owner : Nat) (id : String) : Unit :=
  { type := type, x := x, y := y, owner := owner, id := id,
    maxMoves := GAME_CONSTANTS.MOVEMENT_RANGES type,
    movesRemaining := GAME_CONSTANTS.MOVEMENT_RANGES type,
    health := 100, isSelected := false, hasAttacked := false,
    isBeingProduced := false, productionTurnsRemaining := 0,
    movementPath := [], isMovingAlongPath := false, needsPlayerAttention := false }

/-- `new City(x, y, owner)`; the random id and name are parameters. -/
def City.new (x y : Int) (owner : Option Nat) (id name : String) : City :=
  { x := x, y := y, owner := owner, id := id,
    currentProduction := none, productionTurnsRemaining := 0, productionTurnsNaN := false,
    productionQueue := [],
    name := name, population := 1, isCapital := false,
    defenseBonus := 2, baseDefense := 15, currentDefense := 15 }

/-- `new Player(id, name, isHuman)`. -/
def Player.new (id : Nat) (name : String) (isHuman : Bool) : Player :=
  { id := id, name := name, isHuman := isHuman, isActive := true, isEliminated := false,
    capitalCityId := none,
    stats := { unitsCreated := 0, unitsLost := 0, enemiesDestroyed := 0, citiesCaptured := 0,
               turnsPlayed := 0, battlesWon := 0, battlesLost := 0 },
    unitsCreatedThisTurn := 0, aiDifficulty := "medium", aiStrategy := "balanced" }

/-! ## Production: `City.processProduction` and `Game.processCityProduction` -/

/-- The unit type that a string names; `none` for any other string. -/
def UnitType.ofName? (unitType : String) : Option UnitType :=
  if unitType = "army" then some .army
  else if unitType = "tank" then some .tank
  else if unitType = "fighter" then some .fighter
  else if unitType = "destroyer" then some .destroyer
  else if unitType = "submarine" then some .submarine
  else if unitType = "cruiser" then some .cruiser
  else if unitType = "battleship" then some .battleship
  else if unitType = "carrier" then some .carrier
  else none

/-- What `completeProduction` and `processProduction` return: `nothing` is
`null`, `unit u` is the new `Unit` object. `outside` is a `Unit` object that the
type `Unit` does not hold, one whose type string names no unit type or whose
owner is `null` (the product of a city without owner). -/
inductive Produced
  | nothing
  | unit (u : Unit)
  | outside
  deriving DecidableEq, Repr

namespace City

/-- `completeProduction()`: the returned unit and the city after; `id` is the
random id of the new unit. -/
def completeProduction (c : City) (id : String) : Produced × City :=
  if !c.isProducing then (Produced.nothing, c)
  else
    let newUnit :=
      match c.currentProduction.bind UnitType.ofName?, c.owner with
      | some type, some owner => Produced.unit (Unit.new type c.x c.y owner id)
      | _, _ => Produced.outside
    (newUnit, { c with currentProduction := none, productionTurnsRemaining := 0,
                       productionTurnsNaN := false })

/-- `processProduction()`: the returned unit and the city after. On a counter
that holds no number `--` leaves `NaN`, and `NaN <= 0` is false. -/
def processProduction (c : City) (id : String) : Produced × City :=
  if !c.isProducing then (Produced.nothing, c)
  else if c.productionTurnsNaN then (Produced.nothing, c)
  else
    let c1 := { c with productionTurnsRemaining := c.productionTurnsRemaining - 1 }
    if c1.productionTurnsRemaining ≤ 0 then
      let completedUnit := (c1.completeProduction id).1
      let c2 := (c1.completeProduction id).2
      match c2.productionQueue with
      | nextUnit :: rest =>
        (completedUnit, ({ c2 with productionQueue := rest }.startProduction nextUnit).2)
      | [] => (completedUnit, c2)
    else (Produced.nothing, c1)

/-- `cancelProduction()`. -/
def cancelProduction (c : City) : City :=
  let c1 := { c with currentProduction := none, productionTurnsRemaining := 0,
                     productionTurnsNaN := false }
  match c1.productionQueue with
  | nextUnit :: rest => ({ c1 with productionQueue := rest }.startProduction nextUnit).2
  | [] => c1

/-- `removeFromQueue(index)`. -/
def removeFromQueue (c : City) (index : Int) : City :=
  if 0 ≤ index ∧ index < (c.productionQueue.length : Int) then
    { c with productionQueue := c.productionQueue.eraseIdx index.toNat }
  else c

/-- `getAvailableUnits()`. -/
def getAvailableUnits (_c : City) : List String :=
  [UnitType.army.name, UnitType.tank.name, UnitType.destroyer.name, UnitType.submarine.name,
   UnitType.cruiser.name, UnitType.battleship.name, UnitType.carrier.name,
   UnitType.fighter.name]

end City

/-- Successive calls of `City.processProduction`, one for each id of the list:
what the calls returned, in order, and the city after the last. -/
def City.processProductionTimes : List String → City → List Produced × City
  | [], c => ([], c)
  | id :: ids, c =>
    ((c.processProduction id).1 :: (processProductionTimes ids (c.processProduction id).2).1,
      (processProductionTimes ids (c.processProduction id).2).2)

/-- The data-model invariant of a city: `currentProduction == null` implies
`productionTurnsRemaining == 0`, the number zero. -/
def City.ProductionInv (c : City) : Prop :=
  c.currentProduction = none → c.productionTurnsRemaining = 0 ∧ c.productionTurnsNaN = false

/-- `incrementTurnStat(statName)`: `turnStats` has the one key `unitsCreatedThisTurn`. -/
def Player.incrementTurnStat (p : Player) (statName : String) (amount : Int) : Player :=
  if statName = "unitsCreatedThisTurn" then
    { p with unitsCreatedThisTurn := p.unitsCreatedThisTurn + amount }
  else p

/-- `getAdjacentPositions(x, y)`: the four neighbours that pass `isValidPosition`. -/
def GameMap.getAdjacentPositions (_m : GameMap) (x y : Int) : List Pos :=
  ([{ x := x + 0, y := y + -1 }, { x := x + 1, y := y + 0 }, { x := x + 0, y := y + 1 },
    { x := x + -1, y := y + 0 }] : List Pos).filter
    (fun pos => GameHelpers.isValidPosition pos.x pos.y)

/-- Indices in `cities` of the objects that `getCitiesOwnedBy(playerId)` returns. -/
def GameMap.getCitiesOwnedBy (m : GameMap) (playerId : Nat) : List Nat :=
  (List.range m.cities.length).filter (fun ci =>
    match m.cities[ci]? with
    | some city => city.owner == some playerId
    | none => false)

namespace Game

/-- `findEmptyAdjacentPosition(x, y)`. -/
def findEmptyAdjacentPosition (g : Game) (x y : Int) : Option Pos :=
  (g.map.getAdjacentPositions x y).find? (fun pos =>
    (g.getUnitAt pos.x pos.y).isNone &&
      (g.map.getTerrain pos.x pos.y == GAME_CONSTANTS.TERRAIN.LAND ||
        g.map.getTerrain pos.x pos.y == GAME_CONSTANTS.TERRAIN.CITY))

/-- `player.incrementTurnStat(statName)` on the player object at index `pi`. -/
def incrementTurnStatAt (g : Game) (pi : Nat) (statName : String) : Game :=
  { g with players := g.players.modify (fun p => p.incrementTurnStat statName 1) pi }

/-- The closing statement of the `forEach` body of `processCityProduction`: a
city that produces nothing starts an army. -/
def autoStartAt (g : Game) (ci : Nat) : Game :=
  match g.map.cities[ci]? with
  | none => g
  | some city =>
    if !city.isProducing then
      if city.getAvailableUnits.length > 0 then
        g.setCity ci (city.startProduction UnitType.army.name).2
      else g
    else g

/-- The part of the `forEach` body of `processCityProduction` that places the
unit `newUnit` produced by the city at `(x, y)`. -/
def spawnUnit (g : Game) (playerId : Nat) (x y : Int) (newUnit : Unit) : Option Game :=
  match g.findEmptyAdjacentPosition x y with
  | none => some g
  | some spawnPosition =>
    let placed := { newUnit with x := spawnPosition.x, y := spawnPosition.y,
                                 movesRemaining := 0 }
    let g1 := { g with units := g.units ++ [placed] }
    match g1.getPlayerById playerId with
    | none => none
    | some pi =>
      some ((g1.incrementStatAt pi "unitsCreated").incrementTurnStatAt pi
        "unitsCreatedThisTurn")

/-- The body of the `forEach` of `processCityProduction` for the city object at
index `ci` of `map.cities`; `id` is the random id of a unit it creates. A
product outside the type `Unit` is not followed further (`none`). -/
def processCityAt (g : Game) (playerId : Nat) (id : String) (ci : Nat) : Option Game :=
  match g.map.cities[ci]? with
  | none => some g
  | some city =>
    let produced := (city.processProduction id).1
    let city1 := (city.processProduction id).2
    let g1 := g.setCity ci city1
    let afterSpawn : Option Game :=
      match produced with
      | Produced.nothing => some g1
      | Produced.outside => none
      | Produced.unit newUnit => g1.spawnUnit playerId city1.x city1.y newUnit
    afterSpawn.map (fun g2 => g2.autoStartAt ci)

/-- `processCityProduction(playerId)`; `freshId ci` is the random id of the unit
that the city at index `ci` creates. -/
def processCityProduction (g : Game) (playerId : Nat) (freshId : Nat → String) :
    Option Game :=
  (g.map.getCitiesOwnedBy playerId).foldlM
    (fun g1 ci => g1.processCityAt playerId (freshId ci) ci) g

end Game

/-! ## The turn cycle: `startPlayerTurn`, `endPlayerTurn`, `playerHasActions` -/

/-- `startNewTurn()`. -/
def Unit.startNewTurn (u : Unit) : Unit :=
  { u with maxMoves := GAME_CONSTANTS.MOVEMENT_RANGES u.type,
           movesRemaining := GAME_CONSTANTS.MOVEMENT_RANGES u.type,
           hasAttacked := false }

/-- `hasMovementPath()`. -/
def Unit.hasMovementPath (u : Unit) : Bool := decide (u.movementPath.length > 0)

namespace Player

/-- `eliminate()`. -/
def eliminate (p : Player) : Player := { p with isEliminated := true, isActive := false }

/-- `isAlive()`. -/
def isAlive (p : Player) : Bool := p.isActive && !p.isEliminated

/-- `resetTurnStats()`. -/
def resetTurnStats (p : Player) : Player := { p with unitsCreatedThisTurn := 0 }

end Player

namespace Game

/-- The test of the inner loop of `playerHasActions` for the neighbour `pos` of
`unit`: the unit may enter it, or the unit found there belongs to someone else,
or the city found there does. -/
def actionAt (g : Game) (playerId : Nat) (unit : Unit) (pos : Pos) : Bool :=
  unit.canMoveTo pos.x pos.y g.map ||
    (match g.getUnitAt pos.x pos.y with
      | some targetUnit => targetUnit.owner != playerId
      | none => false) ||
    (match g.map.getCityAt pos.x pos.y with
      | some ci =>
        match g.map.cities[ci]? with
        | some city => city.owner != some playerId
        | none => false
      | none => false)

/-- The test of the last loop of `playerHasActions` for the city object at
index `ci`: `!city.currentProduction && city.getAvailableUnits().length > 0`. -/
def canStartProductionAt (g : Game) (ci : Nat) : Bool :=
  match g.map.cities[ci]? with
  | some city => !city.isProducing && decide (city.getAvailableUnits.length > 0)
  | none => false

/-- `playerHasActions(playerId)`. -/
def playerHasActions (g : Game) (playerId : Nat) : Bool :=
  let playerUnits : List Unit := g.getUnitsOwnedBy playerId
  if playerUnits.any (fun (unit : Unit) => unit.needsPlayerAttention && decide (unit.movesRemaining > 0))
  then true
  else
    let unitsMoving := playerUnits.filter (fun (unit : Unit) =>
      unit.isMovingAlongPath && decide (unit.movesRemaining > 0) && unit.hasMovementPath)
    if unitsMoving.length > 0 then false
    else if playerUnits.any (fun (unit : Unit) =>
        decide (unit.movesRemaining > 0) && !unit.isMovingAlongPath &&
          (g.map.getAdjacentPositions unit.x unit.y).any (g.actionAt playerId unit))
    then true
    else if (g.map.getCitiesOwnedBy playerId).any g.canStartProductionAt
    then true
    else false

/-- `startPlayerTurn()` up to its `emit`: the game after, and the value of
`hasActions`. The timers it sets run later and are no part of the call. A
current player index that names no player raises at `currentPlayer.name`. -/
def startPlayerTurn (g : Game) (freshId : Nat → String) : Option (Game × Bool) :=
  match g.players[g.currentPlayerIndex]? with
  | none => none
  | some currentPlayer =>
    let g1 : Game :=
      { g with players := g.players.set g.currentPlayerIndex currentPlayer.resetTurnStats }
    let g2 : Game := { g1 with units := g1.units.map (fun (unit : Unit) =>
      if unit.owner = currentPlayer.id then unit.startNewTurn else unit) }
    match g2.processCityProduction currentPlayer.id freshId with
    | none => none
    | some g3 =>
      match (g3.processUnitPathMovements currentPlayer.id).updateVisibility currentPlayer.id with
      | none => none
      | some g5 =>
        let g6 := g5.incrementStatAt g.currentPlayerIndex "turnsPlayed"
        some (g6, g6.playerHasActions currentPlayer.id)

/-- `checkGameEndConditions()`: the returned boolean and the game after. -/
def checkGameEndConditions (g : Game) : Bool × Game :=
  let alivePlayers := g.players.filter (fun player => player.isAlive)
  if alivePlayers.length ≤ 1 then (true, g)
  else
    (false, { g with players := g.players.map (fun player =>
      if player.isAlive then
        if (g.map.getCitiesOwnedBy player.id).length = 0 ∧
            (g.getUnitsOwnedBy player.id).length = 0 then player.eliminate
        else player
      else player) })

/-- `endGame()`. -/
def endGame (g : Game) : Game := { g with gameState := "ended" }

/-- `endPlayerTurn()`: the game after; the boolean tells whether
`startPlayerTurn` was called. -/
def endPlayerTurn (g : Game) (freshId : Nat → String) : Option (Game × Bool) :=
  match g.players[g.currentPlayerIndex]? with
  | none => none
  | some _ =>
    let g1 : Game :=
      { g with currentPlayerIndex := (g.currentPlayerIndex + 1) % g.players.length }
    let g2 : Game := if g1.currentPlayerIndex = 0 then { g1 with turnNumber := g1.turnNumber + 1 }
      else g1
    if g2.checkGameEndConditions.1 then some (g2.checkGameEndConditions.2.endGame, false)
    else (g2.checkGameEndConditions.2.startPlayerTurn freshId).map (fun r => (r.1, true))

end Game

/-! ## `GameMap.isVisibleTo` -/

/-- The truthiness of `grid[y] && grid[y][x]`: a negative index, a row or a cell
that the grid does not hold read as `undefined`. -/
def GameMap.cellAt (grid : List (List Bool)) (x y : Int) : Bool :=
  if 0 ≤ x ∧ 0 ≤ y then (grid.getD y.toNat []).getD x.toNat false else false

/-- `isVisibleTo(playerId, x, y)`, as the truthiness of the returned value. -/
def GameMap.isVisibleTo (m : GameMap) (playerId : Nat) (x y : Int) : Bool :=
  match m.visibilityOf playerId with
  | none => false
  | some grid => GameMap.cellAt grid x y

/-! ## Saving and loading: `export` and `import` -/

/-- The object that `City.getProductionInfo()` returns. -/
structure ProductionInfo where
  currentProduction : Option String
  turnsRemaining : Int
  turnsNaN : Bool
  queue : List String
  availableUnits : List String
  deriving DecidableEq, Repr

/-- The object that `City.getInfo()` returns. -/
structure CityInfo where
  id : String
  name : String
  x : Int
  y : Int
  owner : Option Nat
  population : Int
  isCapital : Bool
  production : ProductionInfo
  deriving DecidableEq, Repr

/-- The object that `Player.getInfo()` returns; the display colour is left out. -/
structure PlayerInfo where
  id : Nat
  name : String
  isHuman : Bool
  isActive : Bool
  isEliminated : Bool
  stats : PlayerStats
  deriving DecidableEq, Repr

/-- The object that `Unit.getInfo()` returns. -/
structure UnitInfo where
  id : String
  type : UnitType
  x : Int
  y : Int
  owner : Nat
  movesRemaining : Int
  health : Int
  hasAttacked : Bool
  deriving DecidableEq, Repr

/-- The object that `GameMap.export()` returns. -/
structure MapData where
  width : Int
  height : Int
  terrain : List (List String)
  cities : List CityInfo
  deriving DecidableEq, Repr

/-- The object that `Game.export()` returns, for the fields of `Game` that the
embedding holds; `gameMode`, `settings` and `camera` are handed through by
`export` and `import` as they are. -/
structure GameData where
  gameState : String
  currentPlayerIndex : Nat
  turnNumber : Int
  map : MapData
  players : List PlayerInfo
  units : List UnitInfo
  deriving DecidableEq, Repr

/-- `getProductionInfo()`. -/
def City.getProductionInfo (c : City) : ProductionInfo :=
  { currentProduction := c.currentProduction, turnsRemaining := c.productionTurnsRemaining,
    turnsNaN := c.productionTurnsNaN, queue := c.productionQueue,
    availableUnits := c.getAvailableUnits }

/-- `getInfo()` of a city. -/
def City.getInfo (c : City) : CityInfo :=
  { id := c.id, name := c.name, x := c.x, y := c.y, owner := c.owner,
    population := c.population, isCapital := c.isCapital, production := c.getProductionInfo }

/-- `getInfo()` of a player. -/
def Player.getInfo (p : Player) : PlayerInfo :=
  { id := p.id, name := p.name, isHuman := p.isHuman, isActive := p.isActive,
    isEliminated := p.isEliminated, stats := p.stats }

/-- `getInfo()` of a unit. -/
def Unit.getInfo (u : Unit) : UnitInfo :=
  { id := u.id, type := u.type, x := u.x, y := u.y, owner := u.owner,
    movesRemaining := u.movesRemaining, health := u.health, hasAttacked := u.hasAttacked }

/-- `export()` of the map. -/
def GameMap.export (m : GameMap) : MapData :=
  { width := m.width, height := m.height, terrain := m.terrain,
    cities := m.cities.map (fun city => city.getInfo) }

/-- `import(mapData)` of the map `m`; `cityId i` is the random id that
`new City` gives the city at index `i`. The random name of `new City` is
overwritten at once. -/
def GameMap.import (m : GameMap) (mapData : MapData) (cityId : Nat → String) : GameMap :=
  { m with
    width := mapData.width, height := mapData.height, terrain := mapData.terrain,
    cities := mapData.cities.enum.map (fun entry =>
      { (City.new entry.2.x entry.2.y entry.2.owner (cityId entry.1) entry.2.name) with
        population := entry.2.population, isCapital := entry.2.isCapital }) }

/-- `export()` of the game. -/
def Game.export (g : Game) : GameData :=
  { gameState := g.gameState, currentPlayerIndex := g.currentPlayerIndex,
    turnNumber := g.turnNumber, map := g.map.export,
    players := g.players.map (fun player => player.getInfo),
    units := g.units.map (fun unit => unit.getInfo) }

/-- `import(gameData)`: every field of the embedding is assigned, so the game
after does not depend on the game before. `new GameMap(width, height)` draws a
random terrain and cities, which `map.import` overwrites, and an empty
`visibility`, which stays. -/
def Game.import (gameData : GameData) (cityId : Nat → String) : Game :=
  { gameState := gameData.gameState,
    currentPlayerIndex := gameData.currentPlayerIndex,
    turnNumber := gameData.turnNumber,
    map := GameMap.import
      { width := gameData.map.width, height := gameData.map.height, terrain := [],
        cities := [], visibility := [] } gameData.map cityId,
    players := gameData.players.map (fun playerData =>
      { (Player.new playerData.id playerData.name playerData.isHuman) with
        isActive := playerData.isActive, isEliminated := playerData.isEliminated,
        stats := playerData.stats }),
    units := gameData.units.map (fun unitData =>
      { (Unit.new unitData.type unitData.x unitData.y unitData.owner unitData.id) with
        movesRemaining := unitData.movesRemaining, health := unitData.health,
        hasAttacked := unitData.hasAttacked }) }

/-! ## The computer player: `GameAI.processUnitAction` (`src/game/AI.js`) -/

/-- `getNeutralCities()`. -/
def GameMap.getNeutralCities (m : GameMap) : List City :=
  m.cities.filter (fun city => decide (city.owner = none))

/-- An entry `{x, y, type, priority}` of the array `targets` of `findMoveTarget`. -/
structure MoveTarget where
  x : Int
  y : Int
  type : String
  priority : Int
  deriving DecidableEq, Repr

/-- What `processUnitAction` asks of the game: `attackUnit(unit, target)` for the
unit objects at two indices of `units`, or `moveUnit(unit, x, y)`. -/
inductive Command where
  | attack (ai ti : Nat)
  | move (i : Nat) (x y : Int)
  deriving DecidableEq, Repr

namespace GameAI

/-- The cells that the two nested loops of `findEnemyTargets` visit, in order. -/
def scanWindow (unit : Unit) : List Pos :=
  let range : Int := if unit.type = UnitType.fighter then 2 else 1
  (List.range (2 * range + 1).toNat).flatMap (fun dy =>
    (List.range (2 * range + 1).toNat).map (fun dx =>
      ({ x := unit.x - range + dx, y := unit.y - range + dy } : Pos)))

/-- `findEnemyTargets(unit)` for the computer player `playerId`: the array
`enemies`, each unit object given by its index in `units`. -/
def findEnemyTargets (g : Game) (playerId : Nat) (unit : Unit) : List Nat :=
  (scanWindow unit).filterMap (fun p =>
    if GameHelpers.isValidPosition p.x p.y then
      match g.units.findIdx? (fun u => decide (u.x = p.x) && decide (u.y = p.y)) with
      | none => none
      | some j =>
        match g.units[j]? with
        | none => none
        | some enemyUnit => if enemyUnit.owner ≠ playerId then some j else none
    else none)

/-- The array `targets` of `findMoveTarget` before it is sorted. -/
def moveTargets (g : Game) (playerId : Nat) : List MoveTarget :=
  (g.map.getNeutralCities.map
      (fun city => ({ x := city.x, y := city.y, type := "city", priority := 3 } : MoveTarget))) ++
    ((g.map.cities.filter
        (fun city => decide (city.owner ≠ none) && decide (city.owner ≠ some playerId))).map
      (fun city =>
        ({ x := city.x, y := city.y, type := "enemy_city", priority := 2 } : MoveTarget))) ++
    ((g.units.filter (fun u => decide (u.owner ≠ playerId))).map
      (fun u => ({ x := u.x, y := u.y, type := "enemy_unit", priority := 1 } : MoveTarget)))

/-- The comparison function handed to `targets.sort`. -/
def compareTargets (unit : Unit) (a b : MoveTarget) : Int :=
  let distA := GameHelpers.getDistance unit.x unit.y a.x a.y
  let distB := GameHelpers.getDistance unit.x unit.y b.x b.y
  if a.priority ≠ b.priority then b.priority - a.priority
  else distA - distB

/-- `targets.sort(compare)`: `Array.prototype.sort` is stable, and the stable
arrangement by a comparison of this kind is unique; it is computed here by
insertion. -/
def sortTargets (unit : Unit) (targets : List MoveTarget) : List MoveTarget :=
  targets.insertionSort (fun a b => compareTargets unit a b ≤ 0)

/-- The array `directions` of `getNextStepToward`. -/
def directions : List Pos :=
  [{ x := 0, y := -1 }, { x := 1, y := 0 }, { x := 0, y := 1 }, { x := -1, y := 0 }]

/-- One pass of the loop of `getNextStepToward`; the state is `bestMove` and
`bestDistance`, `none` being `null` and `Infinity`. -/
def considerDirection (g : Game) (unit : Unit) (targetX targetY : Int)
    (best : Option Pos × Option Int) (dir : Pos) : Option Pos × Option Int :=
  let newX := unit.x + dir.x
  let newY := unit.y + dir.y
  if unit.canMoveTo newX newY g.map then
    let distance := GameHelpers.getDistance newX newY targetX targetY
    let closer : Bool :=
      match best.2 with
      | none => true
      | some bestDistance => decide (distance < bestDistance)
    if closer then (some { x := newX, y := newY }, some distance) else best
  else best

/-- `getNextStepToward(unit, target)`. -/
def getNextStepToward (g : Game) (unit : Unit) (targetX targetY : Int) : Option Pos :=
  (directions.foldl (considerDirection g unit targetX targetY) (none, none)).1

/-- `findMoveTarget(unit, strategy)`; the argument `strategy` is never read. -/
def findMoveTarget (g : Game) (playerId : Nat) (unit : Unit) : Option Pos :=
  let targets := moveTargets g playerId
  if targets.length = 0 then none
  else
    match (sortTargets unit targets)[0]? with
    | none => none
    | some target => getNextStepToward g unit target.x target.y

/-- The command that `processUnitAction(unit, strategy)` issues for the unit
object at index `i` of `units`, if any. -/
def chooseCommand (g : Game) (playerId : Nat) (i : Nat) : Option Command :=
  match g.units[i]? with
  | none => none
  | some unit =>
    let enemyTargets := findEnemyTargets g playerId unit
    let attackTarget : Option Nat :=
      if enemyTargets.length > 0 && !unit.hasAttacked then
        match enemyTargets[0]? with
        | none => none
        | some ti =>
          match g.units[ti]? with
          | none => none
          | some target => if unit.canAttack target.x target.y then some ti else none
      else none
    match attackTarget with
    | some ti => some (Command.attack i ti)
    | none =>
      if unit.movesRemaining > 0 then
        (findMoveTarget g playerId unit).map (fun moveTarget =>
          Command.move i moveTarget.x moveTarget.y)
      else none

/-- `processUnitAction(unit, strategy)` for the unit object at index `i` of
`units`: the game after. The draws are those of the command issued, in call
order. -/
def processUnitAction (g : Game) (playerId : Nat) (i : Nat) (r1 r2 r3 r4 : ℚ) : Option Game :=
  match chooseCommand g playerId i with
  | none => some g
  | some (Command.attack ai ti) => (g.attackUnit ai ti r1 r2 r3 r4).map (fun r => r.2.1)
  | some (Command.move j x y) => (g.moveUnit j x y r1 r2).map (fun r => r.2)

end GameAI

/-! ## Concrete states used by the closed theorems -/

/-- A map of 5 by 3 tiles, all land, without cities. -/
def plainMap : GameMap :=
  { width := 5, height := 3,
    terrain := List.replicate 3 (List.replicate 5 "land"),
    cities := [], visibility := [] }

/-- A map of 5 by 3 tiles, land except for the city tile (4,0), which holds a
neutral city. -/
def cityMap : GameMap :=
  { width := 5, height := 3,
    terrain := [["land", "land", "land", "land", "city"],
                List.replicate 5 "land", List.replicate 5 "land"],
    cities := [City.new 4 0 none "city_a" "Troy"], visibility := [] }

/-- Two players, a human and a computer player. -/
def twoPlayers : List Player := [Player.new 0 "Player 1" true, Player.new 1 "AI Player" false]

/-- A game on `m` with the given units, in the first player's first turn. -/
def gameOn (m : GameMap) (units : List Unit) : Game :=
  { gameState := "playing", currentPlayerIndex := 0, turnNumber := 1,
    map := m, players := twoPlayers, units := units }

/-- A map of 4 by 3 tiles with a mountain wall: the only land route from (0,0)
to (3,0) runs around it through the bottom row. -/
def mazeMap : GameMap :=
  { width := 4, height := 3,
    terrain := [["land", "mountains", "land", "land"],
                ["land", "mountains", "land", "mountains"],
                ["land", "land", "land", "land"]],
    cities := [], visibility := [] }

/-- The route that `findPath` returns for an army from (0,0) to (3,0) on `mazeMap`. -/
def mazeRoute : List Pos :=
  [{ x := 0, y := 0 }, { x := 0, y := 1 }, { x := 0, y := 2 }, { x := 1, y := 2 },
   { x := 2, y := 2 }, { x := 2, y := 1 }, { x := 2, y := 0 }, { x := 3, y := 0 }]

/-- A map of 3 by 3 tiles, land except for the city tile (0,0); the city
belongs to player 0 and is one turn away from finishing an army. -/
def cornerCityMap : GameMap :=
  { width := 3, height := 3,
    terrain := [["city", "land", "land"], List.replicate 3 "land", List.replicate 3 "land"],
    cities := [{ (City.new 0 0 (some 0) "city_a" "Troy") with
                 currentProduction := some "army", productionTurnsRemaining := 1 }],
    visibility := [] }

/-- A game on `cornerCityMap` without units. -/
def openGame : Game := gameOn cornerCityMap []

/-- A game on `cornerCityMap` in which armies of player 0 stand on both
neighbours of the city, (1,0) and (0,1). -/
def crowdedGame : Game :=
  gameOn cornerCityMap [Unit.new .army 1 0 0 "u1", Unit.new .army 0 1 0 "u2"]

/-- The game that `processCityProduction` makes of `openGame` for player 0 when
the new unit gets the id "u3": the army stands on (1,0) without moves, the
player's counters are raised, and the city has started the next army. -/
def openGameAfter : Game :=
  { openGame with
    units := [{ (Unit.new .army 1 0 0 "u3") with movesRemaining := 0 }],
    players :=
      [{ (Player.new 0 "Player 1" true) with
         stats := { unitsCreated := 1, unitsLost := 0, enemiesDestroyed := 0,
                    citiesCaptured := 0, turnsPlayed := 0, battlesWon := 0, battlesLost := 0 },
         unitsCreatedThisTurn := 1 },
       Player.new 1 "AI Player" false],
    map := { cornerCityMap with
             cities := [{ (City.new 0 0 (some 0) "city_a" "Troy") with
                          currentProduction := some "army", productionTurnsRemaining := 6 }] } }

/-- A route of five tiles on `plainMap`, from (1,0) along the top row to (4,0)
and down to (4,1). -/
def convoyPath : List Pos :=
  [{ x := 1, y := 0 }, { x := 2, y := 0 }, { x := 3, y := 0 }, { x := 4, y := 0 },
   { x := 4, y := 1 }]

/-- A tank of player 0 at (0,0) with its two moves, following `convoyPath`. -/
def convoyTank : Unit :=
  { (Unit.new .tank 0 0 0 "t1") with movementPath := convoyPath, isMovingAlongPath := true }

/-- The unit part of a turn start of player 0: every unit is reset by
`startNewTurn`, then `processUnitPathMovements(0)` runs. -/
def convoyTurn (g : Game) : Game :=
  Game.processUnitPathMovements { g with units := g.units.map (fun u => u.startNewTurn) } 0

/-- A game on `cornerCityMap` in which player 0 holds the city and player 1
an army at (2,0). -/
def duelGame : Game := gameOn cornerCityMap [Unit.new .army 2 0 1 "u1"]

/-- A game on `plainMap` in which player 0 has the tank `convoyTank`, which
follows its path with both moves left, and an idle army at (2,2) with its move
left and free land around it. -/
def escortGame : Game := gameOn plainMap [convoyTank, Unit.new .army 2 2 0 "u2"]

/-- A map of 52 by 3 tiles, all land, without cities: wider than the 50 columns
of `GAME_CONSTANTS.MAP_WIDTH`. -/
def wideMap : GameMap :=
  { width := 52, height := 3,
    terrain := List.replicate 3 (List.replicate 52 "land"),
    cities := [], visibility := [] }

/-- A game in mid-play: the capital of player 0 at (0,0) is building an army,
has a tank queued and has been attacked three times; the tank `convoyTank`
follows its path; player 1 is a hard, aggressive computer player. -/
def savedGame : Game :=
  { gameState := "playing", currentPlayerIndex := 0, turnNumber := 7,
    map := { cornerCityMap with
      cities := [{ (City.new 0 0 (some 0) "city_a" "Troy") with
        currentProduction := some "army", productionTurnsRemaining := 1,
        productionQueue := ["tank"], isCapital := true, currentDefense := 12 }] },
    players := [Player.new 0 "Player 1" true,
      { (Player.new 1 "AI Player" false) with aiDifficulty := "hard",
                                               aiStrategy := "aggressive" }],
    units := [convoyTank] }

/-- A map of 3 by 3 tiles, land except for the city tile (2,0) on the right
edge; the city belongs to player 0 and is one turn away from finishing an army. -/
def edgeCityMap : GameMap :=
  { width := 3, height := 3,
    terrain := [["land", "land", "city"], List.replicate 3 "land", List.replicate 3 "land"],
    cities := [{ (City.new 2 0 (some 0) "city_a" "Troy") with
                 currentProduction := some "army", productionTurnsRemaining := 1 }],
    visibility := [] }

/-- The map `cornerCityMap` with the city one turn away from finishing a
destroyer instead of an army. -/
def shipyardMap : GameMap :=
  { cornerCityMap with
    cities := [{ (City.new 0 0 (some 0) "city_a" "Troy") with
                 currentProduction := some "destroyer", productionTurnsRemaining := 1 }] }

/-- A game on `plainMap` with an army of player 0 at (0,0) next to an army of
player 1 at (1,0). -/
def skirmishGame : Game :=
  gameOn plainMap [Unit.new .army 0 0 0 "u1", Unit.new .army 1 0 1 "u2"]

/-- The map `cityMap` with the defence of its neutral city worn down to 1. -/
def wornCityMap : GameMap :=
  { cityMap with
    cities := [{ (City.new 4 0 none "city_a" "Troy") with currentDefense := 1 }] }

/-- A map of 5 by 3 tiles, land except for the city tile (1,0), which holds a
city of player 1. -/
def garrisonMap : GameMap :=
  { width := 5, height := 3,
    terrain := [["land", "city", "land", "land", "land"],
                List.replicate 5 "land", List.replicate 5 "land"],
    cities := [City.new 1 0 (some 1) "city_a" "Troy"], visibility := [] }

/-- A game on `garrisonMap`: an army of player 0 at (0,0) next to an army of
player 1 that stands in its city at (1,0). -/
def garrisonGame : Game :=
  gameOn garrisonMap [Unit.new .army 0 0 0 "u1", Unit.new .army 1 0 1 "u2"]

/-- A map of 3 by 3 tiles, land except for two city tiles: the city at (0,0)
belongs to player 0 and is one turn away from finishing an army, the city at
(2,0) is neutral. -/
def frontierMap : GameMap :=
  { width := 3, height := 3,
    terrain := [["city", "land", "city"], List.replicate 3 "land", List.replicate 3 "land"],
    cities := [{ (City.new 0 0 (some 0) "city_a" "Troy") with
                 currentProduction := some "army", productionTurnsRemaining := 1 },
               City.new 2 0 none "city_b" "Ur"],
    visibility := [] }

/-- A game on `frontierMap` in which player 1 has an army at (1,1). -/
def frontierGame : Game := gameOn frontierMap [Unit.new .army 1 1 1 "u1"]

/-- A game on `plainMap` seen from the computer player 1: its army stands at
(1,1); armies of player 0 stand diagonally at (0,0) and next to it at (1,0). -/
def ambushGame : Game :=
  gameOn plainMap [Unit.new .army 1 1 1 "u1", Unit.new .army 0 0 0 "u2",
    Unit.new .army 1 0 0 "u3"]

/-- A corridor of 1001 land tiles in one row. -/
def corridorMap : GameMap :=
  { width := 1001, height := 1, terrain := [List.replicate 1001 "land"],
    cities := [], visibility := [] }

/-- The walk along `corridorMap` from (0,0) to (1000,0): 1001 tiles, 1000 steps. -/
def corridorRoute : List Pos :=
  (List.range 1001).map (fun (i : Nat) => ({ x := (i : Int), y := 0 } : Pos))

/-! ## Predicates used by the statements about `findPath` -/

/-- Two tiles are 4-directionally adjacent: their Manhattan distance is 1. -/
def Adjacent (a b : Pos) : Prop := GameHelpers.getDistance a.x a.y b.x b.y = 1

instance (a b : Pos) : Decidable (Adjacent a b) := by
  unfold Adjacent
  exact inferInstance

/-- Both tiles have a score under `g`, and the first one's is smaller. -/
def ScoreBelow (g : Pos → Option Int) (a b : Pos) : Prop :=
  ∃ ga gb, g a = some ga ∧ g b = some gb ∧ ga < gb

/-- Invariant of the loop of `findPath`, for the search that began at `start`:
every `cameFrom` entry points from a tile the unit may enter to an adjacent,
already closed tile whose `gScore` is one less; every tile in the open or the
closed set other than `start` has a `cameFrom` entry and a `gScore`; scores lie
between 0 and the iteration counter; `start` has no `cameFrom` entry and is
closed from the first iteration on; the closed set has at most `iterations`
members. -/
structure SearchInv (u : Unit) (m : GameMap) (start : Pos) (st : AStar) : Prop where
  came : ∀ n c, st.cameFrom n = some c →
    c ∈ st.closedSet ∧ Adjacent c n ∧ u.canMoveTo n.x n.y m = true ∧
      ∃ gc, st.gScore c = some gc ∧ st.gScore n = some (gc + 1)
  reached : ∀ n, n ∈ st.openSet ∨ n ∈ st.closedSet →
    (n = start ∨ ∃ c, st.cameFrom n = some c) ∧ ∃ v, st.gScore n = some v
  gbound : ∀ n v, st.gScore n = some v → 0 ≤ v ∧ v ≤ (st.iterations : Int)
  startRoot : st.cameFrom start = none
  startClosed : start ∈ st.closedSet ∨ st.openSet = [start]
  closedLen : st.closedSet.length ≤ st.iterations

/-- The city object after one pass of the `forEach` body of
`processCityProduction`: `processProduction`, then the automatic start. -/
def City.afterProductionTurn (c : City) (id : String) : City :=
  if !(c.processProduction id).2.isProducing then
    ((c.processProduction id).2.startProduction UnitType.army.name).2
  else (c.processProduction id).2

/-- The number of leading tiles of `path` that the unit may enter: in the
bounds of the map and of a terrain open to its type. -/
def Unit.enterablePrefix (u : Unit) (gameMap : GameMap) (path : List Pos) : Nat :=
  (path.takeWhile (fun p => u.canMoveTo p.x p.y gameMap)).length

/-- The number of steps that the claim about `moveAlongPath` names `s`: the
smaller of the moves remaining and the number of leading enterable tiles. -/
def Unit.pathSteps (u : Unit) (gameMap : GameMap) : Nat :=
  min u.movesRemaining.toNat (u.enterablePrefix gameMap u.movementPath)

/-- The data-model invariant of a unit: `0 ≤ movesRemaining ≤ maxMoves`. -/
def Unit.MovesInv (u : Unit) : Prop := 0 ≤ u.movesRemaining ∧ u.movesRemaining ≤ u.maxMoves

/-- What elimination is about: a player's id, `isActive` and `isEliminated`. -/
def Player.standing (p : Player) : Nat × Bool × Bool := (p.id, p.isActive, p.isEliminated)

/-- The tile that `getNextStepToward` computes for a direction: `{x: unit.x +
dir.x, y: unit.y + dir.y}`. -/
def GameAI.stepTo (unit : Unit) (dir : Pos) : Pos :=
  { x := unit.x + dir.x, y := unit.y + dir.y }

/-- The four tiles that `getNextStepToward` considers, in its order: up, right,
down, left. -/
def GameAI.neighbours (unit : Unit) : List Pos :=
  GameAI.directions.map (GameAI.stepTo unit)

/-- State of the search along `corridorMap` after `k` passes of the loop: the
open set holds the tile (k,0) alone, and the closed tiles are those before it. -/
def CorridorInv (k : Nat) (st : AStar) : Prop :=
  st.openSet = [{ x := (k : Int), y := 0 }] ∧ st.iterations = k ∧
  (∀ p ∈ st.closedSet, ∃ j : Nat, j < k ∧ p = { x := (j : Int), y := 0 }) ∧
  (1 ≤ k → ({ x := (k : Int) - 1, y := 0 } : Pos) ∈ st.closedSet)

/-- A walk of `k` steps from `start` to a tile: every step goes to a
4-directionally adjacent tile that the unit may enter (inside the map, of a
terrain open to its type). The start tile itself is not tested. -/
inductive Walk (u : Unit) (m : GameMap) (start : Pos) : Pos → Nat → Prop where
  | nil : Walk u m start start 0
  | step (n n' : Pos) (k : Nat) : Walk u m start n k → Adjacent n n' →
      u.canMoveTo n'.x n'.y m = true → Walk u m start n' (k + 1)

/-- Second invariant of the loop of `findPath`, the one behind the optimality
of A* with the Manhattan heuristic. `cur` is the tile being expanded (`none`
between two passes of the loop) and `done` lists its neighbours already
handled. The start has score 0; every enterable neighbour of a closed tile is
open or closed with a score at most one more (for `cur`, once the neighbour is
handled); the score of a closed tile is at most the length of any walk to it;
every score is the length of some walk; `fScore` is `gScore` plus the
heuristic on the open set; the open set repeats no tile and shares none with
the closed set. -/
structure OptInv (u : Unit) (m : GameMap) (start : Pos) (tx ty : Int) (cur : Option Pos)
    (done : List Pos) (st : AStar) : Prop where
  gstart : st.gScore start = some 0
  nbr : ∀ n n', n ∈ st.closedSet → Adjacent n n' → u.canMoveTo n'.x n'.y m = true →
    (some n ≠ cur ∨ n' ∈ done) →
    (n' ∈ st.openSet ∨ n' ∈ st.closedSet) ∧
      ∃ gn gn', st.gScore n = some gn ∧ st.gScore n' = some gn' ∧ gn' ≤ gn + 1
  closedOpt : ∀ n k, n ∈ st.closedSet → Walk u m start n k →
    ∃ gn, st.gScore n = some gn ∧ gn ≤ (k : Int)
  sound : ∀ n, n ∈ st.openSet ∨ n ∈ st.closedSet →
    ∃ k : Nat, st.gScore n = some (k : Int) ∧ Walk u m start n k
  fscore : ∀ n ∈ st.openSet,
    st.fScore n = (st.gScore n).map (fun s => s + Unit.heuristic n.x n.y tx ty)
  disjoint : ∀ n ∈ st.openSet, n ∉ st.closedSet
  nodup : st.openSet.Nodup

/-- A value of `Math.random()` as the engines produce it: a multiple of
2^-53 in [0,1). -/
def GameHelpers.IsDraw (r : ℚ) : Prop := ∃ k : Nat, k < 2 ^ 53 ∧ r = (k : ℚ) / 2 ^ 53

/-! ## Theorems -/

/-! ### The double-precision product -/

theorem pow2_eq_zpow (k : Int) : Double.pow2 k = (2 : ℚ) ^ k := by
  unfold Double.pow2
  by_cases hk : 0 ≤ k
  · rw [if_pos hk]
    obtain ⟨n, rfl⟩ := Int.eq_ofNat_of_zero_le hk
    simp
  · rw [if_neg hk]
    obtain ⟨n, hn⟩ := Int.exists_eq_neg_ofNat (le_of_lt (not_le.mp hk))
    subst hn
    simp

theorem pow2_pos (k : Int) : 0 < Double.pow2 k := by
  rw [pow2_eq_zpow]
  positivity

theorem log2_spec : ∀ (fuel n : Nat), n ≤ fuel → 1 ≤ n →
    2 ^ Double.log2 fuel n ≤ n ∧ n < 2 ^ (Double.log2 fuel n + 1) := by
  intro fuel
  induction fuel with
  | zero =>
    intro n h1 h2
    omega
  | succ fuel ih =>
    intro n h1 h2
    unfold Double.log2
    by_cases h : 2 ≤ n
    · rw [if_pos h]
      obtain ⟨ih1, ih2⟩ := ih (n / 2) (by omega) (by omega)
      rw [pow_succ] at ih2 ⊢
      rw [pow_succ]
      constructor <;> omega
    · rw [if_neg h]
      constructor <;> simp <;> omega

theorem binade_spec (q : ℚ) (hq : q ≠ 0) :
    (2 : ℚ) ^ Double.binade q ≤ |q| ∧ |q| < (2 : ℚ) ^ (Double.binade q + 1) := by
  have ha : 1 ≤ q.num.natAbs := by
    have : q.num ≠ 0 := Rat.num_ne_zero.mpr hq
    omega
  have hb : 1 ≤ q.den := q.pos
  obtain ⟨ha1, ha2⟩ := log2_spec q.num.natAbs q.num.natAbs (le_refl _) ha
  obtain ⟨hb1, hb2⟩ := log2_spec q.den q.den (le_refl _) hb
  have habs : |q| = (q.num.natAbs : ℚ) / (q.den : ℚ) := by
    conv_lhs => rw [← Rat.num_div_den q]
    rw [abs_div, Nat.abs_cast]
    congr 1
    rw [Nat.cast_natAbs, Int.cast_abs]
  have hbpos : (0 : ℚ) < (q.den : ℚ) := by exact_mod_cast hb
  have ha1' : (2 : ℚ) ^ (Double.log2 q.num.natAbs q.num.natAbs) ≤ (q.num.natAbs : ℚ) := by
    exact_mod_cast ha1
  have ha2' : (q.num.natAbs : ℚ) < (2 : ℚ) ^ (Double.log2 q.num.natAbs q.num.natAbs + 1) := by
    exact_mod_cast ha2
  have hb1' : (2 : ℚ) ^ (Double.log2 q.den q.den) ≤ (q.den : ℚ) := by
    exact_mod_cast hb1
  have hb2' : (q.den : ℚ) < (2 : ℚ) ^ (Double.log2 q.den q.den + 1) := by
    exact_mod_cast hb2
  unfold Double.binade
  simp only
  rw [pow2_eq_zpow]
  generalize Double.log2 q.num.natAbs q.num.natAbs = la at ha1' ha2' ⊢
  generalize Double.log2 q.den q.den = lb at hb1' hb2' ⊢
  have h2 : (2 : ℚ) ≠ 0 := by norm_num
  -- upper bound: |q| < 2 ^ (la - lb + 1)
  have hupper : |q| < (2 : ℚ) ^ ((la : Int) - (lb : Int) + 1) := by
    rw [habs, div_lt_iff₀ hbpos]
    have : (2 : ℚ) ^ ((la : Int) - (lb : Int) + 1) * (2 : ℚ) ^ lb = (2 : ℚ) ^ (la + 1) := by
      rw [← zpow_natCast (2 : ℚ) lb, ← zpow_add₀ h2, ← zpow_natCast (2 : ℚ) (la + 1)]
      congr 1
      push_cast
      ring
    calc (q.num.natAbs : ℚ) < (2 : ℚ) ^ (la + 1) := ha2'
      _ = (2 : ℚ) ^ ((la : Int) - (lb : Int) + 1) * (2 : ℚ) ^ lb := this.symm
      _ ≤ (2 : ℚ) ^ ((la : Int) - (lb : Int) + 1) * (q.den : ℚ) :=
          mul_le_mul_of_nonneg_left hb1' (by positivity)
  -- lower bound: 2 ^ (la - lb - 1) ≤ |q|
  have hlower : (2 : ℚ) ^ ((la : Int) - (lb : Int) - 1) ≤ |q| := by
    rw [habs, le_div_iff₀ hbpos]
    have : (2 : ℚ) ^ ((la : Int) - (lb : Int) - 1) * (2 : ℚ) ^ (lb + 1) = (2 : ℚ) ^ la := by
      rw [← zpow_natCast (2 : ℚ) (lb + 1), ← zpow_add₀ h2, ← zpow_natCast (2 : ℚ) la]
      congr 1
      push_cast
      ring
    calc (2 : ℚ) ^ ((la : Int) - (lb : Int) - 1) * (q.den : ℚ)
        ≤ (2 : ℚ) ^ ((la : Int) - (lb : Int) - 1) * (2 : ℚ) ^ (lb + 1) :=
          mul_le_mul_of_nonneg_left (le_of_lt hb2') (by positivity)
      _ = (2 : ℚ) ^ la := this
      _ ≤ (q.num.natAbs : ℚ) := ha1'
  by_cases hc : (2 : ℚ) ^ ((la : Int) - (lb : Int)) ≤ |q|
  · rw [if_pos hc]
    exact ⟨hc, hupper⟩
  · rw [if_neg hc]
    refine ⟨hlower, ?_⟩
    have : (la : Int) - (lb : Int) - 1 + 1 = (la : Int) - (lb : Int) := by ring
    rw [this]
    exact not_le.mp hc

theorem roundHalfEven_intCast (m : Int) : Double.roundHalfEven (m : ℚ) = m := by
  unfold Double.roundHalfEven
  rw [Int.floor_intCast]
  simp

theorem roundHalfEven_le (x : ℚ) (M : Int) (h : x ≤ (M : ℚ)) : Double.roundHalfEven x ≤ M := by
  have hfl : ⌊x⌋ ≤ M := by
    have h1 : ((⌊x⌋ : Int) : ℚ) ≤ (M : ℚ) := le_trans (Int.floor_le x) h
    exact_mod_cast h1
  have hup : 0 < x - (⌊x⌋ : ℚ) → ⌊x⌋ + 1 ≤ M := by
    intro hpos
    have h1 : ((⌊x⌋ : Int) : ℚ) < (M : ℚ) := by linarith
    have h2 : ⌊x⌋ < M := by exact_mod_cast h1
    omega
  unfold Double.roundHalfEven
  split
  · exact hfl
  · rename_i h1
    split
    · exact hup (by linarith)
    · split
      · exact hfl
      · exact hup (by linarith)

theorem le_roundHalfEven (x : ℚ) (M : Int) (h : (M : ℚ) ≤ x) : M ≤ Double.roundHalfEven x := by
  have hfl : M ≤ ⌊x⌋ := Int.le_floor.mpr h
  unfold Double.roundHalfEven
  split
  · exact hfl
  · split
    · omega
    · split
      · exact hfl
      · omega

theorem ulp_eq_zpow (q : ℚ) :
    Double.ulp q = (2 : ℚ) ^ (max (Double.binade q) (-1022) - 52) := by
  unfold Double.ulp
  rw [pow2_eq_zpow]

theorem ulp_pos (q : ℚ) : 0 < Double.ulp q := by
  rw [ulp_eq_zpow]
  positivity

theorem round_zero : Double.round 0 = 0 := by
  unfold Double.round
  rw [zero_div]
  have : Double.roundHalfEven 0 = 0 := by
    have := roundHalfEven_intCast 0
    simpa using this
  rw [this]
  simp

theorem round_nonneg (q : ℚ) (h : 0 ≤ q) : 0 ≤ Double.round q := by
  unfold Double.round
  have h1 : (0 : Int) ≤ Double.roundHalfEven (q / Double.ulp q) :=
    le_roundHalfEven _ 0 (by
      simp only [Int.cast_zero]
      exact div_nonneg h (le_of_lt (ulp_pos q)))
  have h2 : (0 : ℚ) ≤ (Double.roundHalfEven (q / Double.ulp q) : ℚ) := by exact_mod_cast h1
  exact mul_nonneg h2 (le_of_lt (ulp_pos q))

theorem binade_lt_of_lt (q : ℚ) (hq : 0 < q) (n : Int) (h : q < (2 : ℚ) ^ n) :
    Double.binade q < n := by
  have hb := (binade_spec q (ne_of_gt hq)).1
  rw [abs_of_pos hq] at hb
  have : (2 : ℚ) ^ Double.binade q < (2 : ℚ) ^ n := lt_of_le_of_lt hb h
  exact (zpow_lt_zpow_iff_right₀ (by norm_num : (1 : ℚ) < 2)).mp this

theorem le_binade_of_le (q : ℚ) (hq : 0 < q) (n : Int) (h : (2 : ℚ) ^ n ≤ q) :
    n ≤ Double.binade q := by
  have hb := (binade_spec q (ne_of_gt hq)).2
  rw [abs_of_pos hq] at hb
  have : (2 : ℚ) ^ n < (2 : ℚ) ^ (Double.binade q + 1) := lt_of_le_of_lt h hb
  have := (zpow_lt_zpow_iff_right₀ (by norm_num : (1 : ℚ) < 2)).mp this
  omega

/-- A natural number below `2 ^ 53` is a whole multiple of the spacing around
any positive `q` below `2 ^ 53`. -/
theorem nat_div_ulp (q : ℚ) (hq : 0 < q) (hbig : q < (2 : ℚ) ^ (53 : Int)) (N : Nat) :
    ∃ M : Int, (M : ℚ) = (N : ℚ) / Double.ulp q := by
  have he : Double.binade q < 53 := binade_lt_of_lt q hq 53 hbig
  have hk : max (Double.binade q) (-1022) - 52 ≤ 0 := by omega
  obtain ⟨j, hj⟩ := Int.exists_eq_neg_ofNat hk
  refine ⟨(N : Int) * 2 ^ j, ?_⟩
  rw [ulp_eq_zpow, hj]
  push_cast
  rw [zpow_neg, zpow_natCast]
  field_simp

theorem round_le_nat (q : ℚ) (N : Nat) (h0 : 0 ≤ q) (hN : q ≤ (N : ℚ))
    (hbig : (N : ℚ) < (2 : ℚ) ^ (53 : Int)) : Double.round q ≤ (N : ℚ) := by
  rcases eq_or_lt_of_le h0 with h | h
  · rw [← h, round_zero]
    exact Nat.cast_nonneg N
  · obtain ⟨M, hM⟩ := nat_div_ulp q h (lt_of_le_of_lt hN hbig) N
    unfold Double.round
    have h1 : Double.roundHalfEven (q / Double.ulp q) ≤ M :=
      roundHalfEven_le _ M (by
        rw [hM]
        exact div_le_div_of_nonneg_right hN (le_of_lt (ulp_pos q)))
    have h2 : (Double.roundHalfEven (q / Double.ulp q) : ℚ) ≤ (M : ℚ) := by exact_mod_cast h1
    calc (Double.roundHalfEven (q / Double.ulp q) : ℚ) * Double.ulp q
        ≤ (M : ℚ) * Double.ulp q := mul_le_mul_of_nonneg_right h2 (le_of_lt (ulp_pos q))
      _ = (N : ℚ) := by
          rw [hM]
          exact div_mul_cancel₀ _ (ne_of_gt (ulp_pos q))

theorem nat_le_round (q : ℚ) (N : Nat) (hN : (N : ℚ) ≤ q)
    (hbig : q < (2 : ℚ) ^ (53 : Int)) : (N : ℚ) ≤ Double.round q := by
  have h0 : (0 : ℚ) ≤ q := le_trans (Nat.cast_nonneg N) hN
  rcases eq_or_lt_of_le h0 with h | h
  · rw [← h, round_zero]
    rw [← h] at hN
    exact hN
  · obtain ⟨M, hM⟩ := nat_div_ulp q h hbig N
    unfold Double.round
    have h1 : M ≤ Double.roundHalfEven (q / Double.ulp q) :=
      le_roundHalfEven _ M (by
        rw [hM]
        exact div_le_div_of_nonneg_right hN (le_of_lt (ulp_pos q)))
    have h2 : (M : ℚ) ≤ (Double.roundHalfEven (q / Double.ulp q) : ℚ) := by exact_mod_cast h1
    calc (N : ℚ) = (M : ℚ) * Double.ulp q := by
          rw [hM]
          exact (div_mul_cancel₀ _ (ne_of_gt (ulp_pos q))).symm
      _ ≤ (Double.roundHalfEven (q / Double.ulp q) : ℚ) * Double.ulp q :=
          mul_le_mul_of_nonneg_right h2 (le_of_lt (ulp_pos q))

/-- A multiple of `2 ^ -53` below 1 is a double: rounding leaves it as it is. -/
theorem round_exact (n : Nat) (hn : n < 2 ^ 53) :
    Double.round ((n : ℚ) / 2 ^ 53) = (n : ℚ) / 2 ^ 53 := by
  rcases Nat.eq_zero_or_pos n with h | h
  · subst h
    simp [round_zero]
  · have hpos : (0 : ℚ) < (n : ℚ) / 2 ^ 53 := by positivity
    have hlt1 : (n : ℚ) / 2 ^ 53 < (2 : ℚ) ^ (0 : Int) := by
      rw [zpow_zero, div_lt_one (by positivity)]
      exact_mod_cast hn
    have hge : (2 : ℚ) ^ (-53 : Int) ≤ (n : ℚ) / 2 ^ 53 := by
      rw [zpow_neg, ← one_div]
      have h1 : (1 : ℚ) ≤ (n : ℚ) := by exact_mod_cast h
      have h2 : ((2 : ℚ) ^ (53 : Int)) = (2 : ℚ) ^ 53 := by norm_cast
      rw [h2]
      exact div_le_div_of_nonneg_right h1 (by positivity)
    have he1 := binade_lt_of_lt _ hpos 0 hlt1
    have he2 := le_binade_of_le _ hpos (-53) hge
    have hmax : max (Double.binade ((n : ℚ) / 2 ^ 53)) (-1022) =
        Double.binade ((n : ℚ) / 2 ^ 53) := max_eq_left (by omega)
    have hk : 0 ≤ -1 - Double.binade ((n : ℚ) / 2 ^ 53) := by omega
    obtain ⟨j, hj⟩ := Int.eq_ofNat_of_zero_le hk
    have hulp : Double.ulp ((n : ℚ) / 2 ^ 53) =
        (2 : ℚ) ^ (Double.binade ((n : ℚ) / 2 ^ 53) - 52) := by
      rw [ulp_eq_zpow, hmax]
    have he : Double.binade ((n : ℚ) / 2 ^ 53) = -1 - (j : Int) := by omega
    have hdiv : (n : ℚ) / 2 ^ 53 / Double.ulp ((n : ℚ) / 2 ^ 53) =
        (((n : Int) * 2 ^ j : Int) : ℚ) := by
      rw [hulp, he]
      have h3 : (-1 - (j : Int) - 52) = -((53 : Nat) + (j : Nat) : Nat) := by
        push_cast
        ring
      rw [h3, zpow_neg, zpow_natCast, pow_add]
      push_cast
      field_simp
      ring
    unfold Double.round
    rw [hdiv, roundHalfEven_intCast, ← hdiv]
    exact div_mul_cancel₀ _ (ne_of_gt (ulp_pos _))


/-- C7: `canUnitMoveTo(type, terrain)` is true exactly for a land unit on
land or city, a sea unit on ocean, or a fighter anywhere; it is false for every
string that is not one of the eight unit types, and only the fighter may enter
mountains. -/
theorem canUnitMoveTo_table (unitType terrainType : String) :
    (GameHelpers.canUnitMoveTo unitType terrainType = true ↔
      ((unitType = "army" ∨ unitType = "tank") ∧
          (terrainType = "land" ∨ terrainType = "city")) ∨
      ((unitType = "destroyer" ∨ unitType = "submarine" ∨ unitType = "cruiser" ∨
          unitType = "battleship" ∨ unitType = "carrier") ∧ terrainType = "ocean") ∨
      unitType = "fighter") ∧
    ((∀ t : UnitType, unitType ≠ t.name) →
      GameHelpers.canUnitMoveTo unitType terrainType = false) ∧
    (GameHelpers.canUnitMoveTo unitType GAME_CONSTANTS.TERRAIN.MOUNTAINS = true →
      unitType = "fighter") := by
  simp only [GameHelpers.canUnitMoveTo, GameHelpers.landUnits, GameHelpers.seaUnits,
    GameHelpers.airUnits, UnitType.name, GAME_CONSTANTS.TERRAIN.LAND, GAME_CONSTANTS.TERRAIN.CITY,
    GAME_CONSTANTS.TERRAIN.OCEAN, GAME_CONSTANTS.TERRAIN.MOUNTAINS]
  refine ⟨?_, ?_, ?_⟩
  · by_cases h1 : unitType = "army"
    · subst h1; simp
    by_cases h2 : unitType = "tank"
    · subst h2; simp
    by_cases h3 : unitType = "destroyer"
    · subst h3; simp
    by_cases h4 : unitType = "submarine"
    · subst h4; simp
    by_cases h5 : unitType = "cruiser"
    · subst h5; simp
    by_cases h6 : unitType = "battleship"
    · subst h6; simp
    by_cases h7 : unitType = "carrier"
    · subst h7; simp
    by_cases h8 : unitType = "fighter"
    · subst h8; simp
    simp [h1, h2, h3, h4, h5, h6, h7, h8]
  · intro h
    have h1 := h .army
    have h2 := h .tank
    have h3 := h .destroyer
    have h4 := h .submarine
    have h5 := h .cruiser
    have h6 := h .battleship
    have h7 := h .carrier
    have h8 := h .fighter
    simp only [UnitType.name] at h1 h2 h3 h4 h5 h6 h7 h8
    simp [h1, h2, h3, h4, h5, h6, h7, h8]
  · by_cases h1 : unitType = "army"
    · subst h1; simp
    by_cases h2 : unitType = "tank"
    · subst h2; simp
    by_cases h3 : unitType = "destroyer"
    · subst h3; simp
    by_cases h4 : unitType = "submarine"
    · subst h4; simp
    by_cases h5 : unitType = "cruiser"
    · subst h5; simp
    by_cases h6 : unitType = "battleship"
    · subst h6; simp
    by_cases h7 : unitType = "carrier"
    · subst h7; simp
    by_cases h8 : unitType = "fighter"
    · subst h8; simp
    simp [h1, h2, h3, h4, h5, h6, h7, h8]


/-! ### Frame lemmas for the commands -/

theorem setVisibility_cities (m : GameMap) (p : Nat) (grid : List (List Bool)) :
    (m.setVisibility p grid).cities = m.cities := by
  unfold GameMap.setVisibility
  split <;> rfl

theorem updateVisibility_frame {g g' : Game} {o : Nat} (h : g.updateVisibility o = some g') :
    g'.units = g.units ∧ g'.players = g.players ∧ g'.map.cities = g.map.cities := by
  unfold Game.updateVisibility at h
  rw [Option.map_eq_some'] at h
  obtain ⟨m, hm, rfl⟩ := h
  refine ⟨rfl, rfl, ?_⟩
  unfold GameMap.updateVisibility at hm
  simp only [Option.map_eq_some'] at hm
  obtain ⟨grid, _, rfl⟩ := hm
  exact setVisibility_cities _ _ _

theorem captureCity_true_units {g g1 : Game} {unit : Unit} {ci : Nat} {r1 r2 : ℚ}
    (h : g.captureCity unit ci r1 r2 = some (true, g1)) : g1.units = g.units := by
  unfold Game.captureCity at h
  split at h
  · cases h
  · simp only at h
    split at h
    · split at h
      · cases h
      · split at h
        · cases h; rfl
        · cases h; rfl
    · cases h

theorem captureCity_false_eq {g g1 : Game} {unit : Unit} {ci : Nat} {r1 r2 : ℚ}
    (h : g.captureCity unit ci r1 r2 = some (false, g1)) :
    ∃ city, g.map.cities[ci]? = some city ∧
      g1 = (g.setCity ci city.degradeDefense).removeUnit unit := by
  unfold Game.captureCity at h
  split at h
  · cases h
  · rename_i city hc
    simp only at h
    split at h
    · split at h
      · cases h
      · split at h
        · cases h
        · cases h
    · cases h
      exact ⟨city, hc, rfl⟩

theorem removeUnit_frame (g : Game) (unit : Unit) :
    (g.removeUnit unit).players = g.players ∧ (g.removeUnit unit).map = g.map := by
  unfold Game.removeUnit
  split <;> exact ⟨rfl, rfl⟩

theorem map_set_of_eq {α β : Type} (f : α → β) (l : List α) (i : Nat) (a b : α)
    (hl : l[i]? = some a) (hf : f b = f a) : (l.set i b).map f = l.map f := by
  apply List.ext_getElem?
  intro j
  simp only [List.getElem?_map, List.getElem?_set]
  by_cases hij : i = j
  · subst hij
    have hlt : i < l.length := by
      rcases Nat.lt_or_ge i l.length with h | h
      · exact h
      · rw [List.getElem?_eq_none h] at hl; cases hl
    simp [hlt, hl, hf]
  · simp [hij]

theorem degradeDefense_frame (c : City) :
    (c.degradeDefense.owner, c.degradeDefense.currentProduction,
      c.degradeDefense.productionTurnsRemaining, c.degradeDefense.productionQueue) =
    (c.owner, c.currentProduction, c.productionTurnsRemaining, c.productionQueue) := by
  unfold City.degradeDefense
  split <;> rfl

/-- C1 (amended): `moveUnit` returns true only if `canMoveTo` is true for the
same unit, destination and map; the converse fails. When the destination holds
no city of another owner, a call that returns does so with true exactly when
`canMoveTo` is true and the Manhattan distance is within `movesRemaining`. -/
theorem moveUnit_true_iff (g g' : Game) (i : Nat) (x y : Int) (r1 r2 : ℚ) (unit : Unit)
    (b : Bool) (hu : g.units[i]? = some unit)
    (hret : g.moveUnit i x y r1 r2 = some (b, g')) :
    (b = true → unit.canMoveTo x y g.map = true) ∧
    (g.cityToCapture unit x y = none →
      (b = true ↔ unit.canMoveTo x y g.map = true ∧
        GameHelpers.getDistance unit.x unit.y x y ≤ unit.movesRemaining)) := by
  unfold Game.moveUnit at hret
  rw [hu] at hret
  simp only at hret
  by_cases hc : unit.canMoveTo x y g.map = true
  · refine ⟨fun _ => hc, ?_⟩
    intro hno
    rw [hno] at hret
    simp only [hc, Bool.not_true, Bool.false_eq_true, if_false] at hret
    unfold Unit.moveTo at hret
    simp only [hc, if_true] at hret
    by_cases hd : GameHelpers.getDistance unit.x unit.y x y ≤ unit.movesRemaining
    · simp only [hd, if_true] at hret
      rw [Option.map_eq_some'] at hret
      obtain ⟨g2, _, h2⟩ := hret
      cases h2
      exact ⟨fun _ => ⟨hc, hd⟩, fun _ => rfl⟩
    · simp only [hd, if_false] at hret
      cases hret
      constructor
      · intro h; cases h
      · intro h; exact absurd h.2 hd
  · have hc' : unit.canMoveTo x y g.map = false := by
      cases h : unit.canMoveTo x y g.map
      · rfl
      · exact absurd h hc
    simp only [hc', Bool.not_false, if_true] at hret
    cases hret
    refine ⟨fun h => Bool.noConfusion h, fun _ => ?_⟩
    constructor
    · intro h; cases h
    · intro h; exact absurd h.1 hc


/-- Witness of `moveUnit_true_iff`: an army steps from (0,0) to the land tile (1,0). -/
theorem moveUnit_true_iff_witness :
    (true = true → (Unit.new .army 0 0 0 "u1").canMoveTo 1 0 plainMap = true) ∧
    ((gameOn plainMap [Unit.new .army 0 0 0 "u1"]).cityToCapture
        (Unit.new .army 0 0 0 "u1") 1 0 = none →
      (true = true ↔ (Unit.new .army 0 0 0 "u1").canMoveTo 1 0 plainMap = true ∧
        GameHelpers.getDistance 0 0 1 0 ≤ (Unit.new .army 0 0 0 "u1").movesRemaining)) :=
  moveUnit_true_iff (gameOn plainMap [Unit.new .army 0 0 0 "u1"])
    { gameOn plainMap [{ Unit.new .army 1 0 0 "u1" with movesRemaining := 0 }] with
      map := { plainMap with
        visibility := [(0, [[true, true, true, true, false],
                            [true, true, true, false, false],
                            [false, true, false, false, false]])] } }
    0 1 0 0 0 (Unit.new .army 0 0 0 "u1") true (by decide) (by decide!)

/-- C1 (counterexample): an army at (0,0) with one move left and the land tile
(2,0): `canMoveTo` is true, yet `moveUnit` returns false and changes nothing. -/
theorem moveUnit_not_iff_canMoveTo :
    (Unit.new .army 0 0 0 "u1").canMoveTo 2 0 plainMap = true ∧
    (gameOn plainMap [Unit.new .army 0 0 0 "u1"]).moveUnit 0 2 0 0 0 =
      some (false, gameOn plainMap [Unit.new .army 0 0 0 "u1"]) := by
  decide!

/-- C2 (code at the failing input): an army at (0,0) with one move left is sent
to the neutral city at (4,0), four tiles away; the capture draw succeeds and
`moveUnit` returns true although the distance exceeds `movesRemaining`. -/
theorem moveUnit_capture_out_of_range :
    ((gameOn cityMap [Unit.new .army 0 0 0 "u1"]).moveUnit 0 4 0 (1 / 2) 0).map Prod.fst =
      some true ∧
    (Unit.new .army 0 0 0 "u1").movesRemaining = 1 ∧
    GameHelpers.getDistance 0 0 4 0 = 4 ∧
    ((gameOn cityMap [Unit.new .army 0 0 0 "u1"]).moveUnit 0 4 0 (1 / 2) 0).map
      (fun r => r.2.units.map (fun u => (u.x, u.y))) = some [(4, 0)] := by
  decide!

/-- C3 (amended): after a `moveUnit` that returned true the unit is still at its
index; when the destination held no city of another owner its `movesRemaining`
has dropped by exactly the Manhattan distance travelled, and when the move
captured a city its `movesRemaining` is 0. -/
theorem moveUnit_moves_spent (g g' : Game) (i : Nat) (x y : Int) (r1 r2 : ℚ) (unit : Unit)
    (hu : g.units[i]? = some unit)
    (hret : g.moveUnit i x y r1 r2 = some (true, g')) :
    ∃ moved, g'.units[i]? = some moved ∧
      (g.cityToCapture unit x y = none →
        moved.movesRemaining =
          unit.movesRemaining - GameHelpers.getDistance unit.x unit.y x y) ∧
      (g.cityToCapture unit x y ≠ none → moved.movesRemaining = 0) := by
  have hlt : i < g.units.length := by
    rcases Nat.lt_or_ge i g.units.length with h | h
    · exact h
    · rw [List.getElem?_eq_none h] at hu; cases hu
  unfold Game.moveUnit at hret
  rw [hu] at hret
  simp only at hret
  split at hret
  · cases hret
  · split at hret
    · rename_i ci hci
      split at hret
      · cases hret
      · rename_i g1 hcap
        rw [Option.map_eq_some'] at hret
        obtain ⟨g3, hvis, h3⟩ := hret
        cases h3
        have hfr := updateVisibility_frame hvis
        have hun := captureCity_true_units hcap
        refine ⟨{ unit with x := x, y := y, movesRemaining := 0 }, ?_, ?_, fun _ => rfl⟩
        · rw [hfr.1]
          simp only
          rw [hun]
          exact List.getElem?_set_self hlt
        · intro hno
          rw [hno] at hci
          cases hci
      · cases hret
    · rename_i hno
      unfold Unit.moveTo at hret
      by_cases hc : unit.canMoveTo x y g.map = true
      · by_cases hd : GameHelpers.getDistance unit.x unit.y x y ≤ unit.movesRemaining
        · simp only [hc, hd, if_true] at hret
          rw [Option.map_eq_some'] at hret
          obtain ⟨g2, hvis, h2⟩ := hret
          cases h2
          have hfr := updateVisibility_frame hvis
          refine ⟨{ unit with x := x, y := y, movesRemaining :=
            unit.movesRemaining - GameHelpers.getDistance unit.x unit.y x y }, ?_,
            fun _ => rfl, fun h => absurd hno h⟩
          rw [hfr.1]
          exact List.getElem?_set_self hlt
        · simp only [hc, hd, if_true, if_false] at hret
          cases hret
      · simp only [hc, if_false] at hret
        cases hret

/-- Witness of `moveUnit_moves_spent`: an army steps from (0,0) to the land tile (1,0). -/
theorem moveUnit_moves_spent_witness :
    ∃ moved,
      (gameOn plainMap [{ Unit.new .army 1 0 0 "u1" with movesRemaining := 0 }]).units[0]? =
        some moved ∧
      ((gameOn plainMap [Unit.new .army 0 0 0 "u1"]).cityToCapture
          (Unit.new .army 0 0 0 "u1") 1 0 = none →
        moved.movesRemaining =
          (Unit.new .army 0 0 0 "u1").movesRemaining - GameHelpers.getDistance 0 0 1 0) ∧
      ((gameOn plainMap [Unit.new .army 0 0 0 "u1"]).cityToCapture
          (Unit.new .army 0 0 0 "u1") 1 0 ≠ none → moved.movesRemaining = 0) :=
  moveUnit_moves_spent (gameOn plainMap [Unit.new .army 0 0 0 "u1"])
    { gameOn plainMap [{ Unit.new .army 1 0 0 "u1" with movesRemaining := 0 }] with
      map := { plainMap with
        visibility := [(0, [[true, true, true, true, false],
                            [true, true, true, false, false],
                            [false, true, false, false, false]])] } }
    0 1 0 0 0 (Unit.new .army 0 0 0 "u1") (by decide) (by decide!)

/-- C3 (counterexample): a tank at (3,0) with two moves left captures the
neutral city at (4,0), one tile away: `moveUnit` returns true and the tank is
left with 0 moves, not with 2 - 1 = 1. -/
theorem moveUnit_capture_spends_all :
    ((gameOn cityMap [Unit.new .tank 3 0 0 "u1"]).moveUnit 0 4 0 (1 / 2) 0).map
      (fun r => (r.1, r.2.units.map (fun u => u.movesRemaining))) = some (true, [0]) ∧
    (Unit.new .tank 3 0 0 "u1").movesRemaining - GameHelpers.getDistance 3 0 4 0 = 1 := by
  decide!


/-- C4 (amended): a `moveUnit` that returned false left every player's
statistics and every city's owner and production as they were. If the
destination held no city of another owner the whole game state is unchanged.
Otherwise the state is unchanged or a capture was attempted and failed: then
the attacked city's defence was degraded and the unit was removed from `units`. -/
theorem moveUnit_false_frame (g g' : Game) (i : Nat) (x y : Int) (r1 r2 : ℚ) (unit : Unit)
    (hu : g.units[i]? = some unit)
    (hret : g.moveUnit i x y r1 r2 = some (false, g')) :
    g'.players = g.players ∧
    g'.map.cities.map (fun c =>
        (c.owner, c.currentProduction, c.productionTurnsRemaining, c.productionQueue)) =
      g.map.cities.map (fun c =>
        (c.owner, c.currentProduction, c.productionTurnsRemaining, c.productionQueue)) ∧
    (g.cityToCapture unit x y = none → g' = g) ∧
    (g' = g ∨ ∃ ci city, g.cityToCapture unit x y = some ci ∧
      g.map.cities[ci]? = some city ∧
      g' = (g.setCity ci city.degradeDefense).removeUnit unit) := by
  unfold Game.moveUnit at hret
  rw [hu] at hret
  simp only at hret
  split at hret
  · cases hret
    exact ⟨rfl, rfl, fun _ => rfl, Or.inl rfl⟩
  · split at hret
    · rename_i ci hci
      split at hret
      · cases hret
      · rw [Option.map_eq_some'] at hret
        obtain ⟨g3, _, h3⟩ := hret
        cases h3
      · rename_i g1 hcap
        cases hret
        obtain ⟨city, hcity, rfl⟩ := captureCity_false_eq hcap
        have hfr := removeUnit_frame (g.setCity ci city.degradeDefense) unit
        refine ⟨?_, ?_, ?_, Or.inr ⟨ci, city, hci, hcity, rfl⟩⟩
        · rw [hfr.1]
          rfl
        · rw [hfr.2]
          exact map_set_of_eq _ _ _ _ _ hcity (degradeDefense_frame city)
        · intro hno
          rw [hno] at hci
          cases hci
    · rename_i hno
      unfold Unit.moveTo at hret
      by_cases hc : unit.canMoveTo x y g.map = true
      · by_cases hd : GameHelpers.getDistance unit.x unit.y x y ≤ unit.movesRemaining
        · simp only [hc, hd, if_true] at hret
          rw [Option.map_eq_some'] at hret
          obtain ⟨g2, _, h2⟩ := hret
          cases h2
        · simp only [hc, hd, if_true, if_false] at hret
          cases hret
          exact ⟨rfl, rfl, fun _ => rfl, Or.inl rfl⟩
      · simp only [hc, if_false] at hret
        cases hret
        exact ⟨rfl, rfl, fun _ => rfl, Or.inl rfl⟩

/-- Witness of `moveUnit_false_frame`: an army with one move left is sent two
tiles away and is refused. -/
theorem moveUnit_false_frame_witness :
    (gameOn plainMap [Unit.new .army 0 0 0 "u1"]).players =
      (gameOn plainMap [Unit.new .army 0 0 0 "u1"]).players ∧
    (gameOn plainMap [Unit.new .army 0 0 0 "u1"]).map.cities.map (fun c =>
        (c.owner, c.currentProduction, c.productionTurnsRemaining, c.productionQueue)) =
      (gameOn plainMap [Unit.new .army 0 0 0 "u1"]).map.cities.map (fun c =>
        (c.owner, c.currentProduction, c.productionTurnsRemaining, c.productionQueue)) ∧
    ((gameOn plainMap [Unit.new .army 0 0 0 "u1"]).cityToCapture
        (Unit.new .army 0 0 0 "u1") 2 0 = none →
      gameOn plainMap [Unit.new .army 0 0 0 "u1"] =
        gameOn plainMap [Unit.new .army 0 0 0 "u1"]) ∧
    (gameOn plainMap [Unit.new .army 0 0 0 "u1"] = gameOn plainMap [Unit.new .army 0 0 0 "u1"] ∨
      ∃ ci city, (gameOn plainMap [Unit.new .army 0 0 0 "u1"]).cityToCapture
          (Unit.new .army 0 0 0 "u1") 2 0 = some ci ∧
        (gameOn plainMap [Unit.new .army 0 0 0 "u1"]).map.cities[ci]? = some city ∧
        gameOn plainMap [Unit.new .army 0 0 0 "u1"] =
          ((gameOn plainMap [Unit.new .army 0 0 0 "u1"]).setCity ci
            city.degradeDefense).removeUnit (Unit.new .army 0 0 0 "u1")) :=
  moveUnit_false_frame (gameOn plainMap [Unit.new .army 0 0 0 "u1"])
    (gameOn plainMap [Unit.new .army 0 0 0 "u1"]) 0 2 0 0 0 (Unit.new .army 0 0 0 "u1")
    (by decide) (by decide!)

/-- C4 (counterexample): an army next to the neutral city at (4,0) loses the
capture draw: `moveUnit` returns false, yet the army is gone from `units` and
the city's `currentDefense` went from 15 to 14. -/
theorem moveUnit_failed_capture_changes_state :
    (gameOn cityMap [Unit.new .army 3 0 0 "u1"]).moveUnit 0 4 0 0 (1 / 2) =
      some (false, gameOn
        { cityMap with
          cities := [{ City.new 4 0 none "city_a" "Troy" with currentDefense := 14 }] } []) ∧
    (gameOn cityMap [Unit.new .army 3 0 0 "u1"]).units ≠ [] ∧
    (City.new 4 0 none "city_a" "Troy").currentDefense = 15 := by
  decide!

/-- C5 (code at the failing input): two armies of one player stand on (0,0)
and (1,0), no two units sharing a tile. `moveUnit` sends the first onto the
tile of the second, returns true, and both units then stand on (1,0). The same
happens when the first army follows a movement path whose next tile is (1,0)
and `processUnitPathMovements` advances it. -/
theorem moveUnit_onto_occupied_tile :
    ((gameOn plainMap [Unit.new .army 0 0 0 "u1", Unit.new .army 1 0 0 "u2"]).units.map
      (fun u => (u.x, u.y))).Nodup ∧
    ((gameOn plainMap [Unit.new .army 0 0 0 "u1", Unit.new .army 1 0 0 "u2"]).moveUnit
      0 1 0 0 0).map (fun r => (r.1, r.2.units.map (fun u => (u.x, u.y)))) =
      some (true, [(1, 0), (1, 0)]) ∧
    ((gameOn plainMap
        [{ Unit.new .army 0 0 0 "u1" with
             movementPath := [{ x := 1, y := 0 }], isMovingAlongPath := true },
         Unit.new .army 1 0 0 "u2"]).processUnitPathMovements 0).units.map
      (fun u => (u.x, u.y)) = [(1, 0), (1, 0)] := by
  decide!

/-! ### `attackUnit` -/

theorem findIdx?_modify_of_eq {α : Type} (p : α → Bool) (f : α → α)
    (hf : ∀ a, p (f a) = p a) (l : List α) :
    ∀ (n s : Nat), (l.modify f n).findIdx? p s = l.findIdx? p s := by
  induction l with
  | nil => intro n s; simp
  | cons a l ih =>
    intro n s
    cases n with
    | zero => simp [List.findIdx?_cons, hf]
    | succ n => simp [List.findIdx?_cons, ih]

theorem incrementStat_id (p : Player) (statName : String) (amount : Int) :
    (p.incrementStat statName amount).id = p.id := by
  unfold Player.incrementStat
  repeat' split
  all_goals rfl

theorem getPlayerById_incrementStatAt (g : Game) (pi : Nat) (statName : String) (id : Nat) :
    (g.incrementStatAt pi statName).getPlayerById id = g.getPlayerById id := by
  unfold Game.getPlayerById Game.incrementStatAt
  exact findIdx?_modify_of_eq _ _ (fun a => by simp [incrementStat_id]) _ _ _

theorem getPlayerById_removeUnit (g : Game) (u : Unit) (id : Nat) :
    (g.removeUnit u).getPlayerById id = g.getPlayerById id := by
  unfold Game.getPlayerById
  rw [(removeUnit_frame g u).1]

theorem cityOfOwnerAt_some {g : Game} {owner : Nat} {x y : Int} {ci : Nat}
    (h : g.cityOfOwnerAt owner x y = some ci) : ∃ city, g.map.cities[ci]? = some city := by
  unfold Game.cityOfOwnerAt at h
  split at h
  · cases h
  · split at h
    · cases h
    · rename_i city hcity
      split at h
      · cases h
        exact ⟨city, hcity⟩
      · cases h

theorem captureCity_isSome (g : Game) (unit : Unit) {ci : Nat} (r1 r2 : ℚ)
    (hc : ∃ city, g.map.cities[ci]? = some city)
    (hp : (g.getPlayerById unit.owner).isSome = true) :
    ∃ b g1, g.captureCity unit ci r1 r2 = some (b, g1) := by
  obtain ⟨city, hcity⟩ := hc
  obtain ⟨pi, hpi⟩ := Option.isSome_iff_exists.mp hp
  unfold Game.captureCity
  rw [hcity]
  simp only [hpi]
  split
  · split
    · exact ⟨_, _, rfl⟩
    · exact ⟨_, _, rfl⟩
  · exact ⟨_, _, rfl⟩

theorem getPlayerById_setUnitAt (g : Game) (idx : Option Nat) (u : Unit) (id : Nat) :
    (g.setUnitAt idx u).getPlayerById id = g.getPlayerById id := by
  unfold Game.setUnitAt
  split <;> rfl

theorem attackerWins_returns (g1 : Game) (ai : Nat) (attacker1 target : Unit) (r3 r4 : ℚ)
    (hap : (g1.getPlayerById attacker1.owner).isSome = true)
    (htp : (g1.getPlayerById target.owner).isSome = true) :
    ∃ g', g1.attackerWins ai attacker1 target r3 r4 =
      some (true, g', { attacker1 with x := target.x, y := target.y }) := by
  obtain ⟨ap, hapi⟩ := Option.isSome_iff_exists.mp hap
  obtain ⟨tp, htpi⟩ := Option.isSome_iff_exists.mp htp
  unfold Game.attackerWins
  simp only [getPlayerById_removeUnit, hapi, htpi]
  split
  · rename_i ci hci
    have hcity := cityOfOwnerAt_some hci
    obtain ⟨b1, g5, h5⟩ := captureCity_isSome _
      { attacker1 with x := target.x, y := target.y } r3 r4 hcity
      (by
        simp only [getPlayerById_setUnitAt, getPlayerById_incrementStatAt,
          getPlayerById_removeUnit]
        exact hap)
    rw [h5]
    exact ⟨g5, rfl⟩
  · exact ⟨_, rfl⟩

theorem attackerLoses_returns (g1 : Game) (attacker1 target : Unit)
    (hap : (g1.getPlayerById attacker1.owner).isSome = true)
    (htp : (g1.getPlayerById target.owner).isSome = true) :
    ∃ g', g1.attackerLoses attacker1 target = some (true, g', attacker1) := by
  obtain ⟨ap, hapi⟩ := Option.isSome_iff_exists.mp hap
  obtain ⟨tp, htpi⟩ := Option.isSome_iff_exists.mp htp
  unfold Game.attackerLoses
  simp only [getPlayerById_removeUnit, hapi, htpi]
  exact ⟨_, rfl⟩

theorem canAttack_eq_false_iff (u : Unit) (x y : Int) :
    u.canAttack x y = false ↔
      (u.hasAttacked = true ∨
        GameHelpers.getDistance u.x u.y x y > (if u.type = UnitType.fighter then 2 else 1)) := by
  unfold Unit.canAttack
  cases hh : u.hasAttacked
  · simp
  · simp

/-- C6: for two units of the game whose owners are players, `attackUnit`
returns; it returns false exactly when the attacker has already attacked or the
Manhattan distance to the target exceeds the attacker's range (2 for a fighter,
1 otherwise), and then the game and the attacker are unchanged; otherwise it
returns true and the attacker's `hasAttacked` is true. -/
theorem attackUnit_refused_iff (g : Game) (ai ti : Nat) (r1 r2 r3 r4 : ℚ)
    (attacker target : Unit)
    (ha : g.units[ai]? = some attacker) (ht : g.units[ti]? = some target)
    (hap : (g.getPlayerById attacker.owner).isSome = true)
    (htp : (g.getPlayerById target.owner).isSome = true) :
    ∃ b g' attacker', g.attackUnit ai ti r1 r2 r3 r4 = some (b, g', attacker') ∧
      (b = false ↔
        (attacker.hasAttacked = true ∨
          GameHelpers.getDistance attacker.x attacker.y target.x target.y >
            (if attacker.type = UnitType.fighter then 2 else 1))) ∧
      (b = false → g' = g ∧ attacker' = attacker) ∧
      (b = true → attacker'.hasAttacked = true) := by
  have hiff := canAttack_eq_false_iff attacker target.x target.y
  unfold Game.attackUnit
  rw [ha, ht]
  simp only
  cases hcan : attacker.canAttack target.x target.y
  · simp only [Bool.not_false, if_true]
    refine ⟨false, g, attacker, rfl, ?_, fun _ => ⟨rfl, rfl⟩, fun h => Bool.noConfusion h⟩
    rw [← hiff]
    simp [hcan]
  · have hnot : ¬ (attacker.hasAttacked = true ∨
        GameHelpers.getDistance attacker.x attacker.y target.x target.y >
          (if attacker.type = UnitType.fighter then 2 else 1)) := by
      rw [← hiff, hcan]
      simp
    have hb : (true = false ↔
        (attacker.hasAttacked = true ∨
          GameHelpers.getDistance attacker.x attacker.y target.x target.y >
            (if attacker.type = UnitType.fighter then 2 else 1))) :=
      ⟨fun h => Bool.noConfusion h, fun h => absurd h hnot⟩
    simp only [Bool.not_true, Bool.false_eq_true, if_false]
    have hatt : (attacker.attack target r1 r2).2 = { attacker with hasAttacked := true } := by
      unfold Unit.attack
      simp [hcan]
    have hown : (attacker.attack target r1 r2).2.owner = attacker.owner := by
      rw [hatt]
    have htown : (if ai = ti then (attacker.attack target r1 r2).2 else target).owner =
        target.owner := by
      by_cases hEq : ai = ti
      · subst hEq
        rw [ha] at ht
        cases ht
        simp [hown]
      · simp [hEq]
    have hap1 : (Game.getPlayerById { g with units := g.units.set ai (attacker.attack target r1 r2).2 }
        (attacker.attack target r1 r2).2.owner).isSome = true := by
      rw [hown]
      exact hap
    have htp1 : (Game.getPlayerById { g with units := g.units.set ai (attacker.attack target r1 r2).2 }
        (if ai = ti then (attacker.attack target r1 r2).2 else target).owner).isSome = true := by
      rw [htown]
      exact htp
    split
    · obtain ⟨g', hg'⟩ := attackerWins_returns _ ai _ _ r3 r4 hap1 htp1
      refine ⟨true, g', _, hg', hb, fun h => Bool.noConfusion h, fun _ => ?_⟩
      rw [hatt]
    · obtain ⟨g', hg'⟩ := attackerLoses_returns _ _ _ hap1 htp1
      refine ⟨true, g', _, hg', hb, fun h => Bool.noConfusion h, fun _ => ?_⟩
      rw [hatt]

/-- Witness of `attackUnit_refused_iff`: an army of the first player attacks the
adjacent army of the second player. -/
theorem attackUnit_refused_iff_witness :
    ∃ b g' attacker',
      (gameOn plainMap [Unit.new .army 0 0 0 "u1", Unit.new .army 1 0 1 "u2"]).attackUnit
        0 1 (1 / 2) 0 0 0 = some (b, g', attacker') ∧
      (b = false ↔
        ((Unit.new .army 0 0 0 "u1").hasAttacked = true ∨
          GameHelpers.getDistance (Unit.new .army 0 0 0 "u1").x (Unit.new .army 0 0 0 "u1").y
              (Unit.new .army 1 0 1 "u2").x (Unit.new .army 1 0 1 "u2").y >
            (if (Unit.new .army 0 0 0 "u1").type = UnitType.fighter then 2 else 1))) ∧
      (b = false →
        g' = gameOn plainMap [Unit.new .army 0 0 0 "u1", Unit.new .army 1 0 1 "u2"] ∧
        attacker' = Unit.new .army 0 0 0 "u1") ∧
      (b = true → attacker'.hasAttacked = true) :=
  attackUnit_refused_iff
    (gameOn plainMap [Unit.new .army 0 0 0 "u1", Unit.new .army 1 0 1 "u2"])
    0 1 (1 / 2) 0 0 0 (Unit.new .army 0 0 0 "u1") (Unit.new .army 1 0 1 "u2")
    (by decide) (by decide) (by decide) (by decide)


/-! ### The search loop of `findPath` keeps its invariant -/

theorem searchStart_inv (u : Unit) (m : GameMap) (sx sy tx ty : Int) :
    SearchInv u m { x := sx, y := sy } (Unit.searchStart sx sy tx ty) := by
  refine ⟨?_, ?_, ?_, rfl, Or.inr rfl, Nat.le_refl _⟩
  · intro n c h
    simp [Unit.searchStart] at h
  · intro n h
    simp only [Unit.searchStart, List.mem_singleton, List.not_mem_nil, or_false] at h
    subst h
    exact ⟨Or.inl rfl, 0, by simp [Unit.searchStart, Unit.setKey]⟩
  · intro n v h
    simp only [Unit.searchStart, Unit.setKey] at h
    split at h
    · cases h
      simp
    · cases h

theorem lowestF_mem (f : Pos → Option Int) (rest : List Pos) :
    ∀ first : Pos, Unit.lowestF f first rest ∈ first :: rest := by
  induction rest with
  | nil => intro first; simp [Unit.lowestF]
  | cons a rest ih =>
    intro first
    unfold Unit.lowestF
    rw [List.foldl_cons]
    have h := ih (if Unit.scoreLt (f a) (f first) = true then a else first)
    unfold Unit.lowestF at h
    rcases List.mem_cons.mp h with h | h
    · rw [h]
      split <;> simp
    · exact List.mem_cons_of_mem _ (List.mem_cons_of_mem _ h)

theorem neighbors_adjacent (current nb : Pos) (h : nb ∈ Unit.neighbors current) :
    Adjacent current nb := by
  simp only [Unit.neighbors, List.mem_cons, List.mem_singleton, List.not_mem_nil,
    or_false] at h
  unfold Adjacent GameHelpers.getDistance
  rcases h with h | h | h | h <;> subst h <;> simp only <;> omega

theorem record_inv {u : Unit} {m : GameMap} {start current nb : Pos} {st st0 : AStar}
    (tx ty gc : Int)
    (hinv : SearchInv u m start st)
    (hs : start ∈ st.closedSet) (hc : current ∈ st.closedSet)
    (hg : st.gScore current = some gc) (hgb : gc + 1 ≤ (st.iterations : Int))
    (hadj : Adjacent current nb) (hnc : nb ∉ st.closedSet)
    (hcm : u.canMoveTo nb.x nb.y m = true)
    (h1 : st0.closedSet = st.closedSet) (h2 : st0.gScore = st.gScore)
    (h3 : st0.cameFrom = st.cameFrom) (h4 : st0.iterations = st.iterations)
    (h5 : ∀ n ∈ st0.openSet, n ∈ st.openSet ∨ n = nb) :
    SearchInv u m start (Unit.record st0 tx ty current nb (some (gc + 1))) := by
  have hcn : current ≠ nb := fun h => hnc (h ▸ hc)
  have hsn : start ≠ nb := fun h => hnc (h ▸ hs)
  refine ⟨?_, ?_, ?_, ?_, ?_, ?_⟩
  · intro n c h
    simp only [Unit.record, Unit.setKey, h1, h2, h3] at h ⊢
    by_cases hn : n = nb
    · subst hn
      simp only [if_true] at h
      cases h
      simp only [if_true, if_neg hcn]
      exact ⟨hc, hadj, hcm, gc, hg, rfl⟩
    · simp only [if_neg hn] at h ⊢
      obtain ⟨hcc, ha, hm, g', hg1, hg2⟩ := hinv.came n c h
      have hcnb : c ≠ nb := fun h => hnc (h ▸ hcc)
      simp only [if_neg hcnb]
      exact ⟨hcc, ha, hm, g', hg1, hg2⟩
  · intro n h
    simp only [Unit.record, Unit.setKey, h1, h2, h3] at h ⊢
    by_cases hn : n = nb
    · subst hn
      simp only [if_true]
      exact ⟨Or.inr ⟨current, rfl⟩, gc + 1, rfl⟩
    · simp only [if_neg hn]
      apply hinv.reached
      rcases h with h | h
      · rcases h5 n h with h | h
        · exact Or.inl h
        · exact absurd h hn
      · exact Or.inr h
  · intro n v h
    simp only [Unit.record, Unit.setKey, h2, h4] at h ⊢
    by_cases hn : n = nb
    · subst hn
      simp only [if_true] at h
      cases h
      have := (hinv.gbound current gc hg).1
      constructor <;> omega
    · simp only [if_neg hn] at h
      exact hinv.gbound n v h
  · simp only [Unit.record, Unit.setKey, h3, if_neg hsn]
    exact hinv.startRoot
  · left
    simp only [Unit.record, h1]
    exact hs
  · simp only [Unit.record, h1, h4]
    exact hinv.closedLen

theorem relax_inv {u : Unit} {m : GameMap} {start current : Pos} (tx ty gc : Int)
    (nb : Pos) (st : AStar)
    (hinv : SearchInv u m start st)
    (hs : start ∈ st.closedSet) (hc : current ∈ st.closedSet)
    (hg : st.gScore current = some gc) (hgb : gc + 1 ≤ (st.iterations : Int))
    (hadj : Adjacent current nb) :
    SearchInv u m start (Unit.relax u m tx ty current st nb) ∧
    (Unit.relax u m tx ty current st nb).closedSet = st.closedSet ∧
    (Unit.relax u m tx ty current st nb).iterations = st.iterations ∧
    (Unit.relax u m tx ty current st nb).gScore current = some gc := by
  unfold Unit.relax
  by_cases hcl : st.closedSet.contains nb = true
  · rw [if_pos hcl]
    exact ⟨hinv, rfl, rfl, hg⟩
  · rw [if_neg hcl]
    have hnc : nb ∉ st.closedSet := by
      intro h
      apply hcl
      simpa using h
    have hcn : current ≠ nb := fun h => hnc (h ▸ hc)
    by_cases hcm : u.canMoveTo nb.x nb.y m = true
    · simp only [hcm, Bool.not_true, Bool.false_eq_true, if_false, hg, Option.map_some']
      have hkeep : ∀ st0 : AStar, st0.gScore = st.gScore →
          (Unit.record st0 tx ty current nb (some (gc + 1))).gScore current = some gc := by
        intro st0 h0
        simp only [Unit.record, Unit.setKey, h0, if_neg hcn]
        exact hg
      split
      · exact ⟨record_inv tx ty gc hinv hs hc hg hgb hadj hnc hcm rfl rfl rfl rfl
          (by
            intro n hn
            simp only [List.mem_append, List.mem_singleton] at hn
            exact hn), rfl, rfl, hkeep _ rfl⟩
      · split
        · exact ⟨hinv, rfl, rfl, hg⟩
        · exact ⟨record_inv tx ty gc hinv hs hc hg hgb hadj hnc hcm rfl rfl rfl rfl
            (fun n hn => Or.inl hn), rfl, rfl, hkeep _ rfl⟩
    · have hcm' : (!u.canMoveTo nb.x nb.y m) = true := by simpa using hcm
      rw [if_pos hcm']
      exact ⟨hinv, rfl, rfl, hg⟩

theorem foldl_relax_inv {u : Unit} {m : GameMap} {start current : Pos} (tx ty gc : Int)
    (nbs : List Pos) (hadj : ∀ nb ∈ nbs, Adjacent current nb) :
    ∀ st : AStar, SearchInv u m start st → start ∈ st.closedSet → current ∈ st.closedSet →
      st.gScore current = some gc → gc + 1 ≤ (st.iterations : Int) →
      SearchInv u m start (nbs.foldl (Unit.relax u m tx ty current) st) ∧
      (nbs.foldl (Unit.relax u m tx ty current) st).iterations = st.iterations := by
  induction nbs with
  | nil => intro st hinv _ _ _ _; exact ⟨hinv, rfl⟩
  | cons nb nbs ih =>
    intro st hinv hs hc hg hgb
    obtain ⟨h1, h2, h3, h4⟩ :=
      relax_inv tx ty gc nb st hinv hs hc hg hgb (hadj nb (List.mem_cons_self _ _))
    rw [List.foldl_cons]
    have := ih (fun nb' h => hadj nb' (List.mem_cons_of_mem _ h)) _ h1 (h2 ▸ hs) (h2 ▸ hc) h4
      (h3 ▸ hgb)
    exact ⟨this.1, this.2.trans h3⟩

theorem step_inv {u : Unit} {m : GameMap} {start : Pos} (tx ty : Int) (st : AStar)
    (first : Pos) (rest : List Pos) (hinv : SearchInv u m start st)
    (hopen : st.openSet = first :: rest) :
    SearchInv u m start
      ((Unit.neighbors (Unit.lowestF st.fScore first rest)).foldl
        (Unit.relax u m tx ty (Unit.lowestF st.fScore first rest))
        { st with iterations := st.iterations + 1,
                  openSet := st.openSet.erase (Unit.lowestF st.fScore first rest),
                  closedSet := Unit.lowestF st.fScore first rest :: st.closedSet }) ∧
    ((Unit.neighbors (Unit.lowestF st.fScore first rest)).foldl
        (Unit.relax u m tx ty (Unit.lowestF st.fScore first rest))
        { st with iterations := st.iterations + 1,
                  openSet := st.openSet.erase (Unit.lowestF st.fScore first rest),
                  closedSet := Unit.lowestF st.fScore first rest :: st.closedSet }).iterations =
      st.iterations + 1 := by
  have hmem : Unit.lowestF st.fScore first rest ∈ st.openSet := by
    rw [hopen]
    exact lowestF_mem _ _ _
  generalize Unit.lowestF st.fScore first rest = current at hmem ⊢
  obtain ⟨_, gc, hgc⟩ := hinv.reached current (Or.inl hmem)
  have hb := hinv.gbound current gc hgc
  have hstart : start ∈ current :: st.closedSet := by
    rcases hinv.startClosed with h | h
    · exact List.mem_cons_of_mem _ h
    · rw [h, List.mem_singleton] at hmem
      rw [hmem]
      exact List.mem_cons_self _ _
  have hinv2 : SearchInv u m start
      { st with iterations := st.iterations + 1,
                openSet := st.openSet.erase current,
                closedSet := current :: st.closedSet } := by
    refine ⟨?_, ?_, ?_, hinv.startRoot, Or.inl hstart, ?_⟩
    · intro n c h
      obtain ⟨h1, h2⟩ := hinv.came n c h
      exact ⟨List.mem_cons_of_mem _ h1, h2⟩
    · intro n h
      apply hinv.reached
      rcases h with h | h
      · exact Or.inl (List.mem_of_mem_erase h)
      · rcases List.mem_cons.mp h with h | h
        · exact Or.inl (h ▸ hmem)
        · exact Or.inr h
    · intro n v h
      have := hinv.gbound n v h
      simp only [Nat.cast_add, Nat.cast_one]
      constructor <;> omega
    · simp only [List.length_cons]
      exact Nat.succ_le_succ hinv.closedLen
  exact foldl_relax_inv tx ty gc _ (neighbors_adjacent current) _ hinv2 hstart
    (List.mem_cons_self _ _) hgc (by simp only [Nat.cast_add, Nat.cast_one]; omega)


/-! ### Path reconstruction -/

theorem reconstructPath_sound {u : Unit} {m : GameMap} {start : Pos} {st : AStar}
    (hinv : SearchInv u m start st) :
    ∀ (fuel : Nat) (n : Pos) (acc path : List Pos), (n ∈ st.openSet ∨ n ∈ st.closedSet) →
      Unit.reconstructPath st.cameFrom fuel (some n) acc = some path →
      ∃ p, path = p ++ acc ∧ p.head? = some start ∧ p.getLast? = some n ∧
        List.Chain' Adjacent p ∧ (∀ t ∈ p.tail, u.canMoveTo t.x t.y m = true) ∧
        List.Chain' (ScoreBelow st.gScore) p := by
  intro fuel
  induction fuel with
  | zero =>
    intro n acc path _ h
    simp [Unit.reconstructPath] at h
  | succ fuel ih =>
    intro n acc path hn h
    rw [Unit.reconstructPath] at h
    cases hcf : st.cameFrom n with
    | none =>
      rw [hcf] at h
      have hp : path = n :: acc := by
        cases fuel <;> simp [Unit.reconstructPath] at h <;> exact h.symm
      have hstart : n = start := by
        rcases (hinv.reached n hn).1 with h1 | ⟨c, h1⟩
        · exact h1
        · rw [hcf] at h1
          cases h1
      refine ⟨[n], by simp [hp], by simp [hstart], by simp, List.chain'_singleton _, ?_,
        List.chain'_singleton _⟩
      intro t ht
      simp at ht
    | some c =>
      rw [hcf] at h
      obtain ⟨hcc, hadj, hmove, gc, hgc, hgn⟩ := hinv.came n c hcf
      obtain ⟨p, hp, hhead, hlast, hchain, htail, hscore⟩ :=
        ih c (n :: acc) path (Or.inr hcc) h
      have hne : p ≠ [] := by
        intro hnil
        rw [hnil] at hhead
        cases hhead
      refine ⟨p ++ [n], by simp [hp], ?_, by simp, ?_, ?_, ?_⟩
      · cases p with
        | nil => exact absurd rfl hne
        | cons a p => simpa using hhead
      · apply List.Chain'.append hchain (List.chain'_singleton _)
        intro a ha b hb
        rw [hlast] at ha
        simp only [Option.mem_def, Option.some.injEq] at ha
        simp only [List.head?_cons, Option.mem_def, Option.some.injEq] at hb
        subst ha
        subst hb
        exact hadj
      · intro t ht
        rw [List.tail_append_of_ne_nil hne] at ht
        rcases List.mem_append.mp ht with h1 | h1
        · exact htail t h1
        · rw [List.mem_singleton] at h1
          rw [h1]
          exact hmove
      · apply List.Chain'.append hscore (List.chain'_singleton _)
        intro a ha b hb
        rw [hlast] at ha
        simp only [Option.mem_def, Option.some.injEq] at ha
        simp only [List.head?_cons, Option.mem_def, Option.some.injEq] at hb
        subst ha
        subst hb
        exact ⟨gc, gc + 1, hgc, hgn, by omega⟩

theorem scoreBelow_chain_nodup (g : Pos → Option Int) (p : List Pos)
    (h : List.Chain' (ScoreBelow g) p) : p.Nodup := by
  have htrans : ∀ a b c, ScoreBelow g a b → ScoreBelow g b c → ScoreBelow g a c := by
    rintro a b c ⟨ga, gb, h1, h2, h3⟩ ⟨gb', gc, h4, h5, h6⟩
    rw [h2] at h4
    cases h4
    exact ⟨ga, gc, h1, h5, by omega⟩
  have hpw : p.Pairwise (ScoreBelow g) := by
    induction p with
    | nil => exact List.Pairwise.nil
    | cons a p ih =>
      have htail : List.Chain' (ScoreBelow g) p := List.Chain'.tail h
      have ihp := ih htail
      refine List.Pairwise.cons ?_ ihp
      cases p with
      | nil =>
        intro b hb
        cases hb
      | cons b p =>
        have hab : ScoreBelow g a b := (List.chain'_cons.mp h).1
        intro c hc
        rcases List.mem_cons.mp hc with hc | hc
        · rw [hc]
          exact hab
        · exact htrans a b c hab (List.rel_of_pairwise_cons ihp hc)
  refine List.Pairwise.imp ?_ hpw
  rintro a b ⟨ga, gb, h1, h2, h3⟩ hab
  rw [hab, h2] at h1
  cases h1
  omega

theorem reconstructPath_total {u : Unit} {m : GameMap} {start : Pos} {st : AStar}
    (hinv : SearchInv u m start st) :
    ∀ (fuel : Nat) (n : Pos) (v : Int) (acc : List Pos),
      st.gScore n = some v → v < (fuel : Int) →
      ∃ path, Unit.reconstructPath st.cameFrom fuel (some n) acc = some path := by
  intro fuel
  induction fuel with
  | zero =>
    intro n v acc hg hv
    have := (hinv.gbound n v hg).1
    simp only [Nat.cast_zero] at hv
    omega
  | succ fuel ih =>
    intro n v acc hg hv
    rw [Unit.reconstructPath]
    cases hcf : st.cameFrom n with
    | none =>
      exact ⟨n :: acc, by cases fuel <;> simp [Unit.reconstructPath]⟩
    | some c =>
      obtain ⟨_, _, _, gc, hgc, hgn⟩ := hinv.came n c hcf
      rw [hg] at hgn
      cases hgn
      apply ih c gc (n :: acc) hgc
      simp only [Nat.cast_add, Nat.cast_one] at hv
      omega

theorem reconstructPath_mono (cameFrom : Pos → Option Pos) :
    ∀ (fuel : Nat) (k : Option Pos) (acc path : List Pos),
      Unit.reconstructPath cameFrom fuel k acc = some path →
      ∀ fuel', fuel ≤ fuel' → Unit.reconstructPath cameFrom fuel' k acc = some path := by
  intro fuel
  induction fuel with
  | zero =>
    intro k acc path h fuel' _
    cases k with
    | none =>
      have hp : path = acc := by simp [Unit.reconstructPath] at h; exact h.symm
      cases fuel' <;> simp [Unit.reconstructPath, hp]
    | some n => simp [Unit.reconstructPath] at h
  | succ fuel ih =>
    intro k acc path h fuel' hle
    cases k with
    | none =>
      have hp : path = acc := by simp [Unit.reconstructPath] at h; exact h.symm
      cases fuel' <;> simp [Unit.reconstructPath, hp]
    | some n =>
      cases fuel' with
      | zero => omega
      | succ fuel' =>
        rw [Unit.reconstructPath] at h ⊢
        exact ih _ _ _ h fuel' (Nat.le_of_succ_le_succ hle)


/-! ### The search loop: soundness, totality, independence of the fuel -/

theorem search_sound {u : Unit} {m : GameMap} {start : Pos} (tx ty : Int) (rfuel : Nat) :
    ∀ (fuel : Nat) (st : AStar) (res : AStar × Option (List Pos)),
      SearchInv u m start st → st.iterations ≤ 1000 →
      Unit.search u m tx ty rfuel fuel st = some res →
      res.1.iterations ≤ 1000 ∧ res.1.closedSet.length ≤ res.1.iterations ∧
      ∀ path, res.2 = some path →
        path.head? = some start ∧ path.getLast? = some { x := tx, y := ty } ∧
        List.Chain' Adjacent path ∧ (∀ t ∈ path.tail, u.canMoveTo t.x t.y m = true) ∧
        path.Nodup := by
  intro fuel
  induction fuel with
  | zero =>
    intro st res _ _ h
    simp [Unit.search] at h
  | succ fuel ih =>
    intro st res hinv hit h
    rw [Unit.search] at h
    split at h
    · cases h
      exact ⟨hit, hinv.closedLen, fun p hp => by cases hp⟩
    · rename_i first rest hopen
      by_cases hlt : st.iterations < 1000
      · rw [if_pos hlt] at h
        simp only at h
        by_cases htarget : Unit.lowestF st.fScore first rest = { x := tx, y := ty }
        · rw [if_pos htarget] at h
          rw [Option.map_eq_some'] at h
          obtain ⟨path, hrec, hres⟩ := h
          subst hres
          refine ⟨hlt, Nat.le_succ_of_le hinv.closedLen, ?_⟩
          intro p hp
          cases hp
          have hmem : Unit.lowestF st.fScore first rest ∈ st.openSet := by
            rw [hopen]
            exact lowestF_mem _ _ _
          obtain ⟨q, hq, h1, h2, h3, h4, h5⟩ :=
            reconstructPath_sound hinv rfuel _ [] path (Or.inl hmem) hrec
          rw [List.append_nil] at hq
          subst hq
          rw [htarget] at h2
          exact ⟨h1, h2, h3, h4, scoreBelow_chain_nodup _ _ h5⟩
        · rw [if_neg htarget] at h
          obtain ⟨hinv', hit'⟩ := step_inv tx ty st first rest hinv hopen
          exact ih _ res hinv' (by omega) h
      · rw [if_neg hlt] at h
        cases h
        exact ⟨hit, hinv.closedLen, fun p hp => by cases hp⟩

theorem search_total {u : Unit} {m : GameMap} {start : Pos} (tx ty : Int) (rfuel : Nat)
    (hr : 1000 ≤ rfuel) :
    ∀ (fuel : Nat) (st : AStar), SearchInv u m start st → st.iterations ≤ 1000 →
      1000 < fuel + st.iterations →
      ∃ res, Unit.search u m tx ty rfuel fuel st = some res := by
  intro fuel
  induction fuel with
  | zero =>
    intro st _ h1 h2
    omega
  | succ fuel ih =>
    intro st hinv hit hfuel
    rw [Unit.search]
    split
    · exact ⟨_, rfl⟩
    · rename_i first rest hopen
      by_cases hlt : st.iterations < 1000
      · rw [if_pos hlt]
        simp only
        by_cases htarget : Unit.lowestF st.fScore first rest = { x := tx, y := ty }
        · rw [if_pos htarget]
          have hmem : Unit.lowestF st.fScore first rest ∈ st.openSet := by
            rw [hopen]
            exact lowestF_mem _ _ _
          obtain ⟨_, v, hv⟩ := hinv.reached _ (Or.inl hmem)
          have hb := (hinv.gbound _ v hv).2
          obtain ⟨path, hpath⟩ := reconstructPath_total hinv rfuel _ v [] hv (by omega)
          rw [hpath]
          exact ⟨_, rfl⟩
        · rw [if_neg htarget]
          obtain ⟨hinv', hit'⟩ := step_inv tx ty st first rest hinv hopen
          exact ih _ hinv' (by omega) (by omega)
      · rw [if_neg hlt]
        exact ⟨_, rfl⟩

theorem search_mono (u : Unit) (m : GameMap) (tx ty : Int) (rfuel rfuel' : Nat)
    (hr : rfuel ≤ rfuel') :
    ∀ (fuel : Nat) (st : AStar) (res : AStar × Option (List Pos)),
      Unit.search u m tx ty rfuel fuel st = some res →
      ∀ fuel', fuel ≤ fuel' → Unit.search u m tx ty rfuel' fuel' st = some res := by
  intro fuel
  induction fuel with
  | zero =>
    intro st res h
    simp [Unit.search] at h
  | succ fuel ih =>
    intro st res h fuel' hle
    cases fuel' with
    | zero => omega
    | succ fuel' =>
      rw [Unit.search] at h ⊢
      cases hopen : st.openSet with
      | nil =>
        rw [hopen] at h
        exact h
      | cons first rest =>
        rw [hopen] at h
        simp only at h ⊢
        by_cases hlt : st.iterations < 1000
        · rw [if_pos hlt] at h ⊢
          by_cases htarget : Unit.lowestF st.fScore first rest = { x := tx, y := ty }
          · rw [if_pos htarget] at h ⊢
            rw [Option.map_eq_some'] at h
            obtain ⟨path, hrec, hres⟩ := h
            rw [reconstructPath_mono _ _ _ _ _ hrec rfuel' hr]
            rw [← hres]
            rfl
          · rw [if_neg htarget] at h ⊢
            exact ih _ res h fuel' (Nat.le_of_succ_le_succ hle)
        · rw [if_neg hlt] at h ⊢
          exact h


/-! ### `findPath` and `setMovementPath` -/

theorem canMoveTo_eq_true_iff (u : Unit) (x y : Int) (m : GameMap) :
    u.canMoveTo x y m = true ↔
      (0 ≤ x ∧ x < m.width ∧ 0 ≤ y ∧ y < m.height) ∧
        GameHelpers.canUnitMoveTo u.type.name (m.getTerrain x y) = true := by
  unfold Unit.canMoveTo
  by_cases hb : x < 0 ∨ x ≥ m.width ∨ y < 0 ∨ y ≥ m.height
  · rw [if_pos hb]
    constructor
    · intro h
      cases h
    · intro h
      omega
  · rw [if_neg hb]
    constructor
    · intro h
      exact ⟨by omega, h⟩
    · intro h
      exact h.2

/-- C8: a path returned by `findPath` is non-empty, starts at the start tile,
ends at the goal tile, moves by Manhattan distance exactly 1 between consecutive
tiles, and every tile after the first lies inside the map and has a terrain that
the unit's type may enter. -/
theorem findPath_path_valid (fuel : Nat) (u : Unit) (sx sy tx ty : Int) (m : GameMap)
    (path : List Pos) (h : Unit.findPath fuel u sx sy tx ty m = some (some path)) :
    path ≠ [] ∧ path.head? = some { x := sx, y := sy } ∧
    path.getLast? = some { x := tx, y := ty } ∧
    List.Chain' (fun a b => GameHelpers.getDistance a.x a.y b.x b.y = 1) path ∧
    ∀ t ∈ path.tail, (0 ≤ t.x ∧ t.x < m.width ∧ 0 ≤ t.y ∧ t.y < m.height) ∧
      GameHelpers.canUnitMoveTo u.type.name (m.getTerrain t.x t.y) = true := by
  unfold Unit.findPath at h
  simp only at h
  split at h
  · cases h
  · rw [Option.map_eq_some'] at h
    obtain ⟨res, hres, hsnd⟩ := h
    obtain ⟨_, _, hpath⟩ := search_sound tx ty fuel fuel _ res
      (searchStart_inv u m sx sy tx ty) (by simp [Unit.searchStart]) hres
    obtain ⟨h1, h2, h3, h4, _⟩ := hpath path hsnd
    refine ⟨?_, h1, h2, h3, ?_⟩
    · intro hnil
      rw [hnil] at h1
      cases h1
    · intro t ht
      exact (canMoveTo_eq_true_iff u t.x t.y m).mp (h4 t ht)

/-- Witness of `findPath_path_valid`: the route of an army around the mountain
wall of `mazeMap`. -/
theorem findPath_path_valid_witness :
    mazeRoute ≠ [] ∧ mazeRoute.head? = some { x := 0, y := 0 } ∧
    mazeRoute.getLast? = some { x := 3, y := 0 } ∧
    List.Chain' (fun a b => GameHelpers.getDistance a.x a.y b.x b.y = 1) mazeRoute ∧
    ∀ t ∈ mazeRoute.tail,
      (0 ≤ t.x ∧ t.x < mazeMap.width ∧ 0 ≤ t.y ∧ t.y < mazeMap.height) ∧
      GameHelpers.canUnitMoveTo (Unit.new .army 0 0 0 "u1").type.name
        (mazeMap.getTerrain t.x t.y) = true :=
  findPath_path_valid 1001 (Unit.new .army 0 0 0 "u1") 0 0 3 0 mazeMap mazeRoute (by decide)

/-- C9: `findPath` terminates. For every unit, map, start and goal there is one
result, a path or `null`, that the function returns whenever it is given fuel
for at least 1001 tests of the loop condition and 1001 passes of the
reconstruction loop; the search loop leaves with `iterations ≤ 1000` and with at
most 1000 expanded (closed) tiles; a returned path, the `cameFrom` chain read
back from the goal, repeats no tile and begins at the start. -/
theorem findPath_terminates (u : Unit) (sx sy tx ty : Int) (m : GameMap) :
    ∃ r : Option (List Pos),
      (∀ k, Unit.findPath (1001 + k) u sx sy tx ty m = some r) ∧
      (∀ k, ∃ st r', Unit.search u m tx ty (1001 + k) (1001 + k)
          (Unit.searchStart sx sy tx ty) = some (st, r') ∧
        st.iterations ≤ 1000 ∧ st.closedSet.length ≤ 1000) ∧
      (∀ path, r = some path →
        path.Nodup ∧ path.head? = some { x := sx, y := sy }) := by
  have hinv := searchStart_inv u m sx sy tx ty
  have hit : (Unit.searchStart sx sy tx ty).iterations ≤ 1000 := by simp [Unit.searchStart]
  obtain ⟨res, hres⟩ := search_total (u := u) (m := m) tx ty 1001 (by omega) 1001 _ hinv hit
    (by simp [Unit.searchStart])
  have hall : ∀ k, Unit.search u m tx ty (1001 + k) (1001 + k)
      (Unit.searchStart sx sy tx ty) = some res := by
    intro k
    exact search_mono u m tx ty 1001 (1001 + k) (by omega) 1001 _ res hres (1001 + k) (by omega)
  obtain ⟨h1, h2, h3⟩ := search_sound tx ty 1001 1001 _ res hinv hit hres
  refine ⟨if (!GameHelpers.canUnitMoveTo u.type.name (m.getTerrain tx ty)) = true then none
      else res.2, ?_, ?_, ?_⟩
  · intro k
    unfold Unit.findPath
    simp only
    split
    · rfl
    · rw [hall k]
      rfl
  · intro k
    exact ⟨res.1, res.2, hall k, h1, Nat.le_trans h2 h1⟩
  · intro path hpath
    split at hpath
    · cases hpath
    · obtain ⟨h4, _, _, _, h5⟩ := h3 path hpath
      exact ⟨h5, h4⟩

theorem findPath_self (fuel : Nat) (u : Unit) (x y : Int) (m : GameMap)
    (r : Option (List Pos)) (h : Unit.findPath fuel u x y x y m = some r) :
    r = if GameHelpers.canUnitMoveTo u.type.name (m.getTerrain x y) = true
        then some [{ x := x, y := y }] else none := by
  unfold Unit.findPath at h
  simp only at h
  by_cases hc : GameHelpers.canUnitMoveTo u.type.name (m.getTerrain x y) = true
  · rw [if_pos hc]
    simp only [hc, Bool.not_true, Bool.false_eq_true, if_false] at h
    cases fuel with
    | zero => simp [Unit.search] at h
    | succ fuel =>
      simp only [Unit.search, Unit.searchStart, Unit.lowestF, List.foldl_nil,
        Unit.reconstructPath] at h
      cases fuel <;> simpa [Unit.reconstructPath] using h.symm
  · rw [if_neg hc]
    have hc' : (!GameHelpers.canUnitMoveTo u.type.name (m.getTerrain x y)) = true := by
      simpa using hc
    rw [if_pos hc'] at h
    cases h
    rfl

theorem setMovementPath_of_findPath (fuel : Nat) (u : Unit) (x y : Int) (m : GameMap)
    (r : Option (List Pos)) (h : Unit.findPath fuel u u.x u.y x y m = some r) :
    ∃ b u', Unit.setMovementPath fuel u x y m = some (b, u') ∧
      (b = true ↔ ∃ path, r = some path ∧ 1 < path.length) ∧
      (∀ path, b = true → r = some path →
        u' = { u with movementPath := path.drop 1, isMovingAlongPath := true,
                      needsPlayerAttention := false }) ∧
      (b = true → u'.x = u.x ∧ u'.y = u.y ∧ u'.movesRemaining = u.movesRemaining) ∧
      (b = false → u' = u) ∧
      (x = u.x → y = u.y → b = false ∧
        r = if GameHelpers.canUnitMoveTo u.type.name (m.getTerrain u.x u.y) = true
            then some [{ x := u.x, y := u.y }] else none) := by
  have hself : x = u.x → y = u.y →
      r = (if GameHelpers.canUnitMoveTo u.type.name (m.getTerrain u.x u.y) = true
            then some [{ x := u.x, y := u.y }] else none) ∧
      ∀ path, r = some path → ¬ 1 < path.length := by
    intro hx hy
    subst hx
    subst hy
    have h1 := findPath_self fuel u _ _ m r h
    refine ⟨h1, ?_⟩
    intro path hr
    rw [h1] at hr
    split at hr
    · cases hr
      simp
    · cases hr
  unfold Unit.setMovementPath
  rw [h]
  cases r with
  | none =>
    refine ⟨false, u, rfl, ?_, ?_, ?_, fun _ => rfl, fun hx hy => ⟨rfl, (hself hx hy).1⟩⟩
    · constructor
      · intro hb
        cases hb
      · rintro ⟨path, hp, _⟩
        cases hp
    · intro path hb
      cases hb
    · intro hb
      cases hb
  | some path =>
    simp only
    by_cases hlen : path.length > 1
    · rw [if_pos hlen]
      refine ⟨true, _, rfl, ?_, ?_, fun _ => ⟨rfl, rfl, rfl⟩, ?_, ?_⟩
      · exact ⟨fun _ => ⟨path, rfl, hlen⟩, fun _ => rfl⟩
      · intro p _ hp
        cases hp
        rfl
      · intro hb
        cases hb
      · intro hx hy
        exact absurd hlen ((hself hx hy).2 path rfl)
    · rw [if_neg hlen]
      refine ⟨false, u, rfl, ?_, ?_, ?_, fun _ => rfl, fun hx hy => ⟨rfl, (hself hx hy).1⟩⟩
      · constructor
        · intro hb
          cases hb
        · rintro ⟨p, hp, hl⟩
          cases hp
          exact absurd hl hlen
      · intro p hb
        cases hb
      · intro hb
        cases hb

theorem findPath_returns (u : Unit) (sx sy tx ty : Int) (m : GameMap) :
    ∃ r : Option (List Pos), ∀ k, Unit.findPath (1001 + k) u sx sy tx ty m = some r := by
  have hinv := searchStart_inv u m sx sy tx ty
  have hit : (Unit.searchStart sx sy tx ty).iterations ≤ 1000 := by simp [Unit.searchStart]
  obtain ⟨res, hres⟩ := search_total (u := u) (m := m) tx ty 1001 (by omega) 1001 _ hinv hit
    (by simp [Unit.searchStart])
  refine ⟨if (!GameHelpers.canUnitMoveTo u.type.name (m.getTerrain tx ty)) = true then none
      else res.2, ?_⟩
  intro k
  unfold Unit.findPath
  simp only
  split
  · rfl
  · rw [search_mono u m tx ty 1001 (1001 + k) (by omega) 1001 _ res hres (1001 + k) (by omega)]
    rfl

/-- C10 (amended): given fuel for `findPath` to finish (1001 or more),
`setMovementPath` returns; it returns true exactly when `findPath` from the
unit's position returns a path of more than one tile; the unit then holds that
path without its first tile, follows it and needs no attention, and its position
and `movesRemaining` are unchanged. Otherwise it returns false and the unit is
unchanged. This is the case when the target is the unit's own tile: `findPath`
then returns the single-tile path if the unit's type may enter the terrain of
that tile, and `null` if it may not. -/
theorem setMovementPath_spec (k : Nat) (u : Unit) (x y : Int) (m : GameMap) :
    ∃ r b u', Unit.findPath (1001 + k) u u.x u.y x y m = some r ∧
      Unit.setMovementPath (1001 + k) u x y m = some (b, u') ∧
      (b = true ↔ ∃ path, r = some path ∧ 1 < path.length) ∧
      (∀ path, b = true → r = some path →
        u' = { u with movementPath := path.drop 1, isMovingAlongPath := true,
                      needsPlayerAttention := false }) ∧
      (b = true → u'.x = u.x ∧ u'.y = u.y ∧ u'.movesRemaining = u.movesRemaining) ∧
      (b = false → u' = u) ∧
      (x = u.x → y = u.y → b = false ∧
        r = if GameHelpers.canUnitMoveTo u.type.name (m.getTerrain u.x u.y) = true
            then some [{ x := u.x, y := u.y }] else none) := by
  obtain ⟨r, hr⟩ := findPath_returns u u.x u.y x y m
  obtain ⟨b, u', h1, h2⟩ := setMovementPath_of_findPath (1001 + k) u x y m r (hr k)
  exact ⟨r, b, u', hr k, h1, h2⟩

/-- C10 (counterexample): a destroyer stands on the land tile (0,0), which its
type may not enter. For its own tile as target `findPath` returns `null`, not
the single-tile path; `setMovementPath` returns false and leaves it unchanged. -/
theorem findPath_own_tile_null :
    Unit.findPath 1001 (Unit.new .destroyer 0 0 0 "u1") 0 0 0 0 plainMap = some none ∧
    Unit.setMovementPath 1001 (Unit.new .destroyer 0 0 0 "u1") 0 0 plainMap =
      some (false, Unit.new .destroyer 0 0 0 "u1") := by
  decide

/-! ### Combat rolls -/

theorem attackStrength_nonneg (t : UnitType) :
    (0 : ℚ) ≤ ((GAME_CONSTANTS.COMBAT_STRENGTH t).1 : ℚ) := by
  cases t <;> simp [GAME_CONSTANTS.COMBAT_STRENGTH]

theorem defenseStrength_nonneg (t : UnitType) :
    (0 : ℚ) ≤ ((GAME_CONSTANTS.COMBAT_STRENGTH t).2 : ℚ) := by
  cases t <;> simp [GAME_CONSTANTS.COMBAT_STRENGTH]

theorem strength_nat (t : UnitType) :
    (∃ N : Nat, ((GAME_CONSTANTS.COMBAT_STRENGTH t).1 : ℚ) = (N : ℚ) ∧
      (N : ℚ) < (2 : ℚ) ^ (53 : Int)) ∧
    (∃ N : Nat, ((GAME_CONSTANTS.COMBAT_STRENGTH t).2 : ℚ) = (N : ℚ) ∧
      (N : ℚ) < (2 : ℚ) ^ (53 : Int)) := by
  cases t <;>
    exact ⟨⟨_, by simp [GAME_CONSTANTS.COMBAT_STRENGTH]; rfl, by norm_num⟩,
      ⟨_, by simp [GAME_CONSTANTS.COMBAT_STRENGTH]; rfl, by norm_num⟩⟩

theorem mul_strength_bounds (r s : ℚ) (N : Nat) (hs : s = (N : ℚ))
    (hN : (N : ℚ) < (2 : ℚ) ^ (53 : Int)) (h : 0 ≤ r ∧ r < 1) :
    0 ≤ Double.mul r s ∧ Double.mul r s ≤ s := by
  have hs0 : (0 : ℚ) ≤ s := by rw [hs]; exact Nat.cast_nonneg N
  unfold Double.mul
  refine ⟨round_nonneg _ (mul_nonneg h.1 hs0), ?_⟩
  have hle : r * s ≤ (N : ℚ) := by
    rw [← hs]
    exact mul_le_of_le_one_left hs0 (le_of_lt h.2)
  have := round_le_nat (r * s) N (mul_nonneg h.1 hs0) hle hN
  rw [hs] at this ⊢
  exact this

/-- C11: for draws `r1`, `r2` in [0,1) the attack roll, the product of `r1` and
the attack strength of the attacker's type as JavaScript computes it, lies
between 0 and that strength, and the defense roll, the product of `r2` and the
defense strength of the defender's type, between 0 and that strength;
`resolveCombat` answers `'attacker_wins'` exactly when the attack roll is
strictly greater, a tie gives `'defender_wins'`, and every pair of unit types has
one of the two outcomes. -/
theorem resolveCombat_rolls (attacker defender : UnitType) (r1 r2 : ℚ)
    (h1 : 0 ≤ r1 ∧ r1 < 1) (h2 : 0 ≤ r2 ∧ r2 < 1) :
    (0 ≤ Double.mul r1 ((GAME_CONSTANTS.COMBAT_STRENGTH attacker).1 : ℚ) ∧
      Double.mul r1 ((GAME_CONSTANTS.COMBAT_STRENGTH attacker).1 : ℚ) ≤
        ((GAME_CONSTANTS.COMBAT_STRENGTH attacker).1 : ℚ)) ∧
    (0 ≤ Double.mul r2 ((GAME_CONSTANTS.COMBAT_STRENGTH defender).2 : ℚ) ∧
      Double.mul r2 ((GAME_CONSTANTS.COMBAT_STRENGTH defender).2 : ℚ) ≤
        ((GAME_CONSTANTS.COMBAT_STRENGTH defender).2 : ℚ)) ∧
    (GameHelpers.resolveCombat attacker defender r1 r2 = true ↔
      Double.mul r1 ((GAME_CONSTANTS.COMBAT_STRENGTH attacker).1 : ℚ) >
        Double.mul r2 ((GAME_CONSTANTS.COMBAT_STRENGTH defender).2 : ℚ)) ∧
    (Double.mul r1 ((GAME_CONSTANTS.COMBAT_STRENGTH attacker).1 : ℚ) =
        Double.mul r2 ((GAME_CONSTANTS.COMBAT_STRENGTH defender).2 : ℚ) →
      GameHelpers.resolveCombat attacker defender r1 r2 = false) ∧
    (GameHelpers.resolveCombat attacker defender r1 r2 = true ∨
      GameHelpers.resolveCombat attacker defender r1 r2 = false) := by
  obtain ⟨Na, hNa, hNa53⟩ := (strength_nat attacker).1
  obtain ⟨Nd, hNd, hNd53⟩ := (strength_nat defender).2
  refine ⟨mul_strength_bounds r1 _ Na hNa hNa53 h1, mul_strength_bounds r2 _ Nd hNd hNd53 h2,
    ?_, ?_, ?_⟩
  · unfold GameHelpers.resolveCombat
    simp only [decide_eq_true_eq]
  · intro heq
    unfold GameHelpers.resolveCombat
    simp only [decide_eq_false_iff_not, heq, gt_iff_lt, lt_self_iff_false, not_false_eq_true]
  · cases GameHelpers.resolveCombat attacker defender r1 r2
    · exact Or.inr rfl
    · exact Or.inl rfl

/-- Witness of `resolveCombat_rolls`: a tank attacks a fighter with draws 1/2 and 1/4. -/
theorem resolveCombat_rolls_witness :
    (0 ≤ Double.mul (1 / 2) ((GAME_CONSTANTS.COMBAT_STRENGTH .tank).1 : ℚ) ∧
      Double.mul (1 / 2) ((GAME_CONSTANTS.COMBAT_STRENGTH .tank).1 : ℚ) ≤
        ((GAME_CONSTANTS.COMBAT_STRENGTH .tank).1 : ℚ)) ∧
    (0 ≤ Double.mul (1 / 4) ((GAME_CONSTANTS.COMBAT_STRENGTH .fighter).2 : ℚ) ∧
      Double.mul (1 / 4) ((GAME_CONSTANTS.COMBAT_STRENGTH .fighter).2 : ℚ) ≤
        ((GAME_CONSTANTS.COMBAT_STRENGTH .fighter).2 : ℚ)) ∧
    (GameHelpers.resolveCombat .tank .fighter (1 / 2) (1 / 4) = true ↔
      Double.mul (1 / 2) ((GAME_CONSTANTS.COMBAT_STRENGTH .tank).1 : ℚ) >
        Double.mul (1 / 4) ((GAME_CONSTANTS.COMBAT_STRENGTH .fighter).2 : ℚ)) ∧
    (Double.mul (1 / 2) ((GAME_CONSTANTS.COMBAT_STRENGTH .tank).1 : ℚ) =
        Double.mul (1 / 4) ((GAME_CONSTANTS.COMBAT_STRENGTH .fighter).2 : ℚ) →
      GameHelpers.resolveCombat .tank .fighter (1 / 2) (1 / 4) = false) ∧
    (GameHelpers.resolveCombat .tank .fighter (1 / 2) (1 / 4) = true ∨
      GameHelpers.resolveCombat .tank .fighter (1 / 2) (1 / 4) = false) :=
  resolveCombat_rolls .tank .fighter (1 / 2) (1 / 4) (by norm_num) (by norm_num)

/-- Two rolls that differ as real numbers and tie as doubles: an army (attack
10) with draw 1/2 + 2^-52 against a fighter (defense 8) with draw 5/8 + 2^-52.
The real products are 5 + 10 * 2^-52 and 5 + 8 * 2^-52; both rolls are the double
5 + 2^-49, and `resolveCombat` answers `'defender_wins'`. -/
theorem resolveCombat_rounded_tie :
    ((1 / 2 + 1 / 2 ^ 52 : ℚ) * 10 > (5 / 8 + 1 / 2 ^ 52 : ℚ) * 8) ∧
    Double.mul (1 / 2 + 1 / 2 ^ 52) ((GAME_CONSTANTS.COMBAT_STRENGTH .army).1 : ℚ) =
      5 + 1 / 2 ^ 49 ∧
    Double.mul (5 / 8 + 1 / 2 ^ 52) ((GAME_CONSTANTS.COMBAT_STRENGTH .fighter).2 : ℚ) =
      5 + 1 / 2 ^ 49 ∧
    GameHelpers.resolveCombat .army .fighter (1 / 2 + 1 / 2 ^ 52) (5 / 8 + 1 / 2 ^ 52) =
      false := by
  refine ⟨?_, ?_, ?_, ?_⟩ <;> decide!

/-! ### `captureCity` -/

theorem findIdx?_of_nodup {α β : Type} [DecidableEq β] (f : α → β) (a : α) :
    ∀ (l : List α) (i s : Nat), (l.map f).Nodup → l[i]? = some a →
      l.findIdx? (fun b => f b == f a) s = some (i + s) := by
  intro l
  induction l with
  | nil => intro i s _ h; simp at h
  | cons b l ih =>
    intro i s hnd h
    rw [List.map_cons, List.nodup_cons] at hnd
    cases i with
    | zero =>
      simp only [List.getElem?_cons_zero, Option.some.injEq] at h
      subst h
      simp [List.findIdx?_cons]
    | succ i =>
      simp only [List.getElem?_cons_succ] at h
      have hne : f b ≠ f a := by
        intro heq
        apply hnd.1
        rw [heq]
        exact List.mem_map.mpr ⟨a, List.getElem?_mem h, rfl⟩
      rw [List.findIdx?_cons]
      have hb : (f b == f a) = false := by simpa using hne
      rw [hb]
      simp only [Bool.false_eq_true, if_false]
      rw [ih i (s + 1) hnd.2 h]
      congr 1
      omega

theorem removeUnit_of_nodup (g : Game) (i : Nat) (unit : Unit)
    (hu : g.units[i]? = some unit) (hid : (g.units.map (fun u => u.id)).Nodup) :
    (g.removeUnit unit).units = g.units.eraseIdx i := by
  unfold Game.removeUnit
  have h := findIdx?_of_nodup (fun u : Unit => u.id) unit g.units i 0 hid hu
  simp only [Nat.add_zero] at h
  rw [h]

theorem captureCity_city {g g' : Game} {unit : Unit} {ci : Nat} {r1 r2 : ℚ} {city : City}
    {b : Bool} (hc : g.map.cities[ci]? = some city)
    (h : g.captureCity unit ci r1 r2 = some (b, g')) :
    ∃ city', g'.map.cities[ci]? = some city' ∧
      city'.owner = (if b = true then some unit.owner else city.owner) ∧
      city'.currentDefense = city.degradeDefense.currentDefense ∧
      city'.baseDefense = city.baseDefense ∧
      g'.map.cities.length = g.map.cities.length := by
  have hlt : ci < g.map.cities.length := by
    rcases Nat.lt_or_ge ci g.map.cities.length with h1 | h1
    · exact h1
    · rw [List.getElem?_eq_none h1] at hc
      cases hc
  have hdeg : city.degradeDefense.baseDefense = city.baseDefense ∧
      city.degradeDefense.owner = city.owner := by
    unfold City.degradeDefense
    split <;> exact ⟨rfl, rfl⟩
  unfold Game.captureCity at h
  rw [hc] at h
  simp only at h
  split at h
  · split at h
    · cases h
    · split at h
      · cases h
        refine ⟨city.degradeDefense.capture unit.owner, ?_, ?_, rfl, hdeg.1, ?_⟩
        · simp only [Game.incrementStatAt, Game.setCity]
          exact List.getElem?_set_self hlt
        · simp [City.capture]
        · simp [Game.incrementStatAt, Game.setCity]
      · cases h
        refine ⟨((city.degradeDefense.capture unit.owner).startProduction "army").2,
          ?_, ?_, ?_, ?_, ?_⟩
        · simp only [Game.incrementStatAt, Game.setCity]
          exact List.getElem?_set_self (by simpa using hlt)
        · simp [City.startProduction, City.capture, GAME_CONSTANTS.lookupProductionCost,
            GAME_CONSTANTS.PRODUCTION_COSTS, City.isProducing]
        · simp [City.startProduction, City.capture, GAME_CONSTANTS.lookupProductionCost,
            GAME_CONSTANTS.PRODUCTION_COSTS, City.isProducing]
        · simp [City.startProduction, City.capture, GAME_CONSTANTS.lookupProductionCost,
            GAME_CONSTANTS.PRODUCTION_COSTS, City.isProducing, hdeg.1]
        · simp [Game.incrementStatAt, Game.setCity]
  · cases h
    have hfr := removeUnit_frame (g.setCity ci city.degradeDefense) unit
    rw [hfr.2]
    refine ⟨city.degradeDefense, ?_, ?_, rfl, hdeg.1, ?_⟩
    · simp only [Game.setCity]
      exact List.getElem?_set_self hlt
    · simp [hdeg.2]
    · simp [Game.setCity]

/-- C12: for a city of the map, a unit of the game (unit ids being distinct)
whose owner is a player, `captureCity` returns; it returns true exactly when
`r1 * attack strength > r2 * max(1, currentDefense)`, the two products being
those of JavaScript numbers, as the code computes them; on true the city's owner is
the unit's owner and `units` is unchanged; on false the unit has been removed
from `units` and the city's owner is unchanged. -/
theorem captureCity_outcome (g : Game) (unit : Unit) (i ci pi : Nat) (r1 r2 : ℚ)
    (city : City) (hc : g.map.cities[ci]? = some city)
    (hu : g.units[i]? = some unit) (hid : (g.units.map (fun u => u.id)).Nodup)
    (hp : g.getPlayerById unit.owner = some pi) :
    ∃ b g', g.captureCity unit ci r1 r2 = some (b, g') ∧
      (b = true ↔ Double.mul r1 ((GAME_CONSTANTS.COMBAT_STRENGTH unit.type).1 : ℚ) >
        Double.mul r2 ((max 1 city.currentDefense : Int) : ℚ)) ∧
      (b = true → g'.units = g.units ∧
        ∃ city', g'.map.cities[ci]? = some city' ∧ city'.owner = some unit.owner) ∧
      (b = false → g'.units = g.units.eraseIdx i ∧
        ∃ city', g'.map.cities[ci]? = some city' ∧ city'.owner = city.owner) := by
  obtain ⟨b, g', hcap⟩ := captureCity_isSome g unit r1 r2 ⟨city, hc⟩ (by rw [hp]; rfl)
  obtain ⟨city', hc', hown, _, _, _⟩ := captureCity_city hc hcap
  refine ⟨b, g', hcap, ?_, ?_, ?_⟩
  · unfold Game.captureCity at hcap
    rw [hc] at hcap
    simp only [hp] at hcap
    split at hcap
    · rename_i hsucc
      have hb : b = true := by
        split at hcap <;> (cases hcap; rfl)
      rw [hb]
      simp only [true_iff]
      simpa [City.getCurrentDefense] using hsucc
    · rename_i hfail
      cases hcap
      simp only [Bool.false_eq_true, false_iff]
      simpa [City.getCurrentDefense] using hfail
  · intro hb
    subst hb
    exact ⟨captureCity_true_units hcap, city', hc', by simpa using hown⟩
  · intro hb
    subst hb
    obtain ⟨city2, hcity2, hg'⟩ := captureCity_false_eq hcap
    refine ⟨?_, city', hc', by simpa using hown⟩
    rw [hg']
    exact removeUnit_of_nodup (g.setCity ci city2.degradeDefense) i unit hu hid

/-- Witness of `captureCity_outcome`: an army next to the neutral city of `cityMap`. -/
theorem captureCity_outcome_witness :
    ∃ b g', (gameOn cityMap [Unit.new .army 3 0 0 "u1"]).captureCity
        (Unit.new .army 3 0 0 "u1") 0 (1 / 2) 0 = some (b, g') ∧
      (b = true ↔ Double.mul (1 / 2)
          ((GAME_CONSTANTS.COMBAT_STRENGTH (Unit.new .army 3 0 0 "u1").type).1 : ℚ) >
        Double.mul 0 ((max 1 (City.new 4 0 none "city_a" "Troy").currentDefense : Int) : ℚ)) ∧
      (b = true → g'.units = (gameOn cityMap [Unit.new .army 3 0 0 "u1"]).units ∧
        ∃ city', g'.map.cities[0]? = some city' ∧
          city'.owner = some (Unit.new .army 3 0 0 "u1").owner) ∧
      (b = false →
        g'.units = (gameOn cityMap [Unit.new .army 3 0 0 "u1"]).units.eraseIdx 0 ∧
        ∃ city', g'.map.cities[0]? = some city' ∧
          city'.owner = (City.new 4 0 none "city_a" "Troy").owner) :=
  captureCity_outcome (gameOn cityMap [Unit.new .army 3 0 0 "u1"]) (Unit.new .army 3 0 0 "u1")
    0 0 0 (1 / 2) 0 (City.new 4 0 none "city_a" "Troy") (by decide) (by decide) (by decide)
    (by decide)

/-- Two capture rolls that differ as real numbers and tie as doubles: the army
of `cityMap` (attack 10) against the city's defence 15 with draws
3748613188508021 / 2^52 and 2499075459005347 / 2^52. The first real product is
the greater one, both rolls are the same double, and `captureCity` returns
false and removes the army. -/
theorem captureCity_rounded_tie :
    ((3748613188508021 / 2 ^ 52 : ℚ) * 10 > (2499075459005347 / 2 ^ 52 : ℚ) * 15) ∧
    Double.mul (3748613188508021 / 2 ^ 52) 10 = Double.mul (2499075459005347 / 2 ^ 52) 15 ∧
    ((gameOn cityMap [Unit.new .army 3 0 0 "u1"]).captureCity (Unit.new .army 3 0 0 "u1") 0
        (3748613188508021 / 2 ^ 52) (2499075459005347 / 2 ^ 52)).map
      (fun r => (r.1, r.2.units)) = some (false, []) := by
  refine ⟨?_, ?_, ?_⟩ <;> decide!

theorem degradeDefense_value (city : City) (h1 : 1 ≤ city.currentDefense) :
    city.degradeDefense.currentDefense = max 1 (city.currentDefense - 1) := by
  unfold City.degradeDefense
  split
  · simp only
    omega
  · omega

/-- C13: for a city with `1 ≤ currentDefense ≤ baseDefense`, after any
`captureCity` on it, won or lost, `currentDefense` is
`max(1, currentDefense - 1)`: not above the old value, at least 1 and within
`baseDefense`; after any sequence of `n` attempts it is
`max(1, currentDefense - n)`. -/
theorem captureCity_degrades (g : Game) (ci : Nat) (city : City)
    (hc : g.map.cities[ci]? = some city)
    (h1 : 1 ≤ city.currentDefense) (h2 : city.currentDefense ≤ city.baseDefense) :
    (∀ unit r1 r2 b g', g.captureCity unit ci r1 r2 = some (b, g') →
      ∃ city', g'.map.cities[ci]? = some city' ∧
        city'.currentDefense = max 1 (city.currentDefense - 1) ∧
        city'.currentDefense ≤ city.currentDefense ∧ 1 ≤ city'.currentDefense ∧
        city'.currentDefense ≤ city'.baseDefense) ∧
    (∀ attempts g', g.captureAttempts ci attempts = some g' →
      ∃ city', g'.map.cities[ci]? = some city' ∧
        city'.currentDefense = max 1 (city.currentDefense - (attempts.length : Int)) ∧
        city'.currentDefense ≤ city.currentDefense ∧ 1 ≤ city'.currentDefense) := by
  have hstep : ∀ (g0 : Game) (c0 : City), g0.map.cities[ci]? = some c0 →
      1 ≤ c0.currentDefense → c0.currentDefense ≤ c0.baseDefense →
      ∀ unit r1 r2 b g', g0.captureCity unit ci r1 r2 = some (b, g') →
        ∃ city', g'.map.cities[ci]? = some city' ∧
          city'.currentDefense = max 1 (c0.currentDefense - 1) ∧
          city'.currentDefense ≤ c0.currentDefense ∧ 1 ≤ city'.currentDefense ∧
          city'.currentDefense ≤ city'.baseDefense := by
    intro g0 c0 hc0 hd1 hd2 unit r1 r2 b g' hcap
    obtain ⟨city', hc', _, hdef, hbase, _⟩ := captureCity_city hc0 hcap
    have hv := degradeDefense_value c0 hd1
    refine ⟨city', hc', ?_, ?_, ?_, ?_⟩ <;> omega
  refine ⟨hstep g city hc h1 h2, ?_⟩
  intro attempts
  induction attempts generalizing g city with
  | nil =>
    intro g' h
    simp only [Game.captureAttempts, Option.some.injEq] at h
    subst h
    exact ⟨city, hc, by simp only [List.length_nil, Nat.cast_zero]; omega, le_refl _, h1⟩
  | cons attempt rest ih =>
    intro g' h
    simp only [Game.captureAttempts] at h
    split at h
    · cases h
    · rename_i result hres
      obtain ⟨c1, hc1, hv1, hle1, hone1, hbase1⟩ :=
        hstep g city hc h1 h2 attempt.1 attempt.2.1 attempt.2.2 result.1 result.2 hres
      obtain ⟨city', hc', hv, hle, hone⟩ := ih result.2 c1 hc1 hone1 hbase1 g' h
      refine ⟨city', hc', ?_, ?_, hone⟩
      · simp only [List.length_cons, Nat.cast_add, Nat.cast_one]
        omega
      · omega

/-- Witness of `captureCity_degrades`: the neutral city of `cityMap`. -/
theorem captureCity_degrades_witness :
    (∀ unit r1 r2 b g',
      (gameOn cityMap []).captureCity unit 0 r1 r2 = some (b, g') →
      ∃ city', g'.map.cities[0]? = some city' ∧
        city'.currentDefense = max 1 ((City.new 4 0 none "city_a" "Troy").currentDefense - 1) ∧
        city'.currentDefense ≤ (City.new 4 0 none "city_a" "Troy").currentDefense ∧
        1 ≤ city'.currentDefense ∧ city'.currentDefense ≤ city'.baseDefense) ∧
    (∀ attempts g', (gameOn cityMap []).captureAttempts 0 attempts = some g' →
      ∃ city', g'.map.cities[0]? = some city' ∧
        city'.currentDefense =
          max 1 ((City.new 4 0 none "city_a" "Troy").currentDefense - (attempts.length : Int)) ∧
        city'.currentDefense ≤ (City.new 4 0 none "city_a" "Troy").currentDefense ∧
        1 ≤ city'.currentDefense) :=
  captureCity_degrades (gameOn cityMap []) 0 (City.new 4 0 none "city_a" "Troy") (by decide)
    (by decide) (by decide)

/-! ### City production -/

theorem lookup_of_cost (unitType : String) (cost : Int)
    (h : GAME_CONSTANTS.PRODUCTION_COSTS unitType = some cost) :
    GAME_CONSTANTS.lookupProductionCost unitType = GAME_CONSTANTS.Lookup.number cost := by
  unfold GAME_CONSTANTS.lookupProductionCost
  rw [h]

theorem startProduction_of_cost (c : City) (unitType : String) (cost : Int)
    (h : GAME_CONSTANTS.PRODUCTION_COSTS unitType = some cost) :
    c.startProduction unitType =
      if c.isProducing then
        (true, { c with productionQueue := c.productionQueue ++ [unitType] })
      else
        (true, { c with currentProduction := some unitType, productionTurnsRemaining := cost,
                        productionTurnsNaN := false }) := by
  unfold City.startProduction
  rw [lookup_of_cost unitType cost h]

theorem productionCosts_none_iff (unitType : String) :
    GAME_CONSTANTS.PRODUCTION_COSTS unitType = none ↔ ∀ t : UnitType, unitType ≠ t.name := by
  unfold GAME_CONSTANTS.PRODUCTION_COSTS
  constructor
  · intro h t ht
    subst ht
    cases t <;> simp [UnitType.name] at h
  · intro h
    have h1 := h .army
    have h2 := h .tank
    have h3 := h .fighter
    have h4 := h .destroyer
    have h5 := h .submarine
    have h6 := h .cruiser
    have h7 := h .battleship
    have h8 := h .carrier
    simp only [UnitType.name] at h1 h2 h3 h4 h5 h6 h7 h8
    simp [h1, h2, h3, h4, h5, h6, h7, h8]

/-- What `startProduction(unitType)` does, for every city and every string. It
returns false, leaving the city unchanged, exactly when the property read
`PRODUCTION_COSTS[unitType]` is `undefined`: `unitType` is no key of the table
and no member of `Object.prototype`. For a key of the table it returns true; a
city with an active production gets `unitType` appended to its queue and nothing
else changes; an idle city gets `currentProduction = unitType` and
`productionTurnsRemaining` = the table cost, its queue unchanged. For a member
of `Object.prototype` it returns true as well; the idle city then gets a counter
that holds no number. -/
theorem startProduction_spec (c : City) (unitType : String) :
    ((c.startProduction unitType).1 = false ↔
      (GAME_CONSTANTS.PRODUCTION_COSTS unitType = none ∧
        unitType ∉ GAME_CONSTANTS.objectPrototypeKeys)) ∧
    ((c.startProduction unitType).1 = false → (c.startProduction unitType).2 = c) ∧
    (∀ cost, GAME_CONSTANTS.PRODUCTION_COSTS unitType = some cost →
      (c.startProduction unitType).1 = true ∧
      (c.isProducing = true →
        (c.startProduction unitType).2 =
          { c with productionQueue := c.productionQueue ++ [unitType] }) ∧
      (c.isProducing = false →
        (c.startProduction unitType).2 =
          { c with currentProduction := some unitType, productionTurnsRemaining := cost,
                   productionTurnsNaN := false })) ∧
    (GAME_CONSTANTS.PRODUCTION_COSTS unitType = none →
      unitType ∈ GAME_CONSTANTS.objectPrototypeKeys →
      (c.startProduction unitType).1 = true ∧
      (c.isProducing = true →
        (c.startProduction unitType).2 =
          { c with productionQueue := c.productionQueue ++ [unitType] }) ∧
      (c.isProducing = false →
        (c.startProduction unitType).2 =
          { c with currentProduction := some unitType, productionTurnsRemaining := 0,
                   productionTurnsNaN := true })) ∧
    (GAME_CONSTANTS.PRODUCTION_COSTS unitType = none ↔ ∀ t : UnitType, unitType ≠ t.name) := by
  have hmember : GAME_CONSTANTS.PRODUCTION_COSTS unitType = none →
      unitType ∈ GAME_CONSTANTS.objectPrototypeKeys →
      c.startProduction unitType =
        if c.isProducing then
          (true, { c with productionQueue := c.productionQueue ++ [unitType] })
        else
          (true, { c with currentProduction := some unitType, productionTurnsRemaining := 0,
                          productionTurnsNaN := true }) := by
    intro h1 h2
    unfold City.startProduction GAME_CONSTANTS.lookupProductionCost
    rw [h1]
    simp only [if_pos h2]
  have hundef : GAME_CONSTANTS.PRODUCTION_COSTS unitType = none →
      unitType ∉ GAME_CONSTANTS.objectPrototypeKeys →
      c.startProduction unitType = (false, c) := by
    intro h1 h2
    unfold City.startProduction GAME_CONSTANTS.lookupProductionCost
    rw [h1]
    simp only [if_neg h2]
  refine ⟨?_, ?_, ?_, ?_, productionCosts_none_iff unitType⟩
  · cases hcost : GAME_CONSTANTS.PRODUCTION_COSTS unitType with
    | none =>
      by_cases hm : unitType ∈ GAME_CONSTANTS.objectPrototypeKeys
      · rw [hmember hcost hm]
        constructor
        · intro h
          split at h <;> cases h
        · intro h
          exact absurd hm h.2
      · rw [hundef hcost hm]
        exact ⟨fun _ => ⟨rfl, hm⟩, fun _ => rfl⟩
    | some cost =>
      rw [startProduction_of_cost c unitType cost hcost]
      constructor
      · intro h
        split at h <;> cases h
      · intro h
        cases h.1
  · intro hfalse
    cases hcost : GAME_CONSTANTS.PRODUCTION_COSTS unitType with
    | none =>
      by_cases hm : unitType ∈ GAME_CONSTANTS.objectPrototypeKeys
      · rw [hmember hcost hm] at hfalse
        split at hfalse <;> cases hfalse
      · rw [hundef hcost hm]
    | some cost =>
      rw [startProduction_of_cost c unitType cost hcost] at hfalse
      split at hfalse <;> cases hfalse
  · intro cost h
    rw [startProduction_of_cost c unitType cost h]
    refine ⟨?_, ?_, ?_⟩
    · split <;> rfl
    · intro hp
      rw [if_pos hp]
    · intro hp
      rw [if_neg (by simp [hp])]
  · intro h1 h2
    rw [hmember h1 h2]
    refine ⟨?_, ?_, ?_⟩
    · split <;> rfl
    · intro hp
      rw [if_pos hp]
    · intro hp
      rw [if_neg (by simp [hp])]

/-- C14 fails for the names that every JavaScript object inherits: `toString`
is no key of the cost table, and yet `startProduction('toString')` returns
true. An idle city gets `currentProduction = 'toString'` and a counter that
holds no number, after which `processProduction` never completes anything; a
city with an active production gets `'toString'` appended to its queue. -/
theorem startProduction_accepts_inherited_key :
    (GAME_CONSTANTS.PRODUCTION_COSTS "toString" = none ∧
      (City.new 0 0 (some 0) "city_a" "Troy").isProducing = false) ∧
    (((City.new 0 0 (some 0) "city_a" "Troy").startProduction "toString").1 = true ∧
      ((City.new 0 0 (some 0) "city_a" "Troy").startProduction "toString").2 =
        { (City.new 0 0 (some 0) "city_a" "Troy") with
          currentProduction := some "toString", productionTurnsNaN := true }) ∧
    ((((City.new 0 0 (some 0) "city_a" "Troy").startProduction
        "toString").2.processProductionTimes ["u1", "u2", "u3"]).1 =
        [Produced.nothing, Produced.nothing, Produced.nothing] ∧
      (((City.new 0 0 (some 0) "city_a" "Troy").startProduction
        "toString").2.processProductionTimes ["u1", "u2", "u3"]).2 =
        ((City.new 0 0 (some 0) "city_a" "Troy").startProduction "toString").2) ∧
    ((((City.new 0 0 (some 0) "city_a" "Troy").startProduction "army").2.startProduction
        "toString").1 = true ∧
      (((City.new 0 0 (some 0) "city_a" "Troy").startProduction "army").2.startProduction
        "toString").2.productionQueue = ["toString"]) := by
  refine ⟨?_, ?_, ?_, ?_⟩ <;> decide

theorem ofName?_name (t : UnitType) : UnitType.ofName? t.name = some t := by
  cases t <;> simp [UnitType.ofName?, UnitType.name]

theorem isProducing_of_name (c : City) (t : UnitType)
    (h : c.currentProduction = some t.name) : c.isProducing = true := by
  unfold City.isProducing
  rw [h]
  cases t <;> simp [UnitType.name]

theorem completeProduction_of_name (c : City) (t : UnitType) (owner : Nat) (id : String)
    (ht : c.currentProduction = some t.name) (ho : c.owner = some owner) :
    c.completeProduction id =
      (Produced.unit (Unit.new t c.x c.y owner id),
        { c with currentProduction := none, productionTurnsRemaining := 0,
                 productionTurnsNaN := false }) := by
  have hp := isProducing_of_name c t ht
  unfold City.completeProduction
  rw [hp]
  simp only [Bool.not_true, Bool.false_eq_true, if_false]
  rw [ht, ho]
  simp [ofName?_name]

theorem processProduction_idle (c : City) (id : String) (h : c.isProducing = false) :
    c.processProduction id = (Produced.nothing, c) := by
  unfold City.processProduction
  simp [h]

theorem processProduction_waits (c : City) (id : String) (h : c.isProducing = true)
    (hnum : c.productionTurnsNaN = false) (hn : 1 < c.productionTurnsRemaining) :
    c.processProduction id =
      (Produced.nothing,
        { c with productionTurnsRemaining := c.productionTurnsRemaining - 1 }) := by
  unfold City.processProduction
  simp only [h, hnum, Bool.not_true, Bool.false_eq_true, if_false]
  rw [if_neg (by omega)]

theorem processProduction_stuck (c : City) (id : String) (h : c.isProducing = true)
    (hnan : c.productionTurnsNaN = true) :
    c.processProduction id = (Produced.nothing, c) := by
  unfold City.processProduction
  simp only [h, hnan, Bool.not_true, Bool.false_eq_true, if_false, if_true]

theorem processProduction_completes (c : City) (id : String) (t : UnitType) (owner : Nat)
    (ht : c.currentProduction = some t.name) (ho : c.owner = some owner)
    (hnum : c.productionTurnsNaN = false) (hn : c.productionTurnsRemaining = 1) :
    c.processProduction id =
      (match c.productionQueue with
      | nextUnit :: rest =>
        (Produced.unit (Unit.new t c.x c.y owner id),
          (City.startProduction
            { c with currentProduction := none, productionTurnsRemaining := 0,
                     productionQueue := rest } nextUnit).2)
      | [] => (Produced.unit (Unit.new t c.x c.y owner id),
          { c with currentProduction := none, productionTurnsRemaining := 0 })) := by
  have hp := isProducing_of_name c t ht
  have hcomplete := completeProduction_of_name
    { c with productionTurnsRemaining := c.productionTurnsRemaining - 1 } t owner id ht ho
  unfold City.processProduction
  simp only [hp, Bool.not_true, Bool.false_eq_true, if_false]
  rw [if_neg (show ¬ (c.productionTurnsNaN = true) by rw [hnum]; decide),
    if_pos (by omega), hcomplete]
  obtain ⟨x, y, o, i, cp, tr, nan, q⟩ := c
  simp only at hnum
  subst hnum
  rfl

/-- C15: `processProduction` on an idle city returns no unit and changes
nothing. With an active production whose counter holds a number greater than
one it returns no unit and only lowers `productionTurnsRemaining` by one. With
one turn remaining, for a city that has an owner and produces a unit type, it
returns one unit of that type on the city's tile with the city's owner; an empty
queue leaves the city idle, and a queue whose head is a key of the cost table
makes the head the new production at its full cost and keeps the rest in order.
With an active production whose counter holds no number it returns no unit and
changes nothing. -/
theorem processProduction_spec (c : City) (id : String) :
    (c.isProducing = false → c.processProduction id = (Produced.nothing, c)) ∧
    (c.isProducing = true → c.productionTurnsNaN = false → 1 < c.productionTurnsRemaining →
      c.processProduction id =
        (Produced.nothing,
          { c with productionTurnsRemaining := c.productionTurnsRemaining - 1 })) ∧
    (∀ (t : UnitType) (owner : Nat), c.currentProduction = some t.name →
      c.owner = some owner → c.productionTurnsNaN = false → c.productionTurnsRemaining = 1 →
      (c.processProduction id).1 = Produced.unit (Unit.new t c.x c.y owner id) ∧
      (Unit.new t c.x c.y owner id).type = t ∧
      (Unit.new t c.x c.y owner id).x = c.x ∧ (Unit.new t c.x c.y owner id).y = c.y ∧
      (Unit.new t c.x c.y owner id).owner = owner ∧
      (c.productionQueue = [] →
        (c.processProduction id).2 =
          { c with currentProduction := none, productionTurnsRemaining := 0 }) ∧
      (∀ next rest cost, c.productionQueue = next :: rest →
        GAME_CONSTANTS.PRODUCTION_COSTS next = some cost →
        (c.processProduction id).2 =
          { c with currentProduction := some next, productionTurnsRemaining := cost,
                   productionQueue := rest })) ∧
    (c.isProducing = true → c.productionTurnsNaN = true →
      c.processProduction id = (Produced.nothing, c)) := by
  refine ⟨processProduction_idle c id, processProduction_waits c id, ?_,
    processProduction_stuck c id⟩
  intro t owner ht ho hnum hn
  have hproc := processProduction_completes c id t owner ht ho hnum hn
  refine ⟨?_, rfl, rfl, rfl, rfl, ?_, ?_⟩
  · rw [hproc]
    cases c.productionQueue <;> rfl
  · intro hq
    rw [hproc, hq]
  · intro next rest cost hq hcost
    rw [hproc, hq]
    simp only
    rw [startProduction_of_cost _ next cost hcost]
    obtain ⟨x, y, o, i, cp, tr, nan, q⟩ := c
    simp only at hnum
    subst hnum
    simp [City.isProducing]

theorem startProduction_inv (c : City) (unitType : String) (h : c.ProductionInv) :
    (c.startProduction unitType).2.ProductionInv := by
  unfold City.startProduction
  split
  · exact h
  · split
    · exact h
    · intro hnone
      cases hnone
  · split
    · exact h
    · intro hnone
      cases hnone

theorem completeProduction_inv (c : City) (id : String) (h : c.ProductionInv) :
    (c.completeProduction id).2.ProductionInv := by
  unfold City.completeProduction
  split
  · exact h
  · intro _
    exact ⟨rfl, rfl⟩

/-- C20: the predicate `currentProduction == null` implies
`productionTurnsRemaining == 0` (the counter holds the number 0) holds for a
newly constructed city, and a city that satisfies it still does after
`startProduction`, `processProduction`, `completeProduction`,
`cancelProduction`, `removeFromQueue` and `capture`. -/
theorem productionInv_preserved (c : City) (h : c.ProductionInv) :
    (∀ x y owner id name, (City.new x y owner id name).ProductionInv) ∧
    (∀ unitType, (c.startProduction unitType).2.ProductionInv) ∧
    (∀ id, (c.processProduction id).2.ProductionInv) ∧
    (∀ id, (c.completeProduction id).2.ProductionInv) ∧
    c.cancelProduction.ProductionInv ∧
    (∀ index, (c.removeFromQueue index).ProductionInv) ∧
    (∀ newOwner, (c.capture newOwner).ProductionInv) := by
  refine ⟨?_, ?_, ?_, ?_, ?_, ?_, ?_⟩
  · intro x y owner id name _
    exact ⟨rfl, rfl⟩
  · intro unitType
    exact startProduction_inv c unitType h
  · intro id
    have hprod : c.isProducing = true → c.currentProduction ≠ none := by
      intro hp hnone
      simp [City.isProducing, hnone] at hp
    unfold City.processProduction
    by_cases hp : c.isProducing = true
    · simp only [hp, Bool.not_true, Bool.false_eq_true, if_false]
      by_cases hnan : c.productionTurnsNaN = true
      · rw [if_pos hnan]
        exact h
      · rw [if_neg hnan]
        by_cases hn : c.productionTurnsRemaining - 1 ≤ 0
        · rw [if_pos hn]
          have hc := completeProduction_inv
            { c with productionTurnsRemaining := c.productionTurnsRemaining - 1 } id
            (fun hnone => absurd hnone (hprod hp))
          split
          · apply startProduction_inv
            intro hnone
            exact hc hnone
          · exact hc
        · rw [if_neg hn]
          intro hnone
          exact absurd hnone (hprod hp)
    · have hp' : c.isProducing = false := by
        cases hq : c.isProducing
        · rfl
        · exact absurd hq hp
      simp only [hp', Bool.not_false, if_true]
      exact h
  · intro id
    exact completeProduction_inv c id h
  · unfold City.cancelProduction
    simp only
    split
    · apply startProduction_inv
      intro _
      exact ⟨rfl, rfl⟩
    · intro _
      exact ⟨rfl, rfl⟩
  · intro index
    unfold City.removeFromQueue
    split
    · exact h
    · exact h
  · intro newOwner _
    exact ⟨rfl, rfl⟩

/-- Witness of `productionInv_preserved`: a newly constructed city. -/
theorem productionInv_preserved_witness :
    (∀ x y owner id name, (City.new x y owner id name).ProductionInv) ∧
    (∀ unitType, ((City.new 4 0 none "city_a" "Troy").startProduction unitType).2.ProductionInv) ∧
    (∀ id, ((City.new 4 0 none "city_a" "Troy").processProduction id).2.ProductionInv) ∧
    (∀ id, ((City.new 4 0 none "city_a" "Troy").completeProduction id).2.ProductionInv) ∧
    (City.new 4 0 none "city_a" "Troy").cancelProduction.ProductionInv ∧
    (∀ index, ((City.new 4 0 none "city_a" "Troy").removeFromQueue index).ProductionInv) ∧
    (∀ newOwner, ((City.new 4 0 none "city_a" "Troy").capture newOwner).ProductionInv) :=
  productionInv_preserved (City.new 4 0 none "city_a" "Troy") (fun _ => ⟨rfl, rfl⟩)

/-! ### The production countdown -/

theorem movementRange_pos (t : UnitType) : 0 < GAME_CONSTANTS.MOVEMENT_RANGES t := by
  cases t <;> decide

theorem processProductionTimes_append (ids more : List String) (c : City) :
    c.processProductionTimes (ids ++ more) =
      ((c.processProductionTimes ids).1 ++
          ((c.processProductionTimes ids).2.processProductionTimes more).1,
        ((c.processProductionTimes ids).2.processProductionTimes more).2) := by
  induction ids generalizing c with
  | nil => rfl
  | cons id ids ih =>
    have h := ih (c.processProduction id).2
    simp only [List.cons_append, City.processProductionTimes, List.cons_append]
    exact Prod.ext (congrArg (fun r => (c.processProduction id).1 :: r.1) h)
      (congrArg (fun r => r.2) h)

theorem processProductionTimes_countdown (ids : List String) (c : City)
    (hp : c.isProducing = true) (hnum : c.productionTurnsNaN = false)
    (hn : (ids.length : Int) < c.productionTurnsRemaining) :
    c.processProductionTimes ids =
      (List.replicate ids.length Produced.nothing,
        { c with productionTurnsRemaining := c.productionTurnsRemaining - ids.length }) := by
  induction ids generalizing c with
  | nil => simp [City.processProductionTimes]
  | cons id ids ih =>
    simp only [List.length_cons, Nat.cast_add, Nat.cast_one] at hn
    have hstep := processProduction_waits c id hp hnum (by omega)
    have hrest := ih { c with productionTurnsRemaining := c.productionTurnsRemaining - 1 } hp
      hnum (by simp only; omega)
    simp only [City.processProductionTimes, hstep, hrest, List.length_cons, List.replicate_succ,
      Nat.cast_add, Nat.cast_one]
    refine Prod.ext rfl ?_
    simp only [City.mk.injEq, true_and, and_true]
    omega

/-- C16, as the code has it: on an idle city with an owner, after
`startProduction` of a type of cost `cost`, the first `cost - 1` calls of
`processProduction` return no unit and count the remaining turns down by one
each, and the call number `cost` returns a unit of that type at the city's
tile; that unit has its full movement allowance left, which is at least 1. -/
theorem production_takes_cost_turns (t : UnitType) (c : City) (owner : Nat) (cost : Int)
    (ids : List String) (id : String)
    (hidle : c.isProducing = false) (ho : c.owner = some owner)
    (hcost : GAME_CONSTANTS.PRODUCTION_COSTS t.name = some cost)
    (hlen : (ids.length : Int) + 1 = cost) :
    ((c.startProduction t.name).2.processProductionTimes (ids ++ [id])).1 =
        List.replicate ids.length Produced.nothing ++
          [Produced.unit (Unit.new t c.x c.y owner id)] ∧
      (∀ k, k ≤ ids.length →
        ((c.startProduction t.name).2.processProductionTimes
            (ids.take k)).2.productionTurnsRemaining = cost - k) ∧
      (Unit.new t c.x c.y owner id).type = t ∧
      (Unit.new t c.x c.y owner id).movesRemaining = GAME_CONSTANTS.MOVEMENT_RANGES t ∧
      0 < (Unit.new t c.x c.y owner id).movesRemaining := by
  have hstart : (c.startProduction t.name).2 =
      { c with currentProduction := some t.name, productionTurnsRemaining := cost,
               productionTurnsNaN := false } := by
    rw [startProduction_of_cost c t.name cost hcost, if_neg (by simp [hidle])]
  have hp : (c.startProduction t.name).2.isProducing = true := by
    rw [hstart]
    exact isProducing_of_name _ t rfl
  have hturns : (c.startProduction t.name).2.productionTurnsRemaining = cost := by
    rw [hstart]
  have hnum : (c.startProduction t.name).2.productionTurnsNaN = false := by
    rw [hstart]
  refine ⟨?_, ?_, rfl, rfl, movementRange_pos t⟩
  · rw [processProductionTimes_append,
      processProductionTimes_countdown ids _ hp hnum (by rw [hturns]; omega)]
    simp only [City.processProductionTimes]
    have hlast := processProduction_completes
      { (c.startProduction t.name).2 with
        productionTurnsRemaining :=
          (c.startProduction t.name).2.productionTurnsRemaining - ids.length }
      id t owner (by rw [hstart]) (by rw [hstart]; exact ho) (by rw [hstart])
      (by simp only [hturns]; omega)
    rw [hlast, hstart]
    cases c.productionQueue <;> rfl
  · intro k hk
    have hlen' : (ids.take k).length = k := by
      rw [List.length_take]
      omega
    rw [processProductionTimes_countdown (ids.take k) _ hp hnum
      (by rw [hturns, hlen']; omega)]
    simp only [hturns, hlen']

/-- Witness of `production_takes_cost_turns`: an army, of cost 6, in an idle
city of player 0. -/
theorem production_takes_cost_turns_witness :
    (City.new 0 0 (some 0) "city_a" "Troy").isProducing = false ∧
    (((City.new 0 0 (some 0) "city_a" "Troy").startProduction
        UnitType.army.name).2.processProductionTimes
          (["u1", "u2", "u3", "u4", "u5"] ++ ["u6"])).1 =
        List.replicate 5 Produced.nothing ++ [Produced.unit (Unit.new .army 0 0 0 "u6")] ∧
    (Unit.new .army 0 0 0 "u6").movesRemaining = GAME_CONSTANTS.MOVEMENT_RANGES .army :=
  ⟨rfl,
    (production_takes_cost_turns .army (City.new 0 0 (some 0) "city_a" "Troy") 0 6
      ["u1", "u2", "u3", "u4", "u5"] "u6" rfl rfl rfl rfl).1,
    (production_takes_cost_turns .army (City.new 0 0 (some 0) "city_a" "Troy") 0 6
      ["u1", "u2", "u3", "u4", "u5"] "u6" rfl rfl rfl rfl).2.2.2.1⟩

/-- Counterexample to C16: the sixth call of `processProduction` on a city
that started an army returns an army with one move remaining, not zero. -/
theorem processProduction_unit_keeps_moves :
    (City.new 0 0 (some 0) "city_a" "Troy").isProducing = false ∧
    (((City.new 0 0 (some 0) "city_a" "Troy").startProduction
        "army").2.processProductionTimes ["u1", "u2", "u3", "u4", "u5", "u6"]).1 =
      [Produced.nothing, Produced.nothing, Produced.nothing, Produced.nothing,
        Produced.nothing, Produced.unit (Unit.new .army 0 0 0 "u6")] ∧
    (Unit.new .army 0 0 0 "u6").movesRemaining = 1 := by
  decide

/-! ### `processCityProduction` -/

theorem set_getElem?_self {α : Type} (l : List α) (i : Nat) (a : α) (h : l[i]? = some a) :
    l.set i a = l := by
  apply List.ext_getElem?
  intro j
  rw [List.getElem?_set']
  by_cases hij : i = j
  · subst hij
    rw [if_pos rfl, h]
    rfl
  · rw [if_neg hij]

theorem autoStartAt_spec (g : Game) (ci : Nat) (city : City)
    (hc : g.map.cities[ci]? = some city) :
    (g.autoStartAt ci).units = g.units ∧
      (g.autoStartAt ci).map.cities =
        g.map.cities.set ci
          (if !city.isProducing then (city.startProduction UnitType.army.name).2 else city) := by
  unfold Game.autoStartAt
  rw [hc]
  simp only
  by_cases hp : city.isProducing = true
  · rw [hp]
    exact ⟨rfl, (set_getElem?_self _ _ _ hc).symm⟩
  · have hp' : city.isProducing = false := by
      cases hq : city.isProducing
      · rfl
      · exact absurd hq hp
    have hav : city.getAvailableUnits.length > 0 := by
      unfold City.getAvailableUnits
      decide
    rw [hp']
    simp only [Bool.not_false, if_true, if_pos hav]
    exact ⟨rfl, rfl⟩

theorem spawnUnit_spec (g : Game) (playerId : Nat) (x y : Int) (newUnit : Unit) (g' : Game)
    (h : g.spawnUnit playerId x y newUnit = some g') :
    g'.map = g.map ∧
      ∃ added, g'.units = g.units ++ added ∧ ∀ u ∈ added, u.movesRemaining = 0 := by
  unfold Game.spawnUnit at h
  split at h
  · cases h
    exact ⟨rfl, [], (List.append_nil _).symm, fun u hu => by cases hu⟩
  · simp only at h
    split at h
    · cases h
    · cases h
      refine ⟨rfl, [_], rfl, ?_⟩
      intro u hu
      rw [List.mem_singleton] at hu
      rw [hu]

theorem processCityAt_spec (g : Game) (playerId : Nat) (id : String) (ci : Nat) (g' : Game)
    (city : City) (hc : g.map.cities[ci]? = some city)
    (h : g.processCityAt playerId id ci = some g') :
    g'.map.cities = g.map.cities.set ci (city.afterProductionTurn id) ∧
      ∃ added, g'.units = g.units ++ added ∧ ∀ u ∈ added, u.movesRemaining = 0 := by
  unfold Game.processCityAt at h
  rw [hc] at h
  simp only [Option.map_eq_some'] at h
  obtain ⟨g2, hspawn, hg'⟩ := h
  have hlt : ci < g.map.cities.length := by
    rcases Nat.lt_or_ge ci g.map.cities.length with hlt | hge
    · exact hlt
    · rw [List.getElem?_eq_none hge] at hc
      cases hc
  have hset : (g.setCity ci (city.processProduction id).2).map.cities[ci]? =
      some (city.processProduction id).2 := by
    simp only [Game.setCity]
    rw [List.getElem?_set']
    simp [hc]
  have key : g2.map = (g.setCity ci (city.processProduction id).2).map ∧
      ∃ added, g2.units = g.units ++ added ∧ ∀ u ∈ added, u.movesRemaining = 0 := by
    split at hspawn
    · cases hspawn
      exact ⟨rfl, [], (List.append_nil _).symm, fun u hu => by cases hu⟩
    · cases hspawn
    · exact spawnUnit_spec _ _ _ _ _ _ hspawn
  obtain ⟨hmap, hunits⟩ := key
  have hc2 : g2.map.cities[ci]? = some (city.processProduction id).2 := by
    rw [hmap]
    exact hset
  have hauto := autoStartAt_spec g2 ci _ hc2
  rw [← hg']
  refine ⟨?_, ?_⟩
  · rw [hauto.2, hmap]
    simp only [Game.setCity, List.set_set]
    rfl
  · rw [hauto.1]
    exact hunits

theorem processCityAt_of_none (g : Game) (playerId : Nat) (id : String) (ci : Nat)
    (hc : g.map.cities[ci]? = none) : g.processCityAt playerId id ci = some g := by
  unfold Game.processCityAt
  rw [hc]

theorem foldlM_processCityAt (playerId : Nat) (freshId : Nat → String) :
    ∀ (l : List Nat) (g g' : Game), l.Nodup →
      l.foldlM (fun g1 ci => g1.processCityAt playerId (freshId ci) ci) g = some g' →
      (∃ added, g'.units = g.units ++ added ∧ ∀ u ∈ added, u.movesRemaining = 0) ∧
        ∀ ci, g'.map.cities[ci]? =
          if ci ∈ l then (g.map.cities[ci]?).map (fun c => c.afterProductionTurn (freshId ci))
          else g.map.cities[ci]? := by
  intro l
  induction l with
  | nil =>
    intro g g' _ h
    simp only [List.foldlM_nil] at h
    cases h
    exact ⟨⟨[], (List.append_nil _).symm, fun u hu => by cases hu⟩, fun ci => by simp⟩
  | cons a l ih =>
    intro g g' hnd h
    rw [List.nodup_cons] at hnd
    rw [List.foldlM_cons] at h
    cases h1 : g.processCityAt playerId (freshId a) a with
    | none =>
      rw [h1] at h
      cases h
    | some g1 =>
      rw [h1] at h
      obtain ⟨⟨added2, hunits2, hzero2⟩, hcities2⟩ := ih g1 g' hnd.2 h
      have hstep : (∃ added, g1.units = g.units ++ added ∧ ∀ u ∈ added, u.movesRemaining = 0) ∧
          ∀ ci, g1.map.cities[ci]? =
            if ci = a then (g.map.cities[ci]?).map (fun c => c.afterProductionTurn (freshId ci))
            else g.map.cities[ci]? := by
        cases hc : g.map.cities[a]? with
        | none =>
          rw [processCityAt_of_none g playerId (freshId a) a hc] at h1
          cases h1
          refine ⟨⟨[], (List.append_nil _).symm, fun u hu => by cases hu⟩, ?_⟩
          intro ci
          by_cases hci : ci = a
          · subst hci
            rw [if_pos rfl, hc]
            rfl
          · rw [if_neg hci]
        | some city =>
          obtain ⟨hcities, hunits⟩ := processCityAt_spec g playerId (freshId a) a g1 city hc h1
          refine ⟨hunits, ?_⟩
          intro ci
          rw [hcities, List.getElem?_set']
          by_cases hci : ci = a
          · subst hci
            rw [if_pos rfl, if_pos rfl, hc]
            rfl
          · rw [if_neg hci, if_neg (Ne.symm hci)]
      obtain ⟨⟨added1, hunits1, hzero1⟩, hcities1⟩ := hstep
      refine ⟨⟨added1 ++ added2, ?_, ?_⟩, ?_⟩
      · rw [hunits2, hunits1, List.append_assoc]
      · intro u hu
        rcases List.mem_append.mp hu with hu | hu
        · exact hzero1 u hu
        · exact hzero2 u hu
      · intro ci
        rw [hcities2 ci, hcities1 ci]
        by_cases hci : ci = a
        · subst hci
          rw [if_neg hnd.1, if_pos rfl, if_pos (List.mem_cons_self _ _)]
        · rw [if_neg hci]
          by_cases hl : ci ∈ l
          · rw [if_pos hl, if_pos (List.mem_cons_of_mem _ hl)]
          · rw [if_neg hl, if_neg (by
              intro hm
              rcases List.mem_cons.mp hm with hm | hm
              · exact hci hm
              · exact hl hm)]

theorem mem_getCitiesOwnedBy (m : GameMap) (playerId ci : Nat) :
    ci ∈ m.getCitiesOwnedBy playerId ↔
      ∃ city, m.cities[ci]? = some city ∧ city.owner = some playerId := by
  unfold GameMap.getCitiesOwnedBy
  rw [List.mem_filter, List.mem_range]
  constructor
  · rintro ⟨hlt, h⟩
    rw [List.getElem?_eq_getElem hlt] at h
    refine ⟨_, List.getElem?_eq_getElem hlt, ?_⟩
    simpa using h
  · rintro ⟨city, hc, ho⟩
    have hlt : ci < m.cities.length := by
      rcases Nat.lt_or_ge ci m.cities.length with hlt | hge
      · exact hlt
      · rw [List.getElem?_eq_none hge] at hc
        cases hc
    refine ⟨hlt, ?_⟩
    rw [hc]
    simp [ho]

theorem getCitiesOwnedBy_nodup (m : GameMap) (playerId : Nat) :
    (m.getCitiesOwnedBy playerId).Nodup :=
  (List.nodup_range _).filter _

theorem moveTo_without_moves (u : Unit) (x y : Int) (m : GameMap)
    (h0 : u.movesRemaining = 0) (hxy : ¬ (x = u.x ∧ y = u.y)) : u.moveTo x y m = (false, u) := by
  unfold Unit.moveTo
  split
  · rw [if_neg]
    rw [h0]
    unfold GameHelpers.getDistance
    omega
  · rfl

/-- Every unit that `processCityProduction` adds to `units` has no moves
remaining when the call ends, the units that were there before are unchanged,
and `moveTo` refuses every other tile for an added unit. -/
theorem processCityProduction_new_units_spent (g : Game) (playerId : Nat)
    (freshId : Nat → String) (g' : Game)
    (h : g.processCityProduction playerId freshId = some g') :
    ∃ added, g'.units = g.units ++ added ∧
      ∀ u ∈ added, u.movesRemaining = 0 ∧
        ∀ x y, ¬ (x = u.x ∧ y = u.y) → u.moveTo x y g'.map = (false, u) := by
  obtain ⟨⟨added, hunits, hzero⟩, _⟩ :=
    foldlM_processCityAt playerId freshId _ g g' (getCitiesOwnedBy_nodup _ _) h
  exact ⟨added, hunits, fun u hu =>
    ⟨hzero u hu, fun x y hxy => moveTo_without_moves u x y g'.map (hzero u hu) hxy⟩⟩

/-- Witness of `processCityProduction_new_units_spent`: the city of `openGame`
finishes an army, which is placed on (1,0) without moves. -/
theorem processCityProduction_new_units_spent_witness :
    openGame.processCityProduction 0 (fun _ => "u3") = some openGameAfter ∧
    ∃ added, openGameAfter.units = openGame.units ++ added ∧
      ∀ u ∈ added, u.movesRemaining = 0 ∧
        ∀ x y, ¬ (x = u.x ∧ y = u.y) → u.moveTo x y openGameAfter.map = (false, u) :=
  ⟨by decide,
    processCityProduction_new_units_spent openGame 0 (fun _ => "u3") openGameAfter (by decide)⟩

/-- C17 fails on `frontierGame`: `processCityProduction(0)` adds an army at
(1,0) with `movesRemaining = 0`, and in the same turn that army moves all the
same. `moveUnit` onto the neutral city at (2,0), with draws 1/2 and 0, returns
true and leaves the army on (2,0), the city now owned by player 0; `attackUnit`
on the army of player 1 at (1,1), with draws 1/2 and 0, returns true and leaves
the new army on (1,1). -/
theorem new_unit_moves_in_turn_of_creation :
    (frontierGame.processCityProduction 0 (fun _ => "u3")).map (fun g => g.units) =
      some [Unit.new .army 1 1 1 "u1",
        { (Unit.new .army 1 0 0 "u3") with movesRemaining := 0 }] ∧
    ((frontierGame.processCityProduction 0 (fun _ => "u3")).bind
        (fun g => g.moveUnit 1 2 0 (1 / 2) 0)).map (fun r => r.1) = some true ∧
    ((frontierGame.processCityProduction 0 (fun _ => "u3")).bind
        (fun g => g.moveUnit 1 2 0 (1 / 2) 0)).map (fun r => r.2.units) =
      some [Unit.new .army 1 1 1 "u1",
        { (Unit.new .army 2 0 0 "u3") with movesRemaining := 0 }] ∧
    ((frontierGame.processCityProduction 0 (fun _ => "u3")).bind
        (fun g => g.moveUnit 1 2 0 (1 / 2) 0)).map
        (fun r => r.2.map.cities.map (fun c => c.owner)) = some [some 0, some 0] ∧
    ((frontierGame.processCityProduction 0 (fun _ => "u3")).bind
        (fun g => g.attackUnit 1 0 (1 / 2) 0 0 0)).map (fun r => r.1) = some true ∧
    ((frontierGame.processCityProduction 0 (fun _ => "u3")).bind
        (fun g => g.attackUnit 1 0 (1 / 2) 0 0 0)).map (fun r => r.2.1.units) =
      some [{ (Unit.new .army 1 1 0 "u3") with movesRemaining := 0, hasAttacked := true }] := by
  refine ⟨?_, ?_, ?_, ?_, ?_, ?_⟩ <;> decide!

/-- C18 fails on `crowdedGame`: the city of player 0 finishes its army, both
neighbouring tiles are occupied, and `processCityProduction` returns with the
same two units as before while the city has already started the next army. On
`openGame`, the same city with a free neighbour, the army is added. -/
theorem processCityProduction_drops_unit :
    crowdedGame.map.getCitiesOwnedBy 0 = [0] ∧
    crowdedGame.map.cities.map (fun c => (c.processProduction "u3").1) =
      [Produced.unit (Unit.new .army 0 0 0 "u3")] ∧
    crowdedGame.findEmptyAdjacentPosition 0 0 = none ∧
    (crowdedGame.processCityProduction 0 (fun _ => "u3")).map (fun g => g.units) =
      some crowdedGame.units ∧
    (crowdedGame.processCityProduction 0 (fun _ => "u3")).map (fun g => g.players) =
      some crowdedGame.players ∧
    (crowdedGame.processCityProduction 0 (fun _ => "u3")).map
        (fun g => g.map.cities.map
          (fun c => (c.currentProduction, c.productionTurnsRemaining, c.productionQueue))) =
      some [(some "army", 6, [])] ∧
    (openGame.processCityProduction 0 (fun _ => "u3")).map (fun g => g.units.length) =
      some (openGame.units.length + 1) := by
  decide

/-! ### Every owned city is producing after `processCityProduction` -/

theorem startProduction_army (c : City) (h : c.isProducing = false) :
    (c.startProduction UnitType.army.name).2 =
      { c with currentProduction := some "army", productionTurnsRemaining := 6,
               productionTurnsNaN := false } := by
  have hcost : GAME_CONSTANTS.PRODUCTION_COSTS UnitType.army.name = some 6 := by decide
  rw [startProduction_of_cost c UnitType.army.name 6 hcost, if_neg (by simp [h])]
  rfl

theorem startProduction_owner (c : City) (unitType : String) :
    (c.startProduction unitType).2.owner = c.owner := by
  unfold City.startProduction
  split
  · rfl
  · split <;> rfl
  · split <;> rfl

theorem completeProduction_owner (c : City) (id : String) :
    (c.completeProduction id).2.owner = c.owner := by
  unfold City.completeProduction
  split <;> rfl

theorem processProduction_owner (c : City) (id : String) :
    (c.processProduction id).2.owner = c.owner := by
  unfold City.processProduction
  by_cases hp : c.isProducing = true
  · simp only [hp, Bool.not_true, Bool.false_eq_true, if_false]
    by_cases hnan : c.productionTurnsNaN = true
    · rw [if_pos hnan]
    · rw [if_neg hnan]
      by_cases hn : c.productionTurnsRemaining - 1 ≤ 0
      · rw [if_pos hn]
        split
        · rw [startProduction_owner]
          exact completeProduction_owner _ id
        · exact completeProduction_owner _ id
      · rw [if_neg hn]
  · have hp' : c.isProducing = false := by
      cases hq : c.isProducing
      · rfl
      · exact absurd hq hp
    simp only [hp', Bool.not_false, if_true]

theorem processProduction_finished (c : City) (id : String) (hp : c.isProducing = true)
    (hnum : c.productionTurnsNaN = false)
    (hn : c.productionTurnsRemaining ≤ 1) (hq : c.productionQueue = []) :
    (c.processProduction id).2 =
      { c with currentProduction := none, productionTurnsRemaining := 0 } := by
  unfold City.processProduction
  simp only [hp, Bool.not_true, Bool.false_eq_true, if_false]
  rw [if_neg (show ¬ (c.productionTurnsNaN = true) by rw [hnum]; decide), if_pos (by omega)]
  have hcomplete : (City.completeProduction
      { c with productionTurnsRemaining := c.productionTurnsRemaining - 1 } id).2 =
      { c with currentProduction := none, productionTurnsRemaining := 0 } := by
    unfold City.completeProduction
    have hp2 : City.isProducing
        { c with productionTurnsRemaining := c.productionTurnsRemaining - 1 } = true := hp
    rw [hp2]
    obtain ⟨x, y, o, i, cp, tr, nan, q⟩ := c
    simp only at hnum
    subst hnum
    rfl
  rw [hcomplete]
  simp only [hq]

theorem afterProductionTurn_spec (c : City) (id : String) :
    (c.afterProductionTurn id).owner = c.owner ∧
      (c.afterProductionTurn id).isProducing = true ∧
      ((c.isProducing = false ∨
          (c.isProducing = true ∧ c.productionTurnsNaN = false ∧
            c.productionTurnsRemaining ≤ 1 ∧ c.productionQueue = [])) →
        (c.afterProductionTurn id).currentProduction = some "army" ∧
          (c.afterProductionTurn id).productionTurnsRemaining = 6) := by
  unfold City.afterProductionTurn
  refine ⟨?_, ?_, ?_⟩
  · split
    · rw [startProduction_owner]
      exact processProduction_owner c id
    · exact processProduction_owner c id
  · by_cases hp : (c.processProduction id).2.isProducing = true
    · rw [hp]
      exact hp
    · have hp' : (c.processProduction id).2.isProducing = false := by
        cases hq : (c.processProduction id).2.isProducing
        · rfl
        · exact absurd hq hp
      rw [hp']
      simp only [Bool.not_false, if_true]
      rw [startProduction_army _ hp']
      rfl
  · intro h
    have hidle : (c.processProduction id).2.isProducing = false := by
      rcases h with h | ⟨hp, hnum, hn, hq⟩
      · rw [processProduction_idle c id h]
        exact h
      · rw [processProduction_finished c id hp hnum hn hq]
        rfl
    rw [hidle]
    simp only [Bool.not_false, if_true]
    rw [startProduction_army _ hidle]
    exact ⟨rfl, rfl⟩

theorem processProduction_not_outside (c : City) (id : String) (owner : Nat)
    (ho : c.owner = some owner)
    (hk : c.isProducing = true → ∃ t : UnitType, c.currentProduction = some t.name) :
    (c.processProduction id).1 ≠ Produced.outside := by
  by_cases hp : c.isProducing = true
  · obtain ⟨t, ht⟩ := hk hp
    unfold City.processProduction
    simp only [hp, Bool.not_true, Bool.false_eq_true, if_false]
    by_cases hnan : c.productionTurnsNaN = true
    · rw [if_pos hnan]
      intro h
      cases h
    · rw [if_neg hnan]
      by_cases hn : c.productionTurnsRemaining - 1 ≤ 0
      · rw [if_pos hn, completeProduction_of_name
          { c with productionTurnsRemaining := c.productionTurnsRemaining - 1 } t owner id ht ho]
        split
        · intro h
          cases h
        · intro h
          cases h
      · rw [if_neg hn]
        intro h
        cases h
  · have hp' : c.isProducing = false := by
      cases hq : c.isProducing
      · rfl
      · exact absurd hq hp
    rw [processProduction_idle c id hp']
    intro h
    cases h

theorem incrementTurnStat_id (p : Player) (statName : String) (amount : Int) :
    (p.incrementTurnStat statName amount).id = p.id := by
  unfold Player.incrementTurnStat
  split <;> rfl

theorem getPlayerById_incrementTurnStatAt (g : Game) (pi : Nat) (statName : String)
    (id : Nat) : (g.incrementTurnStatAt pi statName).getPlayerById id = g.getPlayerById id := by
  unfold Game.getPlayerById Game.incrementTurnStatAt
  exact findIdx?_modify_of_eq _ _ (fun a => by simp [incrementTurnStat_id]) _ _ _

theorem autoStartAt_players (g : Game) (ci : Nat) : (g.autoStartAt ci).players = g.players := by
  unfold Game.autoStartAt
  split
  · rfl
  · split
    · split <;> rfl
    · rfl

theorem spawnUnit_returns (g : Game) (playerId : Nat) (x y : Int) (newUnit : Unit)
    (hplayer : (g.getPlayerById playerId).isSome = true) :
    ∃ g', g.spawnUnit playerId x y newUnit = some g' ∧
      (g'.getPlayerById playerId).isSome = true := by
  unfold Game.spawnUnit
  split
  · exact ⟨g, rfl, hplayer⟩
  · rename_i spawnPosition _
    have hsame : Game.getPlayerById
        { g with units := g.units ++
            [{ newUnit with x := spawnPosition.x, y := spawnPosition.y, movesRemaining := 0 }] }
        playerId = g.getPlayerById playerId := rfl
    simp only [hsame]
    cases hq : g.getPlayerById playerId with
    | none =>
      rw [hq] at hplayer
      cases hplayer
    | some pi =>
      refine ⟨_, rfl, ?_⟩
      rw [getPlayerById_incrementTurnStatAt, getPlayerById_incrementStatAt, hsame, hq]
      rfl

theorem processCityAt_returns (g : Game) (playerId : Nat) (id : String) (ci : Nat)
    (city : City) (hc : g.map.cities[ci]? = some city) (ho : city.owner = some playerId)
    (hk : city.isProducing = true → ∃ t : UnitType, city.currentProduction = some t.name)
    (hplayer : (g.getPlayerById playerId).isSome = true) :
    ∃ g', g.processCityAt playerId id ci = some g' ∧
      (g'.getPlayerById playerId).isSome = true := by
  have hout := processProduction_not_outside city id playerId ho hk
  unfold Game.processCityAt
  rw [hc]
  simp only
  have hset : (g.setCity ci (city.processProduction id).2).getPlayerById playerId =
      g.getPlayerById playerId := rfl
  cases hprod : (city.processProduction id).1 with
  | nothing =>
    refine ⟨_, rfl, ?_⟩
    unfold Game.getPlayerById
    rw [autoStartAt_players]
    exact hplayer
  | outside => exact absurd hprod hout
  | unit newUnit =>
    obtain ⟨g2, hg2, hp2⟩ := spawnUnit_returns (g.setCity ci (city.processProduction id).2)
      playerId (city.processProduction id).2.x (city.processProduction id).2.y newUnit
      (by rw [hset]; exact hplayer)
    simp only [hg2, Option.map_some']
    refine ⟨_, rfl, ?_⟩
    unfold Game.getPlayerById
    rw [autoStartAt_players]
    exact hp2

theorem foldlM_processCityAt_returns (playerId : Nat) (freshId : Nat → String) :
    ∀ (l : List Nat) (g : Game), l.Nodup →
      (g.getPlayerById playerId).isSome = true →
      (∀ ci, ci ∈ l → ∃ city, g.map.cities[ci]? = some city ∧ city.owner = some playerId ∧
        (city.isProducing = true → ∃ t : UnitType, city.currentProduction = some t.name)) →
      ∃ g', l.foldlM (fun g1 ci => g1.processCityAt playerId (freshId ci) ci) g = some g' := by
  intro l
  induction l with
  | nil =>
    intro g _ _ _
    exact ⟨g, rfl⟩
  | cons a l ih =>
    intro g hnd hplayer hk
    rw [List.nodup_cons] at hnd
    obtain ⟨city, hc, ho, hka⟩ := hk a (List.mem_cons_self _ _)
    obtain ⟨g1, hg1, hp1⟩ := processCityAt_returns g playerId (freshId a) a city hc ho hka hplayer
    have hcities := (processCityAt_spec g playerId (freshId a) a g1 city hc hg1).1
    obtain ⟨g', hg'⟩ := ih g1 hnd.2 hp1 (by
      intro ci hci
      have hne : a ≠ ci := fun h => hnd.1 (h ▸ hci)
      rw [hcities, List.getElem?_set', if_neg hne]
      exact hk ci (List.mem_cons_of_mem _ hci))
    refine ⟨g', ?_⟩
    rw [List.foldlM_cons, hg1]
    exact hg'

/-- C19: when the player exists and every city of theirs that is producing
produces a unit type, `processCityProduction` returns, the cities keep their
owners, and afterwards every city owned by the player is producing
(`currentProduction` is not null); a city that was idle, or that finished its
item (its counter, a number, was at most 1) with an empty queue, is producing an
army with 6 turns remaining. -/
theorem processCityProduction_cities_producing (g : Game) (playerId : Nat)
    (freshId : Nat → String)
    (hplayer : (g.getPlayerById playerId).isSome = true)
    (hknown : ∀ (ci : Nat) (city : City), g.map.cities[ci]? = some city → city.owner = some playerId →
      city.isProducing = true → ∃ t : UnitType, city.currentProduction = some t.name) :
    ∃ g', g.processCityProduction playerId freshId = some g' ∧
      (∀ (ci : Nat) (city : City), g.map.cities[ci]? = some city → city.owner = some playerId →
        ∃ city', g'.map.cities[ci]? = some city' ∧ city'.owner = some playerId) ∧
      ∀ (ci : Nat) (city' : City), g'.map.cities[ci]? = some city' → city'.owner = some playerId →
        city'.isProducing = true ∧ city'.currentProduction ≠ none ∧
        ∃ city, g.map.cities[ci]? = some city ∧ city.owner = some playerId ∧
          ((city.isProducing = false ∨
              (city.isProducing = true ∧ city.productionTurnsNaN = false ∧
                city.productionTurnsRemaining ≤ 1 ∧ city.productionQueue = [])) →
            city'.currentProduction = some "army" ∧ city'.productionTurnsRemaining = 6) := by
  obtain ⟨g', hg'⟩ := foldlM_processCityAt_returns playerId freshId
    (g.map.getCitiesOwnedBy playerId) g (getCitiesOwnedBy_nodup _ _) hplayer (by
      intro ci hci
      obtain ⟨city, hc, ho⟩ := (mem_getCitiesOwnedBy _ _ _).mp hci
      exact ⟨city, hc, ho, hknown ci city hc ho⟩)
  have hcities := (foldlM_processCityAt playerId freshId _ g g'
    (getCitiesOwnedBy_nodup _ _) hg').2
  have hnone : ∀ c : City, c.isProducing = true → c.currentProduction ≠ none := by
    intro c hp hn
    unfold City.isProducing at hp
    rw [hn] at hp
    cases hp
  refine ⟨g', hg', ?_, ?_⟩
  · intro ci city hc ho
    refine ⟨city.afterProductionTurn (freshId ci), ?_, ?_⟩
    · rw [hcities ci, if_pos ((mem_getCitiesOwnedBy _ _ _).mpr ⟨city, hc, ho⟩), hc]
      rfl
    · rw [(afterProductionTurn_spec city (freshId ci)).1]
      exact ho
  · intro ci city' hc' ho'
    by_cases hmem : ci ∈ g.map.getCitiesOwnedBy playerId
    · obtain ⟨city, hc, ho⟩ := (mem_getCitiesOwnedBy _ _ _).mp hmem
      rw [hcities ci, if_pos hmem, hc] at hc'
      cases hc'
      have hspec := afterProductionTurn_spec city (freshId ci)
      exact ⟨hspec.2.1, hnone _ hspec.2.1, city, hc, ho, hspec.2.2⟩
    · rw [hcities ci, if_neg hmem] at hc'
      exact absurd ((mem_getCitiesOwnedBy _ _ _).mpr ⟨city', hc', ho'⟩) hmem

/-- Witness of `processCityProduction_cities_producing`: player 0 on
`openGame`, whose city finishes an army with an empty queue. -/
theorem processCityProduction_cities_producing_witness :
    (openGame.getPlayerById 0).isSome = true ∧
    ∃ g', openGame.processCityProduction 0 (fun _ => "u3") = some g' ∧
      (∀ (ci : Nat) (city : City), openGame.map.cities[ci]? = some city → city.owner = some 0 →
        ∃ city', g'.map.cities[ci]? = some city' ∧ city'.owner = some 0) ∧
      ∀ (ci : Nat) (city' : City), g'.map.cities[ci]? = some city' → city'.owner = some 0 →
        city'.isProducing = true ∧ city'.currentProduction ≠ none ∧
        ∃ city, openGame.map.cities[ci]? = some city ∧ city.owner = some 0 ∧
          ((city.isProducing = false ∨
              (city.isProducing = true ∧ city.productionTurnsNaN = false ∧
                city.productionTurnsRemaining ≤ 1 ∧ city.productionQueue = [])) →
            city'.currentProduction = some "army" ∧ city'.productionTurnsRemaining = 6) :=
  ⟨by decide,
    processCityProduction_cities_producing openGame 0 (fun _ => "u3") (by decide) (by
      intro ci city hc _ _
      cases ci with
      | zero =>
        cases hc
        exact ⟨.army, rfl⟩
      | succ n => cases hc)⟩

/-! ### `moveAlongPath` -/

theorem canMoveTo_of_type (u v : Unit) (h : v.type = u.type) (x y : Int) (m : GameMap) :
    v.canMoveTo x y m = u.canMoveTo x y m := by
  unfold Unit.canMoveTo
  rw [h]

theorem enterablePrefix_of_type (u v : Unit) (h : v.type = u.type) (m : GameMap)
    (path : List Pos) : v.enterablePrefix m path = u.enterablePrefix m path := by
  unfold Unit.enterablePrefix
  have hf : (fun p : Pos => v.canMoveTo p.x p.y m) = (fun p : Pos => u.canMoveTo p.x p.y m) := by
    funext p
    exact canMoveTo_of_type u v h p.x p.y m
  rw [hf]

theorem enterablePrefix_le (u : Unit) (m : GameMap) (path : List Pos) :
    u.enterablePrefix m path ≤ path.length := by
  unfold Unit.enterablePrefix
  exact (List.takeWhile_sublist _).length_le

/-- The loop of `moveAlongPath`, started with `movesTaken = t` and a budget of
`maxMoves`, takes `s = min (maxMoves - t) k` steps, `k` the number of leading
enterable tiles. -/
theorem moveAlongPathLoop_spec (m : GameMap) (maxMoves : Int) :
    ∀ (path : List Pos) (u : Unit) (t : Int), t ≤ maxMoves → u.movementPath = path →
      (Unit.moveAlongPathLoop m maxMoves path u t).2 =
          t + (min (maxMoves - t).toNat (u.enterablePrefix m path) : Nat) ∧
        (Unit.moveAlongPathLoop m maxMoves path u t).1.movementPath =
          (if min (maxMoves - t).toNat (u.enterablePrefix m path) < (maxMoves - t).toNat ∧
              min (maxMoves - t).toNat (u.enterablePrefix m path) < path.length then []
            else path.drop (min (maxMoves - t).toNat (u.enterablePrefix m path))) ∧
        (Unit.moveAlongPathLoop m maxMoves path u t).1.isMovingAlongPath =
          (if 0 < path.length ∧
              (min (maxMoves - t).toNat (u.enterablePrefix m path) = path.length ∨
                min (maxMoves - t).toNat (u.enterablePrefix m path) < (maxMoves - t).toNat)
            then false else u.isMovingAlongPath) ∧
        (Unit.moveAlongPathLoop m maxMoves path u t).1.needsPlayerAttention =
          (if 0 < path.length ∧
              (min (maxMoves - t).toNat (u.enterablePrefix m path) = path.length ∨
                min (maxMoves - t).toNat (u.enterablePrefix m path) < (maxMoves - t).toNat)
            then true else u.needsPlayerAttention) ∧
        (if min (maxMoves - t).toNat (u.enterablePrefix m path) = 0
            then some ({ x := u.x, y := u.y } : Pos)
            else path[min (maxMoves - t).toNat (u.enterablePrefix m path) - 1]?) =
          some { x := (Unit.moveAlongPathLoop m maxMoves path u t).1.x,
                 y := (Unit.moveAlongPathLoop m maxMoves path u t).1.y } ∧
        { (Unit.moveAlongPathLoop m maxMoves path u t).1 with
          x := u.x, y := u.y, movementPath := u.movementPath,
          isMovingAlongPath := u.isMovingAlongPath,
          needsPlayerAttention := u.needsPlayerAttention } = u := by
  intro path
  induction path with
  | nil =>
    intro u t _ hpath
    simp [Unit.moveAlongPathLoop, Unit.enterablePrefix, hpath]
    cases u
    simp_all
  | cons nextStep rest ih =>
    intro u t ht hpath
    by_cases hb : t < maxMoves
    · by_cases hmove : u.canMoveTo nextStep.x nextStep.y m = true
      · have hk : u.enterablePrefix m (nextStep :: rest) = u.enterablePrefix m rest + 1 := by
          simp [Unit.enterablePrefix, List.takeWhile_cons, hmove]
        cases rest with
        | nil =>
          have hk0 : u.enterablePrefix m [] = 0 := rfl
          have hs : min (maxMoves - t).toNat (u.enterablePrefix m [nextStep]) = 1 := by
            rw [hk, hk0]
            omega
          rw [hs]
          simp [Unit.moveAlongPathLoop, hb, hmove]
        | cons second rest2 =>
          have hrec := ih { u with x := nextStep.x, y := nextStep.y,
                                   movementPath := second :: rest2 } (t + 1) (by omega) rfl
          have hk' := enterablePrefix_of_type u
            { u with x := nextStep.x, y := nextStep.y, movementPath := second :: rest2 } rfl m
            (second :: rest2)
          rw [hk'] at hrec
          have hle := enterablePrefix_le u m (second :: rest2)
          have hloop : Unit.moveAlongPathLoop m maxMoves (nextStep :: second :: rest2) u t =
              Unit.moveAlongPathLoop m maxMoves (second :: rest2)
                { u with x := nextStep.x, y := nextStep.y, movementPath := second :: rest2 }
                (t + 1) := by
            simp [Unit.moveAlongPathLoop, hb, hmove]
          rw [hloop, hk]
          generalize u.enterablePrefix m (second :: rest2) = k at hrec hle ⊢
          have hs : min (maxMoves - t).toNat (k + 1) =
              min (maxMoves - (t + 1)).toNat k + 1 := by omega
          have hb' : (maxMoves - t).toNat = (maxMoves - (t + 1)).toNat + 1 := by omega
          obtain ⟨h1, h2, h3, h4, h5, h6⟩ := hrec
          simp only [List.length_cons] at h2 h3 h4 hle ⊢
          refine ⟨?_, ?_, ?_, ?_, ?_, ?_⟩
          · rw [h1, hs]
            push_cast
            omega
          · rw [h2, hs, hb']
            simp only [Nat.add_lt_add_iff_right, List.drop_succ_cons]
          · rw [h3, hs, hb']
            simp only [Nat.add_lt_add_iff_right, Nat.add_right_cancel_iff, Nat.zero_lt_succ,
              true_and]
          · rw [h4, hs, hb']
            simp only [Nat.add_lt_add_iff_right, Nat.add_right_cancel_iff, Nat.zero_lt_succ,
              true_and]
          · rw [hs, if_neg (by omega), ← h5]
            by_cases hz : min (maxMoves - (t + 1)).toNat k = 0
            · rw [hz]
              simp
            · rw [if_neg hz]
              have : min (maxMoves - (t + 1)).toNat k + 1 - 1 =
                  (min (maxMoves - (t + 1)).toNat k - 1) + 1 := by omega
              rw [this, List.getElem?_cons_succ]
          · generalize (Unit.moveAlongPathLoop m maxMoves (second :: rest2)
                { u with x := nextStep.x, y := nextStep.y, movementPath := second :: rest2 }
                (t + 1)).1 = w at h6 ⊢
            cases w
            cases u
            simp_all
      · have hk : u.enterablePrefix m (nextStep :: rest) = 0 := by
          simp [Unit.enterablePrefix, List.takeWhile_cons, hmove]
        have hs : min (maxMoves - t).toNat (u.enterablePrefix m (nextStep :: rest)) = 0 := by
          rw [hk]
          omega
        have hpos : 0 < (maxMoves - t).toNat := by omega
        rw [hs]
        simp [Unit.moveAlongPathLoop, hb, hmove, hpos]
    · have hs : min (maxMoves - t).toNat (u.enterablePrefix m (nextStep :: rest)) = 0 := by
        omega
      have hz : (maxMoves - t).toNat = 0 := by omega
      rw [hs, hz]
      simp [Unit.moveAlongPathLoop, hb, hpath]
      all_goals (cases u; simp_all)

theorem enterablePrefix_blocked (u : Unit) (m : GameMap) :
    ∀ (path : List Pos), u.enterablePrefix m path < path.length →
      ∃ p, path[u.enterablePrefix m path]? = some p ∧ u.canMoveTo p.x p.y m = false := by
  intro path
  induction path with
  | nil =>
    intro h
    simp [Unit.enterablePrefix] at h
  | cons a rest ih =>
    intro h
    by_cases ha : u.canMoveTo a.x a.y m = true
    · have hk : u.enterablePrefix m (a :: rest) = u.enterablePrefix m rest + 1 := by
        simp [Unit.enterablePrefix, List.takeWhile_cons, ha]
      rw [hk] at h ⊢
      simp only [List.length_cons, Nat.add_lt_add_iff_right] at h
      obtain ⟨p, hp, hq⟩ := ih h
      exact ⟨p, by rw [List.getElem?_cons_succ]; exact hp, hq⟩
    · have hk : u.enterablePrefix m (a :: rest) = 0 := by
        simp [Unit.enterablePrefix, List.takeWhile_cons, ha]
      rw [hk]
      refine ⟨a, by simp, ?_⟩
      cases hq : u.canMoveTo a.x a.y m
      · rfl
      · exact absurd hq ha

/-- C30: a unit that follows a non-empty path with `m ≥ 0` moves remaining takes
`s = min(m, k)` steps, `k` the number of leading tiles it may enter, and stands
on the last tile taken. It keeps following the path, its attention flag
untouched and the `s` tiles removed, exactly when `s = m < L`; when `s = L` the
path is empty, the unit has stopped following and asks for attention; when it
stopped short of both, the next tile is one it may not enter, the path is
cleared, the unit has stopped following and asks for attention. All other
fields, `movesRemaining` among them, are as before. -/
theorem moveAlongPath_steps (u : Unit) (m : GameMap)
    (hmoving : u.isMovingAlongPath = true) (hpath : u.movementPath ≠ [])
    (hmoves : 0 ≤ u.movesRemaining) :
    (u.moveAlongPath m).2 = (u.pathSteps m : Int) ∧
    u.pathSteps m = min u.movesRemaining.toNat (u.enterablePrefix m u.movementPath) ∧
    (if u.pathSteps m = 0 then some ({ x := u.x, y := u.y } : Pos)
      else u.movementPath[u.pathSteps m - 1]?) =
      some { x := (u.moveAlongPath m).1.x, y := (u.moveAlongPath m).1.y } ∧
    { (u.moveAlongPath m).1 with
      x := u.x, y := u.y, movementPath := u.movementPath,
      isMovingAlongPath := u.isMovingAlongPath,
      needsPlayerAttention := u.needsPlayerAttention } = u ∧
    ((u.moveAlongPath m).1.isMovingAlongPath = true ↔
      u.pathSteps m = u.movesRemaining.toNat ∧ u.pathSteps m < u.movementPath.length) ∧
    (u.pathSteps m = u.movesRemaining.toNat ∧ u.pathSteps m < u.movementPath.length →
      (u.moveAlongPath m).1.movementPath = u.movementPath.drop (u.pathSteps m) ∧
      (u.moveAlongPath m).1.needsPlayerAttention = u.needsPlayerAttention) ∧
    (u.pathSteps m = u.movementPath.length →
      (u.moveAlongPath m).1.movementPath = [] ∧
      (u.moveAlongPath m).1.isMovingAlongPath = false ∧
      (u.moveAlongPath m).1.needsPlayerAttention = true) ∧
    (u.pathSteps m < u.movesRemaining.toNat ∧ u.pathSteps m < u.movementPath.length →
      (∃ p, u.movementPath[u.pathSteps m]? = some p ∧ u.canMoveTo p.x p.y m = false) ∧
      (u.moveAlongPath m).1.movementPath = [] ∧
      (u.moveAlongPath m).1.isMovingAlongPath = false ∧
      (u.moveAlongPath m).1.needsPlayerAttention = true) := by
  have hlen : 0 < u.movementPath.length := List.length_pos.mpr hpath
  have hloop : u.moveAlongPath m =
      Unit.moveAlongPathLoop m u.movesRemaining u.movementPath u 0 := by
    unfold Unit.moveAlongPath
    rw [hmoving]
    simp only [Bool.not_true, Bool.false_or, decide_eq_true_eq]
    rw [if_neg (by omega)]
  obtain ⟨h1, h2, h3, h4, h5, h6⟩ :=
    moveAlongPathLoop_spec m u.movesRemaining u.movementPath u 0 hmoves rfl
  have hk := enterablePrefix_le u m u.movementPath
  have hblocked := enterablePrefix_blocked u m u.movementPath
  rw [← hloop] at h1 h2 h3 h4 h5 h6
  simp only [sub_zero, zero_add] at h1 h2 h3 h4 h5
  unfold Unit.pathSteps
  generalize u.enterablePrefix m u.movementPath = k at h1 h2 h3 h4 h5 hk hblocked ⊢
  generalize u.movesRemaining.toNat = b at h1 h2 h3 h4 h5 ⊢
  refine ⟨h1, rfl, h5, h6, ?_, ?_, ?_, ?_⟩
  · rw [h3, hmoving]
    constructor
    · intro h
      split at h
      · cases h
      · omega
    · intro h
      rw [if_neg (by omega)]
  · intro h
    rw [h2, h4, if_neg (by omega), if_neg (by omega)]
    exact ⟨rfl, rfl⟩
  · intro h
    rw [h2, h3, h4, if_neg (by omega), if_pos (by omega), if_pos (by omega), h,
      List.drop_length]
    exact ⟨rfl, rfl, rfl⟩
  · intro h
    have hmin : min b k = k := by omega
    rw [h2, h3, h4, if_pos h, if_pos (by omega), if_pos (by omega), hmin]
    exact ⟨hblocked (by omega), rfl, rfl, rfl⟩

/-- Witness of `moveAlongPath_steps`: a tank with 2 moves on a path of 5 tiles
takes 2 steps; over three turn starts it takes 2, 2 and 1 steps, follows the
path until the last tile and then asks for attention. -/
theorem moveAlongPath_steps_witness :
    (convoyTank.isMovingAlongPath = true ∧ convoyTank.movementPath.length = 5 ∧
      convoyTank.movesRemaining = 2) ∧
    (convoyTank.moveAlongPath plainMap).2 = (convoyTank.pathSteps plainMap : Int) ∧
    convoyTank.pathSteps plainMap = 2 ∧
    (convoyTurn (gameOn plainMap [convoyTank])).units.map
        (fun u => (u.x, u.y, u.movementPath.length, u.isMovingAlongPath,
          u.needsPlayerAttention, u.movesRemaining)) = [(2, 0, 3, true, false, 0)] ∧
    (convoyTurn (convoyTurn (gameOn plainMap [convoyTank]))).units.map
        (fun u => (u.x, u.y, u.movementPath.length, u.isMovingAlongPath,
          u.needsPlayerAttention, u.movesRemaining)) = [(4, 0, 1, true, false, 0)] ∧
    (convoyTurn (convoyTurn (convoyTurn (gameOn plainMap [convoyTank])))).units.map
        (fun u => (u.x, u.y, u.movementPath.length, u.isMovingAlongPath,
          u.needsPlayerAttention, u.movesRemaining)) = [(4, 1, 0, false, true, 1)] :=
  ⟨by decide,
    (moveAlongPath_steps convoyTank plainMap rfl (by decide) (by decide)).1,
    by decide, by decide, by decide, by decide⟩

/-! ### The move budget of a unit -/

theorem moveAlongPath_frame (u : Unit) (m : GameMap) :
    0 ≤ (u.moveAlongPath m).2 ∧
      (0 ≤ u.movesRemaining → (u.moveAlongPath m).2 ≤ u.movesRemaining) ∧
      { (u.moveAlongPath m).1 with
        x := u.x, y := u.y, movementPath := u.movementPath,
        isMovingAlongPath := u.isMovingAlongPath,
        needsPlayerAttention := u.needsPlayerAttention } = u ∧
      (u.isMovingAlongPath = false → (u.moveAlongPath m).1 = u) := by
  unfold Unit.moveAlongPath
  by_cases hc : (!u.isMovingAlongPath || decide (u.movementPath.length = 0)) = true
  · rw [if_pos hc]
    refine ⟨le_refl _, fun h => h, rfl, ?_⟩
    intro h
    cases u
    simp_all
  · rw [if_neg hc]
    have hmoving : u.isMovingAlongPath = true := by
      cases hq : u.isMovingAlongPath
      · rw [hq] at hc
        simp at hc
      · rfl
    by_cases hm : 0 ≤ u.movesRemaining
    · obtain ⟨h1, _, _, _, _, h6⟩ :=
        moveAlongPathLoop_spec m u.movesRemaining u.movementPath u 0 hm rfl
      refine ⟨?_, ?_, h6, ?_⟩
      · rw [h1]
        omega
      · intro _
        rw [h1]
        omega
      · intro h
        rw [h] at hmoving
        cases hmoving
    · have hloop : Unit.moveAlongPathLoop m u.movesRemaining u.movementPath u 0 = (u, 0) := by
        cases hp : u.movementPath with
        | nil => rfl
        | cons a rest =>
          unfold Unit.moveAlongPathLoop
          rw [if_neg (by omega)]
      rw [hloop]
      refine ⟨le_refl _, fun h => absurd h hm, rfl, fun _ => rfl⟩

/-- What `processUnitPathMovements` does to the unit object at index `i`. -/
theorem processUnitPathMovements_getElem (g : Game) (playerId i : Nat) (u : Unit)
    (h : g.units[i]? = some u) :
    ∃ u', (g.processUnitPathMovements playerId).units[i]? = some u' ∧
      u'.type = u.type ∧ u'.owner = u.owner ∧ u'.id = u.id ∧ u'.maxMoves = u.maxMoves ∧
      u'.hasAttacked = u.hasAttacked ∧
      (u.owner ≠ playerId ∨ u.isMovingAlongPath = false → u' = u) ∧
      (0 ≤ u.movesRemaining → 0 ≤ u'.movesRemaining ∧ u'.movesRemaining ≤ u.movesRemaining) := by
  obtain ⟨hnn, hle, hframe, hidle⟩ := moveAlongPath_frame u g.map
  have hfields : (u.moveAlongPath g.map).1.type = u.type ∧
      (u.moveAlongPath g.map).1.owner = u.owner ∧ (u.moveAlongPath g.map).1.id = u.id ∧
      (u.moveAlongPath g.map).1.maxMoves = u.maxMoves ∧
      (u.moveAlongPath g.map).1.hasAttacked = u.hasAttacked ∧
      (u.moveAlongPath g.map).1.movesRemaining = u.movesRemaining := by
    generalize (u.moveAlongPath g.map).1 = w at hframe
    cases w
    cases u
    simp_all
  obtain ⟨f1, f2, f3, f4, f5, f6⟩ := hfields
  unfold Game.processUnitPathMovements
  simp only [List.getElem?_map, h, Option.map_some']
  refine ⟨_, rfl, ?_⟩
  by_cases ho : u.owner = playerId
  · rw [if_pos ho]
    by_cases hcond : (u.isMovingAlongPath && decide (u.movesRemaining > 0)) = true
    · rw [if_pos hcond]
      have hmv : u.isMovingAlongPath = true := by
        cases hq : u.isMovingAlongPath
        · rw [hq] at hcond
          cases hcond
        · rfl
      have hnot : ¬ (u.owner ≠ playerId ∨ u.isMovingAlongPath = false) := by
        rintro (hor | hor)
        · exact hor ho
        · rw [hor] at hmv
          cases hmv
      by_cases ht : (u.moveAlongPath g.map).2 > 0
      · simp only [if_pos ht]
        refine ⟨f1, f2, f3, f4, f5, fun hor => absurd hor hnot, ?_⟩
        intro h0
        have := hle h0
        show 0 ≤ (u.moveAlongPath g.map).1.movesRemaining - (u.moveAlongPath g.map).2 ∧
          (u.moveAlongPath g.map).1.movesRemaining - (u.moveAlongPath g.map).2 ≤
            u.movesRemaining
        rw [f6]
        omega
      · simp only [if_neg ht]
        refine ⟨f1, f2, f3, f4, f5, fun hor => absurd hor hnot, ?_⟩
        intro h0
        rw [f6]
        exact ⟨h0, le_refl _⟩
    · rw [if_neg hcond]
      exact ⟨rfl, rfl, rfl, rfl, rfl, fun _ => rfl, fun h0 => ⟨h0, le_refl _⟩⟩
  · rw [if_neg ho]
    exact ⟨rfl, rfl, rfl, rfl, rfl, fun _ => rfl, fun h0 => ⟨h0, le_refl _⟩⟩

theorem processUnitPathMovements_frame (g : Game) (playerId : Nat) :
    (g.processUnitPathMovements playerId).units.length = g.units.length ∧
      (g.processUnitPathMovements playerId).players = g.players ∧
      (g.processUnitPathMovements playerId).map = g.map ∧
      (g.processUnitPathMovements playerId).gameState = g.gameState ∧
      (g.processUnitPathMovements playerId).currentPlayerIndex = g.currentPlayerIndex ∧
      (g.processUnitPathMovements playerId).turnNumber = g.turnNumber := by
  unfold Game.processUnitPathMovements
  exact ⟨List.length_map _ _, rfl, rfl, rfl, rfl, rfl⟩

theorem removeUnit_units_mem (g : Game) (unit u : Unit) (h : u ∈ (g.removeUnit unit).units) :
    u ∈ g.units := by
  unfold Game.removeUnit at h
  split at h
  · exact List.mem_of_mem_eraseIdx h
  · exact h

theorem moveUnit_units (g g' : Game) (i : Nat) (x y : Int) (r1 r2 : ℚ) (b : Bool)
    (h : g.moveUnit i x y r1 r2 = some (b, g')) :
    ∃ unit, g.units[i]? = some unit ∧
      (g'.units = g.units ∨
        g'.units = g.units.set i { unit with x := x, y := y, movesRemaining := 0 } ∨
        g'.units = g.units.set i (unit.moveTo x y g.map).2 ∨
        ∀ u ∈ g'.units, u ∈ g.units) := by
  unfold Game.moveUnit at h
  cases hu : g.units[i]? with
  | none =>
    rw [hu] at h
    cases h
  | some unit =>
    rw [hu] at h
    refine ⟨unit, rfl, ?_⟩
    by_cases hcan : unit.canMoveTo x y g.map = true
    · simp only [hcan, Bool.not_true, Bool.false_eq_true, if_false] at h
      cases hcity : g.cityToCapture unit x y with
      | none =>
        rw [hcity] at h
        simp only at h
        cases hmt : unit.moveTo x y g.map with
        | mk ok moved =>
          rw [hmt] at h
          cases ok with
          | false =>
            simp only [Option.some.injEq, Prod.mk.injEq] at h
            exact Or.inl (by rw [← h.2])
          | true =>
            simp only [Option.map_eq_some'] at h
            obtain ⟨g2, hvis, hg2⟩ := h
            cases hg2
            exact Or.inr (Or.inr (Or.inl (updateVisibility_frame hvis).1))
      | some ci =>
        rw [hcity] at h
        simp only at h
        cases hcap : g.captureCity unit ci r1 r2 with
        | none =>
          rw [hcap] at h
          cases h
        | some res =>
          obtain ⟨ok, g1⟩ := res
          rw [hcap] at h
          cases ok with
          | false =>
            simp only [Option.some.injEq, Prod.mk.injEq] at h
            obtain ⟨city, _, hg1⟩ := captureCity_false_eq hcap
            refine Or.inr (Or.inr (Or.inr ?_))
            intro u hu'
            rw [← h.2, hg1] at hu'
            exact removeUnit_units_mem (g.setCity ci city.degradeDefense) unit u hu'
          | true =>
            simp only [Option.map_eq_some'] at h
            obtain ⟨g2, hvis, hg2⟩ := h
            cases hg2
            refine Or.inr (Or.inl ?_)
            rw [(updateVisibility_frame hvis).1]
            show g1.units.set i _ = _
            rw [captureCity_true_units hcap]
    · have hcan' : unit.canMoveTo x y g.map = false := by
        cases hq : unit.canMoveTo x y g.map
        · rfl
        · exact absurd hq hcan
      simp only [hcan', Bool.not_false, if_true, Option.some.injEq, Prod.mk.injEq] at h
      exact Or.inl (by rw [← h.2])

theorem processProduction_unit_new (c : City) (id : String) (w : Unit)
    (h : (c.processProduction id).1 = Produced.unit w) :
    ∃ t o, w = Unit.new t c.x c.y o id := by
  have hcomplete : ∀ c1 : City, (c1.completeProduction id).1 = Produced.unit w →
      ∃ t o, w = Unit.new t c1.x c1.y o id := by
    intro c1 h1
    unfold City.completeProduction at h1
    split at h1
    · cases h1
    · simp only at h1
      split at h1
      · cases h1
        exact ⟨_, _, rfl⟩
      · cases h1
  have hx := hcomplete { c with productionTurnsRemaining := c.productionTurnsRemaining - 1 }
  unfold City.processProduction at h
  split at h
  · cases h
  · split at h
    · cases h
    · simp only at h
      split at h
      · split at h
        · exact hx h
        · exact hx h
      · cases h

theorem autoStartAt_units (g : Game) (ci : Nat) : (g.autoStartAt ci).units = g.units := by
  unfold Game.autoStartAt
  split
  · rfl
  · split
    · split <;> rfl
    · rfl

theorem processCityAt_movesInv (g : Game) (playerId : Nat) (id : String) (ci : Nat) (g' : Game)
    (hinv : ∀ u ∈ g.units, u.MovesInv) (h : g.processCityAt playerId id ci = some g') :
    ∀ u ∈ g'.units, u.MovesInv := by
  unfold Game.processCityAt at h
  split at h
  · cases h
    exact hinv
  · rename_i city hc
    simp only [Option.map_eq_some'] at h
    obtain ⟨g2, hspawn, hg'⟩ := h
    rw [← hg', autoStartAt_units]
    split at hspawn
    · cases hspawn
      exact hinv
    · cases hspawn
    · rename_i newUnit hprod
      obtain ⟨t, o, hnew⟩ := processProduction_unit_new city id newUnit hprod
      unfold Game.spawnUnit at hspawn
      split at hspawn
      · cases hspawn
        exact hinv
      · simp only at hspawn
        split at hspawn
        · cases hspawn
        · cases hspawn
          intro u hu
          change u ∈ g.units ++ [_] at hu
          rcases List.mem_append.mp hu with hu | hu
          · exact hinv u hu
          · rw [List.mem_singleton] at hu
            rw [hu, hnew]
            exact ⟨le_refl _, le_of_lt (movementRange_pos t)⟩

theorem processCityProduction_movesInv (g : Game) (playerId : Nat) (freshId : Nat → String)
    (g' : Game) (hinv : ∀ u ∈ g.units, u.MovesInv)
    (h : g.processCityProduction playerId freshId = some g') :
    ∀ u ∈ g'.units, u.MovesInv := by
  unfold Game.processCityProduction at h
  generalize g.map.getCitiesOwnedBy playerId = l at h
  induction l generalizing g with
  | nil =>
    simp only [List.foldlM_nil] at h
    cases h
    exact hinv
  | cons a l ih =>
    rw [List.foldlM_cons] at h
    cases h1 : g.processCityAt playerId (freshId a) a with
    | none =>
      rw [h1] at h
      cases h
    | some g1 =>
      rw [h1] at h
      exact ih g1 (processCityAt_movesInv g playerId (freshId a) a g1 hinv h1) h

/-- C22: `0 ≤ movesRemaining ≤ maxMoves` holds for a newly constructed unit and
after `startNewTurn`; `moveTo` keeps it for the unit, and `moveUnit` (a
successful capture included), `processUnitPathMovements` and
`processCityProduction` keep it for every unit of the game. -/
theorem movesInv_preserved :
    (∀ type x y owner id, (Unit.new type x y owner id).MovesInv) ∧
    (∀ u : Unit, u.startNewTurn.MovesInv) ∧
    (∀ (u : Unit) x y m, u.MovesInv → (u.moveTo x y m).2.MovesInv) ∧
    (∀ (g g' : Game) i x y r1 r2 b, (∀ u ∈ g.units, u.MovesInv) →
      g.moveUnit i x y r1 r2 = some (b, g') → ∀ u ∈ g'.units, u.MovesInv) ∧
    (∀ (g : Game) playerId, (∀ u ∈ g.units, u.MovesInv) →
      ∀ u ∈ (g.processUnitPathMovements playerId).units, u.MovesInv) ∧
    (∀ (g g' : Game) playerId freshId, (∀ u ∈ g.units, u.MovesInv) →
      g.processCityProduction playerId freshId = some g' → ∀ u ∈ g'.units, u.MovesInv) := by
  have hmoveTo : ∀ (u : Unit) x y m, u.MovesInv → (u.moveTo x y m).2.MovesInv := by
    intro u x y m hu
    unfold Unit.moveTo
    split
    · simp only
      split
      · rename_i hd
        have hnn : 0 ≤ GameHelpers.getDistance u.x u.y x y := by
          unfold GameHelpers.getDistance
          omega
        exact ⟨by show 0 ≤ u.movesRemaining - _; omega,
          by show u.movesRemaining - _ ≤ u.maxMoves; have := hu.2; omega⟩
      · exact hu
    · exact hu
  refine ⟨?_, ?_, hmoveTo, ?_, ?_, ?_⟩
  · intro type x y owner id
    exact ⟨le_of_lt (movementRange_pos type), le_refl _⟩
  · intro u
    exact ⟨le_of_lt (movementRange_pos u.type), le_refl _⟩
  · intro g g' i x y r1 r2 b hinv h
    obtain ⟨unit, hu, hcases⟩ := moveUnit_units g g' i x y r1 r2 b h
    have hunit : unit.MovesInv := hinv unit (List.getElem?_mem hu)
    intro u hmem
    rcases hcases with hc | hc | hc | hc
    · rw [hc] at hmem
      exact hinv u hmem
    · rw [hc] at hmem
      rcases List.mem_or_eq_of_mem_set hmem with hm | hm
      · exact hinv u hm
      · rw [hm]
        exact ⟨le_refl _, le_trans hunit.1 hunit.2⟩
    · rw [hc] at hmem
      rcases List.mem_or_eq_of_mem_set hmem with hm | hm
      · exact hinv u hm
      · rw [hm]
        exact hmoveTo unit x y g.map hunit
    · exact hinv u (hc u hmem)
  · intro g playerId hinv u hmem
    obtain ⟨i, hi⟩ := List.mem_iff_getElem?.mp hmem
    have hlen := (processUnitPathMovements_frame g playerId).1
    have hlt : i < g.units.length := by
      rcases Nat.lt_or_ge i g.units.length with hlt | hge
      · exact hlt
      · rw [List.getElem?_eq_none (by omega)] at hi
        cases hi
    obtain ⟨u', hu', _, _, _, hmax, _, _, hmv⟩ :=
      processUnitPathMovements_getElem g playerId i (g.units[i]) (List.getElem?_eq_getElem hlt)
    rw [hi] at hu'
    cases hu'
    have hold := hinv (g.units[i]) (List.getElem_mem hlt)
    have := hmv hold.1
    exact ⟨this.1, by rw [hmax]; exact le_trans this.2 hold.2⟩
  · intro g g' playerId freshId hinv h
    exact processCityProduction_movesInv g playerId freshId g' hinv h

/-! ### The reset at the start of a turn -/

theorem incrementStatAt_frame (g : Game) (pi : Nat) (statName : String) :
    (g.incrementStatAt pi statName).units = g.units ∧
      (g.incrementStatAt pi statName).map = g.map ∧
      (g.incrementStatAt pi statName).gameState = g.gameState ∧
      (g.incrementStatAt pi statName).currentPlayerIndex = g.currentPlayerIndex ∧
      (g.incrementStatAt pi statName).turnNumber = g.turnNumber :=
  ⟨rfl, rfl, rfl, rfl, rfl⟩

/-- The stages of a `startPlayerTurn` that returned: the current player `p`,
the game `g3` after the reset and the production, and the final game. -/
theorem startPlayerTurn_stages (g : Game) (freshId : Nat → String) (r : Game × Bool)
    (h : g.startPlayerTurn freshId = some r) :
    ∃ p g3 g5, g.players[g.currentPlayerIndex]? = some p ∧
      Game.processCityProduction
        { g with
          players := g.players.set g.currentPlayerIndex p.resetTurnStats,
          units := g.units.map (fun unit =>
            if unit.owner = p.id then unit.startNewTurn else unit) }
        p.id freshId = some g3 ∧
      (g3.processUnitPathMovements p.id).updateVisibility p.id = some g5 ∧
      r = (g5.incrementStatAt g.currentPlayerIndex "turnsPlayed",
        (g5.incrementStatAt g.currentPlayerIndex "turnsPlayed").playerHasActions p.id) := by
  unfold Game.startPlayerTurn at h
  split at h
  · cases h
  · rename_i p hp
    simp only at h
    split at h
    · cases h
    · rename_i g3 hg3
      split at h
      · cases h
      · rename_i g5 hg5
        cases h
        exact ⟨p, g3, g5, hp, hg3, hg5, rfl⟩

/-- C21: `startNewTurn` sets `maxMoves` to the `MOVEMENT_RANGES` entry of the
unit's type, `movesRemaining` to `maxMoves` and `hasAttacked` to false, and
leaves every other field as it was. In a `startPlayerTurn` of player `p`, a unit
of another player is the same object afterwards; a unit of `p` has been reset
(`maxMoves` from the table, `hasAttacked` false, at most `maxMoves` moves) and is
exactly `startNewTurn` of the old unit unless it was following a path, which
the same call then continues. -/
theorem startNewTurn_resets :
    (∀ u : Unit,
      u.startNewTurn.movesRemaining = u.startNewTurn.maxMoves ∧
      u.startNewTurn.maxMoves = GAME_CONSTANTS.MOVEMENT_RANGES u.type ∧
      u.startNewTurn.hasAttacked = false ∧
      { u.startNewTurn with maxMoves := u.maxMoves, movesRemaining := u.movesRemaining,
                            hasAttacked := u.hasAttacked } = u) ∧
    (∀ (g : Game) (freshId : Nat → String) (r : Game × Bool) (p : Player),
      g.players[g.currentPlayerIndex]? = some p → g.startPlayerTurn freshId = some r →
      ∀ (i : Nat) (u : Unit), g.units[i]? = some u →
        ∃ u', r.1.units[i]? = some u' ∧ u'.owner = u.owner ∧ u'.type = u.type ∧
          u'.id = u.id ∧
          (u.owner ≠ p.id → u' = u) ∧
          (u.owner = p.id →
            u'.maxMoves = GAME_CONSTANTS.MOVEMENT_RANGES u.type ∧ u'.hasAttacked = false ∧
            0 ≤ u'.movesRemaining ∧ u'.movesRemaining ≤ u'.maxMoves ∧
            (u.isMovingAlongPath = false → u' = u.startNewTurn))) := by
  constructor
  · intro u
    exact ⟨rfl, rfl, rfl, rfl⟩
  · intro g freshId r p hp h i u hu
    obtain ⟨p', g3, g5, hp', hg3, hg5, hr⟩ := startPlayerTurn_stages g freshId r h
    rw [hp] at hp'
    cases hp'
    obtain ⟨⟨added, hunits, _⟩, _⟩ := foldlM_processCityAt p.id freshId _ _ g3
      (getCitiesOwnedBy_nodup _ _) hg3
    have hw : g3.units[i]? = some (if u.owner = p.id then u.startNewTurn else u) := by
      rw [hunits]
      have hlt : i < g.units.length := by
        rcases Nat.lt_or_ge i g.units.length with hlt | hge
        · exact hlt
        · rw [List.getElem?_eq_none hge] at hu
          cases hu
      rw [List.getElem?_append_left (by simpa using hlt)]
      simp only [List.getElem?_map, hu, Option.map_some']
    obtain ⟨u', hu', h1, h2, h3, h4, h5, h6, h7⟩ :=
      processUnitPathMovements_getElem g3 p.id i _ hw
    refine ⟨u', ?_, ?_, ?_, ?_, ?_, ?_⟩
    · rw [hr]
      show (g5.incrementStatAt g.currentPlayerIndex "turnsPlayed").units[i]? = _
      rw [(incrementStatAt_frame _ _ _).1, (updateVisibility_frame hg5).1]
      exact hu'
    · rw [h2]
      split <;> rfl
    · rw [h1]
      split <;> rfl
    · rw [h3]
      split <;> rfl
    · intro hne
      rw [if_neg hne] at h6
      exact h6 (Or.inl hne)
    · intro ho
      rw [if_pos ho] at h4 h5 h6 h7
      have hpos := movementRange_pos u.type
      have hb := h7 (le_of_lt hpos)
      refine ⟨h4, h5, hb.1, ?_, ?_⟩
      · rw [h4]
        exact hb.2
      · intro hidle
        exact h6 (Or.inr hidle)

/-! ### Elimination and the end of the game -/

theorem map_modify_of_eq {α β : Type} (f : α → β) (k : α → α) (hk : ∀ a, f (k a) = f a) :
    ∀ (l : List α) (n : Nat), (l.modify k n).map f = l.map f := by
  intro l
  induction l with
  | nil => intro n; simp
  | cons a l ih =>
    intro n
    cases n with
    | zero => simp [hk]
    | succ n => simp [ih]

theorem incrementStat_standing (p : Player) (statName : String) (amount : Int) :
    (p.incrementStat statName amount).standing = p.standing := by
  unfold Player.incrementStat
  repeat' split
  all_goals rfl

theorem incrementStatAt_standing (g : Game) (pi : Nat) (statName : String) :
    (g.incrementStatAt pi statName).players.map Player.standing =
      g.players.map Player.standing := by
  unfold Game.incrementStatAt
  exact map_modify_of_eq _ _ (fun a => incrementStat_standing a statName 1) _ _

theorem captureCity_standing (g g' : Game) (unit : Unit) (ci : Nat) (r1 r2 : ℚ) (b : Bool)
    (h : g.captureCity unit ci r1 r2 = some (b, g')) :
    g'.players.map Player.standing = g.players.map Player.standing := by
  unfold Game.captureCity at h
  split at h
  · cases h
  · simp only at h
    split at h
    · split at h
      · cases h
      · split at h
        · cases h
          exact incrementStatAt_standing _ _ _
        · cases h
          exact incrementStatAt_standing _ _ _
    · cases h
      rw [(removeUnit_frame _ _).1]
      rfl

theorem updateVisibility_fields {g g' : Game} {o : Nat} (h : g.updateVisibility o = some g') :
    g'.gameState = g.gameState ∧ g'.currentPlayerIndex = g.currentPlayerIndex ∧
      g'.turnNumber = g.turnNumber ∧ g'.units = g.units ∧ g'.players = g.players := by
  unfold Game.updateVisibility at h
  simp only [Option.map_eq_some'] at h
  obtain ⟨m, _, hg'⟩ := h
  rw [← hg']
  exact ⟨rfl, rfl, rfl, rfl, rfl⟩

theorem moveUnit_standing (g g' : Game) (i : Nat) (x y : Int) (r1 r2 : ℚ) (b : Bool)
    (h : g.moveUnit i x y r1 r2 = some (b, g')) :
    g'.players.map Player.standing = g.players.map Player.standing := by
  unfold Game.moveUnit at h
  split at h
  · cases h
  · rename_i unit hu
    split at h
    · cases h
      rfl
    · split at h
      · rename_i ci hci
        split at h
        · cases h
        · rename_i g1 hcap
          simp only [Option.map_eq_some'] at h
          obtain ⟨g3, hvis, hg3⟩ := h
          cases hg3
          rw [(updateVisibility_fields hvis).2.2.2.2]
          exact captureCity_standing g g1 unit ci r1 r2 true hcap
        · rename_i g1 hcap
          cases h
          exact captureCity_standing g g' unit ci r1 r2 false hcap
      · split at h
        · rename_i moved hmt
          simp only [Option.map_eq_some'] at h
          obtain ⟨g2, hvis, hg2⟩ := h
          cases hg2
          rw [(updateVisibility_fields hvis).2.2.2.2]
        · cases h
          rfl

theorem setUnitAt_players (g : Game) (idx : Option Nat) (u : Unit) :
    (g.setUnitAt idx u).players = g.players := by
  unfold Game.setUnitAt
  split <;> rfl

theorem attackUnit_standing (g g' : Game) (ai ti : Nat) (r1 r2 r3 r4 : ℚ) (b : Bool) (a : Unit)
    (h : g.attackUnit ai ti r1 r2 r3 r4 = some (b, g', a)) :
    g'.players.map Player.standing = g.players.map Player.standing := by
  unfold Game.attackUnit at h
  split at h
  · rename_i attacker target0 ha ht
    split at h
    · cases h
      rfl
    · simp only at h
      split at h
      · unfold Game.attackerWins at h
        simp only at h
        split at h
        · rename_i ap tp hap htp
          split at h
          · rename_i ci hci
            simp only [Option.map_eq_some'] at h
            obtain ⟨res, hcap, hres⟩ := h
            obtain ⟨b1, g5⟩ := res
            cases hres
            rw [captureCity_standing _ _ _ _ _ _ _ hcap, setUnitAt_players,
              incrementStatAt_standing, incrementStatAt_standing, incrementStatAt_standing,
              incrementStatAt_standing, (removeUnit_frame _ _).1]
          · cases h
            rw [setUnitAt_players, incrementStatAt_standing, incrementStatAt_standing,
              incrementStatAt_standing, incrementStatAt_standing, (removeUnit_frame _ _).1]
        · cases h
      · unfold Game.attackerLoses at h
        simp only at h
        split at h
        · cases h
          rw [incrementStatAt_standing, incrementStatAt_standing, incrementStatAt_standing,
            incrementStatAt_standing, incrementStatAt_standing, (removeUnit_frame _ _).1]
        · cases h
  · cases h

theorem getCitiesOwnedBy_length_eq_zero (m : GameMap) (playerId : Nat) :
    (m.getCitiesOwnedBy playerId).length = 0 ↔
      ∀ city ∈ m.cities, city.owner ≠ some playerId := by
  rw [List.length_eq_zero, List.eq_nil_iff_forall_not_mem]
  constructor
  · intro h city hc ho
    obtain ⟨ci, hci⟩ := List.mem_iff_getElem?.mp hc
    exact h ci ((mem_getCitiesOwnedBy m playerId ci).mpr ⟨city, hci, ho⟩)
  · intro h ci hmem
    obtain ⟨city, hc, ho⟩ := (mem_getCitiesOwnedBy m playerId ci).mp hmem
    exact h city (List.getElem?_mem hc) ho

theorem getUnitsOwnedBy_length_eq_zero (g : Game) (playerId : Nat) :
    (g.getUnitsOwnedBy playerId).length = 0 ↔ ∀ u ∈ g.units, u.owner ≠ playerId := by
  unfold Game.getUnitsOwnedBy
  rw [List.length_eq_zero, List.filter_eq_nil_iff]
  constructor
  · intro h u hu ho
    exact h u hu (by simp [ho])
  · intro h u hu ho
    exact h u hu (by simpa using ho)

/-- C26: with more than one player alive at entry, `checkGameEndConditions`
returns false and replaces a player by its eliminated self exactly when the
player is alive and owns no city and no unit; every other player, and with one
or no player alive every player, is left as it was; units, map, turn counters
are untouched. `moveUnit`, `attackUnit` and `captureCity` never change a
player's `isActive` or `isEliminated`. -/
theorem checkGameEndConditions_eliminates :
    (∀ g : Game, 1 < (g.players.filter (fun p => p.isAlive)).length →
      g.checkGameEndConditions.1 = false ∧
      g.checkGameEndConditions.2 = { g with players := g.checkGameEndConditions.2.players } ∧
      g.checkGameEndConditions.2.players.length = g.players.length ∧
      ∀ (i : Nat) (p : Player), g.players[i]? = some p →
        ((p.isAlive = true ∧ (∀ city ∈ g.map.cities, city.owner ≠ some p.id) ∧
            (∀ u ∈ g.units, u.owner ≠ p.id)) →
          g.checkGameEndConditions.2.players[i]? = some p.eliminate ∧
          p.eliminate.isEliminated = true ∧ p.eliminate.isAlive = false) ∧
        (¬ (p.isAlive = true ∧ (∀ city ∈ g.map.cities, city.owner ≠ some p.id) ∧
            (∀ u ∈ g.units, u.owner ≠ p.id)) →
          g.checkGameEndConditions.2.players[i]? = some p)) ∧
    (∀ g : Game, (g.players.filter (fun p => p.isAlive)).length ≤ 1 →
      g.checkGameEndConditions = (true, g)) ∧
    (∀ (g g' : Game) i x y r1 r2 b, g.moveUnit i x y r1 r2 = some (b, g') →
      g'.players.map Player.standing = g.players.map Player.standing) ∧
    (∀ (g g' : Game) ai ti r1 r2 r3 r4 b a, g.attackUnit ai ti r1 r2 r3 r4 = some (b, g', a) →
      g'.players.map Player.standing = g.players.map Player.standing) ∧
    (∀ (g g' : Game) unit ci r1 r2 b, g.captureCity unit ci r1 r2 = some (b, g') →
      g'.players.map Player.standing = g.players.map Player.standing) := by
  refine ⟨?_, ?_, moveUnit_standing, attackUnit_standing, captureCity_standing⟩
  · intro g halive
    unfold Game.checkGameEndConditions
    simp only
    rw [if_neg (by omega)]
    refine ⟨rfl, rfl, List.length_map _ _, ?_⟩
    intro i p hp
    simp only [List.getElem?_map, hp, Option.map_some', getCitiesOwnedBy_length_eq_zero,
      getUnitsOwnedBy_length_eq_zero]
    constructor
    · intro h
      rw [if_pos h.1, if_pos h.2]
      exact ⟨rfl, rfl, by simp [Player.isAlive, Player.eliminate]⟩
    · intro h
      by_cases ha : p.isAlive = true
      · rw [if_pos ha, if_neg (fun hc => h ⟨ha, hc⟩)]
      · rw [if_neg ha]
  · intro g halive
    unfold Game.checkGameEndConditions
    simp only
    rw [if_pos halive]

/-! ### The turn counters -/

theorem autoStartAt_fields (g : Game) (ci : Nat) :
    (g.autoStartAt ci).gameState = g.gameState ∧
      (g.autoStartAt ci).currentPlayerIndex = g.currentPlayerIndex ∧
      (g.autoStartAt ci).turnNumber = g.turnNumber ∧
      (g.autoStartAt ci).map.visibility = g.map.visibility ∧
      (g.autoStartAt ci).map.height = g.map.height := by
  unfold Game.autoStartAt
  split
  · exact ⟨rfl, rfl, rfl, rfl, rfl⟩
  · split
    · split <;> exact ⟨rfl, rfl, rfl, rfl, rfl⟩
    · exact ⟨rfl, rfl, rfl, rfl, rfl⟩

theorem spawnUnit_fields (g : Game) (playerId : Nat) (x y : Int) (newUnit : Unit) (g' : Game)
    (h : g.spawnUnit playerId x y newUnit = some g') :
    g'.gameState = g.gameState ∧ g'.currentPlayerIndex = g.currentPlayerIndex ∧
      g'.turnNumber = g.turnNumber ∧ g'.map = g.map := by
  unfold Game.spawnUnit at h
  split at h
  · cases h
    exact ⟨rfl, rfl, rfl, rfl⟩
  · simp only at h
    split at h
    · cases h
    · cases h
      exact ⟨rfl, rfl, rfl, rfl⟩

theorem processCityAt_fields (g : Game) (playerId : Nat) (id : String) (ci : Nat) (g' : Game)
    (h : g.processCityAt playerId id ci = some g') :
    g'.gameState = g.gameState ∧ g'.currentPlayerIndex = g.currentPlayerIndex ∧
      g'.turnNumber = g.turnNumber ∧ g'.map.visibility = g.map.visibility ∧
      g'.map.height = g.map.height := by
  unfold Game.processCityAt at h
  split at h
  · cases h
    exact ⟨rfl, rfl, rfl, rfl, rfl⟩
  · simp only [Option.map_eq_some'] at h
    obtain ⟨g2, hspawn, hg'⟩ := h
    obtain ⟨a1, a2, a3, a4, a5⟩ := autoStartAt_fields g2 ci
    rw [← hg', a1, a2, a3, a4, a5]
    split at hspawn
    · cases hspawn
      exact ⟨rfl, rfl, rfl, rfl, rfl⟩
    · cases hspawn
    · obtain ⟨s1, s2, s3, s4⟩ := spawnUnit_fields _ _ _ _ _ _ hspawn
      rw [s1, s2, s3, s4]
      exact ⟨rfl, rfl, rfl, rfl, rfl⟩

theorem processCityProduction_fields (g : Game) (playerId : Nat) (freshId : Nat → String)
    (g' : Game) (h : g.processCityProduction playerId freshId = some g') :
    g'.gameState = g.gameState ∧ g'.currentPlayerIndex = g.currentPlayerIndex ∧
      g'.turnNumber = g.turnNumber ∧ g'.map.visibility = g.map.visibility ∧
      g'.map.height = g.map.height := by
  unfold Game.processCityProduction at h
  generalize g.map.getCitiesOwnedBy playerId = l at h
  induction l generalizing g with
  | nil =>
    simp only [List.foldlM_nil] at h
    cases h
    exact ⟨rfl, rfl, rfl, rfl, rfl⟩
  | cons a l ih =>
    rw [List.foldlM_cons] at h
    cases h1 : g.processCityAt playerId (freshId a) a with
    | none =>
      rw [h1] at h
      cases h
    | some g1 =>
      rw [h1] at h
      obtain ⟨b1, b2, b3, b4, b5⟩ := processCityAt_fields g playerId (freshId a) a g1 h1
      obtain ⟨c1, c2, c3, c4, c5⟩ := ih g1 h
      exact ⟨c1.trans b1, c2.trans b2, c3.trans b3, c4.trans b4, c5.trans b5⟩

theorem startPlayerTurn_fields (g : Game) (freshId : Nat → String) (r : Game × Bool)
    (h : g.startPlayerTurn freshId = some r) :
    r.1.gameState = g.gameState ∧ r.1.currentPlayerIndex = g.currentPlayerIndex ∧
      r.1.turnNumber = g.turnNumber := by
  obtain ⟨p, g3, g5, _, hg3, hg5, hr⟩ := startPlayerTurn_stages g freshId r h
  obtain ⟨a1, a2, a3, _, _⟩ := processCityProduction_fields _ _ _ _ hg3
  obtain ⟨b1, b2, b3, _, _⟩ := updateVisibility_fields hg5
  obtain ⟨_, _, _, c1, c2, c3⟩ := processUnitPathMovements_frame g3 p.id
  rw [hr]
  exact ⟨b1.trans (c1.trans a1), b2.trans (c2.trans a2), b3.trans (c3.trans a3)⟩

theorem checkGameEndConditions_fields (g : Game) :
    g.checkGameEndConditions.2.gameState = g.gameState ∧
      g.checkGameEndConditions.2.currentPlayerIndex = g.currentPlayerIndex ∧
      g.checkGameEndConditions.2.turnNumber = g.turnNumber := by
  unfold Game.checkGameEndConditions
  simp only
  split <;> exact ⟨rfl, rfl, rfl⟩

/-- The game on which `endPlayerTurn` runs its end-condition check: the index
advanced, the turn number raised on a wrap to 0. -/
theorem endPlayerTurn_stages (g : Game) (freshId : Nat → String) (r : Game × Bool)
    (h : g.endPlayerTurn freshId = some r) :
    g.currentPlayerIndex < g.players.length ∧
    ∃ g2 : Game,
      g2.currentPlayerIndex = (g.currentPlayerIndex + 1) % g.players.length ∧
      g2.turnNumber = (if (g.currentPlayerIndex + 1) % g.players.length = 0
        then g.turnNumber + 1 else g.turnNumber) ∧
      g2.players = g.players ∧ g2.units = g.units ∧ g2.map = g.map ∧
      g2.gameState = g.gameState ∧
      ((g2.checkGameEndConditions.1 = true ∧
          r = (g2.checkGameEndConditions.2.endGame, false)) ∨
        (g2.checkGameEndConditions.1 = false ∧ r.2 = true ∧
          ∃ r', g2.checkGameEndConditions.2.startPlayerTurn freshId = some r' ∧ r.1 = r'.1)) := by
  have key : ∀ g2 : Game,
      (if g2.checkGameEndConditions.1 = true then
          some (g2.checkGameEndConditions.2.endGame, false)
        else (g2.checkGameEndConditions.2.startPlayerTurn freshId).map
          (fun r => (r.1, true))) = some r →
      ((g2.checkGameEndConditions.1 = true ∧
          r = (g2.checkGameEndConditions.2.endGame, false)) ∨
        (g2.checkGameEndConditions.1 = false ∧ r.2 = true ∧
          ∃ r', g2.checkGameEndConditions.2.startPlayerTurn freshId = some r' ∧
            r.1 = r'.1)) := by
    intro g2 h2
    by_cases hc : g2.checkGameEndConditions.1 = true
    · rw [if_pos hc] at h2
      cases h2
      exact Or.inl ⟨hc, rfl⟩
    · rw [if_neg hc] at h2
      simp only [Option.map_eq_some'] at h2
      obtain ⟨r', hr', hr⟩ := h2
      refine Or.inr ⟨by simpa using hc, by rw [← hr], r', hr', by rw [← hr]⟩
  unfold Game.endPlayerTurn at h
  split at h
  · cases h
  · rename_i p hp
    have hlt : g.currentPlayerIndex < g.players.length := by
      rcases Nat.lt_or_ge g.currentPlayerIndex g.players.length with hlt | hge
      · exact hlt
      · rw [List.getElem?_eq_none hge] at hp
        cases hp
    simp only at h
    refine ⟨hlt, (if (g.currentPlayerIndex + 1) % g.players.length = 0 then
        { g with currentPlayerIndex := (g.currentPlayerIndex + 1) % g.players.length,
                 turnNumber := g.turnNumber + 1 }
      else { g with currentPlayerIndex := (g.currentPlayerIndex + 1) % g.players.length }),
      ?_, ?_, ?_, ?_, ?_, ?_, key _ h⟩
    · split <;> rfl
    · split <;> simp_all
    · split <;> rfl
    · split <;> rfl
    · split <;> rfl
    · split <;> rfl

/-- C23: a call of `endPlayerTurn` that returns was made with a current index
`i < N`, `N ≥ 1` the number of players; it leaves
`currentPlayerIndex = (i + 1) mod N`, and the turn number is one more than
before if the new index is 0 and the same otherwise. -/
theorem endPlayerTurn_advances (g : Game) (freshId : Nat → String) (r : Game × Bool)
    (h : g.endPlayerTurn freshId = some r) :
    (1 ≤ g.players.length ∧ g.currentPlayerIndex < g.players.length) ∧
    r.1.currentPlayerIndex = (g.currentPlayerIndex + 1) % g.players.length ∧
    (r.1.currentPlayerIndex = 0 → r.1.turnNumber = g.turnNumber + 1) ∧
    (r.1.currentPlayerIndex ≠ 0 → r.1.turnNumber = g.turnNumber) := by
  obtain ⟨hlt, g2, hidx, hturn, _, _, _, _, hcases⟩ := endPlayerTurn_stages g freshId r h
  obtain ⟨_, c2, c3⟩ := checkGameEndConditions_fields g2
  have hfinal : r.1.currentPlayerIndex = g2.currentPlayerIndex ∧
      r.1.turnNumber = g2.turnNumber := by
    rcases hcases with ⟨_, hr⟩ | ⟨_, _, r', hr', hr⟩
    · rw [hr]
      exact ⟨c2, c3⟩
    · obtain ⟨_, s2, s3⟩ := startPlayerTurn_fields _ freshId r' hr'
      rw [hr]
      exact ⟨s2.trans c2, s3.trans c3⟩
  rw [hfinal.1, hfinal.2, hidx, hturn]
  refine ⟨⟨by omega, hlt⟩, rfl, ?_, ?_⟩
  · intro h0
    rw [if_pos h0]
  · intro h0
    rw [if_neg h0]

/-- Witness of `endPlayerTurn_advances`: with two players the index goes from 0
to 1 within turn 1, and from 1 to 0 into turn 2. -/
theorem endPlayerTurn_advances_witness :
    (∃ r, duelGame.endPlayerTurn (fun _ => "u3") = some r ∧
      duelGame.currentPlayerIndex = 0 ∧ duelGame.turnNumber = 1 ∧
      r.1.currentPlayerIndex = 1 ∧ r.1.turnNumber = 1) ∧
    (∃ r, Game.endPlayerTurn { duelGame with currentPlayerIndex := 1 } (fun _ => "u3") = some r ∧
      r.1.currentPlayerIndex = 0 ∧ r.1.turnNumber = 2) :=
  ⟨⟨(duelGame.endPlayerTurn (fun _ => "u3")).get (by decide), (Option.some_get _).symm,
      rfl, rfl,
      (endPlayerTurn_advances duelGame (fun _ => "u3") _ (Option.some_get _).symm).2.1,
      (endPlayerTurn_advances duelGame (fun _ => "u3") _ (Option.some_get _).symm).2.2.2
        (by rw [(endPlayerTurn_advances duelGame (fun _ => "u3") _
          (Option.some_get _).symm).2.1]; decide)⟩,
    ⟨(Game.endPlayerTurn { duelGame with currentPlayerIndex := 1 } (fun _ => "u3")).get
        (by decide), (Option.some_get _).symm,
      (endPlayerTurn_advances { duelGame with currentPlayerIndex := 1 } (fun _ => "u3") _
        (Option.some_get _).symm).2.1,
      (endPlayerTurn_advances { duelGame with currentPlayerIndex := 1 } (fun _ => "u3") _
        (Option.some_get _).symm).2.2.1
        (endPlayerTurn_advances { duelGame with currentPlayerIndex := 1 } (fun _ => "u3") _
          (Option.some_get _).symm).2.1⟩⟩

theorem endPlayerTurn_of_one_alive (g : Game) (freshId : Nat → String)
    (hi : g.currentPlayerIndex < g.players.length)
    (halive : (g.players.filter (fun p => p.isAlive)).length ≤ 1) :
    g.endPlayerTurn freshId =
      some ({ g with
        currentPlayerIndex := (g.currentPlayerIndex + 1) % g.players.length,
        turnNumber := if (g.currentPlayerIndex + 1) % g.players.length = 0
          then g.turnNumber + 1 else g.turnNumber,
        gameState := "ended" }, false) := by
  have hcheck : ∀ (idx : Nat) (tn : Int),
      Game.checkGameEndConditions { g with currentPlayerIndex := idx, turnNumber := tn } =
        (true, { g with currentPlayerIndex := idx, turnNumber := tn }) := by
    intro idx tn
    unfold Game.checkGameEndConditions
    simp only
    rw [if_pos halive]
  unfold Game.endPlayerTurn
  rw [List.getElem?_eq_getElem hi]
  simp only
  by_cases h0 : (g.currentPlayerIndex + 1) % g.players.length = 0
  · simp only [h0, if_true, hcheck]
    rfl
  · simp only [h0, if_false, hcheck]
    rfl

/-- C25 fails on `openGame`: both players are alive when the check starts,
player 1 owns nothing and is eliminated by the check, which still returns
false; with one player alive the game is still `playing` and `startPlayerTurn` has run
for the eliminated player 1 (its `turnsPlayed` is 1). Only the following
`endPlayerTurn` ends the game. -/
theorem endPlayerTurn_continues_with_one_alive :
    openGame.players.map (fun p => p.isAlive) = [true, true] ∧
    (openGame.endPlayerTurn (fun _ => "u3")).map (fun r =>
        (r.2, r.1.gameState, r.1.currentPlayerIndex,
          r.1.players.map (fun p => (p.isAlive, p.stats.turnsPlayed)))) =
      some (true, "playing", 1, [(true, 0), (false, 1)]) ∧
    ((openGame.endPlayerTurn (fun _ => "u3")).bind (fun r =>
        r.1.endPlayerTurn (fun _ => "u4"))).map (fun r => (r.2, r.1.gameState)) =
      some (false, "ended") := by
  decide

/-! ### `playerHasActions` -/

theorem mem_getAdjacentPositions (m : GameMap) (x y : Int) (pos : Pos) :
    pos ∈ m.getAdjacentPositions x y ↔
      Adjacent { x := x, y := y } pos ∧ GameHelpers.isValidPosition pos.x pos.y = true := by
  unfold GameMap.getAdjacentPositions Adjacent GameHelpers.getDistance
  rw [List.mem_filter]
  simp only [List.mem_cons, List.mem_singleton, List.not_mem_nil, or_false]
  constructor
  · rintro ⟨h | h | h | h, hv⟩ <;> subst h <;> exact ⟨by simp only; omega, hv⟩
  · rintro ⟨hd, hv⟩
    refine ⟨?_, hv⟩
    obtain ⟨px, py⟩ := pos
    simp only [Pos.mk.injEq] at hd ⊢
    omega

theorem actionAt_eq_true_iff (g : Game) (playerId : Nat) (unit : Unit) (pos : Pos) :
    g.actionAt playerId unit pos = true ↔
      unit.canMoveTo pos.x pos.y g.map = true ∨
      (∃ targetUnit, g.getUnitAt pos.x pos.y = some targetUnit ∧ targetUnit.owner ≠ playerId) ∨
      (∃ ci city, g.map.getCityAt pos.x pos.y = some ci ∧ g.map.cities[ci]? = some city ∧
        city.owner ≠ some playerId) := by
  unfold Game.actionAt
  simp only [Bool.or_eq_true]
  constructor
  · rintro ((h | h) | h)
    · exact Or.inl h
    · split at h
      · rename_i t ht
        exact Or.inr (Or.inl ⟨t, ht, by simpa using h⟩)
      · cases h
    · split at h
      · rename_i ci hci
        split at h
        · rename_i city hcity
          exact Or.inr (Or.inr ⟨ci, city, hci, hcity, by simpa using h⟩)
        · cases h
      · cases h
  · rintro (h | ⟨t, ht, hne⟩ | ⟨ci, city, hci, hcity, hne⟩)
    · exact Or.inl (Or.inl h)
    · refine Or.inl (Or.inr ?_)
      rw [ht]
      simpa using hne
    · refine Or.inr ?_
      rw [hci]
      simp only [hcity]
      simpa using hne

/-- What `playerHasActions` computes: it returns true exactly when some
unit of the player asks for attention with moves left, or else no unit of the
player is following a non-empty path with moves left and either some unit of
the player that follows no path has moves left and an action on one of its
neighbours on the 50 by 40 board (it may enter the tile, or the first unit
found there belongs to someone else, or the first city found there does), or
some city of the player produces nothing. -/
theorem playerHasActions_iff (g : Game) (playerId : Nat) :
    g.playerHasActions playerId = true ↔
      (∃ u ∈ g.units, u.owner = playerId ∧ u.needsPlayerAttention = true ∧
        0 < u.movesRemaining) ∨
      ((¬ ∃ u ∈ g.units, u.owner = playerId ∧ u.isMovingAlongPath = true ∧
          0 < u.movesRemaining ∧ u.movementPath ≠ []) ∧
        ((∃ u ∈ g.units, u.owner = playerId ∧ 0 < u.movesRemaining ∧
            u.isMovingAlongPath = false ∧
            ∃ pos, (Adjacent { x := u.x, y := u.y } pos ∧
                GameHelpers.isValidPosition pos.x pos.y = true) ∧
              (u.canMoveTo pos.x pos.y g.map = true ∨
                (∃ targetUnit, g.getUnitAt pos.x pos.y = some targetUnit ∧
                  targetUnit.owner ≠ playerId) ∨
                (∃ ci city, g.map.getCityAt pos.x pos.y = some ci ∧
                  g.map.cities[ci]? = some city ∧ city.owner ≠ some playerId))) ∨
          (∃ city ∈ g.map.cities, city.owner = some playerId ∧
            city.isProducing = false))) := by
  have hA : ((g.getUnitsOwnedBy playerId).any (fun (unit : Unit) =>
      unit.needsPlayerAttention && decide (unit.movesRemaining > 0))) = true ↔
      ∃ u ∈ g.units, u.owner = playerId ∧ u.needsPlayerAttention = true ∧
        0 < u.movesRemaining := by
    unfold Game.getUnitsOwnedBy
    simp only [List.any_eq_true, List.mem_filter, beq_iff_eq, Bool.and_eq_true,
      decide_eq_true_eq, gt_iff_lt]
    constructor
    · rintro ⟨u, ⟨hu, ho⟩, ha, hm⟩
      exact ⟨u, hu, ho, ha, hm⟩
    · rintro ⟨u, hu, ho, ha, hm⟩
      exact ⟨u, ⟨hu, ho⟩, ha, hm⟩
  have hM : ((g.getUnitsOwnedBy playerId).filter (fun (unit : Unit) =>
      unit.isMovingAlongPath && decide (unit.movesRemaining > 0) &&
        unit.hasMovementPath)).length > 0 ↔
      ∃ u ∈ g.units, u.owner = playerId ∧ u.isMovingAlongPath = true ∧
        0 < u.movesRemaining ∧ u.movementPath ≠ [] := by
    unfold Game.getUnitsOwnedBy Unit.hasMovementPath
    rw [gt_iff_lt, List.length_pos_iff_exists_mem]
    simp only [List.mem_filter, beq_iff_eq, Bool.and_eq_true, decide_eq_true_eq, gt_iff_lt,
      List.length_pos]
    constructor
    · rintro ⟨u, ⟨hu, ho⟩, ⟨ha, hm⟩, hp⟩
      exact ⟨u, hu, ho, ha, hm, hp⟩
    · rintro ⟨u, hu, ho, ha, hm, hp⟩
      exact ⟨u, ⟨⟨hu, ho⟩, ⟨ha, hm⟩, hp⟩⟩
  have hB : ((g.getUnitsOwnedBy playerId).any (fun (unit : Unit) =>
      decide (unit.movesRemaining > 0) && !unit.isMovingAlongPath &&
        (g.map.getAdjacentPositions unit.x unit.y).any (g.actionAt playerId unit))) = true ↔
      ∃ u ∈ g.units, u.owner = playerId ∧ 0 < u.movesRemaining ∧
        u.isMovingAlongPath = false ∧
        ∃ pos, (Adjacent { x := u.x, y := u.y } pos ∧
            GameHelpers.isValidPosition pos.x pos.y = true) ∧
          (u.canMoveTo pos.x pos.y g.map = true ∨
            (∃ targetUnit, g.getUnitAt pos.x pos.y = some targetUnit ∧
              targetUnit.owner ≠ playerId) ∨
            (∃ ci city, g.map.getCityAt pos.x pos.y = some ci ∧
              g.map.cities[ci]? = some city ∧ city.owner ≠ some playerId)) := by
    unfold Game.getUnitsOwnedBy
    simp only [List.any_eq_true, List.mem_filter, beq_iff_eq, Bool.and_eq_true,
      decide_eq_true_eq, gt_iff_lt, Bool.not_eq_true', mem_getAdjacentPositions,
      actionAt_eq_true_iff]
    constructor
    · rintro ⟨u, ⟨hu, ho⟩, ⟨hm, hi⟩, pos, hpos, hact⟩
      exact ⟨u, hu, ho, hm, hi, pos, hpos, hact⟩
    · rintro ⟨u, hu, ho, hm, hi, pos, hpos, hact⟩
      exact ⟨u, ⟨hu, ho⟩, ⟨hm, hi⟩, pos, hpos, hact⟩
  have hC : ((g.map.getCitiesOwnedBy playerId).any g.canStartProductionAt) = true ↔
      ∃ city ∈ g.map.cities, city.owner = some playerId ∧ city.isProducing = false := by
    simp only [List.any_eq_true, mem_getCitiesOwnedBy]
    constructor
    · rintro ⟨ci, ⟨city, hc, ho⟩, h⟩
      unfold Game.canStartProductionAt at h
      rw [hc] at h
      simp only [Bool.and_eq_true, Bool.not_eq_true'] at h
      exact ⟨city, List.getElem?_mem hc, ho, h.1⟩
    · rintro ⟨city, hmem, ho, hp⟩
      obtain ⟨ci, hc⟩ := List.mem_iff_getElem?.mp hmem
      refine ⟨ci, ⟨city, hc, ho⟩, ?_⟩
      unfold Game.canStartProductionAt
      rw [hc]
      simp only [Bool.and_eq_true, Bool.not_eq_true']
      refine ⟨hp, ?_⟩
      unfold City.getAvailableUnits
      decide
  unfold Game.playerHasActions
  simp only
  rw [← hA, ← hM, ← hB, ← hC]
  by_cases h1 : ((g.getUnitsOwnedBy playerId).any (fun (unit : Unit) =>
      unit.needsPlayerAttention && decide (unit.movesRemaining > 0))) = true
  · rw [if_pos h1]
    exact ⟨fun _ => Or.inl h1, fun _ => rfl⟩
  · rw [if_neg h1]
    by_cases h2 : ((g.getUnitsOwnedBy playerId).filter (fun (unit : Unit) =>
        unit.isMovingAlongPath && decide (unit.movesRemaining > 0) &&
          unit.hasMovementPath)).length > 0
    · rw [if_pos h2]
      constructor
      · intro h
        cases h
      · rintro (h | ⟨h, _⟩)
        · exact absurd h h1
        · exact absurd h2 h
    · rw [if_neg h2]
      by_cases h3 : ((g.getUnitsOwnedBy playerId).any (fun (unit : Unit) =>
          decide (unit.movesRemaining > 0) && !unit.isMovingAlongPath &&
            (g.map.getAdjacentPositions unit.x unit.y).any (g.actionAt playerId unit))) = true
      · rw [if_pos h3]
        exact ⟨fun _ => Or.inr ⟨h2, Or.inl h3⟩, fun _ => rfl⟩
      · rw [if_neg h3]
        by_cases h4 : ((g.map.getCitiesOwnedBy playerId).any g.canStartProductionAt) = true
        · rw [if_pos h4]
          exact ⟨fun _ => Or.inr ⟨h2, Or.inr h4⟩, fun _ => rfl⟩
        · rw [if_neg h4]
          constructor
          · intro h
            cases h
          · rintro (h | ⟨_, h | h⟩)
            · exact absurd h h1
            · exact absurd h h3
            · exact absurd h h4

theorem getUnitAt_some (g : Game) (x y : Int) (t : Unit) (h : g.getUnitAt x y = some t) :
    t ∈ g.units ∧ t.x = x ∧ t.y = y := by
  unfold Game.getUnitAt at h
  have hp := List.find?_some h
  simp only [Bool.and_eq_true, decide_eq_true_eq] at hp
  exact ⟨List.mem_of_find?_eq_some h, hp.1, hp.2⟩

theorem getCityAt_some (m : GameMap) (x y : Int) (ci : Nat) (city : City)
    (h : m.getCityAt x y = some ci) (hc : m.cities[ci]? = some city) :
    city ∈ m.cities ∧ city.x = x ∧ city.y = y := by
  unfold GameMap.getCityAt at h
  rw [List.findIdx?_eq_some_iff_getElem] at h
  obtain ⟨hlt, hp, _⟩ := h
  rw [List.getElem?_eq_getElem hlt] at hc
  cases hc
  simp only [Bool.and_eq_true, decide_eq_true_eq] at hp
  exact ⟨List.getElem_mem hlt, hp.1, hp.2⟩

theorem canMoveTo_inside (u : Unit) (x y : Int) (m : GameMap)
    (h : u.canMoveTo x y m = true) : 0 ≤ x ∧ x < m.width ∧ 0 ≤ y ∧ y < m.height := by
  unfold Unit.canMoveTo at h
  split at h
  · cases h
  · omega

theorem isValidPosition_iff (x y : Int) :
    GameHelpers.isValidPosition x y = true ↔
      0 ≤ x ∧ x < GAME_CONSTANTS.MAP_WIDTH ∧ 0 ≤ y ∧ y < GAME_CONSTANTS.MAP_HEIGHT := by
  unfold GameHelpers.isValidPosition
  simp only [Bool.and_eq_true, decide_eq_true_eq]
  constructor
  · rintro ⟨⟨⟨h1, h2⟩, h3⟩, h4⟩
    exact ⟨h1, h2, h3, h4⟩
  · rintro ⟨h1, h2, h3, h4⟩
    exact ⟨⟨⟨h1, h2⟩, h3⟩, h4⟩

/-- C24, as the code has it, on a map that lies within the 50 by 40 board of the
constants and has every unit and every city on that board: `playerHasActions`
returns true exactly when some unit of the player asks for attention with moves
left, or else no unit of the player is following a non-empty path with moves
left and either some unit of the player that follows no path has moves left and
an action on a neighbouring tile (it may enter the tile, or the first unit found
there belongs to someone else, or the first city found there does), or some city
of the player produces nothing. -/
theorem playerHasActions_on_board (g : Game) (playerId : Nat)
    (hwidth : g.map.width ≤ GAME_CONSTANTS.MAP_WIDTH)
    (hheight : g.map.height ≤ GAME_CONSTANTS.MAP_HEIGHT)
    (hunits : ∀ u ∈ g.units, GameHelpers.isValidPosition u.x u.y = true)
    (hcities : ∀ c ∈ g.map.cities, GameHelpers.isValidPosition c.x c.y = true) :
    g.playerHasActions playerId = true ↔
      (∃ u ∈ g.units, u.owner = playerId ∧ u.needsPlayerAttention = true ∧
        0 < u.movesRemaining) ∨
      ((¬ ∃ u ∈ g.units, u.owner = playerId ∧ u.isMovingAlongPath = true ∧
          0 < u.movesRemaining ∧ u.movementPath ≠ []) ∧
        ((∃ u ∈ g.units, u.owner = playerId ∧ 0 < u.movesRemaining ∧
            u.isMovingAlongPath = false ∧
            ∃ pos, Adjacent { x := u.x, y := u.y } pos ∧
              (u.canMoveTo pos.x pos.y g.map = true ∨
                (∃ targetUnit, g.getUnitAt pos.x pos.y = some targetUnit ∧
                  targetUnit.owner ≠ playerId) ∨
                (∃ ci city, g.map.getCityAt pos.x pos.y = some ci ∧
                  g.map.cities[ci]? = some city ∧ city.owner ≠ some playerId))) ∨
          (∃ city ∈ g.map.cities, city.owner = some playerId ∧
            city.isProducing = false))) := by
  have hvalid : ∀ (u : Unit) (pos : Pos),
      (u.canMoveTo pos.x pos.y g.map = true ∨
        (∃ targetUnit, g.getUnitAt pos.x pos.y = some targetUnit ∧
          targetUnit.owner ≠ playerId) ∨
        (∃ ci city, g.map.getCityAt pos.x pos.y = some ci ∧
          g.map.cities[ci]? = some city ∧ city.owner ≠ some playerId)) →
      GameHelpers.isValidPosition pos.x pos.y = true := by
    intro u pos hact
    rcases hact with hmove | ⟨t, ht, _⟩ | ⟨ci, city, hci, hcity, _⟩
    · have hin := canMoveTo_inside u pos.x pos.y g.map hmove
      rw [isValidPosition_iff]
      omega
    · obtain ⟨hmem, hx, hy⟩ := getUnitAt_some g pos.x pos.y t ht
      rw [← hx, ← hy]
      exact hunits t hmem
    · obtain ⟨hmem, hx, hy⟩ := getCityAt_some g.map pos.x pos.y ci city hci hcity
      rw [← hx, ← hy]
      exact hcities city hmem
  rw [playerHasActions_iff]
  constructor
  · rintro (h | ⟨hm, h | h⟩)
    · exact Or.inl h
    · obtain ⟨u, hu, ho, hmv, hi, pos, ⟨hadj, _⟩, hact⟩ := h
      exact Or.inr ⟨hm, Or.inl ⟨u, hu, ho, hmv, hi, pos, hadj, hact⟩⟩
    · exact Or.inr ⟨hm, Or.inr h⟩
  · rintro (h | ⟨hm, h | h⟩)
    · exact Or.inl h
    · obtain ⟨u, hu, ho, hmv, hi, pos, hadj, hact⟩ := h
      exact Or.inr ⟨hm, Or.inl ⟨u, hu, ho, hmv, hi, pos, ⟨hadj, hvalid u pos hact⟩, hact⟩⟩
    · exact Or.inr ⟨hm, Or.inr h⟩

/-- Witness of `playerHasActions_on_board`: on `plainMap` the army of player 0
at (2,2) follows no path, has its move left and may enter (2,1). -/
theorem playerHasActions_on_board_witness :
    ((gameOn plainMap [Unit.new .army 2 2 0 "u2"]).map.width ≤ GAME_CONSTANTS.MAP_WIDTH ∧
      (gameOn plainMap [Unit.new .army 2 2 0 "u2"]).map.height ≤ GAME_CONSTANTS.MAP_HEIGHT ∧
      (∀ u ∈ (gameOn plainMap [Unit.new .army 2 2 0 "u2"]).units,
        GameHelpers.isValidPosition u.x u.y = true) ∧
      (∀ c ∈ (gameOn plainMap [Unit.new .army 2 2 0 "u2"]).map.cities,
        GameHelpers.isValidPosition c.x c.y = true)) ∧
    (gameOn plainMap [Unit.new .army 2 2 0 "u2"]).playerHasActions 0 = true :=
  ⟨by decide,
    (playerHasActions_on_board (gameOn plainMap [Unit.new .army 2 2 0 "u2"]) 0
      (by decide) (by decide) (by decide) (by decide)).mpr
      (Or.inr ⟨by decide, Or.inl ⟨Unit.new .army 2 2 0 "u2", by decide, rfl, by decide, rfl,
        { x := 2, y := 1 }, by decide, Or.inl (by decide)⟩⟩)⟩

/-- Counterexample to C24: in `escortGame` the army of player 0 at (2,2) follows
no path, has a move left and may enter the neighbouring tile (2,1), yet
`playerHasActions(0)` is false, because the player's tank is following a path
with moves left; without the tank the answer is true. -/
theorem playerHasActions_false_while_convoy_moves :
    escortGame.units = [convoyTank, Unit.new .army 2 2 0 "u2"] ∧
    ((Unit.new .army 2 2 0 "u2").owner = 0 ∧
      (Unit.new .army 2 2 0 "u2").isMovingAlongPath = false ∧
      (Unit.new .army 2 2 0 "u2").movesRemaining = 1 ∧
      (Unit.new .army 2 2 0 "u2").canMoveTo 2 1 escortGame.map = true) ∧
    escortGame.playerHasActions 0 = false ∧
    (gameOn plainMap [Unit.new .army 2 2 0 "u2"]).playerHasActions 0 = true := by
  decide

/-! ### Visibility -/

theorem setCell_getD (row : List Bool) (x j : Nat) :
    (GameMap.setCell row x).getD j false = (decide (j = x) || row.getD j false) := by
  unfold GameMap.setCell
  simp only [List.getD_eq_getElem?_getD]
  split
  · rename_i hlt
    rw [List.getElem?_set]
    by_cases hj : x = j
    · subst hj
      simp [hlt]
    · have hj' : ¬ j = x := fun h => hj h.symm
      simp [hj, hj']
  · rename_i hge
    by_cases h1 : j < row.length
    · have hne : ¬ j = x := by omega
      rw [List.append_assoc, List.getElem?_append_left h1]
      simp [hne]
    · have hnone : row[j]? = none := List.getElem?_eq_none (by omega)
      rw [hnone, List.append_assoc, List.getElem?_append_right (by omega)]
      by_cases h2 : j = x
      · subst h2
        rw [List.getElem?_append_right (by simp)]
        simp
      · by_cases h3 : j < x
        · rw [List.getElem?_append_left (by simp; omega)]
          simp only [h2, decide_False, Bool.false_or, List.getElem?_replicate, Option.getD_none]
          split <;> rfl
        · rw [List.getElem?_append_right (by simp; omega)]
          have hidx : j - row.length - (List.replicate (x - row.length) false).length ≠ 0 := by
            simp
            omega
          obtain ⟨k, hk⟩ := Nat.exists_eq_succ_of_ne_zero hidx
          rw [hk]
          simp [h2]

theorem cellAt_set (grid : List (List Bool)) (row : List Bool) (px py : Nat) (x y : Int)
    (hrow : grid[py]? = some row) :
    GameMap.cellAt (grid.set py (GameMap.setCell row px)) x y =
      (decide (x = (px : Int) ∧ y = (py : Int)) || GameMap.cellAt grid x y) := by
  unfold GameMap.cellAt
  by_cases hxy : 0 ≤ x ∧ 0 ≤ y
  · rw [if_pos hxy, if_pos hxy]
    simp only [List.getD_eq_getElem?_getD]
    have hlt : py < grid.length := by
      rcases Nat.lt_or_ge py grid.length with hlt | hge
      · exact hlt
      · rw [List.getElem?_eq_none hge] at hrow
        cases hrow
    rw [List.getElem?_set]
    by_cases hy : py = y.toNat
    · rw [if_pos hy, if_pos hlt, ← hy, hrow]
      simp only [Option.getD_some]
      have := setCell_getD row px x.toNat
      simp only [List.getD_eq_getElem?_getD] at this
      rw [this]
      have hyy : y = (py : Int) := by omega
      by_cases hx : x.toNat = px
      · have hxx : x = (px : Int) := by omega
        simp [hx, hxx, hyy]
      · have hxx : ¬ x = (px : Int) := by omega
        simp [hx, hxx]
    · rw [if_neg hy]
      have hyy : ¬ y = (py : Int) := by omega
      simp [hyy]
  · rw [if_neg hxy, if_neg hxy]
    have : ¬ (x = (px : Int) ∧ y = (py : Int)) := by omega
    simp [this]

/-- One pass of `revealCell` that returns: the cell `p` has become visible if
it is on the board and within range, every other cell reads as before. -/
theorem revealCell_cellAt (cx cy r : Int) (grid grid' : List (List Bool)) (p : Pos)
    (h : GameMap.revealCell cx cy r grid p = some grid') (x y : Int) :
    grid'.length = grid.length ∧
      GameMap.cellAt grid' x y =
        (GameMap.cellAt grid x y ||
          (decide (p = { x := x, y := y }) && GameHelpers.isValidPosition p.x p.y &&
            decide (GameHelpers.getDistance cx cy p.x p.y ≤ r))) := by
  unfold GameMap.revealCell at h
  by_cases hv : GameHelpers.isValidPosition p.x p.y = true
  · rw [if_pos hv] at h
    by_cases hd : GameHelpers.getDistance cx cy p.x p.y ≤ r
    · rw [if_pos hd] at h
      split at h
      · cases h
      · rename_i row hrow
        cases h
        refine ⟨List.length_set _ _ _, ?_⟩
        rw [cellAt_set grid row p.x.toNat p.y.toNat x y hrow]
        have hpos : 0 ≤ p.x ∧ 0 ≤ p.y := by
          unfold GameHelpers.isValidPosition at hv
          simp only [Bool.and_eq_true, decide_eq_true_eq] at hv
          exact ⟨hv.1.1.1, hv.1.2⟩
        have hiff : (x = (p.x.toNat : Int) ∧ y = (p.y.toNat : Int)) ↔
            p = { x := x, y := y } := by
          obtain ⟨px, py⟩ := p
          simp only [Pos.mk.injEq] at hpos ⊢
          omega
        simp only [hv, hd, decide_True, Bool.and_true, decide_eq_decide.mpr hiff]
        exact Bool.or_comm _ _
    · rw [if_neg hd] at h
      cases h
      simp [hd]
  · rw [if_neg hv] at h
    cases h
    simp [hv]

theorem foldlM_revealCell_cellAt (cx cy r : Int) :
    ∀ (ps : List Pos) (grid grid' : List (List Bool)),
      ps.foldlM (GameMap.revealCell cx cy r) grid = some grid' →
      ∀ x y : Int, grid'.length = grid.length ∧
        GameMap.cellAt grid' x y =
          (GameMap.cellAt grid x y ||
            (decide (({ x := x, y := y } : Pos) ∈ ps) && GameHelpers.isValidPosition x y &&
              decide (GameHelpers.getDistance cx cy x y ≤ r))) := by
  intro ps
  induction ps with
  | nil =>
    intro grid grid' h x y
    simp only [List.foldlM_nil] at h
    cases h
    simp
  | cons p ps ih =>
    intro grid grid' h x y
    rw [List.foldlM_cons] at h
    cases h1 : GameMap.revealCell cx cy r grid p with
    | none =>
      rw [h1] at h
      cases h
    | some grid1 =>
      rw [h1] at h
      obtain ⟨hl1, hc1⟩ := revealCell_cellAt cx cy r grid grid1 p h1 x y
      obtain ⟨hl2, hc2⟩ := ih grid1 grid' h x y
      refine ⟨hl2.trans hl1, ?_⟩
      rw [hc2, hc1]
      by_cases hp : p = { x := x, y := y }
      · subst hp
        simp only [decide_True, Bool.true_and, List.mem_cons, true_or]
        cases GameMap.cellAt grid x y <;> cases GameHelpers.isValidPosition x y <;>
          cases decide (GameHelpers.getDistance cx cy x y ≤ r) <;> simp
      · have hp' : ¬ ({ x := x, y := y } : Pos) = p := fun h => hp h.symm
        simp only [hp, hp', decide_False, Bool.false_and, Bool.or_false, List.mem_cons,
          false_or]

theorem mem_revealWindow (cx cy r : Int) (x y : Int) :
    ({ x := x, y := y } : Pos) ∈ GameMap.revealWindow cx cy r ↔
      (cx - r ≤ x ∧ x ≤ cx + r) ∧ (cy - r ≤ y ∧ y ≤ cy + r) := by
  unfold GameMap.revealWindow
  rw [List.mem_flatMap]
  constructor
  · rintro ⟨dy, hdy, hmem⟩
    rw [List.mem_map] at hmem
    obtain ⟨dx, hdx, heq⟩ := hmem
    rw [List.mem_range] at hdy
    simp at hdx
    obtain ⟨a, ha, hdxa⟩ := hdx
    simp only [Pos.mk.injEq] at heq
    omega
  · rintro ⟨⟨h1, h2⟩, h3, h4⟩
    refine ⟨(y - (cy - r)).toNat, by rw [List.mem_range]; omega, ?_⟩
    rw [List.mem_map]
    refine ⟨x - (cx - r), ?_, ?_⟩
    · simp
      exact ⟨(x - (cx - r)).toNat, by omega, by omega⟩
    · simp only [Pos.mk.injEq]
      omega

/-- A `revealAroundPosition` that returns leaves visible exactly the cells that
were visible and the cells of the 50 by 40 board within the range. -/
theorem revealAroundPosition_cellAt (grid grid' : List (List Bool)) (cx cy r : Int)
    (h : GameMap.revealAroundPosition grid cx cy r = some grid') (x y : Int) :
    grid'.length = grid.length ∧
      GameMap.cellAt grid' x y =
        (GameMap.cellAt grid x y ||
          (GameHelpers.isValidPosition x y &&
            decide (GameHelpers.getDistance cx cy x y ≤ r))) := by
  unfold GameMap.revealAroundPosition at h
  obtain ⟨hl, hc⟩ := foldlM_revealCell_cellAt cx cy r _ grid grid' h x y
  refine ⟨hl, ?_⟩
  rw [hc]
  by_cases hd : GameHelpers.getDistance cx cy x y ≤ r
  · have hmem : ({ x := x, y := y } : Pos) ∈ GameMap.revealWindow cx cy r := by
      rw [mem_revealWindow]
      unfold GameHelpers.getDistance at hd
      omega
    simp [hmem, hd]
  · simp [hd]

theorem revealCell_returns (cx cy r : Int) (grid : List (List Bool)) (p : Pos)
    (hrows : (GAME_CONSTANTS.MAP_HEIGHT).toNat ≤ grid.length) :
    ∃ grid', GameMap.revealCell cx cy r grid p = some grid' := by
  unfold GameMap.revealCell
  split
  · rename_i hv
    split
    · have hlt : p.y.toNat < grid.length := by
        unfold GameHelpers.isValidPosition at hv
        simp only [Bool.and_eq_true, decide_eq_true_eq] at hv
        have := hv.2
        omega
      rw [List.getElem?_eq_getElem hlt]
      exact ⟨_, rfl⟩
    · exact ⟨_, rfl⟩
  · exact ⟨_, rfl⟩

theorem revealAroundPosition_returns (grid : List (List Bool)) (cx cy r : Int)
    (hrows : (GAME_CONSTANTS.MAP_HEIGHT).toNat ≤ grid.length) :
    ∃ grid', GameMap.revealAroundPosition grid cx cy r = some grid' := by
  unfold GameMap.revealAroundPosition
  generalize GameMap.revealWindow cx cy r = ps
  induction ps generalizing grid with
  | nil => exact ⟨grid, rfl⟩
  | cons p ps ih =>
    obtain ⟨grid1, h1⟩ := revealCell_returns cx cy r grid p hrows
    have hl := (revealCell_cellAt cx cy r grid grid1 p h1 0 0).1
    obtain ⟨grid', h'⟩ := ih grid1 (by rw [hl]; exact hrows)
    exact ⟨grid', by rw [List.foldlM_cons, h1]; exact h'⟩

/-- C27 fails away from the 50 by 40 board. On `wideMap`, 52 tiles wide, a
reveal of radius 1 around (49,1) makes (48,1) and (49,1) visible and leaves the
map tile (50,1), at distance 1, invisible. On `plainMap`, 3 tiles high, a reveal
of radius 2 around (2,1) raises: the cell (2,3) passes `isValidPosition` and the
distance test, and the grid has no row 3 to write into. -/
theorem revealAroundPosition_off_board :
    (wideMap.width = 52 ∧ wideMap.height = 3 ∧ GameHelpers.getDistance 49 1 50 1 = 1) ∧
    (GameMap.revealAroundPosition wideMap.freshFog 49 1 1).map
        (fun grid => (GameMap.cellAt grid 48 1, GameMap.cellAt grid 49 1,
          GameMap.cellAt grid 50 1)) = some (true, true, false) ∧
    (plainMap.width = 5 ∧ plainMap.height = 3 ∧ GameHelpers.isValidPosition 2 3 = true) ∧
    GameMap.revealAroundPosition plainMap.freshFog 2 1 2 = none := by
  decide

theorem cellAt_freshFog (m : GameMap) (x y : Int) : GameMap.cellAt m.freshFog x y = false := by
  unfold GameMap.cellAt GameMap.freshFog
  split
  · simp only [List.getD_eq_getElem?_getD, List.getElem?_replicate]
    split
    · simp only [Option.getD_some, List.getElem?_replicate]
      split <;> rfl
    · rfl
  · rfl

theorem visibilityOf_setVisibility (m : GameMap) (playerId : Nat) (grid : List (List Bool)) :
    (m.setVisibility playerId grid).visibilityOf playerId = some grid ∧
      ∀ q, q ≠ playerId → (m.setVisibility playerId grid).visibilityOf q = m.visibilityOf q := by
  have hself : ∀ (l : List (Nat × List (List Bool))),
      (l.map (fun e => if e.1 == playerId then (playerId, grid) else e)).find?
          (fun e => e.1 == playerId) =
        (l.find? (fun e => e.1 == playerId)).map (fun _ => (playerId, grid)) := by
    intro l
    induction l with
    | nil => rfl
    | cons e l ih =>
      cases he : (e.1 == playerId) with
      | true => simp only [List.map_cons, List.find?_cons, he, if_true, beq_self_eq_true,
          Option.map_some']
      | false => simp only [List.map_cons, List.find?_cons, he, Bool.false_eq_true, if_false, ih]
  have hother : ∀ (l : List (Nat × List (List Bool))) (q : Nat), q ≠ playerId →
      (l.map (fun e => if e.1 == playerId then (playerId, grid) else e)).find?
          (fun e => e.1 == q) = l.find? (fun e => e.1 == q) := by
    intro l q hq
    have hpq : (playerId == q) = false := by
      rw [beq_eq_false_iff_ne]
      exact fun h => hq h.symm
    induction l with
    | nil => rfl
    | cons e l ih =>
      cases he : (e.1 == playerId) with
      | true =>
        have heq : (e.1 == q) = false := by
          rw [beq_iff_eq.mp he]
          exact hpq
        simp only [List.map_cons, List.find?_cons, he, if_true, hpq, heq, ih]
      | false =>
        simp only [List.map_cons, List.find?_cons, he, Bool.false_eq_true, if_false, ih]
  unfold GameMap.setVisibility GameMap.visibilityOf
  cases hfind : m.visibility.find? (fun e => e.1 == playerId) with
  | none =>
    simp only [Option.isSome_none, Bool.false_eq_true, if_false]
    constructor
    · rw [List.find?_append, hfind]
      simp
    · intro q hq
      rw [List.find?_append]
      have hq' : ¬ playerId = q := fun h => hq h.symm
      cases m.visibility.find? (fun e => e.1 == q) <;> simp [hq']
  | some e =>
    simp only [Option.isSome_some, if_true]
    constructor
    · rw [hself, hfind]
      rfl
    · intro q hq
      rw [hother _ q hq]

/-- A fold of reveals over the selected members of a list that returns. -/
theorem foldlM_reveal_cellAt {α : Type} (sel : α → Prop) [DecidablePred sel]
    (cx cy : α → Int) (r : Int) :
    ∀ (l : List α) (grid grid' : List (List Bool)),
      l.foldlM (fun grid a =>
        if sel a then GameMap.revealAroundPosition grid (cx a) (cy a) r else some grid) grid =
          some grid' →
      ∀ x y : Int, grid'.length = grid.length ∧
        (GameMap.cellAt grid' x y = true ↔
          GameMap.cellAt grid x y = true ∨
            (GameHelpers.isValidPosition x y = true ∧
              ∃ a ∈ l, sel a ∧ GameHelpers.getDistance (cx a) (cy a) x y ≤ r)) := by
  intro l
  induction l with
  | nil =>
    intro grid grid' h x y
    simp only [List.foldlM_nil] at h
    cases h
    simp
  | cons a l ih =>
    intro grid grid' h x y
    rw [List.foldlM_cons] at h
    by_cases hs : sel a
    · rw [if_pos hs] at h
      cases h1 : GameMap.revealAroundPosition grid (cx a) (cy a) r with
      | none =>
        rw [h1] at h
        cases h
      | some grid1 =>
        rw [h1] at h
        obtain ⟨hl1, hc1⟩ := revealAroundPosition_cellAt grid grid1 (cx a) (cy a) r h1 x y
        obtain ⟨hl2, hc2⟩ := ih grid1 grid' h x y
        refine ⟨hl2.trans hl1, ?_⟩
        rw [hc2, hc1]
        simp only [Bool.or_eq_true, Bool.and_eq_true, decide_eq_true_eq, List.mem_cons]
        constructor
        · rintro ((h0 | ⟨hv, hd⟩) | ⟨hv, b, hb, hsb, hdb⟩)
          · exact Or.inl h0
          · exact Or.inr ⟨hv, a, Or.inl rfl, hs, hd⟩
          · exact Or.inr ⟨hv, b, Or.inr hb, hsb, hdb⟩
        · rintro (h0 | ⟨hv, b, hb | hb, hsb, hdb⟩)
          · exact Or.inl (Or.inl h0)
          · subst hb
            exact Or.inl (Or.inr ⟨hv, hdb⟩)
          · exact Or.inr ⟨hv, b, hb, hsb, hdb⟩
    · rw [if_neg hs] at h
      obtain ⟨hl2, hc2⟩ := ih grid grid' (by simpa using h) x y
      refine ⟨hl2, ?_⟩
      rw [hc2]
      simp only [List.mem_cons]
      constructor
      · rintro (h0 | ⟨hv, b, hb, hsb, hdb⟩)
        · exact Or.inl h0
        · exact Or.inr ⟨hv, b, Or.inr hb, hsb, hdb⟩
      · rintro (h0 | ⟨hv, b, hb | hb, hsb, hdb⟩)
        · exact Or.inl h0
        · subst hb
          exact absurd hsb hs
        · exact Or.inr ⟨hv, b, hb, hsb, hdb⟩

theorem foldlM_reveal_returns {α : Type} (sel : α → Prop) [DecidablePred sel]
    (cx cy : α → Int) (r : Int) :
    ∀ (l : List α) (grid : List (List Bool)),
      (GAME_CONSTANTS.MAP_HEIGHT).toNat ≤ grid.length →
      ∃ grid', l.foldlM (fun grid a =>
        if sel a then GameMap.revealAroundPosition grid (cx a) (cy a) r else some grid) grid =
          some grid' := by
  intro l
  induction l with
  | nil =>
    intro grid _
    exact ⟨grid, rfl⟩
  | cons a l ih =>
    intro grid hrows
    rw [List.foldlM_cons]
    by_cases hs : sel a
    · rw [if_pos hs]
      obtain ⟨grid1, h1⟩ := revealAroundPosition_returns grid (cx a) (cy a) r hrows
      have hl := (revealAroundPosition_cellAt grid grid1 (cx a) (cy a) r h1 0 0).1
      rw [h1]
      exact ih grid1 (by rw [hl]; exact hrows)
    · rw [if_neg hs]
      exact ih grid hrows

/-- The stages of an `updateVisibility` that returned. -/
theorem updateVisibility_stages (m m' : GameMap) (playerId : Nat) (units : List Unit)
    (h : m.updateVisibility playerId units = some m') :
    ∃ grid1 grid2,
      units.foldlM (fun grid (unit : Unit) =>
        if unit.owner = playerId then
          GameMap.revealAroundPosition grid unit.x unit.y GAME_CONSTANTS.VISIBILITY_RANGE
        else some grid)
        (match m.visibilityOf playerId with
          | some grid => grid
          | none => m.freshFog) = some grid1 ∧
      m.cities.foldlM (fun grid (city : City) =>
        if city.owner = some playerId then
          GameMap.revealAroundPosition grid city.x city.y GAME_CONSTANTS.VISIBILITY_RANGE
        else some grid) grid1 = some grid2 ∧
      m' = m.setVisibility playerId grid2 := by
  unfold GameMap.updateVisibility at h
  simp only [Option.map_eq_some', Option.bind_eq_some] at h
  obtain ⟨grid2, ⟨grid1, h1, h2⟩, hm⟩ := h
  exact ⟨grid1, grid2, h1, h2, hm.symm⟩

/-- An `updateVisibility(playerId, units)` that returns keeps every tile
visible that was visible to the player, and the tiles visible afterwards are
exactly those and the tiles of the 50 by 40 board within `VISIBILITY_RANGE = 2`
of a unit of the list owned by the player or of a city owned by the player;
units and cities of other owners reveal nothing, and the grids of other players,
the cities and the terrain are untouched. -/
theorem updateVisibility_monotone (m m' : GameMap) (playerId : Nat) (units : List Unit)
    (h : m.updateVisibility playerId units = some m') :
    (∀ x y : Int, m.isVisibleTo playerId x y = true → m'.isVisibleTo playerId x y = true) ∧
    (∀ x y : Int, m'.isVisibleTo playerId x y = true ↔
      m.isVisibleTo playerId x y = true ∨
        (GameHelpers.isValidPosition x y = true ∧
          ((∃ u ∈ units, u.owner = playerId ∧
              GameHelpers.getDistance u.x u.y x y ≤ GAME_CONSTANTS.VISIBILITY_RANGE) ∨
            (∃ c ∈ m.cities, c.owner = some playerId ∧
              GameHelpers.getDistance c.x c.y x y ≤ GAME_CONSTANTS.VISIBILITY_RANGE)))) ∧
    GAME_CONSTANTS.VISIBILITY_RANGE = 2 ∧
    (∀ q, q ≠ playerId → m'.visibilityOf q = m.visibilityOf q) ∧
    m'.cities = m.cities ∧ m'.terrain = m.terrain ∧ m'.width = m.width ∧
    m'.height = m.height := by
  obtain ⟨grid1, grid2, h1, h2, hm'⟩ := updateVisibility_stages m m' playerId units h
  have hvis := visibilityOf_setVisibility m playerId grid2
  have hstart : ∀ x y : Int,
      GameMap.cellAt (match m.visibilityOf playerId with
        | some grid => grid
        | none => m.freshFog) x y = m.isVisibleTo playerId x y := by
    intro x y
    unfold GameMap.isVisibleTo
    cases m.visibilityOf playerId with
    | none => exact cellAt_freshFog m x y
    | some grid => rfl
  have hafter : ∀ x y : Int, m'.isVisibleTo playerId x y = GameMap.cellAt grid2 x y := by
    intro x y
    unfold GameMap.isVisibleTo
    rw [hm', hvis.1]
  have hiff : ∀ x y : Int, m'.isVisibleTo playerId x y = true ↔
      m.isVisibleTo playerId x y = true ∨
        (GameHelpers.isValidPosition x y = true ∧
          ((∃ u ∈ units, u.owner = playerId ∧
              GameHelpers.getDistance u.x u.y x y ≤ GAME_CONSTANTS.VISIBILITY_RANGE) ∨
            (∃ c ∈ m.cities, c.owner = some playerId ∧
              GameHelpers.getDistance c.x c.y x y ≤ GAME_CONSTANTS.VISIBILITY_RANGE))) := by
    intro x y
    have hu := (foldlM_reveal_cellAt (fun (u : Unit) => u.owner = playerId)
      (fun u => u.x) (fun u => u.y) GAME_CONSTANTS.VISIBILITY_RANGE units _ grid1 h1 x y).2
    have hc := (foldlM_reveal_cellAt (fun (c : City) => c.owner = some playerId)
      (fun c => c.x) (fun c => c.y) GAME_CONSTANTS.VISIBILITY_RANGE m.cities grid1 grid2 h2
      x y).2
    rw [hafter, hc, hu, hstart]
    constructor
    · rintro ((h0 | ⟨hv, hx⟩) | ⟨hv, hx⟩)
      · exact Or.inl h0
      · exact Or.inr ⟨hv, Or.inl hx⟩
      · exact Or.inr ⟨hv, Or.inr hx⟩
    · rintro (h0 | ⟨hv, hx | hx⟩)
      · exact Or.inl (Or.inl h0)
      · exact Or.inl (Or.inr ⟨hv, hx⟩)
      · exact Or.inr ⟨hv, hx⟩
  refine ⟨fun x y hv => (hiff x y).mpr (Or.inl hv), hiff, rfl, ?_, ?_, ?_, ?_, ?_⟩
  · intro q hq
    rw [hm']
    exact hvis.2 q hq
  · rw [hm']
    exact setVisibility_cities m playerId grid2
  all_goals
    rw [hm']
    unfold GameMap.setVisibility
    split <;> rfl

theorem updateVisibility_returns (m : GameMap) (playerId : Nat) (units : List Unit)
    (hrows : ∀ grid, m.visibilityOf playerId = some grid →
      (GAME_CONSTANTS.MAP_HEIGHT).toNat ≤ grid.length)
    (hfresh : m.visibilityOf playerId = none →
      (GAME_CONSTANTS.MAP_HEIGHT).toNat ≤ m.height.toNat) :
    ∃ m', m.updateVisibility playerId units = some m' := by
  have h0 : (GAME_CONSTANTS.MAP_HEIGHT).toNat ≤
      (match m.visibilityOf playerId with
        | some grid => grid
        | none => m.freshFog).length := by
    cases hv : m.visibilityOf playerId with
    | none =>
      simp only [GameMap.freshFog, List.length_replicate]
      exact hfresh hv
    | some grid => exact hrows grid hv
  obtain ⟨grid1, h1⟩ := foldlM_reveal_returns (fun (u : Unit) => u.owner = playerId)
    (fun u => u.x) (fun u => u.y) GAME_CONSTANTS.VISIBILITY_RANGE units _ h0
  have hl1 := (foldlM_reveal_cellAt (fun (u : Unit) => u.owner = playerId)
    (fun u => u.x) (fun u => u.y) GAME_CONSTANTS.VISIBILITY_RANGE units _ grid1 h1 0 0).1
  obtain ⟨grid2, h2⟩ := foldlM_reveal_returns (fun (c : City) => c.owner = some playerId)
    (fun c => c.x) (fun c => c.y) GAME_CONSTANTS.VISIBILITY_RANGE m.cities grid1
    (by rw [hl1]; exact h0)
  refine ⟨m.setVisibility playerId grid2, ?_⟩
  unfold GameMap.updateVisibility
  simp only
  rw [Option.map_eq_some']
  exact ⟨grid2, Option.bind_eq_some.mpr ⟨grid1, h1, h2⟩, rfl⟩

/-- Witness of `updateVisibility_monotone`: on `cornerCityMap` player 0 holds the
city at (0,0) and an army at (1,0); the tile (2,1), two steps from the army,
becomes visible, and (2,2), where an army of player 1 stands, does not. -/
theorem updateVisibility_monotone_witness :
    ∃ m', cornerCityMap.updateVisibility 0
        [Unit.new .army 1 0 0 "u1", Unit.new .army 2 2 1 "u2"] = some m' ∧
      m'.isVisibleTo 0 2 1 = true ∧ m'.isVisibleTo 0 2 2 = false :=
  ⟨(cornerCityMap.updateVisibility 0
      [Unit.new .army 1 0 0 "u1", Unit.new .army 2 2 1 "u2"]).get (by decide),
    (Option.some_get _).symm,
    ((updateVisibility_monotone cornerCityMap _ 0
      [Unit.new .army 1 0 0 "u1", Unit.new .army 2 2 1 "u2"]
      (Option.some_get _).symm).2.1 2 1).mpr
      (Or.inr ⟨by decide, Or.inl ⟨Unit.new .army 1 0 0 "u1", by simp, rfl, by decide⟩⟩),
    by decide⟩

/-- C28 fails where the map and the 50 by 40 board of the constants differ. On
`wideMap`, 52 tiles wide, `updateVisibility` for player 0 with an army of theirs
at (51,1) returns, and afterwards the army's own tile (51,1) and its neighbour
(50,1) are not visible to the player, while (49,1), two steps away, is. On
`plainMap`, 3 tiles high, the same call with an army of the player at (0,2)
raises: it writes to row 3 of a grid of 3 rows. -/
theorem updateVisibility_misses_unit_off_board :
    (wideMap.updateVisibility 0 [Unit.new .army 51 1 0 "u1"]).isSome = true ∧
    (wideMap.updateVisibility 0 [Unit.new .army 51 1 0 "u1"]).map
        (fun m => (m.isVisibleTo 0 51 1, m.isVisibleTo 0 50 1, m.isVisibleTo 0 49 1)) =
      some (false, false, true) ∧
    GameHelpers.getDistance 51 1 50 1 ≤ GAME_CONSTANTS.VISIBILITY_RANGE ∧
    plainMap.updateVisibility 0 [Unit.new .army 0 2 0 "u1"] = none := by
  refine ⟨?_, ?_, ?_, ?_⟩ <;> decide

/-! ### The turn cycle returns on the standard board -/

theorem getPlayerById_isSome_of_mem (g : Game) (p : Player) (hp : p ∈ g.players) :
    (g.getPlayerById p.id).isSome = true := by
  unfold Game.getPlayerById
  rw [List.findIdx?_isSome, List.any_eq_true]
  exact ⟨p, hp, by simp⟩

theorem visibilityOf_congr (m m' : GameMap) (h : m'.visibility = m.visibility) (q : Nat) :
    m'.visibilityOf q = m.visibilityOf q := by
  unfold GameMap.visibilityOf
  rw [h]

/-- `startPlayerTurn` returns when the current index names a player `p`, every
producing city of `p` produces a unit type, and the grid of `p` (or the map, if
`p` has no grid yet) has the 40 rows of the board. -/
theorem startPlayerTurn_returns (g : Game) (freshId : Nat → String) (p : Player)
    (hp : g.players[g.currentPlayerIndex]? = some p)
    (hknown : ∀ (ci : Nat) (city : City), g.map.cities[ci]? = some city →
      city.owner = some p.id → city.isProducing = true →
      ∃ t : UnitType, city.currentProduction = some t.name)
    (hrows : ∀ grid, g.map.visibilityOf p.id = some grid →
      (GAME_CONSTANTS.MAP_HEIGHT).toNat ≤ grid.length)
    (hfresh : g.map.visibilityOf p.id = none →
      (GAME_CONSTANTS.MAP_HEIGHT).toNat ≤ g.map.height.toNat) :
    ∃ r, g.startPlayerTurn freshId = some r := by
  have hlt : g.currentPlayerIndex < g.players.length := by
    rcases Nat.lt_or_ge g.currentPlayerIndex g.players.length with hlt | hge
    · exact hlt
    · rw [List.getElem?_eq_none hge] at hp
      cases hp
  have hplayer : (Game.getPlayerById
      { g with
        players := g.players.set g.currentPlayerIndex p.resetTurnStats,
        units := g.units.map (fun unit =>
          if unit.owner = p.id then unit.startNewTurn else unit) } p.id).isSome = true := by
    have hmem : p.resetTurnStats ∈ g.players.set g.currentPlayerIndex p.resetTurnStats :=
      List.mem_set _ _ hlt _
    exact getPlayerById_isSome_of_mem
      { g with
        players := g.players.set g.currentPlayerIndex p.resetTurnStats,
        units := g.units.map (fun unit =>
          if unit.owner = p.id then unit.startNewTurn else unit) } p.resetTurnStats hmem
  obtain ⟨g3, hg3⟩ := foldlM_processCityAt_returns p.id freshId
    (g.map.getCitiesOwnedBy p.id)
    { g with
      players := g.players.set g.currentPlayerIndex p.resetTurnStats,
      units := g.units.map (fun unit =>
        if unit.owner = p.id then unit.startNewTurn else unit) }
    (getCitiesOwnedBy_nodup _ _) hplayer (by
      intro ci hci
      obtain ⟨city, hc, ho⟩ := (mem_getCitiesOwnedBy _ _ _).mp hci
      exact ⟨city, hc, ho, hknown ci city hc ho⟩)
  have hg3' : Game.processCityProduction
      { g with
        players := g.players.set g.currentPlayerIndex p.resetTurnStats,
        units := g.units.map (fun unit =>
          if unit.owner = p.id then unit.startNewTurn else unit) } p.id freshId = some g3 := hg3
  obtain ⟨_, _, _, hvis, hheight⟩ := processCityProduction_fields _ _ _ _ hg3'
  have hvisOf : (g3.processUnitPathMovements p.id).map.visibilityOf p.id =
      g.map.visibilityOf p.id := by
    rw [(processUnitPathMovements_frame g3 p.id).2.2.1]
    exact visibilityOf_congr _ _ hvis p.id
  obtain ⟨m5, hm5⟩ := updateVisibility_returns (g3.processUnitPathMovements p.id).map p.id
    ((g3.processUnitPathMovements p.id).getUnitsOwnedBy p.id)
    (by rw [hvisOf]; exact hrows)
    (by
      rw [hvisOf, (processUnitPathMovements_frame g3 p.id).2.2.1, hheight]
      exact hfresh)
  have hg5 : (g3.processUnitPathMovements p.id).updateVisibility p.id =
      some { g3.processUnitPathMovements p.id with map := m5 } := by
    unfold Game.updateVisibility
    rw [hm5]
    rfl
  cases hres : g.startPlayerTurn freshId with
  | some r => exact ⟨r, rfl⟩
  | none =>
    exfalso
    unfold Game.startPlayerTurn at hres
    split at hres
    · rename_i hnone
      rw [hp] at hnone
      cases hnone
    · rename_i q hq
      rw [hp] at hq
      cases hq
      simp only at hres
      split at hres
      · rename_i hnone
        have hbad := hnone.symm.trans hg3'
        cases hbad
      · rename_i g3b hg3b
        have hsame : g3b = g3 := Option.some.inj (hg3b.symm.trans hg3')
        subst hsame
        split at hres
        · rename_i hnone
          have hbad := hnone.symm.trans hg5
          cases hbad
        · cases hres

theorem checkGameEndConditions_players (g : Game) (j : Nat) (p : Player)
    (hp : g.players[j]? = some p) :
    g.checkGameEndConditions.2.map = g.map ∧
      ∃ p', g.checkGameEndConditions.2.players[j]? = some p' ∧ p'.id = p.id := by
  unfold Game.checkGameEndConditions
  simp only
  split
  · exact ⟨rfl, p, hp, rfl⟩
  · refine ⟨rfl, ?_⟩
    simp only [List.getElem?_map, hp, Option.map_some']
    refine ⟨_, rfl, ?_⟩
    split
    · split <;> rfl
    · rfl

/-- What `endPlayerTurn` computes, in terms of the game `g2` on which it runs
its end-condition check. -/
theorem endPlayerTurn_eq (g : Game) (freshId : Nat → String)
    (hi : g.currentPlayerIndex < g.players.length) :
    ∃ g2 : Game,
      g2.currentPlayerIndex = (g.currentPlayerIndex + 1) % g.players.length ∧
      g2.players = g.players ∧ g2.map = g.map ∧
      g.endPlayerTurn freshId =
        (if g2.checkGameEndConditions.1 = true then
          some (g2.checkGameEndConditions.2.endGame, false)
        else (g2.checkGameEndConditions.2.startPlayerTurn freshId).map
          (fun r => (r.1, true))) := by
  refine ⟨(if (g.currentPlayerIndex + 1) % g.players.length = 0 then
      { g with currentPlayerIndex := (g.currentPlayerIndex + 1) % g.players.length,
               turnNumber := g.turnNumber + 1 }
    else { g with currentPlayerIndex := (g.currentPlayerIndex + 1) % g.players.length }),
    ?_, ?_, ?_, ?_⟩
  · split <;> rfl
  · split <;> rfl
  · split <;> rfl
  · unfold Game.endPlayerTurn
    rw [List.getElem?_eq_getElem hi]

/-- `endPlayerTurn` returns when the current index names a player and, `p` being
the next player, every producing city of `p` produces a unit type and the grid
of `p` (or the map, if `p` has no grid yet) has the 40 rows of the board. -/
theorem endPlayerTurn_returns (g : Game) (freshId : Nat → String) (p : Player)
    (hi : g.currentPlayerIndex < g.players.length)
    (hp : g.players[(g.currentPlayerIndex + 1) % g.players.length]? = some p)
    (hknown : ∀ (ci : Nat) (city : City), g.map.cities[ci]? = some city →
      city.owner = some p.id → city.isProducing = true →
      ∃ t : UnitType, city.currentProduction = some t.name)
    (hrows : ∀ grid, g.map.visibilityOf p.id = some grid →
      (GAME_CONSTANTS.MAP_HEIGHT).toNat ≤ grid.length)
    (hfresh : g.map.visibilityOf p.id = none →
      (GAME_CONSTANTS.MAP_HEIGHT).toNat ≤ g.map.height.toNat) :
    ∃ r, g.endPlayerTurn freshId = some r := by
  obtain ⟨g2, hidx, hplayers, hmap, heq⟩ := endPlayerTurn_eq g freshId hi
  rw [heq]
  by_cases hc : g2.checkGameEndConditions.1 = true
  · rw [if_pos hc]
    exact ⟨_, rfl⟩
  · rw [if_neg hc]
    obtain ⟨hmap2, p', hp', hid⟩ := checkGameEndConditions_players g2
      ((g.currentPlayerIndex + 1) % g.players.length) p (by rw [hplayers]; exact hp)
    have hidx2 : g2.checkGameEndConditions.2.currentPlayerIndex =
        (g.currentPlayerIndex + 1) % g.players.length := by
      rw [(checkGameEndConditions_fields g2).2.1, hidx]
    obtain ⟨r, hr⟩ := startPlayerTurn_returns g2.checkGameEndConditions.2 freshId p'
      (by rw [hidx2]; exact hp')
      (by rw [hmap2, hmap, hid]; exact hknown)
      (by rw [hmap2, hmap, hid]; exact hrows)
      (by rw [hmap2, hmap, hid]; exact hfresh)
    rw [hr]
    exact ⟨_, rfl⟩

/-! ### Saving and loading -/

/-- What a save followed by a load keeps: the turn counters, the size and the
terrain of the map, and of every city, unit and player the fields that both
`getInfo` writes and `import` reads. -/
theorem import_export_kept (g : Game) (cityId : Nat → String) :
    (Game.import g.export cityId).gameState = g.gameState ∧
    (Game.import g.export cityId).currentPlayerIndex = g.currentPlayerIndex ∧
    (Game.import g.export cityId).turnNumber = g.turnNumber ∧
    (Game.import g.export cityId).map.width = g.map.width ∧
    (Game.import g.export cityId).map.height = g.map.height ∧
    (Game.import g.export cityId).map.terrain = g.map.terrain ∧
    (Game.import g.export cityId).map.cities.map
        (fun c => (c.x, c.y, c.owner, c.name, c.population, c.isCapital)) =
      g.map.cities.map (fun c => (c.x, c.y, c.owner, c.name, c.population, c.isCapital)) ∧
    (Game.import g.export cityId).units.map
        (fun u => (u.id, u.type, u.x, u.y, u.owner, u.movesRemaining, u.health,
          u.hasAttacked)) =
      g.units.map (fun u => (u.id, u.type, u.x, u.y, u.owner, u.movesRemaining, u.health,
        u.hasAttacked)) ∧
    (Game.import g.export cityId).players.map
        (fun p => (p.id, p.name, p.isHuman, p.isActive, p.isEliminated, p.stats)) =
      g.players.map (fun p => (p.id, p.name, p.isHuman, p.isActive, p.isEliminated,
        p.stats)) := by
  refine ⟨rfl, rfl, rfl, rfl, rfl, rfl, ?_, ?_, ?_⟩
  · simp only [Game.import, Game.export, GameMap.import, GameMap.export, List.map_map]
    apply List.ext_getElem?
    intro i
    simp only [List.getElem?_map, List.getElem?_enum]
    cases g.map.cities[i]? <;> rfl
  · simp only [Game.import, Game.export, List.map_map]
    rfl
  · simp only [Game.import, Game.export, List.map_map]
    rfl

/-- What a save followed by a load resets, whatever the game was: every city
has no production, an empty queue, full defense and a new id; every unit has
no path and lowered flags; every player has the default AI settings and no
capital; no player has a visibility grid. -/
theorem import_export_reset (g : Game) (cityId : Nat → String) :
    (∀ c ∈ (Game.import g.export cityId).map.cities,
      c.currentProduction = none ∧ c.productionTurnsRemaining = 0 ∧
      c.productionQueue = [] ∧ c.currentDefense = 15 ∧ c.baseDefense = 15) ∧
    (∀ u ∈ (Game.import g.export cityId).units,
      u.movementPath = [] ∧ u.isMovingAlongPath = false ∧ u.needsPlayerAttention = false ∧
      u.maxMoves = GAME_CONSTANTS.MOVEMENT_RANGES u.type) ∧
    (∀ p ∈ (Game.import g.export cityId).players,
      p.aiDifficulty = "medium" ∧ p.aiStrategy = "balanced" ∧ p.capitalCityId = none ∧
      p.unitsCreatedThisTurn = 0) ∧
    (Game.import g.export cityId).map.visibility = [] := by
  refine ⟨?_, ?_, ?_, rfl⟩
  · intro c hc
    simp only [Game.import, GameMap.import, List.mem_map] at hc
    obtain ⟨entry, _, hentry⟩ := hc
    rw [← hentry]
    exact ⟨rfl, rfl, rfl, rfl, rfl⟩
  · intro u hu
    simp only [Game.import, List.mem_map] at hu
    obtain ⟨unitData, _, hunit⟩ := hu
    rw [← hunit]
    exact ⟨rfl, rfl, rfl, rfl⟩
  · intro p hp
    simp only [Game.import, List.mem_map] at hp
    obtain ⟨playerData, _, hplayer⟩ := hp
    rw [← hplayer]
    exact ⟨rfl, rfl, rfl, rfl⟩

/-- C29 fails on `savedGame`: after `import(export())` the capital's production
(an army due next turn, a tank queued), its worn defense and its id are gone,
the tank has lost its path and its path flag, and the computer player its
difficulty and strategy; the turn counters, the map's size and terrain, and
the fields that `getInfo` and `import` share are as before. -/
theorem import_export_loses_state :
    savedGame.map.cities.map (fun c => (c.currentProduction, c.productionTurnsRemaining,
        c.productionQueue, c.currentDefense, c.id)) =
      [(some "army", 1, ["tank"], 12, "city_a")] ∧
    (Game.import savedGame.export (fun _ => "city_b")).map.cities.map
        (fun c => (c.currentProduction, c.productionTurnsRemaining, c.productionQueue,
          c.currentDefense, c.id)) = [(none, 0, [], 15, "city_b")] ∧
    savedGame.units.map (fun u => (u.movementPath, u.isMovingAlongPath)) =
      [(convoyPath, true)] ∧
    (Game.import savedGame.export (fun _ => "city_b")).units.map
        (fun u => (u.movementPath, u.isMovingAlongPath)) = [([], false)] ∧
    savedGame.players.map (fun p => (p.aiDifficulty, p.aiStrategy)) =
      [("medium", "balanced"), ("hard", "aggressive")] ∧
    (Game.import savedGame.export (fun _ => "city_b")).players.map
        (fun p => (p.aiDifficulty, p.aiStrategy)) =
      [("medium", "balanced"), ("medium", "balanced")] ∧
    ((Game.import savedGame.export (fun _ => "city_b")).turnNumber = 7 ∧
      (Game.import savedGame.export (fun _ => "city_b")).map.terrain =
        savedGame.map.terrain ∧
      (Game.import savedGame.export (fun _ => "city_b")).units.map
          (fun u => (u.id, u.type, u.x, u.y, u.owner, u.movesRemaining)) =
        savedGame.units.map (fun u => (u.id, u.type, u.x, u.y, u.owner, u.movesRemaining))) := by
  refine ⟨?_, ?_, ?_, ?_, ?_, ?_, ?_, ?_, ?_⟩ <;> decide

/-! ### Defects found by evaluation: capture by the computer player, spawn tiles, battle counters -/

/-- C35 fails for the computer player of `twoPlayers`: its army next to the
neutral city of `cityMap` captures it (draws 1/2 and 0), and the city is left
without production; the same capture by a fighter leaves it producing an army
with 6 turns remaining. -/
theorem captureCity_by_computer_army_leaves_city_idle :
    twoPlayers.map (fun p => (p.id, p.isHuman)) = [(0, true), (1, false)] ∧
    ((gameOn cityMap [Unit.new .army 3 0 1 "u1"]).captureCity
        (Unit.new .army 3 0 1 "u1") 0 (1 / 2) 0).map
      (fun r => (r.1, r.2.map.cities.map
        (fun c => (c.owner, c.currentProduction, c.productionTurnsRemaining)))) =
      some (true, [(some 1, none, 0)]) ∧
    ((gameOn cityMap [Unit.new .fighter 3 0 1 "u1"]).captureCity
        (Unit.new .fighter 3 0 1 "u1") 0 (1 / 2) 0).map
      (fun r => (r.1, r.2.map.cities.map
        (fun c => (c.owner, c.currentProduction, c.productionTurnsRemaining)))) =
      some (true, [(some 1, some "army", 6)]) := by
  refine ⟨?_, ?_, ?_⟩ <;> decide!

/-- C37 fails on `edgeCityMap`, 3 tiles wide: `getAdjacentPositions(2, 0)` lists
(3,0), which lies outside the map, `findEmptyAdjacentPosition(2, 0)` returns it
(`getTerrain` answers land outside the map), and `processCityProduction` places
the new army there. -/
theorem findEmptyAdjacentPosition_off_map :
    (edgeCityMap.width = 3 ∧ edgeCityMap.height = 3) ∧
    edgeCityMap.getAdjacentPositions 2 0 =
      [{ x := 3, y := 0 }, { x := 2, y := 1 }, { x := 1, y := 0 }] ∧
    (gameOn edgeCityMap []).findEmptyAdjacentPosition 2 0 = some { x := 3, y := 0 } ∧
    ((gameOn edgeCityMap []).processCityProduction 0 (fun _ => "u3")).map
      (fun g => g.units.map (fun u => (u.type, u.x, u.y))) =
      some [(UnitType.army, 3, 0)] := by
  decide

/-- C38 fails for a destroyer: the city of `shipyardMap` finishes one and
`processCityProduction` places it on the land tile (1,0), a terrain that
`canUnitMoveTo` closes to destroyers. -/
theorem processCityProduction_places_ship_on_land :
    ((gameOn shipyardMap []).processCityProduction 0 (fun _ => "u3")).map
      (fun g => g.units.map (fun u => (u.type, u.x, u.y,
        g.map.getTerrain u.x u.y,
        GameHelpers.canUnitMoveTo u.type.name (g.map.getTerrain u.x u.y)))) =
      some [(UnitType.destroyer, 1, 0, "land", false)] ∧
    GAME_CONSTANTS.PRODUCTION_COSTS "destroyer" = some 12 ∧
    "destroyer" ∈ (City.new 0 0 (some 0) "city_a" "Troy").getAvailableUnits := by
  decide

/-- C40 fails when the attacker loses: in `skirmishGame` the army of player 0
attacks the army of player 1 with draws 0 and 1/2 and is destroyed; player 0
ends with `unitsLost = 2` for the one unit lost, all other counters being as
claimed. When the attacker wins (draws 1/2 and 0) every counter is as claimed. -/
theorem attackUnit_counts_lost_attacker_twice :
    (skirmishGame.attackUnit 0 1 0 (1 / 2) 0 0).map
      (fun r => (r.1, r.2.1.units.map (fun u => u.id),
        r.2.1.players.map (fun p => (p.id, p.stats)))) =
      some (true, ["u2"],
        [(0, { unitsCreated := 0, unitsLost := 2, enemiesDestroyed := 0, citiesCaptured := 0,
               turnsPlayed := 0, battlesWon := 0, battlesLost := 1 }),
         (1, { unitsCreated := 0, unitsLost := 0, enemiesDestroyed := 1, citiesCaptured := 0,
               turnsPlayed := 0, battlesWon := 1, battlesLost := 0 })]) ∧
    (skirmishGame.attackUnit 0 1 (1 / 2) 0 0 0).map
      (fun r => (r.1, r.2.1.units.map (fun u => u.id),
        r.2.1.players.map (fun p => (p.id, p.stats)))) =
      some (true, ["u1"],
        [(0, { unitsCreated := 0, unitsLost := 0, enemiesDestroyed := 1, citiesCaptured := 0,
               turnsPlayed := 0, battlesWon := 1, battlesLost := 0 }),
         (1, { unitsCreated := 0, unitsLost := 1, enemiesDestroyed := 0, citiesCaptured := 0,
               turnsPlayed := 0, battlesWon := 0, battlesLost := 1 })]) := by
  refine ⟨?_, ?_⟩ <;> decide!

/-! ### `captureCity` against a city of defence 1 -/

theorem captureCity_success_eq (g : Game) (unit : Unit) (ci : Nat) (city : City) (r1 r2 : ℚ)
    (hcity : g.map.cities[ci]? = some city)
    (hp : (g.getPlayerById unit.owner).isSome = true) :
    ∃ g', g.captureCity unit ci r1 r2 =
      some (decide (Double.mul r1 ((GAME_CONSTANTS.COMBAT_STRENGTH unit.type).1 : ℚ) >
        Double.mul r2 (city.getCurrentDefense : ℚ)), g') := by
  obtain ⟨pi, hpi⟩ := Option.isSome_iff_exists.mp hp
  unfold Game.captureCity
  rw [hcity]
  simp only [hpi]
  split
  · rename_i hs
    rw [hs]
    split
    · exact ⟨_, rfl⟩
    · exact ⟨_, rfl⟩
  · rename_i hs
    have hf : decide (Double.mul r1 ((GAME_CONSTANTS.COMBAT_STRENGTH unit.type).1 : ℚ) >
        Double.mul r2 (city.getCurrentDefense : ℚ)) = false := by
      cases hd : decide (Double.mul r1 ((GAME_CONSTANTS.COMBAT_STRENGTH unit.type).1 : ℚ) >
        Double.mul r2 (city.getCurrentDefense : ℚ))
      · rfl
      · exact absurd hd hs
    rw [hf]
    exact ⟨_, rfl⟩

theorem isDraw_lt_one (r : ℚ) (h : GameHelpers.IsDraw r) : 0 ≤ r ∧ r < 1 := by
  obtain ⟨k, hk, rfl⟩ := h
  refine ⟨by positivity, ?_⟩
  rw [div_lt_one (by positivity)]
  exact_mod_cast hk

theorem mul_one_of_isDraw (r : ℚ) (h : GameHelpers.IsDraw r) : Double.mul r 1 = r := by
  obtain ⟨k, hk, rfl⟩ := h
  unfold Double.mul
  rw [mul_one]
  exact round_exact k hk

theorem mul_ten_of_isDraw (r : ℚ) (h : GameHelpers.IsDraw r) :
    (r * 10 < 1 → Double.mul r 10 = r * 10) ∧ (1 ≤ r * 10 → 1 ≤ Double.mul r 10) := by
  obtain ⟨k, hk, rfl⟩ := h
  unfold Double.mul
  constructor
  · intro hlt
    have h10 : k * 10 < 2 ^ 53 := by
      have h1 : ((k * 10 : Nat) : ℚ) < ((2 ^ 53 : Nat) : ℚ) := by
        push_cast
        have h2 : (k : ℚ) / 2 ^ 53 * 10 = (k : ℚ) * 10 / 2 ^ 53 := by ring
        rw [h2, div_lt_one (by positivity)] at hlt
        exact hlt
      exact_mod_cast h1
    have h2 : (k : ℚ) / 2 ^ 53 * 10 = ((k * 10 : Nat) : ℚ) / 2 ^ 53 := by
      push_cast
      ring
    rw [h2]
    exact round_exact (k * 10) h10
  · intro hge
    have hbig : (k : ℚ) / 2 ^ 53 * 10 < (2 : ℚ) ^ (53 : Int) := by
      have h1 : (k : ℚ) / 2 ^ 53 < 1 := by
        rw [div_lt_one (by positivity)]
        exact_mod_cast hk
      have h2 : (10 : ℚ) < (2 : ℚ) ^ (53 : Int) := by norm_num
      nlinarith
    have := nat_le_round ((k : ℚ) / 2 ^ 53 * 10) 1 (by simpa using hge) hbig
    simpa using this

/-- C32 (amended): for an army of a player of the game attacking a city whose
`currentDefense` is 1, with draws as `Math.random()` produces them (multiples
of 2^-53 in [0,1)), `captureCity` returns, and it succeeds exactly when the
army's roll `r1 * 10` exceeds the city's roll `r2 * 1`; so it succeeds for
every city draw `r2 < 1` once the army's roll is at least 1, and it fails
whenever the army's roll is at most the city's draw. -/
theorem captureCity_army_vs_defense_one (g : Game) (unit : Unit) (ci : Nat) (city : City)
    (r1 r2 : ℚ)
    (htype : unit.type = UnitType.army)
    (hcity : g.map.cities[ci]? = some city)
    (hdef : city.currentDefense = 1)
    (hp : (g.getPlayerById unit.owner).isSome = true)
    (hr1 : GameHelpers.IsDraw r1) (hr2 : GameHelpers.IsDraw r2) :
    ∃ (b : Bool) (g' : Game), g.captureCity unit ci r1 r2 = some (b, g') ∧
      (b = true ↔ r1 * 10 > r2) ∧
      (r2 < 1 → r1 * 10 ≥ 1 → b = true) ∧
      (r1 * 10 ≤ r2 → b = false) := by
  obtain ⟨g', hg⟩ := captureCity_success_eq g unit ci city r1 r2 hcity hp
  have hs : (GAME_CONSTANTS.COMBAT_STRENGTH unit.type).1 = 10 := by rw [htype]; rfl
  have hd : city.getCurrentDefense = 1 := by unfold City.getCurrentDefense; rw [hdef]; rfl
  rw [hs, hd] at hg
  have h2 : Double.mul r2 ((1 : Int) : ℚ) = r2 := by
    simpa using mul_one_of_isDraw r2 hr2
  have h10 := mul_ten_of_isDraw r1 hr1
  have hr2lt := (isDraw_lt_one r2 hr2).2
  have hiff : decide (Double.mul r1 ((10 : Int) : ℚ) > Double.mul r2 ((1 : Int) : ℚ)) = true ↔
      r1 * 10 > r2 := by
    rw [h2, decide_eq_true_eq]
    have hcast : ((10 : Int) : ℚ) = 10 := by norm_num
    rw [hcast]
    by_cases hlt : r1 * 10 < 1
    · rw [h10.1 hlt]
    · have hge : 1 ≤ r1 * 10 := not_lt.mp hlt
      have := h10.2 hge
      constructor
      · intro _
        exact lt_of_lt_of_le hr2lt hge
      · intro _
        exact lt_of_lt_of_le hr2lt this
  refine ⟨_, g', hg, hiff, ?_, ?_⟩
  · intro h1 hge
    exact hiff.mpr (lt_of_lt_of_le h1 hge)
  · intro h1
    cases hb : decide (Double.mul r1 ((10 : Int) : ℚ) > Double.mul r2 ((1 : Int) : ℚ))
    · rfl
    · exact absurd (hiff.mp hb) (not_lt.mpr h1)

theorem isDraw_of_eq (r : ℚ) (k : Nat) (hk : k < 2 ^ 53) (h : r = (k : ℚ) / 2 ^ 53) :
    GameHelpers.IsDraw r := ⟨k, hk, h⟩

/-- Witness for `captureCity_army_vs_defense_one`: the army next to the worn
city of `wornCityMap`, with draws 1/128 and 1/2. -/
theorem captureCity_army_vs_defense_one_witness :
    ∃ (b : Bool) (g' : Game),
      (gameOn wornCityMap [Unit.new .army 3 0 0 "u1"]).captureCity
        (Unit.new .army 3 0 0 "u1") 0 (1 / 128) (1 / 2) = some (b, g') ∧
      (b = true ↔ (1 / 128 : ℚ) * 10 > 1 / 2) ∧
      ((1 / 2 : ℚ) < 1 → (1 / 128 : ℚ) * 10 ≥ 1 → b = true) ∧
      ((1 / 128 : ℚ) * 10 ≤ 1 / 2 → b = false) :=
  captureCity_army_vs_defense_one (gameOn wornCityMap [Unit.new .army 3 0 0 "u1"])
    (Unit.new .army 3 0 0 "u1") 0 ({ (City.new 4 0 none "city_a" "Troy") with currentDefense := 1 })
    (1 / 128) (1 / 2) rfl rfl rfl (by decide)
    (isDraw_of_eq _ (2 ^ 46) (by norm_num) (by norm_num))
    (isDraw_of_eq _ (2 ^ 52) (by norm_num) (by norm_num))

/-- C32 fails as stated: the army of `wornCityMap` attacks the city of defence 1
with draws 1/128 and 1/2; its roll 10/128 is greater than 0, the city's roll is
1/2, and `captureCity` returns false and removes the army. -/
theorem captureCity_positive_roll_fails :
    (wornCityMap.cities.map (fun c => c.currentDefense) = [1] ∧
      (GAME_CONSTANTS.COMBAT_STRENGTH UnitType.army).1 = 10) ∧
    ((0 : ℚ) < Double.mul (1 / 128) 10 ∧ Double.mul (1 / 128) 10 = 10 / 128 ∧
      Double.mul (1 / 2) 1 = 1 / 2) ∧
    ((gameOn wornCityMap [Unit.new .army 3 0 0 "u1"]).captureCity
        (Unit.new .army 3 0 0 "u1") 0 (1 / 128) (1 / 2)).map
      (fun r => (r.1, r.2.units, r.2.map.cities.map (fun c => c.owner))) =
      some (false, [], [none]) := by
  refine ⟨?_, ?_, ?_⟩ <;> decide!

/-! ### Which units `attackUnit` removes -/

theorem set_eraseIdx_set {α : Type} (l : List α) (ai ti : Nat) (a b : α) (h : ai ≠ ti) :
    ((l.set ai a).eraseIdx ti).set (if ti < ai then ai - 1 else ai) b =
      (l.set ai b).eraseIdx ti := by
  apply List.ext_getElem?
  intro j
  simp only [List.getElem?_set, List.getElem?_eraseIdx, List.length_eraseIdx, List.length_set]
  by_cases h1 : ti < ai
  · simp only [h1, if_true]
    by_cases h2 : j < ti
    · have h3 : ¬ ai - 1 = j := by omega
      have h4 : ¬ ai = j := by omega
      simp only [h2, h3, h4, if_true, if_false]
    · by_cases h3 : ai - 1 = j
      · have h4 : ai = j + 1 := by omega
        simp only [h2, h3, h4, if_true, if_false]
        by_cases h5 : j + 1 < l.length
        · have h6 : j < l.length - 1 := by omega
          have h7 : ti < l.length := by omega
          simp [h5, h6, h7]
        · have h6 : ¬ j < l.length - 1 := by omega
          simp [h5, h6]
          split <;> omega
      · have h4 : ¬ ai = j + 1 := by omega
        simp only [h2, h3, h4, if_false]
  · simp only [h1, if_false]
    have h1' : ai < ti := by omega
    by_cases h2 : j < ti
    · by_cases h3 : ai = j
      · subst h3
        simp only [h2, if_true]
        by_cases h5 : ai < l.length
        · by_cases h7 : ti < l.length
          · have h6 : ai < l.length - 1 := by omega
            simp [h5, h6, h7]
          · simp [h5, h7]
        · have h6 : ¬ ai < l.length - 1 := by omega
          have h7 : ¬ ti < l.length := by omega
          simp [h5, h6, h7]
      · simp only [h2, h3, if_true, if_false]
    · have h3 : ¬ ai = j := by omega
      have h4 : ¬ ai = j + 1 := by omega
      simp only [h2, h3, h4, if_false]

theorem eraseIdx_set_self {α : Type} (l : List α) (i : Nat) (a : α) :
    (l.set i a).eraseIdx i = l.eraseIdx i := by
  apply List.ext_getElem?
  intro j
  simp only [List.getElem?_eraseIdx, List.getElem?_set]
  by_cases h2 : j < i
  · have h3 : ¬ i = j := by omega
    simp only [h2, h3, if_true, if_false]
  · have h3 : ¬ i = j + 1 := by omega
    simp only [h2, h3, if_false]

theorem attack_of_canAttack (u target : Unit) (r1 r2 : ℚ)
    (h : u.canAttack target.x target.y = true) :
    u.attack target r1 r2 =
      (some (GameHelpers.resolveCombat u.type target.type r1 r2),
        { u with hasAttacked := true }) := by
  unfold Unit.attack
  rw [h]
  rfl

theorem nodup_ids_set (l : List Unit) (i : Nat) (a b : Unit) (hl : l[i]? = some a)
    (hid : b.id = a.id) (hnd : (l.map (fun u => u.id)).Nodup) :
    ((l.set i b).map (fun u => u.id)).Nodup := by
  rw [map_set_of_eq (fun u : Unit => u.id) l i a b hl hid]
  exact hnd

theorem nodup_ids_eraseIdx (l : List Unit) (i : Nat) (hnd : (l.map (fun u => u.id)).Nodup) :
    ((l.eraseIdx i).map (fun u => u.id)).Nodup :=
  hnd.sublist ((List.eraseIdx_sublist l i).map _)

theorem cityOfOwnerAt_congr (g g' : Game) (hmap : g'.map = g.map) (owner : Nat) (x y : Int) :
    g'.cityOfOwnerAt owner x y = g.cityOfOwnerAt owner x y := by
  unfold Game.cityOfOwnerAt
  rw [hmap]

theorem attackerLoses_units (g1 : Game) (i : Nat) (attacker1 target : Unit)
    (hu : g1.units[i]? = some attacker1) (hid : (g1.units.map (fun u => u.id)).Nodup)
    (hap : (g1.getPlayerById attacker1.owner).isSome = true)
    (htp : (g1.getPlayerById target.owner).isSome = true) :
    ∃ g', g1.attackerLoses attacker1 target = some (true, g', attacker1) ∧
      g'.units = g1.units.eraseIdx i := by
  obtain ⟨ap, hapi⟩ := Option.isSome_iff_exists.mp hap
  obtain ⟨tp, htpi⟩ := Option.isSome_iff_exists.mp htp
  unfold Game.attackerLoses
  simp only [getPlayerById_removeUnit, hapi, htpi]
  refine ⟨_, rfl, ?_⟩
  exact removeUnit_of_nodup g1 i attacker1 hu hid

theorem getElem?_set_eraseIdx {α : Type} (l : List α) (ai ti : Nat) (b : α) (h : ai ≠ ti)
    (hlt : ai < l.length) :
    ((l.set ai b).eraseIdx ti)[if ti < ai then ai - 1 else ai]? = some b := by
  simp only [List.getElem?_eraseIdx, List.getElem?_set]
  by_cases h1 : ti < ai
  · have h2 : ¬ ai - 1 < ti := by omega
    have h3 : ai = ai - 1 + 1 := by omega
    simp only [h1, h2, if_true, if_false]
    rw [if_pos h3, if_pos hlt]
  · have h2 : ai < ti := by omega
    simp only [h1, h2, if_true, if_false, hlt]

theorem attackerWins_units (g1 : Game) (ai ti : Nat) (attacker1 target : Unit) (r3 r4 : ℚ)
    (ha : g1.units[ai]? = some attacker1) (ht : g1.units[ti]? = some target) (hne : ai ≠ ti)
    (hid : (g1.units.map (fun u => u.id)).Nodup)
    (hap : (g1.getPlayerById attacker1.owner).isSome = true)
    (htp : (g1.getPlayerById target.owner).isSome = true) :
    ∃ g', g1.attackerWins ai attacker1 target r3 r4 =
        some (true, g', { attacker1 with x := target.x, y := target.y }) ∧
      ((∀ (ci : Nat) (city : City),
          g1.cityOfOwnerAt target.owner target.x target.y = some ci →
          g1.map.cities[ci]? = some city →
          Double.mul r3 ((GAME_CONSTANTS.COMBAT_STRENGTH attacker1.type).1 : ℚ) >
            Double.mul r4 (city.getCurrentDefense : ℚ)) →
        g'.units = (g1.units.set ai { attacker1 with x := target.x, y := target.y }).eraseIdx
          ti) ∧
      (∀ (ci : Nat) (city : City),
          g1.cityOfOwnerAt target.owner target.x target.y = some ci →
          g1.map.cities[ci]? = some city →
          ¬ Double.mul r3 ((GAME_CONSTANTS.COMBAT_STRENGTH attacker1.type).1 : ℚ) >
            Double.mul r4 (city.getCurrentDefense : ℚ) →
        g'.units = ((g1.units.set ai { attacker1 with x := target.x, y := target.y }).eraseIdx
          ti).eraseIdx (if ti < ai then ai - 1 else ai)) := by
  obtain ⟨ap, hapi⟩ := Option.isSome_iff_exists.mp hap
  obtain ⟨tp, htpi⟩ := Option.isSome_iff_exists.mp htp
  have hfind : g1.units.findIdx? (fun u => u.id == target.id) = some ti := by
    have h := findIdx?_of_nodup (fun u : Unit => u.id) target g1.units ti 0 hid ht
    simpa using h
  have hrem : (g1.removeUnit target).units = g1.units.eraseIdx ti :=
    removeUnit_of_nodup g1 ti target ht hid
  have hidx : Game.indexAfterRemoval ti ai = some (if ti < ai then ai - 1 else ai) := by
    unfold Game.indexAfterRemoval
    by_cases h1 : ti < ai
    · simp only [h1, if_true]
    · have h2 : ¬ ti = ai := fun h => hne h.symm
      simp only [h1, h2, if_false]
  have hlt : ai < g1.units.length := by
    rcases Nat.lt_or_ge ai g1.units.length with h1 | h1
    · exact h1
    · rw [List.getElem?_eq_none h1] at ha
      cases ha
  have hset : g1.units.set ai attacker1 = g1.units := by
    apply List.ext_getElem?
    intro j
    rw [List.getElem?_set]
    by_cases hj : ai = j
    · subst hj
      simp only [if_true, hlt, ha]
    · simp only [hj, if_false]
  have hU : ((g1.units.eraseIdx ti).set (if ti < ai then ai - 1 else ai)
      { attacker1 with x := target.x, y := target.y }) =
      (g1.units.set ai { attacker1 with x := target.x, y := target.y }).eraseIdx ti := by
    have h := set_eraseIdx_set g1.units ai ti attacker1
      { attacker1 with x := target.x, y := target.y } hne
    rw [hset] at h
    exact h
  unfold Game.attackerWins
  simp only [getPlayerById_removeUnit, hapi, htpi, hfind, hidx]
  have hg4u : ∀ (g3 : Game), g3.units = (g1.removeUnit target).units →
      (g3.setUnitAt (some (if ti < ai then ai - 1 else ai))
        { attacker1 with x := target.x, y := target.y }).units =
      (g1.units.set ai { attacker1 with x := target.x, y := target.y }).eraseIdx ti := by
    intro g3 h3
    show g3.units.set _ _ = _
    rw [h3, hrem, hU]
  split
  · rename_i ci hci
    rw [cityOfOwnerAt_congr g1 _ (by
      show (g1.removeUnit target).map = g1.map
      exact (removeUnit_frame g1 target).2)] at hci
    obtain ⟨city, hcity⟩ := cityOfOwnerAt_some hci
    obtain ⟨g5, h5⟩ := captureCity_success_eq
      ((((((g1.removeUnit target).incrementStatAt ap "enemiesDestroyed").incrementStatAt ap
        "battlesWon").incrementStatAt tp "unitsLost").incrementStatAt tp
        "battlesLost").setUnitAt (some (if ti < ai then ai - 1 else ai))
        { attacker1 with x := target.x, y := target.y })
      { attacker1 with x := target.x, y := target.y } ci city r3 r4
      (by
        show (g1.removeUnit target).map.cities[ci]? = some city
        rw [(removeUnit_frame g1 target).2]
        exact hcity)
      (by
        simp only [getPlayerById_setUnitAt, getPlayerById_incrementStatAt,
          getPlayerById_removeUnit]
        exact hap)
    rw [h5]
    refine ⟨g5, rfl, ?_, ?_⟩
    · intro hwin
      have hw := hwin ci city hci hcity
      have hd : decide (Double.mul r3 ((GAME_CONSTANTS.COMBAT_STRENGTH attacker1.type).1 : ℚ) >
          Double.mul r4 (city.getCurrentDefense : ℚ)) = true := decide_eq_true hw
      rw [hd] at h5
      rw [captureCity_true_units h5]
      exact hg4u _ rfl
    · intro ci' city' hci' hcity' hlose
      rw [hci] at hci'
      cases hci'
      rw [hcity] at hcity'
      cases hcity'
      have hd : decide (Double.mul r3 ((GAME_CONSTANTS.COMBAT_STRENGTH attacker1.type).1 : ℚ) >
          Double.mul r4 (city.getCurrentDefense : ℚ)) = false := decide_eq_false hlose
      rw [hd] at h5
      obtain ⟨city2, _, hg5⟩ := captureCity_false_eq h5
      rw [hg5]
      have hunits := hg4u (((((g1.removeUnit target).incrementStatAt ap
        "enemiesDestroyed").incrementStatAt ap "battlesWon").incrementStatAt tp
        "unitsLost").incrementStatAt tp "battlesLost") rfl
      rw [removeUnit_of_nodup _ (if ti < ai then ai - 1 else ai)
        { attacker1 with x := target.x, y := target.y }]
      · show List.eraseIdx (Game.setUnitAt _ _ _).units _ = _
        rw [hunits]
      · show (Game.setUnitAt _ _ _).units[_]? = _
        rw [hunits]
        exact getElem?_set_eraseIdx _ _ _ _ hne hlt
      · show ((Game.setUnitAt _ _ _).units.map _).Nodup
        rw [hunits]
        exact nodup_ids_eraseIdx _ _ (nodup_ids_set _ _ attacker1 _ ha rfl hid)
  · rename_i hci
    rw [cityOfOwnerAt_congr g1 _ (by
      show (g1.removeUnit target).map = g1.map
      exact (removeUnit_frame g1 target).2)] at hci
    refine ⟨_, rfl, ?_, ?_⟩
    · intro _
      exact hg4u _ rfl
    · intro ci city hci'
      rw [hci] at hci'
      cases hci'

/-- C39 (amended): let the attacker and the target be two different entries of
`units`, all ids distinct, both owners players, the target within reach of an
attacker that has not attacked yet. Then `attackUnit` returns true. If the
defender wins, the attacker's entry is removed and every other entry, the
target included, is left as it was. If the attacker wins, the target's entry is
removed and the attacker, marked `hasAttacked`, stands on the target's tile,
provided that the tile holds no city of the target's owner or that the
capture roll which follows succeeds; if that roll fails, the attacker is
removed as well. -/
theorem attackUnit_removes_loser (g : Game) (ai ti : Nat) (r1 r2 r3 r4 : ℚ)
    (attacker target : Unit)
    (ha : g.units[ai]? = some attacker) (ht : g.units[ti]? = some target) (hne : ai ≠ ti)
    (hid : (g.units.map (fun u => u.id)).Nodup)
    (hap : (g.getPlayerById attacker.owner).isSome = true)
    (htp : (g.getPlayerById target.owner).isSome = true)
    (hcan : attacker.canAttack target.x target.y = true) :
    ∃ (g' : Game) (a' : Unit), g.attackUnit ai ti r1 r2 r3 r4 = some (true, g', a') ∧
      (GameHelpers.resolveCombat attacker.type target.type r1 r2 = false →
        g'.units = g.units.eraseIdx ai) ∧
      (GameHelpers.resolveCombat attacker.type target.type r1 r2 = true →
        (∀ (ci : Nat) (city : City),
          g.cityOfOwnerAt target.owner target.x target.y = some ci →
          g.map.cities[ci]? = some city →
          Double.mul r3 ((GAME_CONSTANTS.COMBAT_STRENGTH attacker.type).1 : ℚ) >
            Double.mul r4 (city.getCurrentDefense : ℚ)) →
        g'.units = (g.units.set ai
          { attacker with hasAttacked := true, x := target.x, y := target.y }).eraseIdx ti) ∧
      (GameHelpers.resolveCombat attacker.type target.type r1 r2 = true →
        ∀ (ci : Nat) (city : City),
          g.cityOfOwnerAt target.owner target.x target.y = some ci →
          g.map.cities[ci]? = some city →
          ¬ Double.mul r3 ((GAME_CONSTANTS.COMBAT_STRENGTH attacker.type).1 : ℚ) >
            Double.mul r4 (city.getCurrentDefense : ℚ) →
          g'.units = ((g.units.set ai
            { attacker with hasAttacked := true, x := target.x, y := target.y }).eraseIdx
              ti).eraseIdx (if ti < ai then ai - 1 else ai)) := by
  have hlt : ai < g.units.length := by
    rcases Nat.lt_or_ge ai g.units.length with h1 | h1
    · exact h1
    · rw [List.getElem?_eq_none h1] at ha
      cases ha
  have ha1 : (g.units.set ai { attacker with hasAttacked := true })[ai]? =
      some { attacker with hasAttacked := true } := by
    rw [List.getElem?_set]
    simp only [if_true, hlt]
  have ht1 : (g.units.set ai { attacker with hasAttacked := true })[ti]? = some target := by
    rw [List.getElem?_set, if_neg hne]
    exact ht
  have hid1 : ((g.units.set ai { attacker with hasAttacked := true }).map
      (fun u => u.id)).Nodup := nodup_ids_set _ _ attacker _ ha rfl hid
  unfold Game.attackUnit
  rw [ha, ht]
  simp only [hcan, attack_of_canAttack attacker target r1 r2 hcan, if_neg hne,
    Bool.not_true, Bool.false_eq_true, if_false]
  cases hres : GameHelpers.resolveCombat attacker.type target.type r1 r2
  · simp only [Option.some.injEq, Bool.false_eq_true, if_false]
    obtain ⟨g', hg, hu⟩ := attackerLoses_units
      { g with units := g.units.set ai { attacker with hasAttacked := true } } ai
      { attacker with hasAttacked := true } target ha1 hid1 hap htp
    refine ⟨g', _, hg, ?_, ?_, ?_⟩
    · intro _
      rw [hu]
      exact eraseIdx_set_self _ _ _
    · intro h
      cases h
    · intro h
      cases h
  · simp only [if_true]
    obtain ⟨g', hg, hwin, hlose⟩ := attackerWins_units
      { g with units := g.units.set ai { attacker with hasAttacked := true } } ai ti
      { attacker with hasAttacked := true } target r3 r4 ha1 ht1 hne hid1 hap htp
    have hsetset : ∀ (b : Unit), (g.units.set ai { attacker with hasAttacked := true }).set ai b =
        g.units.set ai b := fun b => List.set_set _ _ _ _
    refine ⟨g', _, hg, ?_, ?_, ?_⟩
    · intro h
      cases h
    · intro _ hc
      have h := hwin hc
      simp only [hsetset] at h
      exact h
    · intro _ ci city hci hcity hl
      have h := hlose ci city hci hcity hl
      simp only [hsetset] at h
      exact h

/-- Witness for `attackUnit_removes_loser`: the two armies of `skirmishGame`,
with draws for which the defender wins. -/
theorem attackUnit_removes_loser_witness :
    ∃ (g' : Game) (a' : Unit), skirmishGame.attackUnit 0 1 0 (1 / 2) 0 0 = some (true, g', a') ∧
      (GameHelpers.resolveCombat UnitType.army UnitType.army 0 (1 / 2) = false →
        g'.units = [Unit.new .army 1 0 1 "u2"]) :=
  (attackUnit_removes_loser skirmishGame 0 1 0 (1 / 2) 0 0 (Unit.new .army 0 0 0 "u1")
    (Unit.new .army 1 0 1 "u2") rfl rfl (by decide) (by decide) (by decide) (by decide)
    (by decide)).imp (fun _ h => h.imp (fun _ h2 => ⟨h2.1, h2.2.1⟩))

/-- C39 fails as stated: in `garrisonGame` the army of player 0 beats the army
that stands in the city of player 1 (draws 1/2 and 0), `attackUnit` then has it
assault the city, the assault fails (draws 0 and 1/2), and the winner of the
combat is removed too: no unit is left, and `attackUnit` returns true. -/
theorem attackUnit_removes_winner_after_failed_capture :
    GameHelpers.resolveCombat UnitType.army UnitType.army (1 / 2) 0 = true ∧
    (garrisonGame.attackUnit 0 1 (1 / 2) 0 0 (1 / 2)).map
      (fun r => (r.1, r.2.1.units, r.2.1.map.cities.map (fun c => c.owner))) =
      some (true, [], [some 1]) := by
  refine ⟨?_, ?_⟩ <;> decide!

/-! ### The computer player: `findMoveTarget` -/

theorem mem_moveTargets (g : Game) (playerId : Nat) (t : MoveTarget) :
    t ∈ GameAI.moveTargets g playerId ↔
      (∃ city ∈ g.map.cities, city.owner = none ∧
        t = { x := city.x, y := city.y, type := "city", priority := 3 }) ∨
      (∃ city ∈ g.map.cities, city.owner ≠ none ∧ city.owner ≠ some playerId ∧
        t = { x := city.x, y := city.y, type := "enemy_city", priority := 2 }) ∨
      (∃ u ∈ g.units, u.owner ≠ playerId ∧
        t = { x := u.x, y := u.y, type := "enemy_unit", priority := 1 }) := by
  unfold GameAI.moveTargets GameMap.getNeutralCities
  simp only [List.mem_append, List.mem_map, List.mem_filter, decide_eq_true_eq,
    Bool.and_eq_true, or_assoc]
  constructor
  · rintro (⟨c, ⟨hc, ho⟩, rfl⟩ | ⟨c, ⟨hc, ho1, ho2⟩, rfl⟩ | ⟨u, ⟨hu, ho⟩, rfl⟩)
    · exact Or.inl ⟨c, hc, ho, rfl⟩
    · exact Or.inr (Or.inl ⟨c, hc, ho1, ho2, rfl⟩)
    · exact Or.inr (Or.inr ⟨u, hu, ho, rfl⟩)
  · rintro (⟨c, hc, ho, rfl⟩ | ⟨c, hc, ho1, ho2, rfl⟩ | ⟨u, hu, ho, rfl⟩)
    · exact Or.inl ⟨c, ⟨hc, ho⟩, rfl⟩
    · exact Or.inr (Or.inl ⟨c, ⟨hc, ho1, ho2⟩, rfl⟩)
    · exact Or.inr (Or.inr ⟨u, ⟨hu, ho⟩, rfl⟩)

theorem compareTargets_le_iff (unit : Unit) (a b : MoveTarget) :
    GameAI.compareTargets unit a b ≤ 0 ↔
      b.priority < a.priority ∨
      (a.priority = b.priority ∧
        GameHelpers.getDistance unit.x unit.y a.x a.y ≤
          GameHelpers.getDistance unit.x unit.y b.x b.y) := by
  unfold GameAI.compareTargets
  simp only
  split
  · constructor
    · intro h
      left
      omega
    · rintro (h | ⟨h, _⟩)
      · omega
      · contradiction
  · rename_i hp
    have hp' : a.priority = b.priority := by
      by_contra hne
      exact hp hne
    constructor
    · intro h
      right
      exact ⟨hp', by omega⟩
    · rintro (h | ⟨_, h⟩)
      · omega
      · omega

theorem sortTargets_head (unit : Unit) (targets : List MoveTarget) (hne : targets ≠ []) :
    ∃ t, (GameAI.sortTargets unit targets)[0]? = some t ∧ t ∈ targets ∧
      ∀ s ∈ targets, GameAI.compareTargets unit t s ≤ 0 := by
  haveI htotal : IsTotal MoveTarget (fun a b => GameAI.compareTargets unit a b ≤ 0) :=
    ⟨fun a b => by
      show GameAI.compareTargets unit a b ≤ 0 ∨ GameAI.compareTargets unit b a ≤ 0
      rw [compareTargets_le_iff, compareTargets_le_iff]
      omega⟩
  haveI htrans : IsTrans MoveTarget (fun a b => GameAI.compareTargets unit a b ≤ 0) :=
    ⟨fun a b c hab hbc => by
      have hab' := (compareTargets_le_iff unit a b).mp hab
      have hbc' := (compareTargets_le_iff unit b c).mp hbc
      show GameAI.compareTargets unit a c ≤ 0
      rw [compareTargets_le_iff]
      omega⟩
  have hs := List.sorted_insertionSort (fun a b => GameAI.compareTargets unit a b ≤ 0) targets
  have hp := List.perm_insertionSort (fun a b => GameAI.compareTargets unit a b ≤ 0) targets
  unfold GameAI.sortTargets
  cases hl : List.insertionSort (fun a b => GameAI.compareTargets unit a b ≤ 0) targets with
  | nil =>
    rw [hl] at hp
    exact absurd hp.symm.eq_nil hne
  | cons t rest =>
    rw [hl] at hp hs
    refine ⟨t, by simp, hp.subset (List.mem_cons_self t rest), ?_⟩
    intro s hs'
    have hmem : s ∈ t :: rest := hp.symm.subset hs'
    rcases List.mem_cons.mp hmem with h | h
    · subst h
      rcases htotal.total s s with h | h <;> exact h
    · exact List.rel_of_sorted_cons hs s h

theorem foldl_considerDirection (g : Game) (unit : Unit) (tx ty : Int) :
    ∀ (l pre : List Pos) (best : Option Pos × Option Int),
      ((best = (none, none) ∧
          ∀ d ∈ pre, unit.canMoveTo (GameAI.stepTo unit d).x (GameAI.stepTo unit d).y g.map = false) ∨
        (∃ (k : Nat) (d : Pos), pre[k]? = some d ∧
          best = (some (GameAI.stepTo unit d),
            some (GameHelpers.getDistance (GameAI.stepTo unit d).x (GameAI.stepTo unit d).y tx ty)) ∧
          unit.canMoveTo (GameAI.stepTo unit d).x (GameAI.stepTo unit d).y g.map = true ∧
          ∀ (j : Nat) (e : Pos), pre[j]? = some e →
            unit.canMoveTo (GameAI.stepTo unit e).x (GameAI.stepTo unit e).y g.map = true →
            GameHelpers.getDistance (GameAI.stepTo unit d).x (GameAI.stepTo unit d).y tx ty ≤
              GameHelpers.getDistance (GameAI.stepTo unit e).x (GameAI.stepTo unit e).y tx ty ∧
            (j < k →
              GameHelpers.getDistance (GameAI.stepTo unit d).x (GameAI.stepTo unit d).y tx ty <
                GameHelpers.getDistance (GameAI.stepTo unit e).x (GameAI.stepTo unit e).y tx ty))) →
      ((l.foldl (GameAI.considerDirection g unit tx ty) best = (none, none) ∧
          ∀ d ∈ pre ++ l,
            unit.canMoveTo (GameAI.stepTo unit d).x (GameAI.stepTo unit d).y g.map = false) ∨
        (∃ (k : Nat) (d : Pos), (pre ++ l)[k]? = some d ∧
          l.foldl (GameAI.considerDirection g unit tx ty) best = (some (GameAI.stepTo unit d),
            some (GameHelpers.getDistance (GameAI.stepTo unit d).x (GameAI.stepTo unit d).y tx ty)) ∧
          unit.canMoveTo (GameAI.stepTo unit d).x (GameAI.stepTo unit d).y g.map = true ∧
          ∀ (j : Nat) (e : Pos), (pre ++ l)[j]? = some e →
            unit.canMoveTo (GameAI.stepTo unit e).x (GameAI.stepTo unit e).y g.map = true →
            GameHelpers.getDistance (GameAI.stepTo unit d).x (GameAI.stepTo unit d).y tx ty ≤
              GameHelpers.getDistance (GameAI.stepTo unit e).x (GameAI.stepTo unit e).y tx ty ∧
            (j < k →
              GameHelpers.getDistance (GameAI.stepTo unit d).x (GameAI.stepTo unit d).y tx ty <
                GameHelpers.getDistance (GameAI.stepTo unit e).x (GameAI.stepTo unit e).y tx ty))) := by
  intro l
  induction l with
  | nil =>
    intro pre best h
    simpa using h
  | cons dir rest ih =>
    intro pre best h
    rw [List.foldl_cons]
    have happ : pre ++ dir :: rest = (pre ++ [dir]) ++ rest := by simp
    rw [happ]
    apply ih
    have hlast : (pre ++ [dir])[pre.length]? = some dir := by simp
    have hget : ∀ (j : Nat) (e : Pos), (pre ++ [dir])[j]? = some e →
        (j < pre.length ∧ pre[j]? = some e) ∨ (j = pre.length ∧ e = dir) := by
      intro j e hj
      rcases Nat.lt_or_ge j pre.length with h1 | h1
      · left
        rw [List.getElem?_append_left h1] at hj
        exact ⟨h1, hj⟩
      · right
        rw [List.getElem?_append_right h1] at hj
        rcases Nat.eq_zero_or_pos (j - pre.length) with h2 | h2
        · rw [h2] at hj
          simp only [List.getElem?_cons_zero, Option.some.injEq] at hj
          exact ⟨by omega, hj.symm⟩
        · obtain ⟨m, hm⟩ := Nat.exists_eq_succ_of_ne_zero (Nat.pos_iff_ne_zero.mp h2)
          rw [hm] at hj
          simp at hj
    unfold GameAI.considerDirection
    simp only
    by_cases hcan : unit.canMoveTo (unit.x + dir.x) (unit.y + dir.y) g.map = true
    · rw [if_pos hcan]
      rcases h with ⟨hbest, hnone⟩ | ⟨k, d, hk, hbest, hdcan, hmin⟩
      · rw [hbest]
        simp only [if_true]
        right
        refine ⟨pre.length, dir, hlast, rfl, hcan, ?_⟩
        intro j e hj hecan
        rcases hget j e hj with ⟨hlt, hje⟩ | ⟨hjeq, he⟩
        · have := hnone e (List.getElem?_mem hje)
          rw [this] at hecan
          cases hecan
        · subst he
          exact ⟨le_refl _, fun hlt => absurd hlt (by omega)⟩
      · rw [hbest]
        simp only
        have hklt : k < pre.length := by
          rcases Nat.lt_or_ge k pre.length with h1 | h1
          · exact h1
          · rw [List.getElem?_eq_none h1] at hk
            cases hk
        by_cases hless : GameHelpers.getDistance (unit.x + dir.x) (unit.y + dir.y) tx ty <
            GameHelpers.getDistance (GameAI.stepTo unit d).x (GameAI.stepTo unit d).y tx ty
        · rw [if_pos (decide_eq_true hless)]
          right
          refine ⟨pre.length, dir, hlast, rfl, hcan, ?_⟩
          intro j e hj hecan
          rcases hget j e hj with ⟨hlt, hje⟩ | ⟨hjeq, he⟩
          · have hm := (hmin j e hje hecan).1
            have hless' : GameHelpers.getDistance (GameAI.stepTo unit dir).x
                (GameAI.stepTo unit dir).y tx ty <
                GameHelpers.getDistance (GameAI.stepTo unit d).x (GameAI.stepTo unit d).y tx ty :=
              hless
            exact ⟨by omega, fun _ => by omega⟩
          · subst he
            exact ⟨le_refl _, fun hlt => absurd hlt (by omega)⟩
        · rw [if_neg (by simpa using hless)]
          right
          refine ⟨k, d, ?_, rfl, hdcan, ?_⟩
          · rw [List.getElem?_append_left hklt]
            exact hk
          · intro j e hj hecan
            rcases hget j e hj with ⟨hlt, hje⟩ | ⟨hjeq, he⟩
            · exact hmin j e hje hecan
            · subst he
              have hless' : ¬ GameHelpers.getDistance (GameAI.stepTo unit e).x
                  (GameAI.stepTo unit e).y tx ty <
                  GameHelpers.getDistance (GameAI.stepTo unit d).x (GameAI.stepTo unit d).y tx ty :=
                hless
              exact ⟨by omega, fun hlt => absurd hlt (by omega)⟩
    · rw [if_neg hcan]
      have hcan' : unit.canMoveTo (GameAI.stepTo unit dir).x (GameAI.stepTo unit dir).y g.map =
          false := by
        cases hc : unit.canMoveTo (GameAI.stepTo unit dir).x (GameAI.stepTo unit dir).y g.map
        · rfl
        · exact absurd hc hcan
      rcases h with ⟨hbest, hnone⟩ | ⟨k, d, hk, hbest, hdcan, hmin⟩
      · left
        refine ⟨hbest, ?_⟩
        intro e he
        rcases List.mem_append.mp he with h1 | h1
        · exact hnone e h1
        · rw [List.mem_singleton] at h1
          subst h1
          exact hcan'
      · right
        have hklt : k < pre.length := by
          rcases Nat.lt_or_ge k pre.length with h1 | h1
          · exact h1
          · rw [List.getElem?_eq_none h1] at hk
            cases hk
        refine ⟨k, d, ?_, hbest, hdcan, ?_⟩
        · rw [List.getElem?_append_left hklt]
          exact hk
        · intro j e hj hecan
          rcases hget j e hj with ⟨hlt, hje⟩ | ⟨hjeq, he⟩
          · exact hmin j e hje hecan
          · subst he
            rw [hcan'] at hecan
            cases hecan

theorem getNextStepToward_spec (g : Game) (unit : Unit) (tx ty : Int) :
    (GameAI.getNextStepToward g unit tx ty = none ∧
        ∀ p ∈ GameAI.neighbours unit, unit.canMoveTo p.x p.y g.map = false) ∨
      (∃ (k : Nat) (pos : Pos), (GameAI.neighbours unit)[k]? = some pos ∧
        GameAI.getNextStepToward g unit tx ty = some pos ∧
        unit.canMoveTo pos.x pos.y g.map = true ∧
        ∀ (j : Nat) (q : Pos), (GameAI.neighbours unit)[j]? = some q →
          unit.canMoveTo q.x q.y g.map = true →
          GameHelpers.getDistance pos.x pos.y tx ty ≤ GameHelpers.getDistance q.x q.y tx ty ∧
          (j < k →
            GameHelpers.getDistance pos.x pos.y tx ty < GameHelpers.getDistance q.x q.y tx ty)) := by
  have h := foldl_considerDirection g unit tx ty GameAI.directions [] (none, none)
    (Or.inl ⟨rfl, fun d hd => by cases hd⟩)
  rw [List.nil_append] at h
  unfold GameAI.getNextStepToward GameAI.neighbours
  rcases h with ⟨hbest, hnone⟩ | ⟨k, d, hk, hbest, hdcan, hmin⟩
  · left
    rw [hbest]
    refine ⟨rfl, ?_⟩
    intro p hp
    obtain ⟨d, hd, rfl⟩ := List.mem_map.mp hp
    exact hnone d hd
  · right
    rw [hbest]
    refine ⟨k, GameAI.stepTo unit d, ?_, rfl, hdcan, ?_⟩
    · rw [List.getElem?_map, hk]
      rfl
    · intro j q hj hq
      rw [List.getElem?_map] at hj
      cases he : GameAI.directions[j]? with
      | none =>
        rw [he] at hj
        cases hj
      | some e =>
        rw [he] at hj
        simp only [Option.map_some', Option.some.injEq] at hj
        subst hj
        exact hmin j e he hq

/-- C33: the candidate targets of `findMoveTarget` are the neutral cities with
priority 3, the cities of other players with priority 2 and the units of other
players with priority 1. It returns null exactly when there is no candidate or
the unit can enter none of its four neighbours (up, right, down, left). When
there are candidates, one of highest priority and, within that priority, of
least Manhattan distance to the unit is chosen, and a returned tile is one of
the four neighbours, inside the map, of a terrain the unit's type may enter,
and no enterable neighbour is closer to the chosen target; those before it
in the order up, right, down, left are strictly farther. -/
theorem findMoveTarget_spec (g : Game) (playerId : Nat) (unit : Unit) :
    (∀ t : MoveTarget, t ∈ GameAI.moveTargets g playerId ↔
      (∃ city ∈ g.map.cities, city.owner = none ∧
        t = { x := city.x, y := city.y, type := "city", priority := 3 }) ∨
      (∃ city ∈ g.map.cities, city.owner ≠ none ∧ city.owner ≠ some playerId ∧
        t = { x := city.x, y := city.y, type := "enemy_city", priority := 2 }) ∨
      (∃ u ∈ g.units, u.owner ≠ playerId ∧
        t = { x := u.x, y := u.y, type := "enemy_unit", priority := 1 })) ∧
    GameAI.neighbours unit =
      [{ x := unit.x, y := unit.y - 1 }, { x := unit.x + 1, y := unit.y },
       { x := unit.x, y := unit.y + 1 }, { x := unit.x - 1, y := unit.y }] ∧
    (GameAI.findMoveTarget g playerId unit = none ↔
      (GameAI.moveTargets g playerId = [] ∨
        ∀ p ∈ GameAI.neighbours unit, unit.canMoveTo p.x p.y g.map = false)) ∧
    (GameAI.moveTargets g playerId ≠ [] →
      ∃ target ∈ GameAI.moveTargets g playerId,
        (∀ s ∈ GameAI.moveTargets g playerId, s.priority ≤ target.priority) ∧
        (∀ s ∈ GameAI.moveTargets g playerId, s.priority = target.priority →
          GameHelpers.getDistance unit.x unit.y target.x target.y ≤
            GameHelpers.getDistance unit.x unit.y s.x s.y) ∧
        ∀ pos : Pos, GameAI.findMoveTarget g playerId unit = some pos →
          ∃ k : Nat, (GameAI.neighbours unit)[k]? = some pos ∧
            (0 ≤ pos.x ∧ pos.x < g.map.width ∧ 0 ≤ pos.y ∧ pos.y < g.map.height) ∧
            GameHelpers.canUnitMoveTo unit.type.name (g.map.getTerrain pos.x pos.y) = true ∧
            ∀ (j : Nat) (q : Pos), (GameAI.neighbours unit)[j]? = some q →
              unit.canMoveTo q.x q.y g.map = true →
              GameHelpers.getDistance pos.x pos.y target.x target.y ≤
                GameHelpers.getDistance q.x q.y target.x target.y ∧
              (j < k →
                GameHelpers.getDistance pos.x pos.y target.x target.y <
                  GameHelpers.getDistance q.x q.y target.x target.y)) := by
  have hnb : GameAI.neighbours unit =
      [{ x := unit.x, y := unit.y - 1 }, { x := unit.x + 1, y := unit.y },
       { x := unit.x, y := unit.y + 1 }, { x := unit.x - 1, y := unit.y }] := by
    unfold GameAI.neighbours GameAI.directions GameAI.stepTo
    simp only [List.map_cons, List.map_nil, Int.add_zero]
    rfl
  refine ⟨mem_moveTargets g playerId, hnb, ?_, ?_⟩
  · by_cases hne : GameAI.moveTargets g playerId = []
    · unfold GameAI.findMoveTarget
      simp only [hne, List.length_nil, if_true, true_or]
    · obtain ⟨t, ht, _, _⟩ := sortTargets_head unit _ hne
      have hlen : ¬ (GameAI.moveTargets g playerId).length = 0 := by
        intro h
        exact hne (List.length_eq_zero.mp h)
      have hfind : GameAI.findMoveTarget g playerId unit =
          GameAI.getNextStepToward g unit t.x t.y := by
        unfold GameAI.findMoveTarget
        simp only [hlen, if_false, ht]
      rw [hfind]
      rcases getNextStepToward_spec g unit t.x t.y with ⟨h1, h2⟩ | ⟨k, pos, hk, h1, h2, _⟩
      · constructor
        · intro _
          exact Or.inr h2
        · intro _
          exact h1
      · constructor
        · intro h
          rw [h1] at h
          cases h
        · rintro (h | h)
          · exact absurd h hne
          · have := h pos (List.getElem?_mem hk)
            rw [this] at h2
            cases h2
  · intro hne
    obtain ⟨t, ht, hmem, hle⟩ := sortTargets_head unit _ hne
    have hlen : ¬ (GameAI.moveTargets g playerId).length = 0 := by
      intro h
      exact hne (List.length_eq_zero.mp h)
    have hfind : GameAI.findMoveTarget g playerId unit =
        GameAI.getNextStepToward g unit t.x t.y := by
      unfold GameAI.findMoveTarget
      simp only [hlen, if_false, ht]
    refine ⟨t, hmem, ?_, ?_, ?_⟩
    · intro s hs
      have := (compareTargets_le_iff unit t s).mp (hle s hs)
      omega
    · intro s hs hp
      have := (compareTargets_le_iff unit t s).mp (hle s hs)
      omega
    · intro pos hpos
      rw [hfind] at hpos
      rcases getNextStepToward_spec g unit t.x t.y with ⟨h1, _⟩ | ⟨k, found, hk, h1, h2, h3⟩
      · rw [h1] at hpos
        cases hpos
      · rw [h1] at hpos
        have hp : found = pos := Option.some.inj hpos
        rw [← hp]
        have hb := (canMoveTo_eq_true_iff unit found.x found.y g.map).mp h2
        exact ⟨k, hk, hb.1, hb.2, h3⟩

/-! ### The computer player: attack or move -/

/-- C34 fails in `ambushGame`: the army of the computer player at (1,1) has not
attacked and has an enemy army next to it at (1,0), at distance 1; but the first
enemy that `findEnemyTargets` lists stands diagonally at (0,0), at distance 2,
`canAttack` refuses it, and `processUnitAction` issues a move (to (1,0))
instead of an attack: afterwards no unit is lost and the army has not attacked. -/
theorem processUnitAction_moves_next_to_enemy :
    (ambushGame.units.map (fun u => (u.id, u.owner, u.x, u.y, u.hasAttacked)) =
        [("u1", 1, 1, 1, false), ("u2", 0, 0, 0, false), ("u3", 0, 1, 0, false)] ∧
      GameHelpers.getDistance 1 1 1 0 = 1 ∧
      (Unit.new .army 1 1 1 "u1").canAttack 1 0 = true) ∧
    (GameAI.findEnemyTargets ambushGame 1 (Unit.new .army 1 1 1 "u1") = [1, 2] ∧
      (Unit.new .army 1 1 1 "u1").canAttack 0 0 = false) ∧
    GameAI.chooseCommand ambushGame 1 0 = some (Command.move 0 1 0) ∧
    (GameAI.processUnitAction ambushGame 1 0 0 0 0 0).map
      (fun g => g.units.map (fun u => (u.id, u.x, u.y, u.movesRemaining, u.hasAttacked))) =
      some [("u1", 1, 0, 0, false), ("u2", 0, 0, 1, false), ("u3", 1, 0, 1, false)] := by
  refine ⟨?_, ?_, ?_, ?_⟩ <;> decide!

/-! ### The iteration cap of `findPath` -/

theorem relax_skip (u : Unit) (m : GameMap) (tx ty : Int) (current nb : Pos) (st : AStar)
    (h : nb ∈ st.closedSet ∨ u.canMoveTo nb.x nb.y m = false) :
    Unit.relax u m tx ty current st nb = st := by
  unfold Unit.relax
  by_cases hcl : st.closedSet.contains nb = true
  · rw [if_pos hcl]
  · rw [if_neg hcl]
    rcases h with h | h
    · exact absurd (by simpa using h) hcl
    · rw [h]
      rfl

theorem relax_new (u : Unit) (m : GameMap) (tx ty : Int) (current nb : Pos) (st : AStar)
    (hcl : nb ∉ st.closedSet) (hcan : u.canMoveTo nb.x nb.y m = true)
    (hop : nb ∉ st.openSet) :
    Unit.relax u m tx ty current st nb =
      Unit.record { st with openSet := st.openSet ++ [nb] } tx ty current nb
        ((st.gScore current).map (fun s => s + 1)) := by
  unfold Unit.relax
  have h1 : ¬ st.closedSet.contains nb = true := by simpa using hcl
  have h2 : (!st.openSet.contains nb) = true := by simpa using hop
  rw [if_neg h1, hcan]
  simp only [Bool.not_true, Bool.false_eq_true, if_false]
  rw [if_pos h2]

theorem getD_row_replicate (n : Nat) (a d : String) (i : Nat) (h : i < n) :
    (([List.replicate n a] : List (List String)).getD (0 : Int).toNat []).getD i d = a := by
  simp [List.getD_eq_getElem?_getD, List.getElem?_replicate, h]

theorem corridor_canMoveTo (x y : Int) :
    (Unit.new .army 0 0 0 "u1").canMoveTo x y corridorMap = true ↔
      (0 ≤ x ∧ x < 1001 ∧ y = 0) := by
  rw [canMoveTo_eq_true_iff]
  constructor
  · rintro ⟨⟨h1, h2, h3, h4⟩, _⟩
    have h2' : x < 1001 := h2
    have h4' : y < 1 := h4
    exact ⟨h1, h2', by omega⟩
  · rintro ⟨h1, h2, h3⟩
    subst h3
    refine ⟨⟨h1, h2, le_refl _, by decide⟩, ?_⟩
    have hterrain : corridorMap.getTerrain x 0 = "land" := by
      unfold GameMap.getTerrain
      have hb : ¬ (x < 0 ∨ x ≥ corridorMap.width ∨ (0 : Int) < 0 ∨ (0 : Int) ≥ corridorMap.height) := by
        have hw : corridorMap.width = 1001 := rfl
        have hh : corridorMap.height = 1 := rfl
        rw [hw, hh]
        omega
      rw [if_neg hb]
      have hlt : x.toNat < 1001 := by omega
      exact getD_row_replicate 1001 "land" "undefined" x.toNat hlt
    rw [hterrain]
    decide

theorem corridor_step (tx ty : Int) (k : Nat) (hk : k < 1000) (st : AStar)
    (h : CorridorInv k st) :
    CorridorInv (k + 1)
      ((Unit.neighbors { x := (k : Int), y := 0 }).foldl
        (Unit.relax (Unit.new .army 0 0 0 "u1") corridorMap tx ty { x := (k : Int), y := 0 })
        { st with iterations := st.iterations + 1,
                  openSet := st.openSet.erase { x := (k : Int), y := 0 },
                  closedSet := { x := (k : Int), y := 0 } :: st.closedSet }) := by
  obtain ⟨hopen, hiter, hclosed, hprev⟩ := h
  have herase : st.openSet.erase { x := (k : Int), y := 0 } = [] := by
    rw [hopen]
    simp
  rw [herase]
  unfold Unit.neighbors
  simp only [List.foldl_cons, List.foldl_nil]
  have hclosed2 : ∀ p ∈ ({ x := (k : Int), y := 0 } : Pos) :: st.closedSet,
      ∃ j : Nat, j < k + 1 ∧ p = { x := (j : Int), y := 0 } := by
    intro p hp
    rcases List.mem_cons.mp hp with hp | hp
    · exact ⟨k, by omega, hp⟩
    · obtain ⟨j, hj, hpj⟩ := hclosed p hp
      exact ⟨j, by omega, hpj⟩
  rw [relax_skip _ _ _ _ _ { x := (k : Int) - 1, y := 0 }]
  · rw [relax_new _ _ _ _ _ { x := (k : Int) + 1, y := 0 }]
    · have hrec : ∀ (s : AStar) (c n : Pos) (t : Option Int),
          (Unit.record s tx ty c n t).openSet = s.openSet ∧
          (Unit.record s tx ty c n t).closedSet = s.closedSet ∧
          (Unit.record s tx ty c n t).iterations = s.iterations :=
        fun _ _ _ _ => ⟨rfl, rfl, rfl⟩
      rw [relax_skip _ _ _ _ _ { x := (k : Int), y := 0 - 1 }]
      · rw [relax_skip _ _ _ _ _ { x := (k : Int), y := 0 + 1 }]
        · refine ⟨?_, ?_, ?_, ?_⟩
          · rw [(hrec _ _ _ _).1]
            simp
          · rw [(hrec _ _ _ _).2.2]
            simp only
            rw [hiter]
          · rw [(hrec _ _ _ _).2.1]
            exact hclosed2
          · intro _
            rw [(hrec _ _ _ _).2.1]
            simp
        · right
          cases hc : (Unit.new .army 0 0 0 "u1").canMoveTo (k : Int) (0 + 1) corridorMap
          · rfl
          · have := (corridor_canMoveTo _ _).mp hc
            omega
      · right
        cases hc : (Unit.new .army 0 0 0 "u1").canMoveTo (k : Int) (0 - 1) corridorMap
        · rfl
        · have := (corridor_canMoveTo _ _).mp hc
          omega
    · intro hmem
      obtain ⟨j, hj, hpj⟩ := hclosed2 _ hmem
      simp only [Pos.mk.injEq, and_true] at hpj
      omega
    · exact (corridor_canMoveTo ((k : Int) + 1) 0).mpr ⟨by omega, by omega, rfl⟩
    · simp
  · by_cases hk0 : 1 ≤ k
    · left
      exact List.mem_cons_of_mem _ (hprev hk0)
    · right
      cases hc : (Unit.new .army 0 0 0 "u1").canMoveTo ((k : Int) - 1) 0 corridorMap
      · rfl
      · have := (corridor_canMoveTo _ _).mp hc
        omega

theorem corridor_search (rfuel : Nat) :
    ∀ (n k : Nat) (st : AStar), k + n = 1000 → CorridorInv k st →
      ∀ fuel : Nat, n < fuel →
        ∃ st', Unit.search (Unit.new .army 0 0 0 "u1") corridorMap 1000 0 rfuel fuel st =
            some (st', none) ∧
          st'.iterations = 1000 ∧ st'.openSet = [{ x := 1000, y := 0 }] ∧
          ({ x := 1000, y := 0 } : Pos) ∉ st'.closedSet := by
  intro n
  induction n with
  | zero =>
    intro k st hk h fuel hfuel
    obtain ⟨m, rfl⟩ := Nat.exists_eq_succ_of_ne_zero (Nat.pos_iff_ne_zero.mp hfuel)
    have hk' : k = 1000 := by omega
    subst hk'
    obtain ⟨hopen, hiter, hclosed, _⟩ := h
    rw [Unit.search, hopen]
    simp only
    have hnlt : ¬ st.iterations < 1000 := by omega
    rw [if_neg hnlt]
    refine ⟨st, rfl, hiter, hopen, ?_⟩
    intro hmem
    obtain ⟨j, hj, hpj⟩ := hclosed _ hmem
    simp only [Pos.mk.injEq, and_true] at hpj
    omega
  | succ n ih =>
    intro k st hk h fuel hfuel
    obtain ⟨m, rfl⟩ := Nat.exists_eq_succ_of_ne_zero
      (Nat.pos_iff_ne_zero.mp (Nat.lt_of_le_of_lt (Nat.zero_le _) hfuel))
    have hklt : k < 1000 := by omega
    have hstep := corridor_step 1000 0 k hklt st h
    obtain ⟨hopen, hiter, _, _⟩ := h
    rw [Unit.search, hopen]
    simp only
    have hlt : st.iterations < 1000 := by omega
    rw [if_pos hlt]
    have hcur : Unit.lowestF st.fScore { x := (k : Int), y := 0 } [] = { x := (k : Int), y := 0 } :=
      rfl
    rw [hcur]
    have hnt : ¬ ({ x := (k : Int), y := 0 } : Pos) = { x := 1000, y := 0 } := by
      simp only [Pos.mk.injEq, and_true]
      omega
    rw [if_neg hnt]
    rw [← hopen]
    exact ih (k + 1) _ (by omega) hstep m (by omega)

theorem searchStart_corridor :
    CorridorInv 0 (Unit.searchStart 0 0 1000 0) := by
  refine ⟨rfl, rfl, ?_, ?_⟩
  · intro p hp
    cases hp
  · intro h
    omega

theorem corridorRoute_chain : ∀ (n s : Nat),
    List.Chain' Adjacent
      ((List.range' s n).map (fun (i : Nat) => ({ x := (i : Int), y := 0 } : Pos))) := by
  intro n
  induction n with
  | zero => intro s; simp
  | succ n ih =>
    intro s
    cases n with
    | zero => simp
    | succ n =>
      have h := ih (s + 1)
      simp only [List.range'_succ, List.map_cons] at h ⊢
      refine List.Chain'.cons ?_ h
      unfold Adjacent GameHelpers.getDistance
      simp only
      omega

/-- C31: on `corridorMap`, a row of 1001 land tiles, `corridorRoute` is a valid
walk of an army from (0,0) to (1000,0) (consecutive tiles adjacent, every tile
inside the map and of a terrain open to armies), and yet `findPath` returns
null for that start and goal, given any fuel from 1001 on: the loop ends
because `iterations` has reached 1000, with the goal still waiting in the open
set, never expanded. -/
theorem findPath_cap_hides_path :
    (corridorRoute.head? = some { x := 0, y := 0 } ∧
      corridorRoute.getLast? = some { x := 1000, y := 0 } ∧
      List.Chain' Adjacent corridorRoute ∧
      ∀ t ∈ corridorRoute,
        (0 ≤ t.x ∧ t.x < corridorMap.width ∧ 0 ≤ t.y ∧ t.y < corridorMap.height) ∧
        GameHelpers.canUnitMoveTo (Unit.new .army 0 0 0 "u1").type.name
          (corridorMap.getTerrain t.x t.y) = true) ∧
    (∀ k : Nat,
      Unit.findPath (1001 + k) (Unit.new .army 0 0 0 "u1") 0 0 1000 0 corridorMap = some none) ∧
    (∀ k : Nat, ∃ st : AStar,
      Unit.search (Unit.new .army 0 0 0 "u1") corridorMap 1000 0 (1001 + k) (1001 + k)
        (Unit.searchStart 0 0 1000 0) = some (st, none) ∧
      st.iterations = 1000 ∧ st.openSet = [{ x := 1000, y := 0 }] ∧
      ({ x := 1000, y := 0 } : Pos) ∉ st.closedSet) := by
  have hsearch : ∀ k : Nat, ∃ st : AStar,
      Unit.search (Unit.new .army 0 0 0 "u1") corridorMap 1000 0 (1001 + k) (1001 + k)
        (Unit.searchStart 0 0 1000 0) = some (st, none) ∧
      st.iterations = 1000 ∧ st.openSet = [{ x := 1000, y := 0 }] ∧
      ({ x := 1000, y := 0 } : Pos) ∉ st.closedSet := fun k =>
    corridor_search (1001 + k) 1000 0 _ (by omega) searchStart_corridor (1001 + k) (by omega)
  refine ⟨⟨?_, ?_, ?_, ?_⟩, ?_, hsearch⟩
  · unfold corridorRoute
    rw [List.range_succ_eq_map]
    rfl
  · unfold corridorRoute
    rw [List.range_succ]
    simp
  · unfold corridorRoute
    rw [List.range_eq_range']
    exact corridorRoute_chain 1001 0
  · intro t ht
    unfold corridorRoute at ht
    obtain ⟨i, hi, rfl⟩ := List.mem_map.mp ht
    rw [List.mem_range] at hi
    exact (canMoveTo_eq_true_iff _ _ _ _).mp
      ((corridor_canMoveTo (i : Int) 0).mpr ⟨by omega, by omega, rfl⟩)
  · intro k
    obtain ⟨st, hst, _⟩ := hsearch k
    unfold Unit.findPath
    simp only
    have hterr : GameHelpers.canUnitMoveTo (Unit.new .army 0 0 0 "u1").type.name
        (corridorMap.getTerrain 1000 0) = true :=
      ((canMoveTo_eq_true_iff _ _ _ _).mp
        ((corridor_canMoveTo 1000 0).mpr ⟨by omega, by omega, rfl⟩)).2
    rw [hterr, hst]
    rfl

/-! ### Optimality of the path that `findPath` returns -/

theorem heuristic_lipschitz (a b : Pos) (tx ty : Int) (h : Adjacent a b) :
    Unit.heuristic a.x a.y tx ty ≤ Unit.heuristic b.x b.y tx ty + 1 := by
  unfold Adjacent GameHelpers.getDistance at h
  unfold Unit.heuristic
  omega

theorem adjacent_mem_neighbors (current nb : Pos) (h : Adjacent current nb) :
    nb ∈ Unit.neighbors current := by
  unfold Adjacent GameHelpers.getDistance at h
  simp only [Unit.neighbors, List.mem_cons, List.mem_singleton, List.not_mem_nil, or_false]
  obtain ⟨cx, cy⟩ := current
  obtain ⟨nx, ny⟩ := nb
  simp only [Pos.mk.injEq] at h ⊢
  omega

theorem adjacent_ne (a b : Pos) (h : Adjacent a b) : a ≠ b := by
  intro hab
  subst hab
  unfold Adjacent GameHelpers.getDistance at h
  omega

theorem lowestF_min (f : Pos → Option Int) (rest : List Pos) :
    ∀ first : Pos, (∀ n ∈ first :: rest, ∃ v, f n = some v) →
      ∀ n ∈ first :: rest, ∃ vc vn, f (Unit.lowestF f first rest) = some vc ∧
        f n = some vn ∧ vc ≤ vn := by
  induction rest with
  | nil =>
    intro first hdef n hn
    rw [List.mem_singleton] at hn
    subst hn
    obtain ⟨v, hv⟩ := hdef n (List.mem_singleton.mpr rfl)
    exact ⟨v, v, hv, hv, le_refl _⟩
  | cons a rest ih =>
    intro first hdef n hn
    obtain ⟨vf, hvf⟩ := hdef first (List.mem_cons_self _ _)
    obtain ⟨va, hva⟩ := hdef a (List.mem_cons_of_mem _ (List.mem_cons_self _ _))
    have hstep : Unit.lowestF f first (a :: rest) =
        Unit.lowestF f (if Unit.scoreLt (f a) (f first) = true then a else first) rest := by
      unfold Unit.lowestF
      rw [List.foldl_cons]
    rw [hstep]
    have hlt : Unit.scoreLt (f a) (f first) = decide (va < vf) := by
      rw [hva, hvf]
      rfl
    by_cases hc : va < vf
    · have hs : Unit.scoreLt (f a) (f first) = true := by rw [hlt]; exact decide_eq_true hc
      rw [if_pos hs]
      have hdef2 : ∀ n ∈ a :: rest, ∃ v, f n = some v := fun n hn =>
        hdef n (List.mem_cons_of_mem _ hn)
      rcases List.mem_cons.mp hn with h1 | h1
      · subst h1
        obtain ⟨vc, vn, h2, h3, h4⟩ := ih a hdef2 a (List.mem_cons_self _ _)
        rw [hva] at h3
        cases h3
        exact ⟨vc, vf, h2, hvf, by omega⟩
      · exact ih a hdef2 n h1
    · have hs : ¬ Unit.scoreLt (f a) (f first) = true := by
        rw [hlt]
        simpa using hc
      rw [if_neg hs]
      have hdef2 : ∀ n ∈ first :: rest, ∃ v, f n = some v := by
        intro n hn
        rcases List.mem_cons.mp hn with h1 | h1
        · subst h1
          exact ⟨vf, hvf⟩
        · exact hdef n (List.mem_cons_of_mem _ (List.mem_cons_of_mem _ h1))
      rcases List.mem_cons.mp hn with h1 | h1
      · subst h1
        exact ih n hdef2 n (List.mem_cons_self _ _)
      · rcases List.mem_cons.mp h1 with h2 | h2
        · subst h2
          obtain ⟨vc, vn, h3, h4, h5⟩ := ih first hdef2 first (List.mem_cons_self _ _)
          rw [hvf] at h4
          cases h4
          exact ⟨vc, va, h3, hva, by omega⟩
        · exact ih first hdef2 n (List.mem_cons_of_mem _ h2)

theorem optInv_frontier {u : Unit} {m : GameMap} {start : Pos} {tx ty : Int} {st : AStar}
    (hopt : OptInv u m start tx ty none [] st)
    (hstart : start ∈ st.closedSet ∨ st.openSet = [start]) :
    ∀ (n : Pos) (k : Nat), Walk u m start n k →
      (n ∈ st.closedSet ∧ ∃ gn, st.gScore n = some gn ∧ gn ≤ (k : Int)) ∨
      (∃ o ∈ st.openSet, ∃ go, st.gScore o = some go ∧
        go + Unit.heuristic o.x o.y tx ty ≤ (k : Int) + Unit.heuristic n.x n.y tx ty) := by
  intro n k hw
  induction hw with
  | nil =>
    rcases hstart with h | h
    · left
      exact ⟨h, 0, hopt.gstart, by simp⟩
    · right
      refine ⟨start, ?_, 0, hopt.gstart, by simp⟩
      rw [h]
      exact List.mem_singleton.mpr rfl
  | step a b k _ hadj hcan ih =>
    have hl := heuristic_lipschitz a b tx ty hadj
    rcases ih with ⟨hcl, ga, hga, hle⟩ | ⟨o, ho, go, hgo, hle⟩
    · obtain ⟨hmem, ga', gb, hga', hgb, hab⟩ := hopt.nbr a b hcl hadj hcan (Or.inl (by simp))
      rw [hga] at hga'
      cases hga'
      rcases hmem with hb | hb
      · right
        refine ⟨b, hb, gb, hgb, ?_⟩
        push_cast
        omega
      · left
        refine ⟨hb, gb, hgb, ?_⟩
        push_cast
        omega
    · right
      refine ⟨o, ho, go, hgo, ?_⟩
      push_cast
      omega

theorem optInv_fdef {u : Unit} {m : GameMap} {start : Pos} {tx ty : Int} {cur : Option Pos}
    {done : List Pos} {st : AStar} (hopt : OptInv u m start tx ty cur done st)
    (n : Pos) (hn : n ∈ st.openSet) :
    ∃ k : Nat, st.gScore n = some (k : Int) ∧ Walk u m start n k ∧
      st.fScore n = some ((k : Int) + Unit.heuristic n.x n.y tx ty) := by
  obtain ⟨k, hk, hw⟩ := hopt.sound n (Or.inl hn)
  refine ⟨k, hk, hw, ?_⟩
  rw [hopt.fscore n hn, hk]
  rfl

theorem optInv_current {u : Unit} {m : GameMap} {start : Pos} {tx ty : Int} {st : AStar}
    (hopt : OptInv u m start tx ty none [] st)
    (hstart : start ∈ st.closedSet ∨ st.openSet = [start])
    (first : Pos) (rest : List Pos) (hopen : st.openSet = first :: rest) :
    ∀ k : Nat, Walk u m start (Unit.lowestF st.fScore first rest) k →
      ∃ gc, st.gScore (Unit.lowestF st.fScore first rest) = some gc ∧ gc ≤ (k : Int) := by
  intro k hw
  have hmem : Unit.lowestF st.fScore first rest ∈ st.openSet := by
    rw [hopen]
    exact lowestF_mem _ _ _
  have hdef : ∀ n ∈ first :: rest, ∃ v, st.fScore n = some v := by
    intro n hn
    rw [← hopen] at hn
    obtain ⟨k, _, _, hf⟩ := optInv_fdef hopt n hn
    exact ⟨_, hf⟩
  obtain ⟨kc, hgc, _, hfc⟩ := optInv_fdef hopt _ hmem
  rcases optInv_frontier hopt hstart _ k hw with ⟨hcl, _⟩ | ⟨o, ho, go, hgo, hle⟩
  · exact absurd hcl (hopt.disjoint _ hmem)
  · obtain ⟨ko, hgo', _, hfo⟩ := optInv_fdef hopt o ho
    rw [hgo] at hgo'
    cases hgo'
    obtain ⟨vc, vn, h1, h2, h3⟩ := lowestF_min st.fScore rest first hdef o (hopen ▸ ho)
    rw [hfc] at h1
    rw [hfo] at h2
    cases h1
    cases h2
    exact ⟨kc, hgc, by omega⟩

theorem optInv_close {u : Unit} {m : GameMap} {start : Pos} {tx ty : Int} {st : AStar}
    (hopt : OptInv u m start tx ty none [] st)
    (hstart : start ∈ st.closedSet ∨ st.openSet = [start])
    (first : Pos) (rest : List Pos) (hopen : st.openSet = first :: rest) :
    OptInv u m start tx ty (some (Unit.lowestF st.fScore first rest)) []
      { st with iterations := st.iterations + 1,
                openSet := st.openSet.erase (Unit.lowestF st.fScore first rest),
                closedSet := Unit.lowestF st.fScore first rest :: st.closedSet } := by
  have hcur := optInv_current hopt hstart first rest hopen
  have hmem : Unit.lowestF st.fScore first rest ∈ st.openSet := by
    rw [hopen]
    exact lowestF_mem _ _ _
  generalize Unit.lowestF st.fScore first rest = current at hcur hmem ⊢
  refine ⟨hopt.gstart, ?_, ?_, ?_, ?_, ?_, ?_⟩
  · intro n n' hn hadj hcan hprem
    have hne : n ≠ current := by
      rcases hprem with h | h
      · intro heq
        exact h (by rw [heq])
      · cases h
    have hn' : n ∈ st.closedSet := by
      rcases List.mem_cons.mp hn with h | h
      · exact absurd h hne
      · exact h
    obtain ⟨hm, hsc⟩ := hopt.nbr n n' hn' hadj hcan (Or.inl (by simp))
    refine ⟨?_, hsc⟩
    rcases hm with h | h
    · by_cases hc : n' = current
      · right
        rw [hc]
        exact List.mem_cons_self _ _
      · left
        exact (List.mem_erase_of_ne hc).mpr h
    · right
      exact List.mem_cons_of_mem _ h
  · intro n k hn hw
    rcases List.mem_cons.mp hn with h | h
    · subst h
      exact hcur k hw
    · exact hopt.closedOpt n k h hw
  · intro n hn
    apply hopt.sound
    rcases hn with h | h
    · exact Or.inl (List.mem_of_mem_erase h)
    · rcases List.mem_cons.mp h with h | h
      · exact Or.inl (h ▸ hmem)
      · exact Or.inr h
  · intro n hn
    exact hopt.fscore n (List.mem_of_mem_erase hn)
  · intro n hn hcl
    have h1 := (List.Nodup.mem_erase_iff hopt.nodup).mp hn
    rcases List.mem_cons.mp hcl with h | h
    · exact h1.1 h
    · exact hopt.disjoint n h1.2 h
  · exact hopt.nodup.erase _

theorem optInv_extend {u : Unit} {m : GameMap} {start : Pos} {tx ty : Int} {current nb : Pos}
    {done : List Pos} {st : AStar} (hopt : OptInv u m start tx ty (some current) done st)
    (hnb : u.canMoveTo nb.x nb.y m = true →
      (nb ∈ st.openSet ∨ nb ∈ st.closedSet) ∧
        ∃ gn gn', st.gScore current = some gn ∧ st.gScore nb = some gn' ∧ gn' ≤ gn + 1) :
    OptInv u m start tx ty (some current) (done ++ [nb]) st := by
  refine ⟨hopt.gstart, ?_, hopt.closedOpt, hopt.sound, hopt.fscore, hopt.disjoint, hopt.nodup⟩
  intro n n' hn hadj hcan hprem
  by_cases h1 : some n ≠ some current ∨ n' ∈ done
  · exact hopt.nbr n n' hn hadj hcan h1
  · have hn1 : n = current := by
      by_contra hne
      exact h1 (Or.inl (fun h => hne (Option.some.inj h)))
    have hn2 : n' = nb := by
      rcases hprem with h | h
      · exact absurd h (fun hh => h1 (Or.inl hh))
      · rcases List.mem_append.mp h with h | h
        · exact absurd (Or.inr h) h1
        · exact List.mem_singleton.mp h
    subst hn1
    subst hn2
    exact hnb hcan

theorem optInv_record {u : Unit} {m : GameMap} {start current nb : Pos} {tx ty : Int}
    {done : List Pos} {st st0 : AStar} (gc : Nat)
    (hopt : OptInv u m start tx ty (some current) done st)
    (hs : start ∈ st.closedSet) (hc : current ∈ st.closedSet)
    (hg : st.gScore current = some (gc : Int)) (hw : Walk u m start current gc)
    (hadj : Adjacent current nb) (hnc : nb ∉ st.closedSet)
    (hcm : u.canMoveTo nb.x nb.y m = true)
    (h1 : st0.closedSet = st.closedSet) (h2 : st0.gScore = st.gScore)
    (h3 : st0.fScore = st.fScore)
    (h5 : ∀ n, n ∈ st0.openSet ↔ (n ∈ st.openSet ∨ n = nb))
    (h6 : st0.openSet.Nodup)
    (h7 : nb ∈ st.openSet → ∃ v, st.gScore nb = some v ∧ (gc : Int) + 1 ≤ v) :
    OptInv u m start tx ty (some current) (done ++ [nb])
      (Unit.record st0 tx ty current nb (some ((gc : Int) + 1))) := by
  have hcn : current ≠ nb := fun h => hnc (h ▸ hc)
  have hsn : start ≠ nb := fun h => hnc (h ▸ hs)
  refine ⟨?_, ?_, ?_, ?_, ?_, ?_, ?_⟩
  · simp only [Unit.record, Unit.setKey, h2, if_neg hsn]
    exact hopt.gstart
  · intro n n' hn hadj' hcan hprem
    have hn' : n ∈ st.closedSet := by
      simp only [Unit.record, h1] at hn
      exact hn
    have hnnb : n ≠ nb := fun h => hnc (h ▸ hn')
    simp only [Unit.record, Unit.setKey, h1, h2, if_neg hnnb]
    by_cases hn2 : n' = nb
    · subst hn2
      simp only [if_true]
      refine ⟨Or.inl ((h5 n').mpr (Or.inr rfl)), ?_⟩
      by_cases hn1 : n = current
      · subst hn1
        exact ⟨gc, gc + 1, hg, rfl, le_refl _⟩
      · obtain ⟨hm, gn, gn', hgn, hgn', hle⟩ := hopt.nbr n n' hn' hadj' hcan
          (Or.inl (fun h => hn1 (Option.some.inj h)))
        have hop : n' ∈ st.openSet := by
          rcases hm with h | h
          · exact h
          · exact absurd h hnc
        obtain ⟨v, hv, hle2⟩ := h7 hop
        rw [hgn'] at hv
        cases hv
        exact ⟨gn, gc + 1, hgn, rfl, by omega⟩
    · simp only [if_neg hn2]
      have hprem' : some n ≠ some current ∨ n' ∈ done := by
        rcases hprem with h | h
        · exact Or.inl h
        · rcases List.mem_append.mp h with h | h
          · exact Or.inr h
          · exact absurd (List.mem_singleton.mp h) hn2
      obtain ⟨hm, hsc⟩ := hopt.nbr n n' hn' hadj' hcan hprem'
      refine ⟨?_, hsc⟩
      rcases hm with h | h
      · exact Or.inl ((h5 n').mpr (Or.inl h))
      · exact Or.inr h
  · intro n k hn hwalk
    have hn' : n ∈ st.closedSet := by
      simp only [Unit.record, h1] at hn
      exact hn
    have hnnb : n ≠ nb := fun h => hnc (h ▸ hn')
    simp only [Unit.record, Unit.setKey, h2, if_neg hnnb]
    exact hopt.closedOpt n k hn' hwalk
  · intro n hn
    simp only [Unit.record, Unit.setKey, h1, h2] at hn ⊢
    by_cases hnnb : n = nb
    · subst hnnb
      simp only [if_true]
      exact ⟨gc + 1, by push_cast; rfl, Walk.step current n gc hw hadj hcm⟩
    · simp only [if_neg hnnb]
      apply hopt.sound
      rcases hn with h | h
      · rcases (h5 n).mp h with h | h
        · exact Or.inl h
        · exact absurd h hnnb
      · exact Or.inr h
  · intro n hn
    simp only [Unit.record, Unit.setKey, h2, h3] at hn ⊢
    by_cases hnnb : n = nb
    · subst hnnb
      simp only [if_true]
    · simp only [if_neg hnnb]
      apply hopt.fscore
      rcases (h5 n).mp hn with h | h
      · exact h
      · exact absurd h hnnb
  · intro n hn
    simp only [Unit.record, h1] at hn ⊢
    rcases (h5 n).mp hn with h | h
    · exact hopt.disjoint n h
    · rw [h]
      exact hnc
  · exact h6

theorem optInv_relax {u : Unit} {m : GameMap} {start current : Pos} {tx ty : Int}
    {done : List Pos} (gc : Nat) (nb : Pos) (st : AStar)
    (hopt : OptInv u m start tx ty (some current) done st)
    (hs : start ∈ st.closedSet) (hc : current ∈ st.closedSet)
    (hg : st.gScore current = some (gc : Int)) (hw : Walk u m start current gc)
    (hadj : Adjacent current nb) :
    OptInv u m start tx ty (some current) (done ++ [nb]) (Unit.relax u m tx ty current st nb) ∧
    (Unit.relax u m tx ty current st nb).closedSet = st.closedSet ∧
    (Unit.relax u m tx ty current st nb).gScore current = some (gc : Int) := by
  unfold Unit.relax
  by_cases hcl : st.closedSet.contains nb = true
  · rw [if_pos hcl]
    have hmem : nb ∈ st.closedSet := by simpa using hcl
    refine ⟨optInv_extend hopt ?_, rfl, hg⟩
    intro hcan
    obtain ⟨gn, hgn, hle⟩ := hopt.closedOpt nb (gc + 1) hmem (Walk.step current nb gc hw hadj hcan)
    refine ⟨Or.inr hmem, gc, gn, hg, hgn, ?_⟩
    push_cast at hle
    exact hle
  · rw [if_neg hcl]
    have hnc : nb ∉ st.closedSet := by
      intro h
      apply hcl
      simpa using h
    have hcn : current ≠ nb := fun h => hnc (h ▸ hc)
    by_cases hcm : u.canMoveTo nb.x nb.y m = true
    · simp only [hcm, Bool.not_true, Bool.false_eq_true, if_false, hg, Option.map_some']
      have hkeep : ∀ st0 : AStar, st0.gScore = st.gScore →
          (Unit.record st0 tx ty current nb (some ((gc : Int) + 1))).gScore current =
            some (gc : Int) := by
        intro st0 h0
        simp only [Unit.record, Unit.setKey, h0, if_neg hcn]
        exact hg
      by_cases hop : st.openSet.contains nb = true
      · have hopm : nb ∈ st.openSet := by simpa using hop
        have hnop : ¬ (!st.openSet.contains nb) = true := by simpa using hopm
        rw [if_neg hnop]
        obtain ⟨kn, hkn, _⟩ := hopt.sound nb (Or.inl hopm)
        by_cases hge : Unit.scoreGe (some ((gc : Int) + 1)) (st.gScore nb) = true
        · rw [if_pos hge]
          refine ⟨optInv_extend hopt ?_, rfl, hg⟩
          intro _
          rw [hkn] at hge
          have hge' : ((gc : Int) + 1 ≥ (kn : Int)) := by
            simpa [Unit.scoreGe] using hge
          exact ⟨Or.inl hopm, gc, kn, hg, hkn, hge'⟩
        · rw [if_neg hge]
          refine ⟨optInv_record gc hopt hs hc hg hw hadj hnc hcm rfl rfl rfl ?_ hopt.nodup ?_,
            rfl, hkeep _ rfl⟩
          · intro n
            constructor
            · intro h
              exact Or.inl h
            · rintro (h | h)
              · exact h
              · rw [h]
                exact hopm
          · intro _
            rw [hkn] at hge
            have hlt : ¬ ((gc : Int) + 1 ≥ (kn : Int)) := by
              simpa [Unit.scoreGe] using hge
            exact ⟨kn, hkn, by omega⟩
      · have hopm : nb ∉ st.openSet := by
          intro h
          apply hop
          simpa using h
        have hnop : (!st.openSet.contains nb) = true := by simpa using hopm
        rw [if_pos hnop]
        refine ⟨optInv_record gc hopt hs hc hg hw hadj hnc hcm rfl rfl rfl ?_ ?_ ?_,
          rfl, hkeep _ rfl⟩
        · intro n
          simp only [List.mem_append, List.mem_singleton]
        · exact List.Nodup.append hopt.nodup (List.nodup_singleton nb)
            (by
              intro a ha hb
              rw [List.mem_singleton] at hb
              exact hopm (hb ▸ ha))
        · intro h
          exact absurd h hopm
    · have hcm' : (!u.canMoveTo nb.x nb.y m) = true := by simpa using hcm
      rw [if_pos hcm']
      refine ⟨optInv_extend hopt ?_, rfl, hg⟩
      intro hcan
      exact absurd hcan hcm

theorem foldl_relax_opt {u : Unit} {m : GameMap} {start current : Pos} {tx ty : Int} (gc : Nat)
    (hw : Walk u m start current gc) (nbs : List Pos)
    (hadj : ∀ nb ∈ nbs, Adjacent current nb) :
    ∀ (done : List Pos) (st : AStar), OptInv u m start tx ty (some current) done st →
      start ∈ st.closedSet → current ∈ st.closedSet → st.gScore current = some (gc : Int) →
      OptInv u m start tx ty (some current) (done ++ nbs)
        (nbs.foldl (Unit.relax u m tx ty current) st) := by
  induction nbs with
  | nil =>
    intro done st hopt _ _ _
    rw [List.append_nil]
    exact hopt
  | cons nb nbs ih =>
    intro done st hopt hs hc hg
    obtain ⟨h1, h2, h3⟩ :=
      optInv_relax gc nb st hopt hs hc hg hw (hadj nb (List.mem_cons_self _ _))
    rw [List.foldl_cons]
    have := ih (fun nb' h => hadj nb' (List.mem_cons_of_mem _ h)) (done ++ [nb]) _ h1
      (h2 ▸ hs) (h2 ▸ hc) h3
    rw [List.append_assoc] at this
    exact this

theorem step_opt {u : Unit} {m : GameMap} {start : Pos} (tx ty : Int) (st : AStar)
    (first : Pos) (rest : List Pos) (hinv : SearchInv u m start st)
    (hopt : OptInv u m start tx ty none [] st) (hopen : st.openSet = first :: rest) :
    OptInv u m start tx ty none []
      ((Unit.neighbors (Unit.lowestF st.fScore first rest)).foldl
        (Unit.relax u m tx ty (Unit.lowestF st.fScore first rest))
        { st with iterations := st.iterations + 1,
                  openSet := st.openSet.erase (Unit.lowestF st.fScore first rest),
                  closedSet := Unit.lowestF st.fScore first rest :: st.closedSet }) := by
  have hclose := optInv_close hopt hinv.startClosed first rest hopen
  have hmem : Unit.lowestF st.fScore first rest ∈ st.openSet := by
    rw [hopen]
    exact lowestF_mem _ _ _
  generalize Unit.lowestF st.fScore first rest = current at hclose hmem ⊢
  obtain ⟨gc, hgc, hw⟩ := hopt.sound current (Or.inl hmem)
  have hstart : start ∈ current :: st.closedSet := by
    rcases hinv.startClosed with h | h
    · exact List.mem_cons_of_mem _ h
    · rw [h, List.mem_singleton] at hmem
      rw [hmem]
      exact List.mem_cons_self _ _
  have hfold := foldl_relax_opt gc hw (Unit.neighbors current) (neighbors_adjacent current) []
    _ hclose hstart (List.mem_cons_self _ _) hgc
  rw [List.nil_append] at hfold
  refine ⟨hfold.gstart, ?_, hfold.closedOpt, hfold.sound, hfold.fscore, hfold.disjoint,
    hfold.nodup⟩
  intro n n' hn hadj hcan _
  by_cases hnc : n = current
  · subst hnc
    exact hfold.nbr n n' hn hadj hcan (Or.inr (adjacent_mem_neighbors n n' hadj))
  · exact hfold.nbr n n' hn hadj hcan (Or.inl (fun h => hnc (Option.some.inj h)))

theorem searchStart_opt (u : Unit) (m : GameMap) (sx sy tx ty : Int) :
    OptInv u m { x := sx, y := sy } tx ty none [] (Unit.searchStart sx sy tx ty) := by
  refine ⟨?_, ?_, ?_, ?_, ?_, ?_, ?_⟩
  · simp [Unit.searchStart, Unit.setKey]
  · intro n n' hn
    simp [Unit.searchStart] at hn
  · intro n k hn
    simp [Unit.searchStart] at hn
  · intro n hn
    simp only [Unit.searchStart, List.mem_singleton, List.not_mem_nil, or_false] at hn
    subst hn
    exact ⟨0, by simp [Unit.searchStart, Unit.setKey], Walk.nil⟩
  · intro n hn
    simp only [Unit.searchStart, List.mem_singleton] at hn
    subst hn
    simp [Unit.searchStart, Unit.setKey]
  · intro n _ hcl
    simp [Unit.searchStart] at hcl
  · simp [Unit.searchStart]

theorem reconstructPath_length {u : Unit} {m : GameMap} {start : Pos} {st : AStar}
    (hinv : SearchInv u m start st) (hg0 : st.gScore start = some 0) :
    ∀ (fuel : Nat) (n : Pos) (v : Int) (acc path : List Pos),
      (n ∈ st.openSet ∨ n ∈ st.closedSet) → st.gScore n = some v →
      Unit.reconstructPath st.cameFrom fuel (some n) acc = some path →
      (path.length : Int) = v + 1 + (acc.length : Int) := by
  intro fuel
  induction fuel with
  | zero =>
    intro n v acc path _ _ h
    simp [Unit.reconstructPath] at h
  | succ fuel ih =>
    intro n v acc path hn hv h
    rw [Unit.reconstructPath] at h
    cases hcf : st.cameFrom n with
    | none =>
      rw [hcf] at h
      have hp : path = n :: acc := by
        cases fuel <;> simp [Unit.reconstructPath] at h <;> exact h.symm
      have hstart : n = start := by
        rcases (hinv.reached n hn).1 with h1 | ⟨c, h1⟩
        · exact h1
        · rw [hcf] at h1
          cases h1
      rw [hstart, hg0] at hv
      cases hv
      rw [hp]
      simp only [List.length_cons, Nat.cast_add, Nat.cast_one]
      omega
    | some c =>
      rw [hcf] at h
      obtain ⟨hcc, _, _, gc, hgc, hgn⟩ := hinv.came n c hcf
      rw [hv] at hgn
      cases hgn
      have := ih c gc (n :: acc) path (Or.inr hcc) hgc h
      rw [this]
      simp only [List.length_cons, Nat.cast_add, Nat.cast_one]
      omega

theorem search_optimal {u : Unit} {m : GameMap} {start : Pos} (tx ty : Int) (rfuel : Nat) :
    ∀ (fuel : Nat) (st : AStar) (res : AStar × Option (List Pos)),
      SearchInv u m start st → OptInv u m start tx ty none [] st →
      Unit.search u m tx ty rfuel fuel st = some res →
      ∀ path, res.2 = some path →
        ∀ k : Nat, Walk u m start { x := tx, y := ty } k → path.length ≤ k + 1 := by
  intro fuel
  induction fuel with
  | zero =>
    intro st res _ _ h
    simp [Unit.search] at h
  | succ fuel ih =>
    intro st res hinv hopt h
    rw [Unit.search] at h
    split at h
    · cases h
      intro p hp
      cases hp
    · rename_i first rest hopen
      by_cases hlt : st.iterations < 1000
      · rw [if_pos hlt] at h
        simp only at h
        by_cases htarget : Unit.lowestF st.fScore first rest = { x := tx, y := ty }
        · rw [if_pos htarget] at h
          rw [Option.map_eq_some'] at h
          obtain ⟨path, hrec, hres⟩ := h
          subst hres
          intro p hp k hw
          cases hp
          have hmem : Unit.lowestF st.fScore first rest ∈ st.openSet := by
            rw [hopen]
            exact lowestF_mem _ _ _
          have hcur := optInv_current hopt hinv.startClosed first rest hopen k
            (by rw [htarget]; exact hw)
          obtain ⟨gc, hgc, hle⟩ := hcur
          have hlen := reconstructPath_length hinv hopt.gstart rfuel _ gc [] path
            (Or.inl hmem) hgc hrec
          simp only [List.length_nil, Nat.cast_zero] at hlen
          omega
        · rw [if_neg htarget] at h
          obtain ⟨hinv', _⟩ := step_inv tx ty st first rest hinv hopen
          exact ih _ res hinv' (step_opt tx ty st first rest hinv hopt hopen) h
      · rw [if_neg hlt] at h
        cases h
        intro p hp
        cases hp

theorem walk_of_chain (u : Unit) (m : GameMap) (start : Pos) :
    ∀ (l : List Pos) (a : Pos) (k : Nat), Walk u m start a k →
      List.Chain' Adjacent (a :: l) → (∀ t ∈ l, u.canMoveTo t.x t.y m = true) →
      ∀ b, (a :: l).getLast? = some b → Walk u m start b (k + l.length) := by
  intro l
  induction l with
  | nil =>
    intro a k hw _ _ b hb
    simp only [List.getLast?_singleton, Option.some.injEq] at hb
    subst hb
    exact hw
  | cons c l ih =>
    intro a k hw hchain hcan b hb
    have hac : Adjacent a c := (List.chain'_cons.mp hchain).1
    have hw' : Walk u m start c (k + 1) :=
      Walk.step a c k hw hac (hcan c (List.mem_cons_self _ _))
    have hb' : (c :: l).getLast? = some b := by
      rw [List.getLast?_cons_cons] at hb
      exact hb
    have := ih c (k + 1) hw' (List.chain'_cons.mp hchain).2
      (fun t ht => hcan t (List.mem_cons_of_mem _ ht)) b hb'
    have hlen : k + (c :: l).length = k + 1 + l.length := by
      simp only [List.length_cons]
      omega
    rw [hlen]
    exact this

/-- C36: a path that `findPath` returns is a shortest one. It is itself a walk
from the start to the goal (consecutive tiles at Manhattan distance 1, every
tile after the first inside the map and of a terrain the unit's type may
enter), and its number of steps, `length - 1`, is at most that of every such
walk. -/
theorem findPath_shortest (fuel : Nat) (u : Unit) (sx sy tx ty : Int) (m : GameMap)
    (path : List Pos) (h : Unit.findPath fuel u sx sy tx ty m = some (some path)) :
    (path ≠ [] ∧ path.head? = some { x := sx, y := sy } ∧
      path.getLast? = some { x := tx, y := ty } ∧
      List.Chain' (fun a b => GameHelpers.getDistance a.x a.y b.x b.y = 1) path ∧
      ∀ t ∈ path.tail, (0 ≤ t.x ∧ t.x < m.width ∧ 0 ≤ t.y ∧ t.y < m.height) ∧
        GameHelpers.canUnitMoveTo u.type.name (m.getTerrain t.x t.y) = true) ∧
    ∀ walk : List Pos,
      walk.head? = some { x := sx, y := sy } →
      walk.getLast? = some { x := tx, y := ty } →
      List.Chain' (fun a b => GameHelpers.getDistance a.x a.y b.x b.y = 1) walk →
      (∀ t ∈ walk.tail, (0 ≤ t.x ∧ t.x < m.width ∧ 0 ≤ t.y ∧ t.y < m.height) ∧
        GameHelpers.canUnitMoveTo u.type.name (m.getTerrain t.x t.y) = true) →
      path.length - 1 ≤ walk.length - 1 := by
  unfold Unit.findPath at h
  simp only at h
  split at h
  · cases h
  · rw [Option.map_eq_some'] at h
    obtain ⟨res, hres, hsnd⟩ := h
    have hinv := searchStart_inv u m sx sy tx ty
    obtain ⟨_, _, hpath⟩ := search_sound tx ty fuel fuel _ res hinv
      (by simp [Unit.searchStart]) hres
    obtain ⟨h1, h2, h3, h4, _⟩ := hpath path hsnd
    have hopt := search_optimal tx ty fuel fuel _ res hinv (searchStart_opt u m sx sy tx ty)
      hres path hsnd
    refine ⟨⟨?_, h1, h2, h3, ?_⟩, ?_⟩
    · intro hnil
      rw [hnil] at h1
      cases h1
    · intro t ht
      exact (canMoveTo_eq_true_iff u t.x t.y m).mp (h4 t ht)
    · intro walk hw1 hw2 hw3 hw4
      cases walk with
      | nil => cases hw1
      | cons a l =>
        simp only [List.head?_cons, Option.some.injEq] at hw1
        subst hw1
        have hwalk := walk_of_chain u m { x := sx, y := sy } l _ 0 Walk.nil hw3
          (fun t ht => (canMoveTo_eq_true_iff u t.x t.y m).mpr (hw4 t ht)) _ hw2
        have := hopt _ hwalk
        simp only [List.length_cons]
        omega

/-- Witness of `findPath_shortest`: the route of an army around the mountain
wall of `mazeMap`, 7 steps long. -/
theorem findPath_shortest_witness :
    (mazeRoute ≠ [] ∧ mazeRoute.head? = some { x := 0, y := 0 } ∧
      mazeRoute.getLast? = some { x := 3, y := 0 } ∧
      List.Chain' (fun a b => GameHelpers.getDistance a.x a.y b.x b.y = 1) mazeRoute ∧
      ∀ t ∈ mazeRoute.tail,
        (0 ≤ t.x ∧ t.x < mazeMap.width ∧ 0 ≤ t.y ∧ t.y < mazeMap.height) ∧
        GameHelpers.canUnitMoveTo (Unit.new .army 0 0 0 "u1").type.name
          (mazeMap.getTerrain t.x t.y) = true) ∧
    ∀ walk : List Pos,
      walk.head? = some { x := 0, y := 0 } →
      walk.getLast? = some { x := 3, y := 0 } →
      List.Chain' (fun a b => GameHelpers.getDistance a.x a.y b.x b.y = 1) walk →
      (∀ t ∈ walk.tail,
        (0 ≤ t.x ∧ t.x < mazeMap.width ∧ 0 ≤ t.y ∧ t.y < mazeMap.height) ∧
        GameHelpers.canUnitMoveTo (Unit.new .army 0 0 0 "u1").type.name
          (mazeMap.getTerrain t.x t.y) = true) →
      mazeRoute.length - 1 ≤ walk.length - 1 :=
  findPath_shortest 1001 (Unit.new .army 0 0 0 "u1") 0 0 3 0 mazeMap mazeRoute (by decide)

end SovereignTactics
